import Mathlib

/-!
# pftp: the FTP session engine of `ftpsting.c`, embedded in Lean

The C program keeps its session in file-scope globals and talks to three
outside parties: the STinG transport (`TCP_*`, `CN*`), the GEMDOS console and
file calls, and the C library allocator.  The embedding makes all of that one
explicit `World` value that every operation receives and returns.

* C `char` is `Char`; a C string is the run of bytes before the first NUL.
* `WORD`/`LONG` results are `Int`; widths are made explicit where they matter.
* A store that lands outside the object it is aimed at has no defined
  behaviour in C; the embedding stops there with `Res.fault`.
* Every C loop is a function recursing on an explicit `fuel`; running out of
  fuel is `Res.pending` (the loop is still spinning).
-/

namespace Pftp

/-! ## Constants -/

/-- The incrementation step of the reply buffer, `REPLY_SIZE_INCR` in `ftp.h`. -/
def REPLY_SIZE_INCR : Nat := 1000
/-- Length of a reply header, `"NNN "` or `"NNN-"`. -/
def HEADER_LEN : Nat := 4
/-- Largest `short`, from `limits.h`. -/
def SHRT_MAX : Int := 32767
/-- Size of the file-transfer buffer `iobuf` (without its extra byte). -/
def IOBUFSIZE : Nat := 32000
/-- Size asked of STinG for each connection buffer. -/
def TCPBUFSIZE : Nat := 32000
/-- Size of the local `command` arrays: "longest command to send to server". -/
def MAXCMDLEN : Nat := 256
/-- Declared size of the static array `cmdsave`. -/
def CMDSAVE_SIZE : Nat := 80
/-- First port of the IANA dynamic range. -/
def FIRST_DYNAMIC_PORT : Nat := 49152
/-- Last port used; 65535 is left out because STinG reserves it. -/
def LAST_DYNAMIC_PORT : Nat := 65534
/-- Number of ports in the range used. -/
def NUM_DYNAMIC_PORTS : Nat := LAST_DYNAMIC_PORT - FIRST_DYNAMIC_PORT + 1
/-- Bytes between two progress ticks. -/
def XFER_QUANTUM : Nat := 10 * 1024
/-- Initial size of the collector used by mget/mdelete. -/
def INITIAL_BUFCTL_SIZE : Nat := 1024

def FTP_EXIT : Int := 999
def UNKNOWN_COMMAND : Int := -100
def ARGCOUNT_ERROR : Int := -101
def INTERNAL_ERROR : Int := -102
def NOT_CONNECTED : Int := -103
def UNKNOWN_TYPE : Int := -104
def FILE_READ_ERROR : Int := -105
def FILE_WRITE_ERROR : Int := -106
def FILE_NOT_FOUND : Int := -107
def INVALID_PATH : Int := -108
def MEMORY_ERROR : Int := -109
def USER_INTERRUPT : Int := -110
def NOMESSAGE_ERROR : Int := -111

/-- STinG result codes used by `ftpsting.c`.  They are declared in STinG's own
`transprt.h`, which is not part of the repository; the values are the ones of
that header. -/
def E_NORMAL : Int := 0
def E_OBUFFULL : Int := -1
def E_NODATA : Int := -2
def E_EOF : Int := -3
def E_BADHANDLE : Int := -9
def E_BIGBUF : Int := -31
def E_LASTERROR : Int := 32

/-- The byte that ends a C string. -/
def NUL : Char := Char.ofNat 0
def CTL_C : Char := Char.ofNat 3
def CTL_Q : Char := Char.ofNat 17
def CTL_S : Char := Char.ofNat 19

/-! ## C strings and bounded stores -/

/-- The C string that starts at the first byte of `bytes`. -/
def cstr (bytes : List Char) : List Char := bytes.takeWhile (fun c => c != NUL)

/-- Overwrite `bytes` at offset `p` of a block; `none` when the store does not
fit inside the block. -/
def store (mem : List Char) (p : Nat) (bytes : List Char) : Option (List Char) :=
  if p + bytes.length ≤ mem.length then
    some (mem.take p ++ bytes ++ mem.drop (p + bytes.length))
  else none

/-- Value of a decimal digit. -/
def digitVal (c : Char) : Nat := c.toNat - 48

/-- Accumulate decimal digits, most significant first. -/
def decVal (ds : List Char) : Nat := ds.foldl (fun acc c => 10 * acc + digitVal c) 0

/-- White space as `isspace` sees it in the C locale. -/
def isspace (c : Char) : Bool :=
  c = ' ' || c = '\t' || c = '\n' || c = '\r' || c = Char.ofNat 11 || c = Char.ofNat 12

/-- Smallest value of a `short`. -/
def SHRT_MIN : Int := -32768

/-- What a conversion of the C library into a 16-bit integer (`%hd` of
`sscanf`, `atoi` into a `WORD`) makes of a numeral of value `v`: `v` itself
when it fits a `short`.  For a numeral that does not fit, ISO C leaves the
result open and libraries differ (the low bits, a saturated value), so it
is not computed here: it is looked up in `over`, the table of what the
library at hand gives (0 for a number the table does not list). -/
def convert16 (over : List (Int × Int)) (v : Int) : Int :=
  if SHRT_MIN ≤ v ∧ v ≤ SHRT_MAX then v else (over.lookup v).getD 0

/-- The run of decimal digits at the head of `t` converted to a 16-bit
integer (negated when `neg`; taken from `over` when the number does not
fit), and the text after it; `none` when `t` does not start with a digit. -/
def scanDigits (over : List (Int × Int)) (neg : Bool) (t : List Char) : Option (Int × List Char) :=
  if t.takeWhile Char.isDigit = [] then none
  else some (convert16 over
               (if neg then - (decVal (t.takeWhile Char.isDigit) : Int)
                else (decVal (t.takeWhile Char.isDigit) : Int)),
             t.dropWhile Char.isDigit)

/-- An optionally signed decimal integer at the head of `s`, converted to
16 bits (taken from `over` when it does not fit): its value and the text
after it; `none` when no digit is found. -/
def scanInt (over : List (Int × Int)) : List Char → Option (Int × List Char)
  | [] => none
  | c :: t =>
    if c = '-' then scanDigits over true t
    else if c = '+' then scanDigits over false t
    else scanDigits over false (c :: t)

/-- C library `atoi`, its result held in a `WORD`: skip white space, read
an optionally signed decimal number, 0 when there is none; the value is
taken from `over` when the number does not fit. -/
def atoi (over : List (Int × Int)) (s : List Char) : Int :=
  match scanInt over (s.dropWhile isspace) with
  | some (v, _) => v
  | none => 0

/-! ## The world outside and the program's globals -/

/-- Four bytes of an IPv4 address, `quad[0]` first (the `IPADDR` union). -/
structure IPADDR where
  q0 : Nat := 0
  q1 : Nat := 0
  q2 : Nat := 0
  q3 : Nat := 0
deriving DecidableEq, Repr

/-- One STinG connection as the client sees it. -/
structure Conn where
  /-- Bytes received and not yet read. -/
  queue : List Char := []
  /-- Segments still on their way; one is delivered at each `CN*` call. -/
  arrivals : List (List Char) := []
  /-- The peer closes once everything has been delivered. -/
  eof : Bool := false
  /-- Answer of `CNgetinfo`: local and remote address, when available. -/
  info : Option (IPADDR × IPADDR) := none
  /-- TCP state reported by `TCP_info` (4 is `TESTABLISH`). -/
  state : Int := 4
deriving DecidableEq, Repr

/-- STinG connection address block. -/
structure CAB where
  lport : Nat := 0
  rport : Nat := 0
  rhost : IPADDR := {}
  lhost : IPADDR := {}
deriving DecidableEq, Repr

/-- Record of one `TCP_open`. -/
structure OpenCall where
  cab : CAB
  active : Bool
deriving DecidableEq, Repr

/-- Globals of the program together with the state of its environment. -/
structure World where
  /-- Control connection handle, `-1` when not connected. -/
  handle : Int := -1
  last_type_set : Int := -1
  transfer_type : Int := 73
  transfer_bytes : Nat := 0
  transfer_ticks : Nat := 0
  /-- The five bytes of `header[]`. -/
  header : List Char := [NUL, NUL, NUL, NUL, NUL]
  /-- Current size of the reply buffer. -/
  reply_size : Nat := 0
  /-- The reply buffer: `none` is the NULL pointer, otherwise the bytes of the block. -/
  reply : Option (List Char) := none
  passive : Bool := true
  prompting : Bool := true
  globbing : Bool := true
  verbose : Bool := true
  debug : Int := 0
  bell : Bool := false
  tick : Bool := false
  ip : IPADDR := {}
  /-- Open connections by handle. -/
  net : List (Int × Conn) := []
  /-- Keys typed and not yet read (`Bconstat`/`Bconin`). -/
  keys : List Char := []
  /-- Everything written to the console. -/
  console : List Char := []
  /-- Outcomes of the coming `malloc` calls: `none` fails, `some g` succeeds
  with a block whose bytes are `g` (padded with NUL); when the list is used
  up `malloc` succeeds with a NUL-filled block. -/
  mallocs : List (Option (List Char)) := []
  /-- Results of the coming `TCP_send` calls (`E_NORMAL` when used up). -/
  send_results : List Int := []
  /-- Every `TCP_send` so far: handle and bytes. -/
  sent : List (Int × List Char) := []
  /-- Outcomes of the coming `TCP_open` calls: an error code or a new
  connection with its handle. -/
  open_results : List (Int × Conn) := []
  /-- Every `TCP_open` so far. -/
  opened : List OpenCall := []
  /-- Results of the coming `TCP_close` calls (`E_NORMAL` when used up). -/
  close_results : List Int := []
  /-- Handles given to `TCP_close` so far. -/
  closed : List Int := []
  /-- Values of the coming `lrand48` calls. -/
  rands : List Int := []
  /-- Values of the coming `clock` calls. -/
  clocks : List Nat := []
  /-- Results of the coming `Fcreate`/`Fopen` calls (`-33`, file not found, when used up). -/
  fopen_results : List Int := []
  /-- Every `Fcreate` (true) or `Fopen` (false) so far, with the path. -/
  fopened : List (Bool × List Char) := []
  /-- Results of the coming `Fwrite` calls; when used up the whole count is written. -/
  fwrite_results : List Int := []
  /-- Every block given to `Fwrite`, with its file handle. -/
  fwritten : List (Int × List Char) := []
  /-- Outcomes of the coming `Fread` calls: an error code or the bytes read;
  end of file when used up. -/
  fread_results : List (Int × List Char) := []
  /-- File handles given to `Fclose`. -/
  fclosed : List Int := []
  /-- Outcomes of the coming `resolve` calls: the result and the address
  found (`-17`, cannot resolve, when used up). -/
  resolve_results : List (Int × IPADDR) := []
  /-- Results of the coming `TCP_wait_state` calls (`E_NORMAL` when used up). -/
  wait_results : List Int := []
  /-- What the C library makes of a number that does not fit 16 bits
  (`sscanf` with `%hd`, `atoi` into a `WORD`): pairs of the number read and
  the value stored, 0 for a number that is not listed.  Never used for a
  number that fits. -/
  overflows : List (Int × Int) := []
deriving DecidableEq, Repr

/-- How a run of a C function ends. -/
inductive Res (α : Type) where
  /-- It returned `a`, leaving the world `w`. -/
  | ret (a : α) (w : World)
  /-- It stored outside an object: undefined behaviour. -/
  | fault
  /-- It was still looping when the fuel ran out. -/
  | pending
deriving DecidableEq, Repr

/-- A C function: from the world before to its outcome. -/
def Prog (α : Type) : Type := World → Res α

namespace Prog

def pure {α : Type} (a : α) : Prog α := fun w => Res.ret a w

def bind {α β : Type} (m : Prog α) (f : α → Prog β) : Prog β := fun w =>
  match m w with
  | Res.ret a w1 => f a w1
  | Res.fault => Res.fault
  | Res.pending => Res.pending

instance : Monad Prog where
  pure := Prog.pure
  bind := Prog.bind

/-- Read the world. -/
def get : Prog World := fun w => Res.ret w w
/-- Change the world. -/
def modify (f : World → World) : Prog Unit := fun w => Res.ret () (f w)
/-- Undefined behaviour. -/
def fault {α : Type} : Prog α := fun _ => Res.fault
/-- Out of fuel. -/
def pending {α : Type} : Prog α := fun _ => Res.pending

end Prog

open Prog

/-- The value returned, when the run returned. -/
def Res.code {α : Type} (r : Res α) : Option α :=
  match r with
  | Res.ret a _ => some a
  | _ => none

/-- The world left behind, when the run returned. -/
def Res.world {α : Type} (r : Res α) : Option World :=
  match r with
  | Res.ret _ w => some w
  | _ => none

/-- The run ended in undefined behaviour. -/
def Res.isFault {α : Type} (r : Res α) : Bool :=
  match r with
  | Res.fault => true
  | _ => false

/-- Truncation of a `LONG` to a 16-bit `WORD`. -/
def toWORD (x : Int) : Int := (x + 32768) % 65536 - 32768

/-! ## Console (GEMDOS `Bconstat`/`Bconin`/`Bconout` on device 2) -/

/-- Write a string to the console. -/
def cputs (s : List Char) : Prog Unit :=
  modify fun w => { w with console := w.console ++ s }

/-- Is a key waiting? -/
def constat : Prog Bool := fun w => Res.ret (w.keys != []) w

/-- Read one key, low byte only; blocks while none is waiting. -/
def conin : Prog Char := fun w =>
  match w.keys with
  | [] => Res.pending
  | k :: ks => Res.ret k { w with keys := ks }

/-! ## STinG transport -/

/-- Deliver the next segment in flight, if any. -/
def Conn.deliver (c : Conn) : Conn :=
  match c.arrivals with
  | [] => c
  | s :: rest => { c with queue := c.queue ++ s, arrivals := rest }

/-- Everything was read and the peer has closed. -/
def Conn.ended (c : Conn) : Bool := c.queue.isEmpty && c.arrivals.isEmpty && c.eof

/-- The connection behind a handle. -/
def findConn (h : Int) : List (Int × Conn) → Option Conn
  | [] => none
  | (k, c) :: rest => if k = h then some c else findConn h rest

/-- Replace the connection behind a handle. -/
def setConn (h : Int) (c : Conn) : List (Int × Conn) → List (Int × Conn)
  | [] => []
  | (k, d) :: rest => if k = h then (k, c) :: rest else (k, d) :: setConn h c rest

/-- The call `CNbyte_count`: number of bytes waiting, or an error code. -/
def CNbyte_count (h : Int) : Prog Int := fun w =>
  match findConn h w.net with
  | none => Res.ret E_BADHANDLE w
  | some c =>
    let c1 := c.deliver
    Res.ret (if c1.ended then E_EOF else (c1.queue.length : Int))
      { w with net := setConn h c1 w.net }

/-- The call `CNget_block`: exactly `n` bytes or an error code and nothing read. -/
def CNget_block (h : Int) (n : Nat) : Prog (Int × List Char) := fun w =>
  match findConn h w.net with
  | none => Res.ret (E_BADHANDLE, []) w
  | some c =>
    let c1 := c.deliver
    if c1.ended then Res.ret (E_EOF, []) { w with net := setConn h c1 w.net }
    else if n ≤ c1.queue.length then
      Res.ret ((n : Int), c1.queue.take n)
        { w with net := setConn h { c1 with queue := c1.queue.drop n } w.net }
    else Res.ret (E_NODATA, []) { w with net := setConn h c1 w.net }

/-- The call `CNgets`: the bytes up to the first `delim` as a C string in a
buffer of `len` bytes.  The delimiter is read and dropped and the count of
bytes before it returned; `E_NODATA` while no delimiter has arrived,
`E_BIGBUF` (nothing read) when the text and its NUL need more than `len`. -/
def CNgets (h : Int) (len : Int) (delim : Char) : Prog (Int × List Char) := fun w =>
  match findConn h w.net with
  | none => Res.ret (E_BADHANDLE, []) w
  | some c =>
    let c1 := c.deliver
    match c1.queue.span (fun x => x != delim) with
    | (text, _ :: rest) =>
      if (text.length : Int) + 1 ≤ len then
        Res.ret ((text.length : Int), text)
          { w with net := setConn h { c1 with queue := rest } w.net }
      else Res.ret (E_BIGBUF, []) { w with net := setConn h c1 w.net }
    | (_, []) =>
      Res.ret (if c1.ended then E_EOF else E_NODATA, []) { w with net := setConn h c1 w.net }

/-- The call `TCP_send`: the bytes are handed to the transport and its result returned. -/
def TCP_send (h : Int) (bytes : List Char) : Prog Int := fun w =>
  Res.ret (w.send_results.headD E_NORMAL)
    { w with send_results := w.send_results.tail, sent := w.sent ++ [(h, bytes)] }

/-- The call `TCP_close`. -/
def TCP_close (h : Int) : Prog Int := fun w =>
  Res.ret (w.close_results.headD E_NORMAL)
    { w with close_results := w.close_results.tail, closed := w.closed ++ [h] }

/-- The call `TCP_open`: an error code, or the handle of a new connection. -/
def TCP_open (cab : CAB) (active : Bool) : Prog Int := fun w =>
  match w.open_results with
  | [] => Res.ret (-13) { w with opened := w.opened ++ [⟨cab, active⟩] }
  | (h, c) :: rest =>
    Res.ret h { w with open_results := rest, opened := w.opened ++ [⟨cab, active⟩],
                       net := if h < 0 then w.net else (h, c) :: w.net }

/-- The call `CNgetinfo`: local and remote address of a connection, or NULL. -/
def CNgetinfo (h : Int) : Prog (Option (IPADDR × IPADDR)) := fun w =>
  Res.ret ((findConn h w.net).bind Conn.info) w

/-! ## C library -/

/-- Allocation of `n` bytes: NULL, or a block with whatever bytes it holds. -/
def malloc (n : Nat) : Prog (Option (List Char)) := fun w =>
  match w.mallocs with
  | [] => Res.ret (some (List.replicate n NUL)) w
  | none :: rest => Res.ret none { w with mallocs := rest }
  | some g :: rest =>
    Res.ret (some ((List.range n).map fun i => g.getD i NUL)) { w with mallocs := rest }

/-- Copy the C string `src`, NUL included, to offset `p` of `dst`.  The
copy faults when `src` has no NUL or the bytes do not fit in `dst`. -/
def strcpy (dst : List Char) (p : Nat) (src : List Char) : Option (List Char) :=
  if NUL ∈ src then store dst p (cstr src ++ [NUL]) else none

/-! ## The reply buffer -/

/-- Store bytes at offset `p` of the reply buffer. -/
def poke_reply (p : Nat) (bytes : List Char) : Prog Unit := fun w =>
  match w.reply with
  | none => Res.fault
  | some mem =>
    match store mem p bytes with
    | none => Res.fault
    | some m => Res.ret () { w with reply := some m }

/-- The text of the reply buffer as a C string (empty for NULL). -/
def World.replyText (w : World) : List Char :=
  match w.reply with
  | none => []
  | some mem => cstr mem

/-- Source `expand_buffer`: a buffer `REPLY_SIZE_INCR` bytes larger that
holds the same C string; returns the offset of its NUL, or `none` for NULL. -/
def expand_buffer : Prog (Option Nat) := do
  let w ← get
  let new_size := w.reply_size + REPLY_SIZE_INCR
  match (← malloc new_size) with
  | none => Prog.pure none
  | some blk =>
    match store blk 0 [NUL] with
    | none => fault
    | some new0 =>
      let copied : Option (List Char) :=
        match w.reply with
        | some old => strcpy new0 0 old
        | none => some new0
      match copied with
      | none => fault
      | some new =>
        modify fun w => { w with reply := some new, reply_size := new_size }
        if w.debug ≠ 0 then
          cputs ("***> reply buffer now ".toList ++ (toString new_size).toList ++ " bytes\r\n".toList)
        Prog.pure (some (cstr new).length)

/-- Source `user_break`: read the waiting key, `-1` for control-C. -/
def user_break : Prog Int := do
  let c ← conin
  if c = CTL_C then Prog.pure (-1) else Prog.pure 0

/-- First loop of `get_one_line`: spin until the header bytes are there;
`USER_INTERRUPT` on control-C, 0 otherwise. -/
def wait_header : Nat → Int → Prog Int
  | 0, _ => pending
  | fuel + 1, h => do
    let n ← CNbyte_count h
    if n ≥ (HEADER_LEN : Int) then Prog.pure 0
    else if (← constat) then
      if (← user_break) ≠ 0 then Prog.pure USER_INTERRUPT
      else wait_header fuel h
    else wait_header fuel h

/-- How the second loop of `get_one_line` is left. -/
inductive LineExit where
  /-- By `break`, with the last result of `CNgets` and the write position. -/
  | brk (rc : Int) (p : Nat)
  /-- By `return rc`. -/
  | retn (rc : Int)
deriving DecidableEq, Repr

/-- Second loop of `get_one_line`: read to the end of the line, growing the
buffer when `CNgets` reports it too small. -/
def read_rest : Nat → Int → Nat → Int → Prog LineExit
  | 0, _, _, _ => pending
  | fuel + 1, h, p, maxlen => do
    let maxlen := if maxlen > SHRT_MAX then SHRT_MAX else maxlen
    let (rc, text) ← CNgets h (maxlen - 1) '\n'
    if rc = E_BIGBUF then
      match (← expand_buffer) with
      | some p1 =>
        let w ← get
        read_rest fuel h p1 ((w.reply_size : Int) - p1)
      | none => Prog.pure (LineExit.retn rc)
    else if rc ≠ E_NODATA then
      if rc ≥ 0 then
        poke_reply p (text ++ [NUL])
      Prog.pure (LineExit.brk rc p)
    else if (← constat) then
      if (← user_break) ≠ 0 then Prog.pure (LineExit.retn USER_INTERRUPT)
      else read_rest fuel h p maxlen
    else read_rest fuel h p maxlen

/-- Source `get_one_line`: one line of reply appended at offset `p` of the
reply buffer.  Returns the result (negative: error, 0: last line, positive:
not the last line) and the new value of `*replyptr`. -/
def get_one_line (fuel : Nat) (h : Int) (p : Nat) (maxlen : Int) : Prog (Int × Nat) := do
  if (← wait_header fuel h) ≠ 0 then
    Prog.pure (USER_INTERRUPT, p)
  else
    let (rc, bytes) ← CNget_block h HEADER_LEN
    if rc ≠ (HEADER_LEN : Int) then
      Prog.pure (if rc < 0 then rc else INTERNAL_ERROR, p)
    else
      modify fun w => { w with header := bytes ++ [NUL] }
      let w ← get
      poke_reply p (cstr w.header ++ [NUL])
      match (← read_rest fuel h (p + HEADER_LEN) maxlen) with
      | LineExit.retn rc => Prog.pure (rc, p)
      | LineExit.brk rc q =>
        if rc ≥ 0 then
          poke_reply (q + rc.toNat) ['\n']
          poke_reply (q + rc.toNat + 1) [NUL]
          let w ← get
          Prog.pure (if w.header.getD (HEADER_LEN - 1) NUL = ' ' then 0 else 1, q + rc.toNat + 1)
        else Prog.pure (rc, q)

/-- Loop of `get_reply`. -/
def get_reply_loop : Nat → Int → Nat → Prog Int
  | 0, _, _ => pending
  | fuel + 1, h, p => do
    let w ← get
    let (rc, p1) ← get_one_line fuel h p ((w.reply_size : Int) - p)
    if rc < 0 then Prog.pure rc
    else if rc = 0 then
      let w ← get
      Prog.pure (atoi w.overflows (cstr w.header))
    else get_reply_loop fuel h p1

/-- Source `get_reply`: read lines until a last line, return its code. -/
def get_reply (fuel : Nat) (h : Int) : Prog Int := get_reply_loop fuel h 0

/-! ## Console output through `cprintf` -/

/-- Decimal text of a number, as `%d` prints it. -/
def fmt_d (n : Int) : List Char := (toString n).toList

/-- Size of `prbuf`, the array `cprintf` formats into. -/
def PRBUF_SIZE : Nat := 300

/-- Source `cprintf`, given the formatted text: `vsprintf` stores it with its
NUL in `prbuf`, then it is written to the console. -/
def cprintf (text : List Char) : Prog Unit := do
  if text.length + 1 > PRBUF_SIZE then fault
  else cputs (cstr (text ++ [NUL]))

/-- Write the reply buffer to the console, `cputs(reply)`. -/
def cputs_reply : Prog Unit := do
  let w ← get
  match w.reply with
  | none => fault
  | some mem => if NUL ∈ mem then cputs (cstr mem) else fault

/-- Text STinG's `get_err_text` gives for one of its codes (the texts
themselves belong to STinG). -/
def get_err_text (rc : Int) : List Char := "STinG error ".toList ++ fmt_d rc

/-- Source `message`: show the outcome of a command on the console.  The
text for an unknown code is formatted into the local `buf[25]` first. -/
def message (rc : Int) : Prog Unit := do
  if rc = 0 ∨ rc = FTP_EXIT ∨ rc = NOMESSAGE_ERROR then
    Prog.pure ()
  else if rc ≥ 100 ∧ rc ≤ 599 then
    let w ← get
    if w.verbose then cputs_reply else Prog.pure ()
  else if rc = UNKNOWN_COMMAND then cprintf ("Unknown command".toList ++ "\r\n".toList)
  else if rc = ARGCOUNT_ERROR then cprintf ("Wrong number of arguments".toList ++ "\r\n".toList)
  else if rc = INTERNAL_ERROR then
    cprintf ("Internal error, please notify author".toList ++ "\r\n".toList)
  else if rc = NOT_CONNECTED then cprintf ("Not connected".toList ++ "\r\n".toList)
  else if rc = UNKNOWN_TYPE then cprintf ("Unknown type".toList ++ "\r\n".toList)
  else if rc = FILE_READ_ERROR then cprintf ("Error reading file".toList ++ "\r\n".toList)
  else if rc = FILE_WRITE_ERROR then cprintf ("Error writing file".toList ++ "\r\n".toList)
  else if rc = FILE_NOT_FOUND then cprintf ("File not found".toList ++ "\r\n".toList)
  else if rc = INVALID_PATH then cprintf ("Invalid path".toList ++ "\r\n".toList)
  else if rc = MEMORY_ERROR then cprintf ("Out of memory".toList ++ "\r\n".toList)
  else if rc = USER_INTERRUPT then cprintf ("Interrupted by user".toList ++ "\r\n".toList)
  else if rc ≥ -E_LASTERROR then cprintf (get_err_text rc ++ "\r\n".toList)
  else if ("Unknown error code ".toList ++ fmt_d rc).length + 1 > 25 then fault
  else cprintf ("Unknown error code ".toList ++ fmt_d rc ++ "\r\n".toList)

/-! ## Command sender -/

/-- Lower-case an ASCII capital the way `strequal` does (`c |= 0x20`). -/
def lowerAZ (c : Char) : Char :=
  if 'A' ≤ c ∧ c ≤ 'Z' then Char.ofNat (c.toNat ||| 0x20) else c

/-- Source `strequal`: 1 iff the two C strings are equal ignoring case.
The lists are the strings without their NUL: when `s2` is used up first the
loop reads its NUL, which differs from the byte of `s1` at hand. -/
def strequal : List Char → List Char → Int
  | [], [] => 1
  | [], _ :: _ => 0
  | _ :: _, [] => 0
  | c1 :: p, c2 :: q => if lowerAZ c1 ≠ lowerAZ c2 then 0 else strequal p q

/-- The diagnostic line `send_command` prints when `debug` is set. -/
def debug_echo (command : List Char) : List Char :=
  let cmd := command.take 4
  if strequal cmd "pass".toList ≠ 0 then "---> ".toList ++ cmd ++ " XXXX\r\n".toList
  else "---> ".toList ++ command ++ "\r\n".toList

/-- The `if (debug)` block of `send_command`. -/
def send_command_echo (command : List Char) : Prog Unit := do
  let w ← get
  if w.debug ≠ 0 then
    cprintf (debug_echo command)

/-- Source `send_command`: send the command with CR LF appended, then read
the reply.  The command is a C string (no NUL).  It is copied into `cmdsave`
and CR, LF and NUL are stored after it, `strlen(command) + 3` bytes in all. -/
def send_command (fuel : Nat) (h : Int) (command : List Char) : Prog Int := do
  send_command_echo command
  if command.length + 3 > CMDSAVE_SIZE then fault
  else
    let rc ← TCP_send h (command ++ ['\r', '\n'])
    if rc < 0 then Prog.pure rc
    else get_reply fuel h

/-- Inner loop of `user_input`: wait for control-Q or control-C. -/
def user_input_pause : Nat → Prog Int
  | 0 => pending
  | fuel + 1 => do
    let c ← conin
    if c = CTL_C then Prog.pure (-1)
    else if c = CTL_Q then Prog.pure 0
    else user_input_pause fuel

/-- Source `user_input`: control-C interrupts, control-S pauses until control-Q. -/
def user_input (fuel : Nat) : Prog Int := do
  let c ← conin
  if c = CTL_C then Prog.pure (-1)
  else if c = CTL_S then user_input_pause fuel
  else Prog.pure 0

/-- Source `prompt_and_reply`: -1 stop multifile processing, 0 skip this
file, 1 process this file. -/
def prompt_and_reply (cmd file : List Char) : Prog Int := do
  let w ← get
  if w.prompting then
    cprintf (cmd ++ " ".toList ++ file ++ " (Y/n)? ".toList)
    let c ← conin
    cputs "\r\n".toList
    if c = CTL_C then
      cprintf ("Continue with ".toList ++ cmd ++ " (Y/n)? ".toList)
      let c ← conin
      cputs "\r\n".toList
      if c = CTL_C ∨ c = 'N' ∨ c = 'n' then Prog.pure (-1) else Prog.pure 0
    else if c = 'N' ∨ c = 'n' then Prog.pure 0
    else Prog.pure 1
  else Prog.pure 1

/-- Source `abort_transfer`: send ABOR, show its reply and the one after. -/
def abort_transfer (fuel : Nat) : Prog Int := do
  let w ← get
  let rc ← send_command fuel w.handle "ABOR".toList
  message rc
  let rc2 ← get_reply fuel w.handle
  message rc2
  Prog.pure USER_INTERRUPT

/-- A `sprintf` into one of the local `command[MAXCMDLEN]` arrays, given
the formatted text: the C string it leaves there. -/
def sprintf_command (text : List Char) : Prog (List Char) := do
  if text.length + 1 > MAXCMDLEN then fault
  else Prog.pure (cstr (text ++ [NUL]))

/-! ## Data channel negotiator -/

/-- The `for` loop of `extract_hp`: the text after the first `(`, empty
when there is none. -/
def after_paren : List Char → List Char
  | [] => []
  | c :: cs => if c = '(' then cs else after_paren cs

/-- C library `sscanf` on the format `%hd,%hd,%hd,%hd,%hd,%hd)` cut to its
first `n` conversions: the values converted, in order.  Each `%hd` skips
white space and reads an optionally signed decimal number into a `short`
(a number that does not fit still counts as converted; what is stored then
is the library's choice, taken from `over`); a comma must follow before the
next one.  The closing parenthesis of the format comes after the last
conversion and cannot change their count. -/
def scan_fields (over : List (Int × Int)) : Nat → List Char → List Int
  | 0, _ => []
  | n + 1, s =>
    match scanInt over (s.dropWhile isspace) with
    | none => []
    | some (v, rest) =>
      v :: (if n = 0 then []
            else match rest with
              | ',' :: t => scan_fields over n t
              | _ => [])

/-- A value stored through `%hd` and read back as `UWORD`. -/
def toUWORD (v : Int) : Nat := (v % 65536).toNat

/-- The parsing of `extract_hp` on the text of the reply: -1 on a format
error, else 0 with `rhost` and `rport` of the block set.  `over` is what
the library stores for the numerals that do not fit a `short`. -/
def parse_hp (over : List (Int × Int)) (text : List Char) (cab : CAB) : Int × CAB :=
  let p := after_paren text
  if p = [] then (-1, cab)
  else
    match scan_fields over 6 p with
    | [h0, h1, h2, h3, p0, p1] =>
      (0, { cab with
        rhost := { q0 := toUWORD h0 % 256, q1 := toUWORD h1 % 256,
                   q2 := toUWORD h2 % 256, q3 := toUWORD h3 % 256 },
        rport := ((toUWORD p0 <<< 8) ||| toUWORD p1) % 65536 })
    | _ => (-1, cab)

/-- Source `extract_hp`: host and port out of the PASV reply in the reply
buffer.  Returns -1 on a format error, else 0 with `rhost`/`rport` set. -/
def extract_hp (cab : CAB) : Prog (Int × CAB) := do
  let w ← get
  match w.reply with
  | none => fault
  | some mem =>
    if NUL ∈ mem then Prog.pure (parse_hp w.overflows (cstr mem) cab)
    else fault

/-- C library `lrand48`: the next pseudo-random value (0 when the script is used up). -/
def lrand48 : Prog Int := fun w =>
  Res.ret (w.rands.headD 0) { w with rands := w.rands.tail }

/-- The arithmetic of `generate_port` on a value `r` of `lrand48`, cut to
`UWORD`; the remainder is C's, which takes the sign of `r`. -/
def port_of (r : Int) : Nat :=
  toUWORD ((FIRST_DYNAMIC_PORT : Int) + Int.tmod r (NUM_DYNAMIC_PORTS : Int))

/-- Source `generate_port`: a random port within the dynamic range. -/
def generate_port : Prog Nat := do
  let r ← lrand48
  Prog.pure (port_of r)

/-- The text `ftp_data_connect` formats for the PORT command. -/
def port_command (lhost : IPADDR) (lport : Nat) : List Char :=
  "PORT ".toList ++ fmt_d lhost.q0 ++ [','] ++ fmt_d lhost.q1 ++ [','] ++ fmt_d lhost.q2
    ++ [','] ++ fmt_d lhost.q3 ++ [','] ++ fmt_d ((lport >>> 8 : Nat) : Int) ++ [',']
    ++ fmt_d ((lport &&& 0xff : Nat) : Int)

/-- Source `ftp_data_connect`: set up the data connection; a handle, or a
negative error. -/
def ftp_data_connect (fuel : Nat) : Prog Int := do
  let w ← get
  match (← CNgetinfo w.handle) with
  | none => Prog.pure INTERNAL_ERROR
  | some (lhost, rhost) =>
    if w.passive then
      let rc ← send_command fuel w.handle "PASV".toList
      message rc
      if rc ≠ 227 then Prog.pure NOMESSAGE_ERROR
      else
        let (r, cab) ← extract_hp {}
        if r < 0 then Prog.pure INTERNAL_ERROR
        else TCP_open { cab with lhost := lhost, lport := 0 } true
    else
      let lport ← generate_port
      let command ← sprintf_command (port_command lhost lport)
      let rc ← send_command fuel w.handle command
      if rc < 0 then Prog.pure rc
      else
        message rc
        TCP_open { lhost := lhost, lport := lport, rhost := rhost, rport := 0 } false

/-! ## Transfer type -/

/-- Source `ftp_type`: send TYPE and remember the type in `last_type_set`;
a negative `type` only reports the current mode. -/
def ftp_type (fuel : Nat) (type : Int) : Prog Int := do
  let w ← get
  if w.handle < 0 then Prog.pure NOT_CONNECTED
  else if type < 0 then
    cprintf ("Using ".toList ++ (if w.transfer_type = 65 then "ascii" else "binary").toList
      ++ " mode to transfer files\r\n".toList)
    Prog.pure 0
  else
    let command ← sprintf_command ("TYPE ".toList ++ [Char.ofNat (type % 256).toNat])
    let rc ← send_command fuel w.handle command
    if rc ≥ 0 then
      modify fun w => { w with last_type_set := type }
    Prog.pure rc

/-! ## GEMDOS files and the clock -/

/-- The call `Fcreate`: a file handle or a negative error. -/
def Fcreate (path : List Char) : Prog Int := fun w =>
  Res.ret (w.fopen_results.headD (-33))
    { w with fopen_results := w.fopen_results.tail, fopened := w.fopened ++ [(true, path)] }

/-- The call `Fopen`: a file handle or a negative error. -/
def Fopen (path : List Char) : Prog Int := fun w =>
  Res.ret (w.fopen_results.headD (-33))
    { w with fopen_results := w.fopen_results.tail, fopened := w.fopened ++ [(false, path)] }

/-- The call `Fwrite`: count of bytes written or a negative error. -/
def Fwrite (fh : Int) (block : List Char) : Prog Int := fun w =>
  Res.ret (w.fwrite_results.headD (block.length : Int))
    { w with fwrite_results := w.fwrite_results.tail, fwritten := w.fwritten ++ [(fh, block)] }

/-- The call `Fread` for at most `count` bytes: a negative error, or the
count read and the bytes (0 at end of file). -/
def Fread (_fh : Int) (count : Nat) : Prog (Int × List Char) := fun w =>
  match w.fread_results with
  | [] => Res.ret (0, []) w
  | (err, bytes) :: rest =>
    Res.ret (if err < 0 then (err, []) else (((bytes.take count).length : Int), bytes.take count))
      { w with fread_results := rest }

/-- The call `Fclose`. -/
def Fclose (fh : Int) : Prog Unit :=
  modify fun w => { w with fclosed := w.fclosed ++ [fh] }

/-- The call `clock` (0 when the script is used up). -/
def clock : Prog Nat := fun w =>
  Res.ret (w.clocks.headD 0) { w with clocks := w.clocks.tail }

/-- Ticks per second of `clock` on the target (200, from the compiler's `time.h`). -/
def CLOCKS_PER_SEC : Nat := 200
/-- STinG's code for an established connection. -/
def TESTABLISH : Int := 4

/-- An `ULONG` printed with `%ld`. -/
def fmt_ld (n : Nat) : List Char :=
  fmt_d (if n % 4294967296 < 2147483648 then ((n % 4294967296 : Nat) : Int)
         else ((n % 4294967296 : Nat) : Int) - 4294967296)

/-- An `ULONG` printed with `%03ld`. -/
def fmt_03ld (n : Nat) : List Char :=
  let t := fmt_ld n
  List.replicate (3 - t.length) '0' ++ t

/-- Source `display_transfer_stats`. -/
def display_transfer_stats : Prog Unit := do
  let w ← get
  let ticks := if w.transfer_ticks = 0 then 1 else w.transfer_ticks
  modify fun w => { w with transfer_ticks := ticks }
  let bps := (w.transfer_bytes * CLOCKS_PER_SEC) % 4294967296 / ticks
  let secs := ticks / CLOCKS_PER_SEC
  let msecs := ((ticks - secs * CLOCKS_PER_SEC) * (1000 / CLOCKS_PER_SEC)) % 4294967296
  cprintf (fmt_ld w.transfer_bytes ++ " bytes in ".toList ++ fmt_ld secs ++ ['.'] ++ fmt_03ld msecs
    ++ " secs (".toList ++ fmt_ld bps ++ " bps)\r\n".toList)

/-- The progress line printed every `XFER_QUANTUM` bytes when `tick` is on;
returns the new `prev_bytes`. -/
def tick_report (prev_bytes : Nat) : Prog Nat := do
  let w ← get
  if w.tick ∧ (w.transfer_bytes + 4294967296 - prev_bytes) % 4294967296 > XFER_QUANTUM then
    cprintf ("Bytes transferred = ".toList ++ fmt_ld w.transfer_bytes ++ ['\r'])
    Prog.pure w.transfer_bytes
  else Prog.pure prev_bytes

/-- The line that wipes the progress line. -/
def BLANKOUT_XFER_MSG : List Char := List.replicate 30 ' ' ++ ['\r']

/-- Add to the `ULONG` byte counter. -/
def count_bytes (n : Nat) : Prog Unit :=
  modify fun w => { w with transfer_bytes := (w.transfer_bytes + n) % 4294967296 }

/-- What follows the copy in `ftp_get` and `ftp_put`: close the data
connection, read the final reply when all went well, report. -/
def finish_transfer (fuel : Nat) (data : Int) (start : Nat) (rc : Int) : Prog Int := do
  let n ← TCP_close data
  let rc := if rc = 0 then n else rc
  let now ← clock
  modify fun w => { w with transfer_ticks := (now + 4294967296 - start) % 4294967296 }
  let w ← get
  let rc ← if rc = 0 then get_reply fuel w.handle else Prog.pure rc
  message rc
  if w.verbose ∧ (rc = 226 ∨ rc = 250) then
    display_transfer_stats
  if w.bell then
    cputs [Char.ofNat 7]
  Prog.pure 0

/-! ## Transfer engine: GET -/

/-- The copy loop of `ftp_get`; returns `rc` as the loop leaves it. -/
def get_loop : Nat → Int → Int → Nat → Prog Int
  | 0, _, _, _ => pending
  | fuel + 1, data, fh, prev_bytes => do
    let stop ← (do
      if (← constat) then
        if (← user_break) ≠ 0 then Prog.pure true else Prog.pure false
      else Prog.pure false : Prog Bool)
    if stop then abort_transfer fuel
    else
      let rc ← CNbyte_count data
      if rc = 0 then get_loop fuel data fh prev_bytes
      else if rc < 0 then Prog.pure rc
      else
        let n : Int := if rc > (IOBUFSIZE : Int) then (IOBUFSIZE : Int) else rc
        let (rc, block) ← CNget_block data n.toNat
        if rc ≠ n then Prog.pure (if rc ≥ 0 then INTERNAL_ERROR else rc)
        else
          let rc := toWORD (← Fwrite fh block)
          if rc ≠ n then Prog.pure FILE_WRITE_ERROR
          else
            count_bytes n.toNat
            let prev ← tick_report prev_bytes
            get_loop fuel data fh prev

/-- Source `ftp_get`, from "establish a data connection" on. -/
def ftp_get_data (fuel : Nat) (localfile remotefile : List Char) : Prog Int := do
  let data ← ftp_data_connect fuel
  if data < 0 then Prog.pure data
  else
    let command ← sprintf_command ("RETR ".toList ++ remotefile)
    let w ← get
    let rc ← send_command fuel w.handle command
    if rc ≠ 125 ∧ rc ≠ 150 then
      let _ ← TCP_close data
      Prog.pure rc
    else
      message rc
      let start ← clock
      modify fun w => { w with transfer_bytes := 0 }
      let rc2 ← Fcreate localfile
      let rc ← (do
        if rc2 ≥ 0 then
          let fh := toWORD rc2
          let rc ← get_loop fuel data fh 0
          Fclose fh
          if (← get).tick then
            cputs BLANKOUT_XFER_MSG
          Prog.pure (if rc = E_EOF then 0 else rc)
        else Prog.pure rc : Prog Int)
      finish_transfer fuel data start rc

/-- Source `ftp_get`, from "make sure the type is correct" on.  The source
casts the result of `ftp_type` to `WORD`; `ftp_type` returns a `WORD` widened
to `LONG`, so the cast changes nothing and is not written. -/
def ftp_get_typed (fuel : Nat) (localfile remotefile : List Char) : Prog Int := do
  let w ← get
  if w.last_type_set ≠ w.transfer_type then
    let rc ← ftp_type fuel w.transfer_type
    if rc ≠ 200 then Prog.pure rc
    else
      message rc
      ftp_get_data fuel localfile remotefile
  else ftp_get_data fuel localfile remotefile

/-- Source `ftp_get`. -/
def ftp_get (fuel : Nat) (localfile remotefile : List Char) (multiple : Bool) : Prog Int := do
  let w ← get
  if w.handle < 0 then Prog.pure NOT_CONNECTED
  else if multiple then
    let ans ← prompt_and_reply "mget".toList remotefile
    if ans = -1 then Prog.pure USER_INTERRUPT
    else if ans = 0 then Prog.pure 0
    else ftp_get_typed fuel localfile remotefile
  else
    cprintf ("local: ".toList ++ localfile ++ " remote: ".toList ++ remotefile ++ "\r\n".toList)
    ftp_get_typed fuel localfile remotefile

/-! ## Transfer engine: PUT -/

/-- The `do … while (rc == E_OBUFFULL)` loop of `ftp_put` for one chunk. -/
def put_send : Nat → Int → List Char → Prog Int
  | 0, _, _ => pending
  | fuel + 1, data, chunk => do
    let rc ← TCP_send data chunk
    let rc ← (do
      if (← constat) then
        if (← user_break) ≠ 0 then abort_transfer fuel else Prog.pure rc
      else Prog.pure rc : Prog Int)
    if rc = E_OBUFFULL then put_send fuel data chunk else Prog.pure rc

/-- The `for` loop of `ftp_put` over the chunks of one block read from the
file; returns `rc` and `prev_bytes` as the loop leaves them. -/
def put_chunks : Nat → Int → List Char → Int → Int → Nat → Prog (Int × Nat)
  | 0, _, _, _, _, _ => pending
  | fuel + 1, data, buf, remaining, rc, prev_bytes => do
    if remaining > 0 ∧ rc ≥ 0 then
      let n : Int := if remaining < (TCPBUFSIZE : Int) then remaining else (TCPBUFSIZE : Int)
      let rc ← put_send fuel data (buf.take n.toNat)
      count_bytes n.toNat
      let prev ← tick_report prev_bytes
      put_chunks fuel data (buf.drop n.toNat) (remaining - n) rc prev
    else Prog.pure (rc, prev_bytes)

/-- The `while(1)` loop of `ftp_put`; returns `rc` as the loop leaves it. -/
def put_loop : Nat → Int → Int → Nat → Prog Int
  | 0, _, _, _ => pending
  | fuel + 1, data, fh, prev_bytes => do
    let (rc2, bytes) ← Fread fh IOBUFSIZE
    if rc2 < 0 then Prog.pure FILE_READ_ERROR
    else
      let rc := toWORD rc2
      if rc = 0 then Prog.pure rc
      else
        let (_, prev) ← put_chunks fuel data bytes rc rc prev_bytes
        put_loop fuel data fh prev

/-- The state check `ftp_put` makes when `debug > 1`. -/
def check_established (data : Int) : Prog Unit := do
  let w ← get
  if w.debug > 1 then
    let state : Int := match findConn data w.net with
      | some c => c.state
      | none => 0
    if state ≠ TESTABLISH then
      cprintf ("===> Unexpected TCP state ".toList ++ fmt_d state ++ "\r\n".toList)

/-- Source `ftp_put`, from "establish a data connection" on. -/
def ftp_put_data (fuel : Nat) (localfile remotefile : List Char) : Prog Int := do
  let data ← ftp_data_connect fuel
  if data < 0 then Prog.pure data
  else
    let command ← sprintf_command ("STOR ".toList ++ remotefile)
    let w ← get
    let rc ← send_command fuel w.handle command
    if rc ≠ 125 ∧ rc ≠ 150 then
      let _ ← TCP_close data
      Prog.pure rc
    else
      message rc
      check_established data
      let start ← clock
      modify fun w => { w with transfer_bytes := 0 }
      let rc2 ← Fopen localfile
      let rc ← (do
        if rc2 ≥ 0 then
          let fh := toWORD rc2
          let rc ← put_loop fuel data fh 0
          Fclose fh
          if (← get).tick then
            cputs BLANKOUT_XFER_MSG
          Prog.pure rc
        else Prog.pure rc : Prog Int)
      finish_transfer fuel data start rc

/-- Source `ftp_put`, from "make sure the type is correct" on; the `WORD`
cast of the result of `ftp_type` is the identity, as in `ftp_get_typed`. -/
def ftp_put_typed (fuel : Nat) (localfile remotefile : List Char) : Prog Int := do
  let w ← get
  if w.last_type_set ≠ w.transfer_type then
    let rc ← ftp_type fuel w.transfer_type
    if rc ≠ 200 then Prog.pure rc
    else
      message rc
      ftp_put_data fuel localfile remotefile
  else ftp_put_data fuel localfile remotefile

/-- Source `ftp_put`. -/
def ftp_put (fuel : Nat) (localfile remotefile : List Char) (multiple : Bool) : Prog Int := do
  let w ← get
  if w.handle < 0 then Prog.pure NOT_CONNECTED
  else if multiple then
    let ans ← prompt_and_reply "mput".toList localfile
    if ans = -1 then Prog.pure USER_INTERRUPT
    else if ans = 0 then Prog.pure 0
    else ftp_put_typed fuel localfile remotefile
  else
    cprintf ("local: ".toList ++ localfile ++ " remote: ".toList ++ remotefile ++ "\r\n".toList)
    ftp_put_typed fuel localfile remotefile

/-! ## Transfer engine: listings -/

/-- The collector `BUFCTL` of mget/mdelete: `start` is the block (`none` for
NULL) and `pos` the offset of the write position in it. -/
structure BUFCTL where
  count : Int := 0
  size : Nat := 0
  start : Option (List Char) := none
  pos : Nat := 0
deriving DecidableEq, Repr

/-- Source `bufstore`: append a name, without its last byte, to the collector. -/
def bufstore (b : BUFCTL) (name : List Char) : Prog BUFCTL := do
  let n : Int := (name.length : Int) - 1
  let grown : Option BUFCTL ← (do
    if (b.pos : Int) + n ≥ (b.size : Int) then
      let newsize := b.size * 2
      match (← malloc newsize) with
      | none => Prog.pure none
      | some newbuf =>
        match b.start with
        | none => fault
        | some old =>
          match store newbuf 0 (old.take b.size) with
          | none => fault
          | some blk => Prog.pure (some { b with start := some blk, size := newsize })
    else Prog.pure (some b) : Prog (Option BUFCTL))
  match grown with
  | none => Prog.pure b
  | some b1 =>
    if n < 0 then fault
    else
      match b1.start with
      | none => fault
      | some blk =>
        match store blk b1.pos (name.take n.toNat ++ [NUL]) with
        | none => fault
        | some blk1 =>
          Prog.pure { b1 with count := b1.count + 1, start := some blk1, pos := b1.pos + n.toNat + 1 }

/-- The copy loop of `ftp_directory`; returns `rc` as the loop leaves it
and the collector. -/
def dir_loop : Nat → Int → Int → Option BUFCTL → Prog (Int × Option BUFCTL)
  | 0, _, _, _ => pending
  | fuel + 1, data, fh, bufctl => do
    let stop ← (do
      if (← constat) then
        let rc ← (if fh ≥ 0 ∨ bufctl.isSome then user_break else user_input fuel)
        Prog.pure (decide (rc ≠ 0))
      else Prog.pure false : Prog Bool)
    if stop then
      let rc ← abort_transfer fuel
      Prog.pure (rc, bufctl)
    else
      let (rc, text) ← CNgets data (IOBUFSIZE : Int) '\n'
      if rc = E_NODATA then dir_loop fuel data fh bufctl
      else if rc < 0 then Prog.pure (rc, bufctl)
      else
        let iobuf := cstr (text ++ [NUL])
        if fh ≥ 0 then
          if (← Fwrite fh (iobuf ++ ['\n'])) < 0 then Prog.pure (FILE_WRITE_ERROR, bufctl)
          else dir_loop fuel data fh bufctl
        else
          match bufctl with
          | some b =>
            let b1 ← bufstore b iobuf
            dir_loop fuel data fh (some b1)
          | none =>
            cprintf (iobuf ++ ['\n'])
            dir_loop fuel data fh bufctl

/-- Source `ftp_directory`, from "establish a data connection" on. -/
def ftp_directory_data (fuel : Nat) (cmd : List Char) (remotedir localfile : Option (List Char))
    (bufctl : Option BUFCTL) : Prog (Int × Option BUFCTL) := do
  let data ← ftp_data_connect fuel
  if data < 0 then Prog.pure (data, bufctl)
  else
    let command ← (match remotedir with
      | some dir => sprintf_command (cmd ++ [' '] ++ dir)
      | none => sprintf_command cmd)
    let w ← get
    let rc ← send_command fuel w.handle command
    if rc ≠ 125 ∧ rc ≠ 150 then
      let _ ← TCP_close data
      Prog.pure (rc, bufctl)
    else
      message rc
      let fh : Int ← (match localfile with
        | some path => Fcreate path
        | none => Prog.pure (-1))
      let (rc, b) ← dir_loop fuel data fh bufctl
      let rc := if rc = E_EOF then 0 else rc
      if fh ≥ 0 then
        Fclose fh
      let n ← TCP_close data
      let rc := if rc = 0 then n else rc
      let rc ← if rc = 0 then get_reply fuel w.handle else Prog.pure rc
      Prog.pure (rc, b)

/-- Source `ftp_directory`: LIST or NLST to a file, to the collector or to
the console. -/
def ftp_directory (fuel : Nat) (cmd : List Char) (remotedir localfile : Option (List Char))
    (bufctl : Option BUFCTL) : Prog (Int × Option BUFCTL) := do
  let w ← get
  if w.handle < 0 then Prog.pure (NOT_CONNECTED, bufctl)
  else if w.last_type_set ≠ 65 then
    let rc ← ftp_type fuel 65
    if rc ≠ 200 then Prog.pure (rc, bufctl)
    else
      message rc
      ftp_directory_data fuel cmd remotedir localfile bufctl
  else ftp_directory_data fuel cmd remotedir localfile bufctl

/-- Source `ftp_dir`. -/
def ftp_dir (fuel : Nat) (remotedir localfile : Option (List Char)) : Prog Int := do
  let (rc, _) ← ftp_directory fuel "LIST".toList remotedir localfile none
  Prog.pure rc

/-- Source `ftp_nlist`. -/
def ftp_nlist (fuel : Nat) (remotedir localfile : Option (List Char)) : Prog Int := do
  let (rc, _) ← ftp_directory fuel "NLST".toList remotedir localfile none
  Prog.pure rc

/-! ## Frame: what reading a reply leaves alone -/

/-- The part of the world that reading the control connection does not
touch: everything but the connections, the keyboard, the console, the
allocator script and the reply and header buffers. -/
def World.session (w : World) : World :=
  { w with net := [], keys := [], console := [], mallocs := [], reply := none,
           reply_size := 0, header := [] }

/-- The program `m` changes nothing of the session part of the world. -/
def ReadsOnly {α : Type} (m : Prog α) : Prop :=
  ∀ (w : World) (a : α) (w1 : World), m w = Res.ret a w1 → w1.session = w.session

/-! ## Sample worlds -/

/-- A connected session right after `ftp_connect` allocated the reply buffer:
control handle 3, a 1000-byte reply buffer, and the given segments on their
way on the control connection. -/
def connectedWorld (arrivals : List (List Char)) : World :=
  { handle := 3, reply := some (List.replicate 1000 NUL), reply_size := 1000,
    net := [(3, { arrivals := arrivals,
                  info := some ({ q0 := 10, q1 := 0, q2 := 0, q3 := 2 },
                                { q0 := 10, q1 := 0, q2 := 0, q3 := 1 }) })] }

/-- A connected session whose server answers the next command with 500. -/
def refusedWorld : World := connectedWorld ["500 Unknown type\r\n".toList]

/-- The world `refusedWorld` once `ftp_get` or `ftp_put` has printed its
`local: … remote: …` line for `a.txt` and `b.txt`. -/
def refusedWorldAnnounced : World :=
  { refusedWorld with console := "local: a.txt remote: b.txt\r\n".toList }

/-! ## Words of the specification about PASV replies -/

/-- A non-empty run of decimal digits. -/
def IsNumeral (ds : List Char) : Prop := ds ≠ [] ∧ ∀ c ∈ ds, c.isDigit = true

/-- The text starts with `n` comma-separated integers: each is a run of
digits, with an optional sign and optional white space before it, and a
comma stands between one and the next. -/
def StartsWithInts : Nat → List Char → Prop
  | 0, _ => True
  | n + 1, s =>
    ∃ ws sg ds rest, s = ws ++ (sg ++ (ds ++ rest)) ∧ (∀ c ∈ ws, isspace c = true) ∧
      (sg = [] ∨ sg = ['-'] ∨ sg = ['+']) ∧ IsNumeral ds ∧
      (n = 0 ∨ ∃ more, rest = ',' :: more ∧ StartsWithInts n more)

/-- The text `pre(a,b,c,d,e,f)post`. -/
def pasv_text (pre a b c d e f post : List Char) : List Char :=
  pre ++ '(' :: (a ++ ',' :: (b ++ ',' :: (c ++ ',' :: (d ++ ',' :: (e ++ ',' :: (f ++ ')' :: post))))))

/-- A connected session whose reply buffer holds the given text. -/
def repliedWorld (text : List Char) : World :=
  { handle := 3, reply := some (text ++ NUL :: List.replicate (999 - text.length) NUL), reply_size := 1000,
    net := [(3, {})] }

/-- The program `m` changes nothing but the console. -/
def ConsoleOnly {α : Type} (m : Prog α) : Prop :=
  ∀ (w : World) (a : α) (w1 : World), m w = Res.ret a w1 → w1 = { w with console := w1.console }
/-- A session that has just read the PASV reply
`227 Entering Passive Mode (256,0,0,1,19,137)`: its first address byte is out of range. -/
def pasv256World : World :=
  repliedWorld (pasv_text "227 Entering Passive Mode ".toList "256".toList "0".toList "0".toList
    "1".toList "19".toList "137".toList "\r\n".toList)

/-- A passive-mode session whose server answers PASV with a 227 reply that
carries no parenthesis. -/
def noParenWorld : World :=
  connectedWorld ["227 Entering Passive Mode 10,0,0,1,19,137\r\n".toList]
/-- The session `refusedWorld` in active mode, with a connection ready for
the next `TCP_open` and `lrand48` about to return 123456. -/
def refusedActiveWorld : World :=
  { refusedWorld with passive := false, rands := [123456], open_results := [(7, {})] }

/-- An active-mode session whose transport fails the next `TCP_send` with -12. -/
def sendFailsWorld : World :=
  { connectedWorld [] with passive := false, rands := [123456], send_results := [-12],
                           open_results := [(7, {})] }

/-- A connected session with a 1000-byte reply buffer and the given bytes
already received on the control connection. -/
def arrivedWorld (queue : List Char) : World :=
  { handle := 3, reply := some (List.replicate 1000 NUL), reply_size := 1000,
    net := [(3, { queue := queue })] }

/-! ## Words of the specification about replies -/

/-- One reply line on the wire: the 4-byte header, the text, a newline. -/
def wireLine (l : List Char × List Char) : List Char := l.1 ++ (l.2 ++ ['\n'])

/-- A reply on the wire: continuation lines, then one final line. -/
def wireReply : List (List Char × List Char) → List Char × List Char → List Char
  | [], final => wireLine final
  | l :: ls, final => wireLine l ++ wireReply ls final

/-- A header and text that make a line `get_one_line` can frame: four
header bytes without NUL, no newline inside the text. -/
def WellFramed (l : List Char × List Char) : Prop :=
  l.1.length = 4 ∧ NUL ∉ l.1 ∧ '\n' ∉ l.2

/-! ## One-shot commands -/

/-- Source `ftp_bye`. -/
def ftp_bye (fuel : Nat) : Prog Int := do
  let w ← get
  if w.handle < 0 then Prog.pure NOT_CONNECTED
  else send_command fuel w.handle "QUIT".toList

/-- Source `ftp_cdup`. -/
def ftp_cdup (fuel : Nat) : Prog Int := do
  let w ← get
  if w.handle < 0 then Prog.pure NOT_CONNECTED
  else send_command fuel w.handle "CDUP".toList

/-- Source `ftp_cwd`. -/
def ftp_cwd (fuel : Nat) (path : List Char) : Prog Int := do
  let w ← get
  if w.handle < 0 then Prog.pure NOT_CONNECTED
  else
    let command ← sprintf_command ("CWD ".toList ++ path)
    send_command fuel w.handle command

/-- Source `ftp_delete`; for an mdelete the user is asked first. -/
def ftp_delete (fuel : Nat) (remotefile : List Char) (multiple : Bool) : Prog Int := do
  let w ← get
  if w.handle < 0 then Prog.pure NOT_CONNECTED
  else
    let ans ← (if multiple then prompt_and_reply "mdelete".toList remotefile else Prog.pure 1)
    if ans = -1 then Prog.pure USER_INTERRUPT
    else if ans = 0 then Prog.pure 0
    else
      let command ← sprintf_command ("DELE ".toList ++ remotefile)
      send_command fuel w.handle command

/-- Source `ftp_mkdir`. -/
def ftp_mkdir (fuel : Nat) (remotedir : List Char) : Prog Int := do
  let w ← get
  if w.handle < 0 then Prog.pure NOT_CONNECTED
  else
    let command ← sprintf_command ("MKD ".toList ++ remotedir)
    send_command fuel w.handle command

/-- Source `ftp_pwd`. -/
def ftp_pwd (fuel : Nat) : Prog Int := do
  let w ← get
  if w.handle < 0 then Prog.pure NOT_CONNECTED
  else send_command fuel w.handle "PWD".toList

/-- Source `ftp_rmdir`. -/
def ftp_rmdir (fuel : Nat) (remotedir : List Char) : Prog Int := do
  let w ← get
  if w.handle < 0 then Prog.pure NOT_CONNECTED
  else
    let command ← sprintf_command ("RMD ".toList ++ remotedir)
    send_command fuel w.handle command

/-- Source `ftp_rename`: RNFR, and RNTO once RNFR was answered with 350. -/
def ftp_rename (fuel : Nat) (oldname newname : List Char) : Prog Int := do
  let w ← get
  if w.handle < 0 then Prog.pure NOT_CONNECTED
  else
    let command ← sprintf_command ("RNFR ".toList ++ oldname)
    let rc ← send_command fuel w.handle command
    if rc ≠ 350 then Prog.pure rc
    else
      message rc
      let command ← sprintf_command ("RNTO ".toList ++ newname)
      send_command fuel w.handle command

/-- Source `ftp_system`. -/
def ftp_system (fuel : Nat) : Prog Int := do
  let w ← get
  if w.handle < 0 then Prog.pure NOT_CONNECTED
  else send_command fuel w.handle "SYST".toList

/-- Source `ftp_matching`: collect the names matching `remotefile` for
mdelete/mget.  The collector is returned as the call leaves it. -/
def ftp_matching (fuel : Nat) (bufctl : BUFCTL) (remotefile : List Char) : Prog (Int × BUFCTL) := do
  let w ← get
  if w.handle < 0 then Prog.pure (NOT_CONNECTED, bufctl)
  else
    let blk ← malloc INITIAL_BUFCTL_SIZE
    let b : BUFCTL := { count := 0, size := INITIAL_BUFCTL_SIZE, start := blk, pos := 0 }
    match blk with
    | none => Prog.pure (MEMORY_ERROR, b)
    | some _ =>
      let (rc, b1) ← ftp_directory fuel "NLST".toList (some remotefile) none (some b)
      Prog.pure (rc, b1.getD b)

/-- Source `ftp_disconnect`: close the control connection and forget the handle. -/
def ftp_disconnect : Prog Int := do
  let w ← get
  if w.handle < 0 then Prog.pure NOT_CONNECTED
  else
    let rc ← TCP_close w.handle
    modify fun w => { w with handle := -1 }
    Prog.pure rc

/-- The program `m` leaves the observation `f` of the world as it was. -/
def Keeps {α β : Type} (f : World → β) (m : Prog α) : Prop :=
  ∀ (w : World) (a : α) (w1 : World), m w = Res.ret a w1 → f w1 = f w

/-- The connection behind handle `k`, as an observation of the world. -/
def World.conn (k : Int) (w : World) : Option Conn := findConn k w.net

/-- The bytes of a `TCP_send` are a TYPE command. -/
def IsTypeCommand (bytes : List Char) : Prop := "TYPE ".toList <+: bytes

/-- A connected session in transfer type `I` whose server answers the next
commands with 200, 227 (passive address 10.0.0.1, port 5001) and 550; the
data connection to be opened has handle 7. -/
def typedWorld : World :=
  { connectedWorld ["200 Type set to I\r\n".toList,
                    "227 Entering Passive Mode (10,0,0,1,19,137)\r\n".toList,
                    "550 No such file\r\n".toList] with
    open_results := [(7, {})] }

/-- The observation `f` looks only at the session part of the world and at
none of the fields a transfer writes apart from those of `TCP_open` and
`TCP_close`: the logs and scripts of `TCP_send`, the file calls, `lrand48`
and `clock`, the transfer counters and `last_type_set`. -/
structure XferBlind {γ : Type} (f : World → γ) : Prop where
  session : ∀ w w1 : World, w1.session = w.session → f w1 = f w
  sent : ∀ (w : World) r s, f { w with send_results := r, sent := s } = f w
  rands : ∀ (w : World) r, f { w with rands := r } = f w
  clocks : ∀ (w : World) r, f { w with clocks := r } = f w
  fopened : ∀ (w : World) r o, f { w with fopen_results := r, fopened := o } = f w
  fwritten : ∀ (w : World) r o, f { w with fwrite_results := r, fwritten := o } = f w
  fread : ∀ (w : World) r, f { w with fread_results := r } = f w
  fclosed : ∀ (w : World) r, f { w with fclosed := r } = f w
  bytes : ∀ (w : World) n, f { w with transfer_bytes := n } = f w
  ticks : ∀ (w : World) n, f { w with transfer_ticks := n } = f w
  last_type : ∀ (w : World) n, f { w with last_type_set := n } = f w

/-- Between `w1` and `w2` no local file was created, opened, written, read
or closed. -/
def FilesIdle (w1 w2 : World) : Prop :=
  w2.fopened = w1.fopened ∧ w2.fwritten = w1.fwritten ∧ w2.fread_results = w1.fread_results ∧
  w2.fclosed = w1.fclosed

/-- A passive-mode session whose server answers PASV with 227 (address
10.0.0.1, port 5001) and the next command with 550; the data connection to
be opened has handle 7 and holds bytes that nobody asked for. -/
def refusedTransferWorld : World :=
  { connectedWorld ["227 Entering Passive Mode (10,0,0,1,19,137)\r\n".toList,
                    "550 No such file\r\n".toList] with
    last_type_set := 73, open_results := [(7, { queue := "stray".toList })] }

/-- Every returned run of `m` has made exactly one more `TCP_close`, of `data`. -/
def ClosesOnce {α : Type} (data : Int) (m : Prog α) : Prop :=
  ∀ (w : World) (a : α) (w1 : World), m w = Res.ret a w1 → w1.closed = w.closed ++ [data]
/-- How an operation goes on after the statements in front of its data
connection: a result `some rc` is returned as it is, `none` goes on with
`phase`, the statements from `data = ftp_data_connect()` on. -/
def carry_on {α : Type} (phase : Prog α) : Option α → Prog α
  | some rc => Prog.pure rc
  | none => phase

/-- Source `ftp_get` and `ftp_put`, the step "make sure the type is
correct" alone: `some rc` when the function returns there with `rc`, `none`
when it goes on to `ftp_data_connect`. -/
def type_enter (fuel : Nat) : Prog (Option Int) := do
  let w ← get
  if w.last_type_set ≠ w.transfer_type then
    let rc ← ftp_type fuel w.transfer_type
    if rc ≠ 200 then Prog.pure (some rc)
    else
      message rc
      Prog.pure none
  else Prog.pure none

/-- Source `ftp_get`, the statements in front of `data = ftp_data_connect()`:
`some rc` when the function returns there with `rc`, `none` when it reaches
the call. -/
def ftp_get_enter (fuel : Nat) (localfile remotefile : List Char) (multiple : Bool) :
    Prog (Option Int) := do
  let w ← get
  if w.handle < 0 then Prog.pure (some NOT_CONNECTED)
  else if multiple then
    let ans ← prompt_and_reply "mget".toList remotefile
    if ans = -1 then Prog.pure (some USER_INTERRUPT)
    else if ans = 0 then Prog.pure (some 0)
    else type_enter fuel
  else
    cprintf ("local: ".toList ++ localfile ++ " remote: ".toList ++ remotefile ++ "\r\n".toList)
    type_enter fuel

/-- Source `ftp_put`, the statements in front of `data = ftp_data_connect()`:
`some rc` when the function returns there with `rc`, `none` when it reaches
the call. -/
def ftp_put_enter (fuel : Nat) (localfile remotefile : List Char) (multiple : Bool) :
    Prog (Option Int) := do
  let w ← get
  if w.handle < 0 then Prog.pure (some NOT_CONNECTED)
  else if multiple then
    let ans ← prompt_and_reply "mput".toList localfile
    if ans = -1 then Prog.pure (some USER_INTERRUPT)
    else if ans = 0 then Prog.pure (some 0)
    else type_enter fuel
  else
    cprintf ("local: ".toList ++ localfile ++ " remote: ".toList ++ remotefile ++ "\r\n".toList)
    type_enter fuel

/-- Source `ftp_directory`, the statements in front of
`data = ftp_data_connect()`: `some` of the result when the function returns
there, `none` when it reaches the call. -/
def ftp_directory_enter (fuel : Nat) (bufctl : Option BUFCTL) :
    Prog (Option (Int × Option BUFCTL)) := do
  let w ← get
  if w.handle < 0 then Prog.pure (some (NOT_CONNECTED, bufctl))
  else if w.last_type_set ≠ 65 then
    let rc ← ftp_type fuel 65
    if rc ≠ 200 then Prog.pure (some (rc, bufctl))
    else
      message rc
      Prog.pure none
  else Prog.pure none

/-- A passive-mode session in type `I` whose server answers PASV with 227,
RETR with 150 and ends with 226; the data connection 7 delivers `hello` and
is closed by the server. -/
def downloadWorld : World :=
  { connectedWorld ["227 Entering Passive Mode (10,0,0,1,19,137)\r\n".toList,
                    "150 Opening\r\n".toList, "226 Done\r\n".toList] with
    last_type_set := 73, open_results := [(7, { arrivals := ["hello".toList], eof := true })],
    fopen_results := [5] }

/-- A whole reply as the server puts it on the wire: continuation lines
`ccc-…`, then the final line `ddd …` with a three-digit code. -/
def ReplyOnWire (cont : List (List Char × List Char)) (ds text : List Char) : Prop :=
  (∀ l ∈ cont, ∃ ccc, l.1 = ccc ++ ['-'] ∧ ccc.length = 3 ∧ NUL ∉ ccc ∧ '\n' ∉ l.2) ∧
  ds.length = 3 ∧ (∀ d ∈ ds, d.isDigit = true) ∧ '\n' ∉ text
/-- What follows the copy loop of `ftp_directory`: close the local file if
there is one, close the data connection, read the final reply when all went
well.  `h` is the control handle and `rcb` what the loop left. -/
def finish_directory (fuel : Nat) (data fh h : Int) (rcb : Int × Option BUFCTL) :
    Prog (Int × Option BUFCTL) := do
  let rc := if rcb.1 = E_EOF then 0 else rcb.1
  if fh ≥ 0 then
    Fclose fh
  let n ← TCP_close data
  let rc := if rc = 0 then n else rc
  let rc ← if rc = 0 then get_reply fuel h else Prog.pure rc
  Prog.pure (rc, rcb.2)

/-- A passive-mode session in type `I` with control-C typed ahead: the
server answers PASV with 227, RETR with 150 and the ABOR with 426 and 226;
the data connection 7 has `hello` on its way. -/
def cancelWorld : World :=
  { connectedWorld ["227 Entering Passive Mode (10,0,0,1,19,137)\r\n".toList,
                    "150 Opening\r\n".toList, "426 Aborted\r\n".toList,
                    "226 Abort ok\r\n".toList] with
    last_type_set := 73, open_results := [(7, { arrivals := ["hello".toList] })],
    fopen_results := [5], keys := [CTL_C] }

/-- A session in the middle of a transfer with control-C typed and both
replies to the coming ABOR, 426 and 226, already received, followed by
three bytes that belong to whatever comes next. -/
def abortWorld : World :=
  { arrivedWorld "426 Aborted\r\n226 Abort ok\r\nxyz".toList with keys := [CTL_C] }

/-- An upload that the user cancels with control-C while the first block
goes out: the file has two blocks, `first` and `second`; the server answers
PASV with 227, STOR with 150, the ABOR with 426 and 226, and then sends the
replies given in `later`. -/
def putCancelWorld (later : List (List Char)) : World :=
  { connectedWorld (["227 Entering Passive Mode (10,0,0,1,19,137)\r\n".toList,
                     "150 Opening\r\n".toList, "426 Aborted\r\n".toList,
                     "226 Abort ok\r\n".toList] ++ later) with
    last_type_set := 73, open_results := [(7, {})], fopen_results := [5],
    fread_results := [(0, "first".toList), (0, "second".toList)], keys := [CTL_C] }

/-- A download whose first write to the local file fails with -1: the
server answers PASV with 227 and RETR with 150 and has sent its final reply
226; the data connection 7 delivers `hello`. -/
def writeFailWorld : World :=
  { connectedWorld ["227 Entering Passive Mode (10,0,0,1,19,137)\r\n".toList,
                    "150 Opening\r\n".toList, "226 Transfer complete\r\n".toList] with
    last_type_set := 73, open_results := [(7, { arrivals := ["hello".toList], eof := true })],
    fopen_results := [5], fwrite_results := [-1] }
/-- The block "copy file across network" of `ftp_get`: create the local
file and, when that worked, run the copy loop, close the file and wipe the
progress line; `rc` is the result of RETR, which stays when the file cannot
be created. -/
def get_copy (fuel : Nat) (data : Int) (localfile : List Char) (rc : Int) : Prog Int := do
  let rc2 ← Fcreate localfile
  if rc2 ≥ 0 then
    let fh := toWORD rc2
    let rc ← get_loop fuel data fh 0
    Fclose fh
    if (← get).tick then
      cputs BLANKOUT_XFER_MSG
    Prog.pure (if rc = E_EOF then 0 else rc)
  else Prog.pure rc
/-- A session at the point where `ftp_get` starts to copy: `hello` is
waiting on the data connection 7, the local file will get handle 5 and its
first write will fail with -1. -/
def copyFailWorld : World :=
  { handle := 3, net := [(3, {}), (7, { queue := "hello".toList })],
    fopen_results := [5], fwrite_results := [-1] }

/-! ## Opening and closing the control connection -/

/-- The call `resolve` for one address: its result and the address found. -/
def resolve (_server : List Char) : Prog (Int × IPADDR) := fun w =>
  match w.resolve_results with
  | [] => Res.ret (-17, {}) w
  | x :: rest => Res.ret x { w with resolve_results := rest }

/-- The call `TCP_wait_state`: wait until the connection is established. -/
def TCP_wait_state (_h : Int) : Prog Int := fun w =>
  Res.ret (w.wait_results.headD E_NORMAL) { w with wait_results := w.wait_results.tail }

/-- The loop of `cgets` and `cgets_noecho`: read keys up to a carriage
return and store them in a buffer of `size` bytes; `echo` tells whether each
key, the carriage return included, is written back to the console. -/
def cgets_loop (echo : Bool) (size : Nat) : Nat → List Char → Prog (List Char)
  | 0, _ => pending
  | fuel + 1, acc => do
    let c ← conin
    if echo then
      cputs [c]
    if c = '\r' then Prog.pure acc
    else if acc.length + 1 > size then fault
    else cgets_loop echo size fuel (acc ++ [c])

/-- Source `cgets` into a buffer of `size` bytes: the C string read. -/
def cgets (fuel : Nat) (size : Nat) : Prog (List Char) := do
  let s ← cgets_loop true size fuel []
  if s.length + 1 > size then fault
  else
    cputs ['\n']
    Prog.pure (cstr (s ++ [NUL]))

/-- Source `cgets_noecho` into a buffer of `size` bytes: the C string read. -/
def cgets_noecho (fuel : Nat) (size : Nat) : Prog (List Char) := do
  let s ← cgets_loop false size fuel []
  if s.length + 1 > size then fault
  else
    cputs ['\r', '\n']
    Prog.pure (cstr (s ++ [NUL]))

/-- Source `open_connection`: resolve the server and open a connection to
its port; a handle, or a negative error.  The resolved address goes to `ip`. -/
def open_connection (server : List Char) (port : Int) : Prog Int := do
  modify fun w => { w with ip := {} }
  let (rc, addr) ← resolve server
  if rc < 0 then Prog.pure rc
  else
    modify fun w => { w with ip := addr }
    let handle ← TCP_open { rhost := addr, rport := toUWORD port, lhost := {}, lport := 0 } true
    if handle < 0 then Prog.pure handle
    else
      let rc ← TCP_wait_state handle
      if rc < 0 then
        let _ ← TCP_close handle
        Prog.pure rc
      else Prog.pure handle

/-- The end of `ftp_connect`: the account prompt, when asked for, then SYST. -/
def ftp_connect_account (fuel : Nat) (h : Int) (rc : Int) : Prog Int := do
  if rc = 332 then
    cputs_reply
    cputs "Account: ".toList
    let buf ← cgets fuel 80
    let command ← sprintf_command ("ACCT ".toList ++ buf)
    let rc ← send_command fuel h command
    if rc < 0 then Prog.pure rc
    else send_command fuel h "SYST".toList
  else send_command fuel h "SYST".toList

/-- The login of `ftp_connect` after the greeting: name, password when
asked for, account when asked for, then SYST. -/
def ftp_connect_login (fuel : Nat) (h : Int) : Prog Int := do
  let w ← get
  cprintf ("Name (".toList ++ fmt_d w.ip.q0 ++ ['.'] ++ fmt_d w.ip.q1 ++ ['.'] ++ fmt_d w.ip.q2
    ++ ['.'] ++ fmt_d w.ip.q3 ++ "): ".toList)
  let buf ← cgets fuel 80
  let command ← sprintf_command ("USER ".toList ++ buf)
  let rc ← send_command fuel h command
  if rc < 0 then Prog.pure rc
  else if rc = 331 then
    cputs_reply
    cputs "Password: ".toList
    let buf ← cgets_noecho fuel 80
    let command ← sprintf_command ("PASS ".toList ++ buf)
    let rc ← send_command fuel h command
    if rc < 0 then Prog.pure rc
    else ftp_connect_account fuel h rc
  else ftp_connect_account fuel h rc

/-- Source `ftp_connect`: allocate the reply buffer if there is none, open
the control connection into `handle`, read the greeting and log in. -/
def ftp_connect (fuel : Nat) (server : List Char) (port : Int) : Prog Int := do
  let w ← get
  let ok ← (do
    if w.reply.isNone then
      match (← expand_buffer) with
      | none => Prog.pure false
      | some p =>
        modify fun w => { w with reply := w.reply.map fun mem => mem.drop p }
        Prog.pure true
    else Prog.pure true : Prog Bool)
  if !ok then Prog.pure MEMORY_ERROR
  else
    let h ← open_connection server port
    modify fun w => { w with handle := h }
    if h < 0 then Prog.pure h
    else
      let rc ← get_reply fuel h
      let rc ← (do
        if rc = 120 then
          cputs_reply
          get_reply fuel h
        else Prog.pure rc : Prog Int)
      if rc ≠ 220 then Prog.pure rc
      else
        cputs_reply
        ftp_connect_login fuel h

/-- The program at its start, about to connect twice: `resolve` will find
10.0.0.1 and then 10.0.0.9, `TCP_open` will give handle 3 and then handle 7;
both servers greet with 220, take the name with 230 and answer SYST with
215; the user types the name `bob` twice. -/
def twoServersWorld : World :=
  { resolve_results := [(1, { q0 := 10, q1 := 0, q2 := 0, q3 := 1 }),
                        (1, { q0 := 10, q1 := 0, q2 := 0, q3 := 9 })],
    open_results := [(3, { arrivals := ["220 one\r\n".toList, "230 in\r\n".toList,
                                        "215 UNIX\r\n".toList] }),
                     (7, { arrivals := ["220 two\r\n".toList, "230 in\r\n".toList,
                                        "215 UNIX\r\n".toList] })],
    keys := "bob\rbob\r".toList }

/-- The session reached from `twoServersWorld` by a first `ftp_connect`. -/
def onceConnectedWorld : World :=
  (ftp_connect 9 "one".toList 21 twoServersWorld).world.getD twoServersWorld

/-! ## Commands of the interpreter: transfer type -/

/-- Source `run_ascii`: TYPE A, and `transfer_type` set on a result that is
not negative. -/
def run_ascii (fuel : Nat) : Prog Int := do
  let rc ← ftp_type fuel 65
  if rc ≥ 0 then
    modify fun w => { w with transfer_type := 65 }
  Prog.pure rc

/-- Source `run_binary`: TYPE I, and `transfer_type` set on a result that is
not negative. -/
def run_binary (fuel : Nat) : Prog Int := do
  let rc ← ftp_type fuel 73
  if rc ≥ 0 then
    modify fun w => { w with transfer_type := 73 }
  Prog.pure rc

/-- The two variables that track the transfer type: the type last sent to
the server and the type the user asked for. -/
def World.types (w : World) : Int × Int := (w.last_type_set, w.transfer_type)

/-- A session connected on handle 3 in transfer type `I`, the type last sent
on that connection; a second server is about to be reached: `resolve` will
find 10.0.0.9, `TCP_open` will give handle 7 for the control connection and
handle 8 for a data connection; the second server greets with 220, takes the
name with 230, answers SYST with 215, PASV with 227 and the next command
with 550; the user types the name `bob`. -/
def typedReconnectWorld : World :=
  { connectedWorld [] with
    last_type_set := 73,
    resolve_results := [(1, { q0 := 10, q1 := 0, q2 := 0, q3 := 9 })],
    open_results := [(7, { arrivals := ["220 two\r\n".toList, "230 in\r\n".toList,
                                        "215 UNIX\r\n".toList,
                                        "227 Entering Passive Mode (10,0,0,9,19,137)\r\n".toList,
                                        "550 No such file\r\n".toList],
                           info := some ({ q0 := 10, q1 := 0, q2 := 0, q3 := 2 },
                                         { q0 := 10, q1 := 0, q2 := 0, q3 := 9 }) }),
                     (8, {})],
    keys := "bob\r".toList }

/-- A passive-mode session with type `A` in force whose server answers PASV
with 227, the listing command with 150 and, at the end, 226; the data
connection to be opened has handle 7 and delivers the given lines, each
followed by CR LF, before it ends. -/
def listingWorld (names : List (List Char)) : World :=
  { connectedWorld ["227 Entering Passive Mode (10,0,0,1,19,137)\r\n".toList,
                    "150 Here comes the listing\r\n".toList, "226 Done\r\n".toList] with
    last_type_set := 65,
    open_results := [(7, { arrivals := names.map (fun n => n ++ "\r\n".toList), eof := true })] }

/-! ## Command line parser -/

def ARG_NORMAL : Int := 1
def NO_MORE_ARGS : Int := 0
def QUOTING_ERROR : Int := -1
/-- Size of `input_line`. -/
def MAX_LINE_SIZE : Nat := 200
/-- Number of entries of `myargv`. -/
def MAX_ARGS : Nat := 30

/-- The byte at offset `p` of a line buffer.  The buffer is given by the
bytes of the line; the byte after them is the terminating NUL. -/
def peek (mem : List Char) (p : Nat) : Char := mem.getD p NUL

/-- First loop of `get_next_arg`, on the bytes from `p` on: look for the
start of the next argument. -/
def skip_blanks : List Char → Nat → Nat
  | [], p => p
  | c :: rest, p =>
    if c = NUL then p
    else if c ≠ ' ' then p
    else skip_blanks rest (p + 1)

/-- Second loop of `get_next_arg`, on the bytes from `p` on, with the value
of `inquotes`: `none` when it returns `QUOTING_ERROR`; otherwise where it
stopped, whether it stopped at a blank (which is then overwritten with NUL
and stepped over), and `inquotes` at that point. -/
def scan_arg : List Char → Nat → Bool → Option (Nat × Bool × Bool)
  | [], p, inquotes => some (p, false, inquotes)
  | c :: rest, p, inquotes =>
    if c = NUL then some (p, false, inquotes)
    else if c = '"' then
      if !inquotes then none
      else scan_arg rest (p + 1) false
    else if inquotes then scan_arg rest (p + 1) inquotes
    else if c = ' ' then some (p, true, inquotes)
    else scan_arg rest (p + 1) inquotes

/-- What `get_next_arg` leaves: its result, the line buffer, `*pp` and `*arg`
(`none` for NULL). -/
structure NextArg where
  rc : Int
  mem : List Char
  pp : Nat
  arg : Option Nat
deriving DecidableEq, Repr

/-- Source `get_next_arg`: scan the buffer for the next argument from `*pp`
on.  The blank that ends an argument is overwritten with NUL; `*pp` is
updated only when the result is not negative. -/
def get_next_arg (mem : List Char) (pp : Nat) : NextArg :=
  let p := skip_blanks (mem.drop pp) pp
  if peek mem p = NUL then { rc := NO_MORE_ARGS, mem := mem, pp := p, arg := none }
  else
    let inquotes := decide (peek mem p = '"')
    let p1 := if inquotes then p + 1 else p
    match scan_arg (mem.drop p1) p1 inquotes with
    | none => { rc := QUOTING_ERROR, mem := mem, pp := pp, arg := some p }
    | some (p2, blank, inquotes) =>
      let mem1 := if blank then mem.set p2 NUL else mem
      let p3 := if blank then p2 + 1 else p2
      if inquotes then { rc := QUOTING_ERROR, mem := mem1, pp := pp, arg := some p }
      else { rc := ARG_NORMAL, mem := mem1, pp := p3, arg := some p }

/-- The loop of `parse_line`, for an `argv` array of `cap` entries: the
entries stored so far are `argv`, so `argc` is their number.  Returns the
result of `parse_line`, the line buffer and the entries of `argv`. -/
def parse_loop (cap : Nat) : Nat → List Char → Nat → List Nat → Prog (Int × List Char × List Nat)
  | 0, _, _, _ => pending
  | fuel + 1, mem, p, argv =>
    let r := get_next_arg mem p
    if r.rc = ARG_NORMAL then
      if argv.length ≥ cap then fault
      else parse_loop cap fuel r.mem r.pp (argv ++ [r.arg.getD 0])
    else if r.rc = NO_MORE_ARGS then Prog.pure ((argv.length : Int), r.mem, argv)
    else if r.rc = QUOTING_ERROR then do
      cputs "error in quoted field\r\n".toList
      Prog.pure (-1, r.mem, argv)
    else do
      cputs "error parsing line\r\n".toList
      Prog.pure (-1, r.mem, argv)

/-- Source `parse_line` on a line buffer and an `argv` array of `cap`
entries: the number of arguments or -1, the buffer as it is left and the
pointers stored in `argv`, as offsets into the buffer. -/
def parse_line (fuel cap : Nat) (line : List Char) : Prog (Int × List Char × List Nat) :=
  parse_loop cap fuel line 0 []

/-- The C string at offset `a` of a line buffer. -/
def argString (mem : List Char) (a : Nat) : List Char := cstr (mem.drop a)

/-- Source `strip_quotes` on the first `argc` entries of `argv`: an argument
that starts with a double quote loses its first byte (the pointer moves on)
and its last byte (overwritten with NUL). -/
def strip_quotes (mem : List Char) : List Nat → List Char × List Nat
  | [] => (mem, [])
  | a :: rest =>
    if peek mem a = '"' then
      let a1 := a + 1
      let p := a1 + (argString mem a1).length
      let r := strip_quotes (mem.set (p - 1) NUL) rest
      (r.1, a1 :: r.2)
    else
      let r := strip_quotes mem rest
      (r.1, a :: r.2)

/-! ## Words of the specification about command lines -/

/-- An argument as the specification accepts it: not empty, and either
without double quote (and then without blank), or beginning with a double
quote and holding exactly one further double quote; blanks may stand
between the two quotes, none after the second. -/
def GoodArg (a : List Char) : Prop :=
  a ≠ [] ∧ NUL ∉ a ∧
  (('"' ∉ a ∧ ' ' ∉ a) ∨
   ∃ inner tail, a = '"' :: inner ++ '"' :: tail ∧ '"' ∉ inner ∧ '"' ∉ tail ∧ ' ' ∉ tail)

/-- A run of `k` blanks. -/
def blanks (k : Nat) : List Char := List.replicate k ' '

/-- A line made of arguments, each followed by a number of blanks. -/
def render : List (List Char × Nat) → List Char
  | [] => []
  | (a, k) :: rest => a ++ blanks k ++ render rest

/-- Every argument but the last is followed by one blank at least. -/
def Separated : List (List Char × Nat) → Prop
  | [] => True
  | [_] => True
  | (_, k) :: it :: rest => 1 ≤ k ∧ Separated (it :: rest)

/-- The line `render items` once parsed: the first blank after each
argument is overwritten with NUL. -/
def renderNul : List (List Char × Nat) → List Char
  | [] => []
  | (a, k) :: rest => a ++ (if k = 0 then [] else NUL :: blanks (k - 1)) ++ renderNul rest

/-- Offsets of the arguments of `render items` when it starts at offset `o`. -/
def offsets (o : Nat) : List (List Char × Nat) → List Nat
  | [] => []
  | (a, k) :: rest => o :: offsets (o + a.length + k) rest

/-- The line is a sequence of arguments the specification accepts,
separated by blanks, with any number of blanks before and after. -/
def WellQuoted (line : List Char) : Prop :=
  ∃ k0 items, line = blanks k0 ++ render items ∧ Separated items ∧ ∀ it ∈ items, GoodArg it.1

/-! ## Commands of the interpreter: multi-file operations -/

/-- The `for` loop of `run_mdelete` over the collector block `mem`: `n`
names are left, the next one is the C string at offset `p`. -/
def mdelete_loop (fuel : Nat) (mem : List Char) : Nat → Nat → Prog Unit
  | 0, _ => Prog.pure ()
  | n + 1, p =>
    if NUL ∈ mem.drop p then do
      let rc ← ftp_delete fuel (cstr (mem.drop p)) true
      message rc
      if rc < 0 then Prog.pure ()
      else mdelete_loop fuel mem n (p + (cstr (mem.drop p)).length + 1)
    else fault

/-- Source `run_mdelete` with `argv[1]`.  The local `bufctl` is not
initialised in the source; `junk` is what it holds on entry.  The `free` at
the end changes nothing that is modelled. -/
def run_mdelete (fuel : Nat) (junk : BUFCTL) (arg : List Char) : Prog Int := do
  let w ← get
  if !w.globbing then ftp_delete fuel arg true
  else
    let (rc, b) ← ftp_matching fuel junk arg
    if rc ≥ 0 then
      match b.start with
      | some mem => mdelete_loop fuel mem b.count.toNat 0
      | none => if b.count > 0 then fault else Prog.pure ()
    Prog.pure 0

/-- The `for` loop of `run_mget` over the collector block `mem`: `n` names
are left, the next one is the C string at offset `p`. -/
def mget_loop (fuel : Nat) (mem : List Char) : Nat → Nat → Prog Unit
  | 0, _ => Prog.pure ()
  | n + 1, p =>
    if NUL ∈ mem.drop p then do
      let rc ← ftp_get fuel (cstr (mem.drop p)) (cstr (mem.drop p)) true
      message rc
      if rc < 0 then Prog.pure ()
      else mget_loop fuel mem n (p + (cstr (mem.drop p)).length + 1)
    else fault

/-- Source `run_mget` with `argv[1]`; `junk` as in `run_mdelete`. -/
def run_mget (fuel : Nat) (junk : BUFCTL) (arg : List Char) : Prog Int := do
  let w ← get
  if !w.globbing then ftp_get fuel arg arg true
  else
    let (rc, b) ← ftp_matching fuel junk arg
    if rc ≥ 0 then
      match b.start with
      | some mem => mget_loop fuel mem b.count.toNat 0
      | none => if b.count > 0 then fault else Prog.pure ()
    Prog.pure 0

/-- The world once the user was asked about a file and has typed one key:
the question and a new line are on the console, `ks` are the keys left. -/
def asked (cmd file ks : List Char) (w : World) : World :=
  { w with
    keys := ks,
    console := w.console ++ (cmd ++ " ".toList ++ file ++ " (Y/n)? ".toList) ++ "\r\n".toList }

/-- The world once the user has answered control-C and then confirmed the
stop with a second key: both questions and the message of the interrupt
are on the console, `ks` are the keys left. -/
def stopped (cmd file ks : List Char) (w : World) : World :=
  { w with
    keys := ks,
    console := w.console ++ (cmd ++ " ".toList ++ file ++ " (Y/n)? ".toList) ++ "\r\n".toList
      ++ ("Continue with ".toList ++ cmd ++ " (Y/n)? ".toList) ++ "\r\n".toList
      ++ "Interrupted by user\r\n".toList }

/-- A connected session whose server answers the next commands with 250,
with the given keys typed. -/
def answersWorld (keys : List Char) : World :=
  { connectedWorld ["250 ok\r\n".toList, "250 ok\r\n".toList, "250 ok\r\n".toList,
                    "250 ok\r\n".toList] with keys := keys }

/-- A passive-mode session with type `A` in force and prompting off whose
server answers PASV with 227, NLST with 150, then 226, and the next two
commands with 250; the data connection 7 delivers the names `a` and `b`. -/
def matchingWorld : World :=
  { connectedWorld ["227 Entering Passive Mode (10,0,0,1,19,137)\r\n".toList,
                    "150 Here comes the listing\r\n".toList, "226 Done\r\n".toList,
                    "250 ok\r\n".toList, "250 ok\r\n".toList] with
    last_type_set := 65, prompting := false,
    open_results := [(7, { arrivals := ["a\r\n".toList, "b\r\n".toList], eof := true })] }

/-- Everything the peer has sent on a connection and the program has not
read: the bytes received, then the segments still on their way. -/
def Conn.stream (c : Conn) : List Char := c.queue ++ c.arrivals.flatten

/-- The session `cancelWorld` with control-C typed twice and a server whose
replies come late: an empty segment stands for a poll that finds nothing
new, so that the reply to the ABOR has not arrived when it is first looked
for. -/
def recancelWorld : World :=
  { connectedWorld ["227 Entering Passive Mode (10,0,0,1,19,137)\r\n".toList, [], [],
                    "150 Opening\r\n".toList, [], [], [],
                    "426 Aborted\r\n".toList, "226 Abort ok\r\n".toList] with
    last_type_set := 73, open_results := [(7, { arrivals := ["hello".toList] })],
    fopen_results := [5], keys := [CTL_C, CTL_C] }

/-- A session in the middle of a transfer with control-C typed, then `x`:
the replies to the coming ABOR, 426 and 226, are still on their way and
come in pieces, followed by three bytes that belong to whatever comes next. -/
def lateAbortWorld : World :=
  { connectedWorld [[], "426 Abor".toList, "ted\r\n226 ".toList, "Abort ok\r\nxyz".toList] with
    keys := [CTL_C, 'x'] }

/-- Names as the collector of mget and mdelete holds them: each followed by
a NUL. -/
def nulJoin : List (List Char) → List Char
  | [] => []
  | n :: rest => n ++ NUL :: nulJoin rest

/-- The three answers of the claim to the question about one file, with the
key that gives them: `proceed k` is the key `k`, `skip k` is the key `k`,
`stop k2` is control-C followed by the key `k2`. -/
inductive Answer where
  | proceed (k : Char)
  | skip (k : Char)
  | stop (k2 : Char)
deriving DecidableEq, Repr

/-- The key fits the answer: proceed is any key but control-C, `n` and `N`;
skip is `n` or `N`; the second key of a stop is control-C, `n` or `N`. -/
def Answer.valid : Answer → Prop
  | Answer.proceed k => k ≠ CTL_C ∧ k ≠ 'n' ∧ k ≠ 'N'
  | Answer.skip k => k = 'n' ∨ k = 'N'
  | Answer.stop k2 => k2 = CTL_C ∨ k2 = 'n' ∨ k2 = 'N'

/-- The keys typed for a list of files with their answers: one key for each
proceed and skip, up to the first stop, whose two keys are the last. -/
def typed : List (List Char × Answer) → List Char
  | [] => []
  | (_, Answer.proceed k) :: rest => k :: typed rest
  | (_, Answer.skip k) :: rest => k :: typed rest
  | (_, Answer.stop k2) :: _ => [CTL_C, k2]

/-- The files a list of answers lets through: those answered proceed in
front of the first stop. -/
def chosen : List (List Char × Answer) → List (List Char)
  | [] => []
  | (n, Answer.proceed _) :: rest => n :: chosen rest
  | (_, Answer.skip _) :: rest => chosen rest
  | (_, Answer.stop _) :: _ => []

/-- A server reply in three parts: the continuation lines, the three digits
of the final line and the text of the final line. -/
structure Reply where
  cont : List (List Char × List Char)
  code : List Char
  text : List Char
deriving DecidableEq, Repr

/-- The bytes of a reply on the wire. -/
def Reply.wire (r : Reply) : List Char := wireReply r.cont (r.code ++ [' '], r.text)

/-- The session is connected, its transport takes whatever is sent, and the
replies `replies` have been received on the control connection, in this
order and followed by `rest`; each is a reply with a code from 100 to 599
that fits the reply buffer as it is and that `fuel` suffices to read. -/
def RepliesReady (fuel : Nat) (w : World) (replies : List Reply) (rest : List Char) : Prop :=
  0 ≤ w.handle ∧ (∀ r ∈ w.send_results, 0 ≤ r) ∧
  (∃ mem, w.reply = some mem ∧ w.reply_size = mem.length ∧ mem.length ≤ 32767) ∧
  (∃ c, findConn w.handle w.net = some c ∧
    c.queue = (replies.map Reply.wire).flatten ++ rest) ∧
  ∀ r ∈ replies, ReplyOnWire r.cont r.code r.text ∧ 100 ≤ decVal r.code ∧ decVal r.code ≤ 599 ∧
    r.wire.length + 1 ≤ w.reply_size ∧ r.cont.length + 2 ≤ fuel

/-- The command `DELE name` as `send_command` puts it on the wire. -/
def dele (h : Int) (name : List Char) : Int × List Char :=
  (h, "DELE ".toList ++ name ++ ['\r', '\n'])

/-- Whether a key fits its answer can be computed. -/
instance (a : Answer) : Decidable a.valid := by
  cases a <;> unfold Answer.valid <;> infer_instance

/-- A passive-mode session with type `A` in force whose server answers PASV
with 227, NLST with 150, then 226, and the next two commands with 250; the
data connection 7 delivers the names `a`, `b`, `c` and `d`. -/
def fourNamesWorld : World :=
  { connectedWorld ["227 Entering Passive Mode (10,0,0,1,19,137)\r\n".toList,
                    "150 Here comes the listing\r\n".toList, "226 Done\r\n".toList,
                    "250 ok\r\n".toList, "250 ok\r\n".toList] with
    last_type_set := 65,
    open_results := [(7, { arrivals := ["a\r\nb\r\n".toList, "c\r\nd\r\n".toList], eof := true })] }

/-- The session `fourNamesWorld` with prompting off and a transport that
takes PASV and NLST and refuses the third command with -1. -/
def refusingWorld : World :=
  { fourNamesWorld with prompting := false, send_results := [0, 0, -1] }

/-- The session `fourNamesWorld` with prompting on and the keys of a user who
hits `x` five times while the listing runs and then answers `y` for `a`, `n`
for `b`, `y` for `c` and control-C twice for `d`. -/
def promptedWorld : World :=
  { fourNamesWorld with keys := ['x', 'x', 'x', 'x', 'x', 'y', 'n', 'y', CTL_C, CTL_C] }

/-- The names of `fourNamesWorld` with the answers typed in `promptedWorld`. -/
def promptedItems : List (List Char × Answer) :=
  [("a".toList, Answer.proceed 'y'), ("b".toList, Answer.skip 'n'),
   ("c".toList, Answer.proceed 'y'), ("d".toList, Answer.stop CTL_C)]

/-- The reply `250 ok`. -/
def reply250 : Reply := { cont := [], code := "250".toList, text := "ok\r".toList }

/-! # Theorems -/

set_option linter.unusedTactic false
set_option linter.unreachableTactic false

/-! ## Running a `Prog` -/

@[simp] theorem pure_run {α : Type} (a : α) (w : World) :
    (Pure.pure a : Prog α) w = Res.ret a w := rfl

@[simp] theorem Prog_pure_run {α : Type} (a : α) (w : World) :
    (Prog.pure a : Prog α) w = Res.ret a w := rfl

theorem bind_run {α β : Type} (m : Prog α) (f : α → Prog β) (w : World) :
    (m >>= f) w = match m w with
      | Res.ret a w1 => f a w1
      | Res.fault => Res.fault
      | Res.pending => Res.pending := rfl

theorem bind_ret {α β : Type} {m : Prog α} {f : α → Prog β} {w w1 : World} {a : α}
    (h : m w = Res.ret a w1) : (m >>= f) w = f a w1 := by
  rw [bind_run, h]

theorem bind_fault {α β : Type} {m : Prog α} {f : α → Prog β} {w : World}
    (h : m w = Res.fault) : (m >>= f) w = Res.fault := by
  rw [bind_run, h]

theorem bind_pending {α β : Type} {m : Prog α} {f : α → Prog β} {w : World}
    (h : m w = Res.pending) : (m >>= f) w = Res.pending := by
  rw [bind_run, h]

@[simp] theorem get_run (w : World) : Prog.get w = Res.ret w w := rfl

@[simp] theorem modify_run (f : World → World) (w : World) :
    Prog.modify f w = Res.ret () (f w) := rfl

@[simp] theorem fault_run {α : Type} (w : World) : (Prog.fault : Prog α) w = Res.fault := rfl

@[simp] theorem pending_run {α : Type} (w : World) : (Prog.pending : Prog α) w = Res.pending := rfl

/-! ## C7: the port generator -/

theorem port_of_eq (r : Int) (hr : 0 ≤ r) :
    port_of r = 49152 + (r % 16383).toNat := by
  have h1 : 0 ≤ r % 16383 := Int.emod_nonneg r (by decide)
  have h2 : r % 16383 < 16383 := Int.emod_lt_of_pos r (by decide)
  have h3 : Int.tmod r 16383 = r % 16383 := Int.tmod_eq_emod hr (by decide)
  simp only [port_of, toUWORD, FIRST_DYNAMIC_PORT, NUM_DYNAMIC_PORTS, LAST_DYNAMIC_PORT]
  have h4 : (((65534 - 49152 + 1 : Nat) : Int)) = 16383 := by decide
  rw [h4, h3]
  omega

/-- C7: for every non-negative value `r` of `lrand48`, `generate_port`
returns `FIRST_DYNAMIC_PORT + r mod 16383`, which lies in 49152..65534, is
not 65535 and is below 2^16, so the cut to `UWORD` loses nothing. -/
theorem generate_port_in_dynamic_range (w : World) (hr : 0 ≤ w.rands.headD 0) :
    ∃ port : Nat,
      generate_port w = Res.ret port { w with rands := w.rands.tail } ∧
      (port : Int) = (FIRST_DYNAMIC_PORT : Int) + w.rands.headD 0 % 16383 ∧
      49152 ≤ port ∧ port ≤ 65534 ∧ port ≠ 65535 ∧ port < 2 ^ 16 := by
  refine ⟨port_of (w.rands.headD 0), rfl, ?_⟩
  have h1 : 0 ≤ w.rands.headD 0 % 16383 := Int.emod_nonneg _ (by decide)
  have h2 : w.rands.headD 0 % 16383 < 16383 := Int.emod_lt_of_pos _ (by decide)
  rw [port_of_eq _ hr]
  simp only [FIRST_DYNAMIC_PORT]
  omega

/-- C7 at a concrete value: `lrand48` returns 2147483647. -/
theorem generate_port_in_dynamic_range_witness :
    0 ≤ ({ rands := [2147483647] } : World).rands.headD 0 ∧
    ∃ port : Nat,
      generate_port { rands := [2147483647] }
        = Res.ret port { ({ rands := [2147483647] } : World) with rands := [] } ∧
      (port : Int) = (FIRST_DYNAMIC_PORT : Int) + 2147483647 % 16383 ∧
      49152 ≤ port ∧ port ≤ 65534 ∧ port ≠ 65535 ∧ port < 2 ^ 16 :=
  ⟨by decide, generate_port_in_dynamic_range { rands := [2147483647] } (by decide)⟩

/-! ## C9: the diagnostic echo -/

theorem lowerAZ_eq_toLower (c : Char) : lowerAZ c = c.toLower := by
  unfold lowerAZ Char.toLower
  have hA : ('A' ≤ c) ↔ 65 ≤ c.toNat := by
    show (65 : UInt32) ≤ c.val ↔ _
    rw [UInt32.le_def]; rfl
  have hZ : (c ≤ 'Z') ↔ c.toNat ≤ 90 := by
    show c.val ≤ (90 : UInt32) ↔ _
    rw [UInt32.le_def]; rfl
  simp only [hA, hZ, ge_iff_le]
  split
  · rename_i h
    obtain ⟨h1, h2⟩ := h
    congr 1
    generalize c.toNat = n at h1 h2
    interval_cases n <;> rfl
  · rfl

theorem cstr_append_nul (s rest : List Char) (h : NUL ∉ s) : cstr (s ++ NUL :: rest) = s := by
  unfold cstr
  induction s with
  | nil => simp
  | cons a t ih =>
    have ha : a ≠ NUL := fun e => h (by simp [e])
    have ht : NUL ∉ t := fun e => h (by simp [e])
    simp [List.takeWhile_cons, ha]
    exact ih ht

theorem strequal_eq_one_iff (s t : List Char) :
    strequal s t = 1 ↔ s.map lowerAZ = t.map lowerAZ := by
  induction s generalizing t with
  | nil => cases t <;> simp [strequal]
  | cons a s ih =>
    cases t with
    | nil => simp [strequal]
    | cons b t =>
      simp only [strequal, List.map_cons, List.cons.injEq]
      by_cases hab : lowerAZ a = lowerAZ b
      · simp [hab, ih]
      · simp [hab]

theorem strequal_zero_or_one (s t : List Char) : strequal s t = 0 ∨ strequal s t = 1 := by
  induction s generalizing t with
  | nil => cases t <;> simp [strequal]
  | cons a s ih =>
    cases t with
    | nil => simp [strequal]
    | cons b t =>
      simp only [strequal]
      split
      · simp
      · exact ih t

theorem map_lowerAZ (s : List Char) : s.map lowerAZ = s.map Char.toLower := by
  induction s with
  | nil => rfl
  | cons a s ih => simp [lowerAZ_eq_toLower, ih]

theorem strequal_pass_iff (s : List Char) :
    strequal s "pass".toList ≠ 0 ↔ s.map Char.toLower = "pass".toList := by
  have h1 := strequal_eq_one_iff s "pass".toList
  have h2 := strequal_zero_or_one s "pass".toList
  rw [map_lowerAZ] at h1
  have h3 : ("pass".toList).map lowerAZ = "pass".toList := by decide
  rw [h3] at h1
  constructor
  · intro h
    apply h1.mp
    omega
  · intro h
    rw [h1.mpr h]
    decide

theorem cprintf_run (text : List Char) (w : World) (hn : NUL ∉ text)
    (hl : text.length + 1 ≤ PRBUF_SIZE) :
    cprintf text w = Res.ret () { w with console := w.console ++ text } := by
  unfold cprintf
  have : ¬ (text.length + 1 > PRBUF_SIZE) := by omega
  simp only [this, if_false]
  rw [cstr_append_nul text [] hn]
  rfl

/-- C9: with `debug` set, the echo of a command whose first four characters
are `PASS` in any mix of cases is `---> `, those four characters and ` XXXX`,
whatever follows them, so two such commands that differ only in what follows
are echoed alike; a command whose first four characters are anything else is
echoed in full. -/
theorem pass_echo_hides_argument (w : World) (verb : List Char)
    (hd : w.debug ≠ 0) (hv : verb.map Char.toLower = "pass".toList) :
    (∀ arg : List Char,
      send_command_echo (verb ++ arg) w
        = Res.ret () { w with console := w.console ++ ("---> ".toList ++ verb ++ " XXXX\r\n".toList) }) ∧
    (∀ arg1 arg2 : List Char,
      send_command_echo (verb ++ arg1) w = send_command_echo (verb ++ arg2) w) ∧
    (∀ c : List Char, (c.take 4).map Char.toLower ≠ "pass".toList → NUL ∉ c →
      c.length + 8 ≤ PRBUF_SIZE →
      send_command_echo c w
        = Res.ret () { w with console := w.console ++ ("---> ".toList ++ c ++ "\r\n".toList) }) := by
  have hlen : verb.length = 4 := by
    have := congrArg List.length hv
    simpa using this
  have hnul : NUL ∉ verb := by
    intro hmem
    have : NUL.toLower ∈ verb.map Char.toLower := List.mem_map_of_mem _ hmem
    rw [hv] at this
    revert this
    decide
  have key : ∀ arg : List Char,
      send_command_echo (verb ++ arg) w
        = Res.ret () { w with console := w.console ++ ("---> ".toList ++ verb ++ " XXXX\r\n".toList) } := by
    intro arg
    have htake : (verb ++ arg).take 4 = verb := by
      rw [← hlen]; simp
    have hs : strequal verb "pass".toList ≠ 0 := (strequal_pass_iff verb).mpr hv
    have hecho : debug_echo (verb ++ arg) = "---> ".toList ++ verb ++ " XXXX\r\n".toList := by
      simp only [debug_echo, htake, hs, ne_eq, not_false_eq_true, if_true]
    unfold send_command_echo
    rw [bind_run, get_run]
    simp only [hd, ne_eq, not_false_eq_true, if_true, hecho]
    apply cprintf_run
    · simp only [List.mem_append, not_or]
      exact ⟨⟨by decide, hnul⟩, by decide⟩
    · simp only [List.length_append, hlen, PRBUF_SIZE]
      decide
  refine ⟨key, fun a1 a2 => by rw [key a1, key a2], ?_⟩
  intro c hc hn hl
  have hs : ¬ (strequal (c.take 4) "pass".toList ≠ 0) := fun h => hc ((strequal_pass_iff _).mp h)
  have hecho : debug_echo c = "---> ".toList ++ c ++ "\r\n".toList := by
    simp only [debug_echo, hs, if_false]
  unfold send_command_echo
  rw [bind_run, get_run]
  simp only [hd, ne_eq, not_false_eq_true, if_true, hecho]
  apply cprintf_run
  · simp only [List.mem_append, not_or]
    exact ⟨⟨by decide, hn⟩, by decide⟩
  · simp only [List.length_append, PRBUF_SIZE] at hl ⊢
    have : "---> ".toList.length = 5 := by decide
    have : "\r\n".toList.length = 2 := by decide
    omega

/-- C9 at concrete commands: `PaSs secret` against `PaSs other`, and `USER bob`. -/
theorem pass_echo_hides_argument_witness :
    ({ debug := 1 } : World).debug ≠ 0 ∧ ("PaSs".toList).map Char.toLower = "pass".toList ∧
    send_command_echo ("PaSs".toList ++ " secret".toList) { debug := 1 }
      = send_command_echo ("PaSs".toList ++ " other".toList) { debug := 1 } ∧
    send_command_echo ("PaSs".toList ++ " secret".toList) { debug := 1 }
      = Res.ret () { ({ debug := 1 } : World) with
          console := ({ debug := 1 } : World).console ++ ("---> ".toList ++ "PaSs".toList ++ " XXXX\r\n".toList) } ∧
    send_command_echo "USER bob".toList { debug := 1 }
      = Res.ret () { ({ debug := 1 } : World) with
          console := ({ debug := 1 } : World).console ++ ("---> ".toList ++ "USER bob".toList ++ "\r\n".toList) } :=
  ⟨by decide, by decide,
   (pass_echo_hides_argument { debug := 1 } "PaSs".toList (by decide) (by decide)).2.1 _ _,
   (pass_echo_hides_argument { debug := 1 } "PaSs".toList (by decide) (by decide)).1 _,
   (pass_echo_hides_argument { debug := 1 } "PaSs".toList (by decide) (by decide)).2.2
     "USER bob".toList (by decide) (by decide) (by decide)⟩

/-! ## Frame lemmas -/

theorem readsOnly_pure {α : Type} (a : α) : ReadsOnly (Pure.pure a : Prog α) := by
  intro w b w1 h
  cases h
  rfl

theorem readsOnly_Prog_pure {α : Type} (a : α) : ReadsOnly (Prog.pure a : Prog α) :=
  readsOnly_pure a

theorem readsOnly_bind {α β : Type} {m : Prog α} {f : α → Prog β}
    (hm : ReadsOnly m) (hf : ∀ a, ReadsOnly (f a)) : ReadsOnly (m >>= f) := by
  intro w b w2 h
  rw [bind_run] at h
  cases hmw : m w with
  | ret a w1 =>
    rw [hmw] at h
    exact (hf a w1 b w2 h).trans (hm w a w1 hmw)
  | fault => rw [hmw] at h; cases h
  | pending => rw [hmw] at h; cases h

theorem readsOnly_ite {α : Type} {c : Prop} [Decidable c] {m1 m2 : Prog α}
    (h1 : ReadsOnly m1) (h2 : ReadsOnly m2) : ReadsOnly (if c then m1 else m2) := by
  split
  · exact h1
  · exact h2

theorem readsOnly_fault {α : Type} : ReadsOnly (Prog.fault : Prog α) := by
  intro w a w1 h; cases h

theorem readsOnly_pending {α : Type} : ReadsOnly (Prog.pending : Prog α) := by
  intro w a w1 h; cases h

theorem readsOnly_get : ReadsOnly Prog.get := by
  intro w a w1 h; cases h; rfl

theorem readsOnly_modify (f : World → World) (hf : ∀ w, (f w).session = w.session) :
    ReadsOnly (Prog.modify f) := by
  intro w a w1 h; cases h; exact hf w

theorem readsOnly_cputs (s : List Char) : ReadsOnly (cputs s) :=
  readsOnly_modify _ (fun _ => rfl)

theorem readsOnly_constat : ReadsOnly constat := by
  intro w a w1 h; cases h; rfl

theorem readsOnly_conin : ReadsOnly conin := by
  intro w a w1 h
  unfold conin at h
  split at h
  · cases h
  · cases h; rfl

theorem readsOnly_CNbyte_count (hd : Int) : ReadsOnly (CNbyte_count hd) := by
  intro w a w1 h
  unfold CNbyte_count at h
  split at h <;> (cases h; rfl)

theorem readsOnly_CNget_block (hd : Int) (n : Nat) : ReadsOnly (CNget_block hd n) := by
  intro w a w1 h
  unfold CNget_block at h
  split at h
  · cases h; rfl
  · dsimp only at h
    split at h
    · cases h; rfl
    · split at h <;> (cases h; rfl)

theorem readsOnly_CNgets (hd : Int) (len : Int) (delim : Char) : ReadsOnly (CNgets hd len delim) := by
  intro w a w1 h
  unfold CNgets at h
  split at h
  · cases h; rfl
  · dsimp only at h
    split at h
    · split at h <;> (cases h; rfl)
    · cases h; rfl

theorem readsOnly_CNgetinfo (hd : Int) : ReadsOnly (CNgetinfo hd) := by
  intro w a w1 h; cases h; rfl

theorem readsOnly_malloc (n : Nat) : ReadsOnly (malloc n) := by
  intro w a w1 h
  unfold malloc at h
  split at h <;> (cases h; rfl)

theorem readsOnly_poke_reply (p : Nat) (bytes : List Char) : ReadsOnly (poke_reply p bytes) := by
  intro w a w1 h
  unfold poke_reply at h
  split at h
  · cases h
  · split at h
    · cases h
    · cases h; rfl

theorem readsOnly_user_break : ReadsOnly user_break := by
  unfold user_break
  apply readsOnly_bind readsOnly_conin
  intro c
  apply readsOnly_ite <;> apply readsOnly_Prog_pure

theorem readsOnly_cprintf (text : List Char) : ReadsOnly (cprintf text) := by
  unfold cprintf
  apply readsOnly_ite
  · exact readsOnly_fault
  · exact readsOnly_cputs _


theorem readsOnly_expand_buffer : ReadsOnly expand_buffer := by
  unfold expand_buffer
  repeat' first
    | (with_reducible first
        | exact readsOnly_fault
        | apply readsOnly_pure
        | apply readsOnly_Prog_pure
        | exact readsOnly_get
        | exact readsOnly_malloc _
        | exact readsOnly_cputs _
        | apply readsOnly_bind
        | apply readsOnly_ite
        | intro _
        | dsimp only
        | split)
    | exact readsOnly_modify _ (fun _ => rfl)

theorem readsOnly_wait_header (fuel : Nat) (hd : Int) : ReadsOnly (wait_header fuel hd) := by
  induction fuel with
  | zero => exact readsOnly_pending
  | succ n ih =>
    unfold wait_header
    repeat' first
      | (with_reducible first
          | exact ih
          | apply readsOnly_Prog_pure
          | exact readsOnly_CNbyte_count _
          | exact readsOnly_constat
          | exact readsOnly_user_break
          | apply readsOnly_bind
          | apply readsOnly_ite
          | intro _
          | dsimp only
          | split)

theorem readsOnly_read_rest (fuel : Nat) (hd : Int) (p : Nat) (maxlen : Int) :
    ReadsOnly (read_rest fuel hd p maxlen) := by
  induction fuel generalizing p maxlen with
  | zero => exact readsOnly_pending
  | succ n ih =>
    unfold read_rest
    repeat' first
      | (with_reducible first
          | exact ih _ _
          | exact readsOnly_fault
          | apply readsOnly_pure
          | apply readsOnly_Prog_pure
          | exact readsOnly_get
          | exact readsOnly_CNgets _ _ _
          | exact readsOnly_expand_buffer
          | exact readsOnly_poke_reply _ _
          | exact readsOnly_constat
          | exact readsOnly_user_break
          | apply readsOnly_bind
          | apply readsOnly_ite
          | intro _
          | dsimp only
          | split)

theorem readsOnly_get_one_line (fuel : Nat) (hd : Int) (p : Nat) (maxlen : Int) :
    ReadsOnly (get_one_line fuel hd p maxlen) := by
  unfold get_one_line
  repeat' first
    | (with_reducible first
        | exact readsOnly_fault
        | apply readsOnly_pure
        | apply readsOnly_Prog_pure
        | exact readsOnly_get
        | exact readsOnly_wait_header _ _
        | exact readsOnly_CNget_block _ _
        | exact readsOnly_read_rest _ _ _ _
        | exact readsOnly_poke_reply _ _
        | apply readsOnly_bind
        | apply readsOnly_ite
        | intro _
        | dsimp only
        | split)
    | exact readsOnly_modify _ (fun _ => rfl)

theorem readsOnly_get_reply_loop (fuel : Nat) (hd : Int) (p : Nat) :
    ReadsOnly (get_reply_loop fuel hd p) := by
  induction fuel generalizing p with
  | zero => exact readsOnly_pending
  | succ n ih =>
    unfold get_reply_loop
    repeat' first
      | (with_reducible first
          | exact ih _
          | apply readsOnly_pure
          | apply readsOnly_Prog_pure
          | exact readsOnly_get
          | exact readsOnly_get_one_line _ _ _ _
          | apply readsOnly_bind
          | apply readsOnly_ite
          | intro _
          | dsimp only
          | split)

theorem readsOnly_get_reply (fuel : Nat) (hd : Int) : ReadsOnly (get_reply fuel hd) :=
  readsOnly_get_reply_loop fuel hd 0

theorem readsOnly_cputs_reply : ReadsOnly cputs_reply := by
  unfold cputs_reply
  repeat' first
    | (with_reducible first
        | exact readsOnly_fault
        | apply readsOnly_Prog_pure
        | exact readsOnly_get
        | exact readsOnly_cputs _
        | apply readsOnly_bind
        | apply readsOnly_ite
        | intro _
        | dsimp only
        | split)

theorem readsOnly_message (rc : Int) : ReadsOnly (message rc) := by
  unfold message
  repeat' first
    | (with_reducible first
        | exact readsOnly_fault
        | apply readsOnly_Prog_pure
        | exact readsOnly_get
        | exact readsOnly_cputs_reply
        | exact readsOnly_cprintf _
        | apply readsOnly_bind
        | apply readsOnly_ite
        | intro _
        | dsimp only
        | split)

theorem readsOnly_extract_hp (cab : CAB) : ReadsOnly (extract_hp cab) := by
  unfold extract_hp
  repeat' first
    | (with_reducible first
        | exact readsOnly_fault
        | apply readsOnly_Prog_pure
        | exact readsOnly_get
        | apply readsOnly_bind
        | apply readsOnly_ite
        | intro _
        | dsimp only
        | split)

theorem readsOnly_send_command_echo (c : List Char) : ReadsOnly (send_command_echo c) := by
  unfold send_command_echo
  repeat' first
    | (with_reducible first
        | apply readsOnly_pure
        | exact readsOnly_get
        | exact readsOnly_cprintf _
        | apply readsOnly_bind
        | apply readsOnly_ite
        | intro _
        | dsimp only
        | split)

/-! ## C8: the command sender -/

theorem Res.eq_ret_of_code {α : Type} {r : Res α} {a : α} (w : World) (h : r.code = some a) :
    r = Res.ret a (r.world.getD w) := by
  cases r with
  | ret b w1 => simp [Res.code] at h; subst h; rfl
  | fault => simp [Res.code] at h
  | pending => simp [Res.code] at h

theorem session_sent {w w1 : World} (h : w1.session = w.session) : w1.sent = w.sent := by
  have := congrArg World.sent h
  exact this

theorem session_send_results {w w1 : World} (h : w1.session = w.session) :
    w1.send_results = w.send_results := by
  have := congrArg World.send_results h
  exact this

theorem session_opened {w w1 : World} (h : w1.session = w.session) : w1.opened = w.opened := by
  have := congrArg World.opened h
  exact this

theorem session_closed {w w1 : World} (h : w1.session = w.session) : w1.closed = w.closed := by
  have := congrArg World.closed h
  exact this

theorem session_handle {w w1 : World} (h : w1.session = w.session) : w1.handle = w.handle := by
  have := congrArg World.handle h
  exact this

theorem session_last_type_set {w w1 : World} (h : w1.session = w.session) :
    w1.last_type_set = w.last_type_set := by
  have := congrArg World.last_type_set h
  exact this

theorem session_transfer_type {w w1 : World} (h : w1.session = w.session) :
    w1.transfer_type = w.transfer_type := by
  have := congrArg World.transfer_type h
  exact this

theorem session_passive {w w1 : World} (h : w1.session = w.session) : w1.passive = w.passive := by
  have := congrArg World.passive h
  exact this

/-- The world once `TCP_send` was given the command line. -/
theorem send_command_run (fuel : Nat) (h : Int) (c : List Char) (w w0 : World)
    (hlen : c.length + 3 ≤ CMDSAVE_SIZE) (hecho : send_command_echo c w = Res.ret () w0) :
    send_command fuel h c w =
      if w0.send_results.headD E_NORMAL < 0 then
        Res.ret (w0.send_results.headD E_NORMAL)
          { w0 with send_results := w0.send_results.tail, sent := w0.sent ++ [(h, c ++ ['\r', '\n'])] }
      else
        get_reply fuel h
          { w0 with send_results := w0.send_results.tail, sent := w0.sent ++ [(h, c ++ ['\r', '\n'])] } := by
  unfold send_command
  rw [bind_ret hecho]
  have hl : ¬ (c.length + 3 > CMDSAVE_SIZE) := by omega
  simp only [hl, if_false]
  rw [bind_run]
  show (match TCP_send h (c ++ ['\r', '\n']) w0 with
      | Res.ret a w1 => (if a < 0 then Prog.pure a else get_reply fuel h) w1
      | Res.fault => Res.fault
      | Res.pending => Res.pending) = _
  unfold TCP_send
  dsimp only
  split <;> rfl

/-- What a returned `send_command` did to the session: one `TCP_send` of the
command with CR LF, nothing else. -/
theorem send_command_session (fuel : Nat) (h : Int) (c : List Char) (w w1 : World) (rc : Int)
    (hr : send_command fuel h c w = Res.ret rc w1) :
    w1.session = { w.session with send_results := w.send_results.tail,
                                  sent := w.sent ++ [(h, c ++ ['\r', '\n'])] } := by
  unfold send_command at hr
  rw [bind_run] at hr
  cases he : send_command_echo c w with
  | fault => rw [he] at hr; cases hr
  | pending => rw [he] at hr; cases hr
  | ret u w0 =>
    rw [he] at hr
    dsimp only at hr
    have h0 : w0.session = w.session := readsOnly_send_command_echo c w u w0 he
    split at hr
    · cases hr
    · rw [bind_run] at hr
      unfold TCP_send at hr
      dsimp only at hr
      split at hr
      · cases hr
        show { w0.session with send_results := w0.send_results.tail,
                               sent := w0.sent ++ [(h, c ++ ['\r', '\n'])] } = _
        have e1 : w0.send_results = w.send_results := session_send_results h0
        have e2 : w0.sent = w.sent := session_sent h0
        rw [h0, e1, e2]
      · have h2 := readsOnly_get_reply fuel h _ rc w1 hr
        rw [h2]
        show { w0.session with send_results := w0.send_results.tail,
                               sent := w0.sent ++ [(h, c ++ ['\r', '\n'])] } = _
        have e1 : w0.send_results = w.send_results := session_send_results h0
        have e2 : w0.sent = w.sent := session_sent h0
        rw [h0, e1, e2]

/-- C8, at the failing input: a 100-byte command (`CWD` and a 96-byte path)
does not fit the 80 bytes of `cmdsave`; the copy runs past the array. -/
theorem send_command_overruns_cmdsave :
    (send_command 5 3 ("CWD ".toList ++ List.replicate 96 'd')
      (connectedWorld ["250 ok\r\n".toList])).isFault = true := by
  decide

/-! ## C10: the TYPE step gates the transfer -/

/-- What a returned `ftp_type` did on a connected session for a type that is
a character: one `TCP_send` of the TYPE command, no other change to the
session than `last_type_set`. -/
theorem ftp_type_session (fuel : Nat) (t : Int) (w w1 : World) (rc : Int)
    (hconn : 0 ≤ w.handle) (ht : t = 65 ∨ t = 73)
    (hr : ftp_type fuel t w = Res.ret rc w1) :
    w1.sent = w.sent ++ [(w.handle, "TYPE ".toList ++ [Char.ofNat t.toNat] ++ "\r\n".toList)] ∧
    w1.opened = w.opened ∧ w1.closed = w.closed ∧ w1.handle = w.handle := by
  unfold ftp_type at hr
  rw [bind_run, get_run] at hr
  dsimp only at hr
  have h1 : ¬ (w.handle < 0) := by omega
  have h2 : ¬ (t < 0) := by omega
  simp only [h1, h2, if_false] at hr
  have hcmd : sprintf_command ("TYPE ".toList ++ [Char.ofNat (t % 256).toNat]) w
      = Res.ret ("TYPE ".toList ++ [Char.ofNat t.toNat]) w := by
    rcases ht with rfl | rfl <;> rfl
  rw [bind_ret hcmd, bind_run] at hr
  cases hs : send_command fuel w.handle ("TYPE ".toList ++ [Char.ofNat t.toNat]) w with
  | fault => rw [hs] at hr; cases hr
  | pending => rw [hs] at hr; cases hr
  | ret rc2 w2 =>
    rw [hs] at hr
    dsimp only at hr
    have hsess := send_command_session fuel w.handle _ w w2 rc2 hs
    have e1 : w2.sent = w.sent ++ [(w.handle, "TYPE ".toList ++ [Char.ofNat t.toNat] ++ ['\r', '\n'])] := by
      have := congrArg World.sent hsess
      exact this
    have e2 : w2.opened = w.opened := by
      have := congrArg World.opened hsess
      exact this
    have e3 : w2.closed = w.closed := by
      have := congrArg World.closed hsess
      exact this
    have e4 : w2.handle = w.handle := by
      have := congrArg World.handle hsess
      exact this
    split at hr
    · rw [bind_run, modify_run] at hr
      cases hr
      exact ⟨e1, e2, e3, e4⟩
    · cases hr
      exact ⟨e1, e2, e3, e4⟩
theorem readsOnly_prompt_and_reply (cmd file : List Char) : ReadsOnly (prompt_and_reply cmd file) := by
  unfold prompt_and_reply
  repeat' first
    | (with_reducible first
        | apply readsOnly_Prog_pure
        | exact readsOnly_get
        | exact readsOnly_conin
        | exact readsOnly_cputs _
        | exact readsOnly_cprintf _
        | apply readsOnly_bind
        | apply readsOnly_ite
        | intro _
        | dsimp only
        | split)

theorem ret_of_code {α : Type} {r : Res α} {a : α} (h : r.code = some a) :
    ∃ w1, r = Res.ret a w1 := by
  cases r with
  | ret b w1 => simp [Res.code] at h; subst h; exact ⟨w1, rfl⟩
  | fault => simp [Res.code] at h
  | pending => simp [Res.code] at h

/-- The type step of `ftp_get`: the TYPE exchange comes first; a result
other than 200 is returned, after 200 the reply is shown and the transfer
goes on. -/
theorem ftp_get_typed_step (fuel : Nat) (l r : List Char) (w0 w1 : World) (rc : Int)
    (hne : w0.last_type_set ≠ w0.transfer_type)
    (ht : ftp_type fuel w0.transfer_type w0 = Res.ret rc w1) :
    ftp_get_typed fuel l r w0 =
      if rc ≠ 200 then Res.ret rc w1
      else (message rc >>= fun _ => ftp_get_data fuel l r) w1 := by
  unfold ftp_get_typed
  rw [bind_run, get_run]
  simp only [hne, ne_eq, not_false_eq_true, if_true]
  rw [bind_ret ht]
  split <;> rfl

/-- The type step of `ftp_put`, as for `ftp_get`. -/
theorem ftp_put_typed_step (fuel : Nat) (l r : List Char) (w0 w1 : World) (rc : Int)
    (hne : w0.last_type_set ≠ w0.transfer_type)
    (ht : ftp_type fuel w0.transfer_type w0 = Res.ret rc w1) :
    ftp_put_typed fuel l r w0 =
      if rc ≠ 200 then Res.ret rc w1
      else (message rc >>= fun _ => ftp_put_data fuel l r) w1 := by
  unfold ftp_put_typed
  rw [bind_run, get_run]
  simp only [hne, ne_eq, not_false_eq_true, if_true]
  rw [bind_ret ht]
  split <;> rfl

/-- The prompt or the `local: … remote: …` line leaves the session alone. -/
theorem preamble_session (cmd file text : List Char) (m : Bool) (w w0 : World) (a : Int)
    (hpre : (if m then prompt_and_reply cmd file
             else cprintf text >>= fun _ => Prog.pure 1) w = Res.ret a w0) :
    w0.session = w.session := by
  have hro : ReadsOnly (if m then prompt_and_reply cmd file
             else cprintf text >>= fun _ => Prog.pure 1) := by
    apply readsOnly_ite
    · exact readsOnly_prompt_and_reply _ _
    · exact readsOnly_bind (readsOnly_cprintf _) (fun _ => readsOnly_Prog_pure _)
  exact hro w a w0 hpre

/-- Source `ftp_get` once the prompt (answered with "go on") or the
`local: … remote: …` line is through. -/
theorem ftp_get_after_preamble (fuel : Nat) (l r : List Char) (m : Bool) (w w0 : World)
    (hconn : 0 ≤ w.handle)
    (hpre : (if m then prompt_and_reply "mget".toList r
             else cprintf ("local: ".toList ++ l ++ " remote: ".toList ++ r ++ "\r\n".toList)
                    >>= fun _ => Prog.pure 1) w = Res.ret 1 w0) :
    ftp_get fuel l r m w = ftp_get_typed fuel l r w0 := by
  have hh : ¬ (w.handle < 0) := by omega
  unfold ftp_get
  rw [bind_run, get_run]
  simp only [hh, if_false]
  cases m with
  | true =>
    simp only [if_true] at hpre ⊢
    rw [bind_ret hpre]
    simp only [show ¬ ((1 : Int) = -1) by decide, show ¬ ((1 : Int) = 0) by decide, if_false]
  | false =>
    simp only [Bool.false_eq_true, if_false] at hpre ⊢
    rw [bind_run] at hpre ⊢
    cases hc : cprintf ("local: ".toList ++ l ++ " remote: ".toList ++ r ++ "\r\n".toList) w with
    | fault => rw [hc] at hpre; cases hpre
    | pending => rw [hc] at hpre; cases hpre
    | ret u w2 =>
      rw [hc] at hpre
      cases hpre
      rfl

/-- Source `ftp_put` once the prompt or the `local: … remote: …` line is through. -/
theorem ftp_put_after_preamble (fuel : Nat) (l r : List Char) (m : Bool) (w w0 : World)
    (hconn : 0 ≤ w.handle)
    (hpre : (if m then prompt_and_reply "mput".toList l
             else cprintf ("local: ".toList ++ l ++ " remote: ".toList ++ r ++ "\r\n".toList)
                    >>= fun _ => Prog.pure 1) w = Res.ret 1 w0) :
    ftp_put fuel l r m w = ftp_put_typed fuel l r w0 := by
  have hh : ¬ (w.handle < 0) := by omega
  unfold ftp_put
  rw [bind_run, get_run]
  simp only [hh, if_false]
  cases m with
  | true =>
    simp only [if_true] at hpre ⊢
    rw [bind_ret hpre]
    simp only [show ¬ ((1 : Int) = -1) by decide, show ¬ ((1 : Int) = 0) by decide, if_false]
  | false =>
    simp only [Bool.false_eq_true, if_false] at hpre ⊢
    rw [bind_run] at hpre ⊢
    cases hc : cprintf ("local: ".toList ++ l ++ " remote: ".toList ++ r ++ "\r\n".toList) w with
    | fault => rw [hc] at hpre; cases hpre
    | pending => rw [hc] at hpre; cases hpre
    | ret u w2 =>
      rw [hc] at hpre
      cases hpre
      rfl

/-- C10: in `ftp_get`, `ftp_put` and `ftp_directory`, when `last_type_set`
differs from the required type (`transfer_type`, or `A` for a listing) the
TYPE exchange comes first: when it returns, the TYPE command is the only
`TCP_send` so far and no `TCP_open` took place.  If its result is anything but
200 the operation returns that result in that very world, so without PASV or
PORT, without a data connection and without RETR, STOR, LIST or NLST; after
200 the reply is shown and the operation goes on from there.  For GET and PUT
`w0` is the world once the prompt (answered with "go on") or the
`local: … remote: …` line is through. -/
theorem type_step_gates_transfer (fuel : Nat) (w w0 : World) (rc : Int) (hconn : 0 ≤ w.handle) :
    (∀ (l r : List Char) (m : Bool),
      (if m then prompt_and_reply "mget".toList r
       else cprintf ("local: ".toList ++ l ++ " remote: ".toList ++ r ++ "\r\n".toList)
              >>= fun _ => Prog.pure 1) w = Res.ret 1 w0 →
      w0.last_type_set ≠ w0.transfer_type →
      (w0.transfer_type = 65 ∨ w0.transfer_type = 73) →
      (ftp_type fuel w0.transfer_type w0).code = some rc →
      ∃ w1, ftp_type fuel w0.transfer_type w0 = Res.ret rc w1 ∧
        w1.sent = w.sent ++ [(w.handle,
          "TYPE ".toList ++ [Char.ofNat w0.transfer_type.toNat] ++ "\r\n".toList)] ∧
        w1.opened = w.opened ∧
        (rc ≠ 200 → ftp_get fuel l r m w = Res.ret rc w1) ∧
        (rc = 200 → ftp_get fuel l r m w
          = (message rc >>= fun _ => ftp_get_data fuel l r) w1)) ∧
    (∀ (l r : List Char) (m : Bool),
      (if m then prompt_and_reply "mput".toList l
       else cprintf ("local: ".toList ++ l ++ " remote: ".toList ++ r ++ "\r\n".toList)
              >>= fun _ => Prog.pure 1) w = Res.ret 1 w0 →
      w0.last_type_set ≠ w0.transfer_type →
      (w0.transfer_type = 65 ∨ w0.transfer_type = 73) →
      (ftp_type fuel w0.transfer_type w0).code = some rc →
      ∃ w1, ftp_type fuel w0.transfer_type w0 = Res.ret rc w1 ∧
        w1.sent = w.sent ++ [(w.handle,
          "TYPE ".toList ++ [Char.ofNat w0.transfer_type.toNat] ++ "\r\n".toList)] ∧
        w1.opened = w.opened ∧
        (rc ≠ 200 → ftp_put fuel l r m w = Res.ret rc w1) ∧
        (rc = 200 → ftp_put fuel l r m w
          = (message rc >>= fun _ => ftp_put_data fuel l r) w1)) ∧
    (∀ (cmd : List Char) (remotedir localfile : Option (List Char)) (bufctl : Option BUFCTL),
      w.last_type_set ≠ 65 →
      (ftp_type fuel 65 w).code = some rc →
      ∃ w1, ftp_type fuel 65 w = Res.ret rc w1 ∧
        w1.sent = w.sent ++ [(w.handle, "TYPE A\r\n".toList)] ∧
        w1.opened = w.opened ∧
        (rc ≠ 200 →
          ftp_directory fuel cmd remotedir localfile bufctl w = Res.ret (rc, bufctl) w1) ∧
        (rc = 200 → ftp_directory fuel cmd remotedir localfile bufctl w
          = (message rc >>= fun _ =>
              ftp_directory_data fuel cmd remotedir localfile bufctl) w1)) := by
  have hh : ¬ (w.handle < 0) := by omega
  refine ⟨?_, ?_, ?_⟩
  · intro l r m hpre hne hty hcode
    obtain ⟨w1, hw1⟩ := ret_of_code hcode
    have hs := preamble_session _ _ _ m w w0 1 hpre
    have hconn0 : 0 ≤ w0.handle := by rw [session_handle hs]; exact hconn
    obtain ⟨e1, e2, _, _⟩ := ftp_type_session fuel _ w0 w1 rc hconn0 hty hw1
    have hstep := ftp_get_typed_step fuel l r w0 w1 rc hne hw1
    rw [← ftp_get_after_preamble fuel l r m w w0 hconn hpre] at hstep
    refine ⟨w1, hw1, ?_, ?_, ?_, ?_⟩
    · rw [e1, session_sent hs, session_handle hs]
    · rw [e2, session_opened hs]
    · intro hrc
      rw [hstep]
      simp only [hrc, ne_eq, not_false_eq_true, if_true]
    · intro hrc
      rw [hstep]
      simp only [hrc, ne_eq, not_true_eq_false, if_false]
  · intro l r m hpre hne hty hcode
    obtain ⟨w1, hw1⟩ := ret_of_code hcode
    have hs := preamble_session _ _ _ m w w0 1 hpre
    have hconn0 : 0 ≤ w0.handle := by rw [session_handle hs]; exact hconn
    obtain ⟨e1, e2, _, _⟩ := ftp_type_session fuel _ w0 w1 rc hconn0 hty hw1
    have hstep := ftp_put_typed_step fuel l r w0 w1 rc hne hw1
    rw [← ftp_put_after_preamble fuel l r m w w0 hconn hpre] at hstep
    refine ⟨w1, hw1, ?_, ?_, ?_, ?_⟩
    · rw [e1, session_sent hs, session_handle hs]
    · rw [e2, session_opened hs]
    · intro hrc
      rw [hstep]
      simp only [hrc, ne_eq, not_false_eq_true, if_true]
    · intro hrc
      rw [hstep]
      simp only [hrc, ne_eq, not_true_eq_false, if_false]
  · intro cmd remotedir localfile bufctl hne hcode
    obtain ⟨w1, hw1⟩ := ret_of_code hcode
    obtain ⟨e1, e2, _, _⟩ := ftp_type_session fuel 65 w w1 rc hconn (Or.inl rfl) hw1
    have hstep : ftp_directory fuel cmd remotedir localfile bufctl w =
        if rc ≠ 200 then Res.ret (rc, bufctl) w1
        else (message rc >>= fun _ =>
          ftp_directory_data fuel cmd remotedir localfile bufctl) w1 := by
      unfold ftp_directory
      rw [bind_run, get_run]
      simp only [hh, if_false, hne, ne_eq, not_false_eq_true, if_true]
      rw [bind_ret hw1]
      split <;> rfl
    refine ⟨w1, hw1, e1, e2, ?_, ?_⟩
    · intro hrc
      rw [hstep]
      simp only [hrc, ne_eq, not_false_eq_true, if_true]
    · intro hrc
      rw [hstep]
      simp only [hrc, ne_eq, not_true_eq_false, if_false]

/-- C10 at a concrete session: the server answers `TYPE I` and `TYPE A` with 500. -/
theorem type_step_gates_transfer_witness :
    (∃ w1, ftp_get 5 "a.txt".toList "b.txt".toList false refusedWorld = Res.ret 500 w1 ∧
      w1.sent = refusedWorld.sent ++ [(refusedWorld.handle,
          "TYPE ".toList ++ [Char.ofNat refusedWorldAnnounced.transfer_type.toNat] ++ "\r\n".toList)] ∧
      w1.opened = refusedWorld.opened) ∧
    (∃ w1, ftp_put 5 "a.txt".toList "b.txt".toList false refusedWorld = Res.ret 500 w1 ∧
      w1.sent = refusedWorld.sent ++ [(refusedWorld.handle,
          "TYPE ".toList ++ [Char.ofNat refusedWorldAnnounced.transfer_type.toNat] ++ "\r\n".toList)] ∧
      w1.opened = refusedWorld.opened) ∧
    (∃ w1, ftp_directory 5 "LIST".toList none none none refusedWorld = Res.ret (500, none) w1 ∧
      w1.sent = refusedWorld.sent ++ [(refusedWorld.handle, "TYPE A\r\n".toList)] ∧
      w1.opened = refusedWorld.opened) := by
  have h := type_step_gates_transfer 5 refusedWorld refusedWorldAnnounced 500 (by decide)
  obtain ⟨w1, _, a2, a3, a1, _⟩ :=
    h.1 "a.txt".toList "b.txt".toList false rfl (by decide) (by decide) (by decide!)
  obtain ⟨w2, _, b2, b3, b1, _⟩ :=
    h.2.1 "a.txt".toList "b.txt".toList false rfl (by decide) (by decide) (by decide!)
  obtain ⟨w3, _, c2, c3, c1, _⟩ := h.2.2 "LIST".toList none none none (by decide) (by decide!)
  exact ⟨⟨w1, a1 (by decide), a2, a3⟩, ⟨w2, b1 (by decide), b2, b3⟩, ⟨w3, c1 (by decide), c2, c3⟩⟩

/-! ## C3, C4, C5: reading the PASV reply -/

theorem after_paren_none (s : List Char) (h : '(' ∉ s) : after_paren s = [] := by
  induction s with
  | nil => rfl
  | cons a t ih =>
    have ha : a ≠ '(' := fun e => h (by simp [e])
    have ht : '(' ∉ t := fun e => h (by simp [e])
    simp [after_paren, ha, ih ht]

theorem after_paren_first (pre body : List Char) (h : '(' ∉ pre) :
    after_paren (pre ++ '(' :: body) = body := by
  induction pre with
  | nil => simp [after_paren]
  | cons a t ih =>
    have ha : a ≠ '(' := fun e => h (by simp [e])
    have ht : '(' ∉ t := fun e => h (by simp [e])
    simp [after_paren, ha, ih ht]

theorem isDigit_not_space (c : Char) (h : c.isDigit = true) : isspace c = false := by
  have h1 : 48 ≤ c.val ∧ c.val ≤ 57 := by
    simpa [Char.isDigit] using h
  obtain ⟨h1, h2⟩ := h1
  have e1 : 48 ≤ c.val.toNat := by
    rw [UInt32.le_def] at h1; exact h1
  have e2 : c.val.toNat ≤ 57 := by
    rw [UInt32.le_def] at h2; exact h2
  have key : ∀ d : Char, d.val.toNat < 48 → c ≠ d := by
    intro d hd e
    rw [e] at e1
    omega
  simp only [isspace, Bool.or_eq_false_iff, decide_eq_false_iff_not]
  refine ⟨⟨⟨⟨⟨?_, ?_⟩, ?_⟩, ?_⟩, ?_⟩, ?_⟩ <;> exact key _ (by decide)

theorem isDigit_not_sign (c : Char) (h : c.isDigit = true) : c ≠ '-' ∧ c ≠ '+' ∧ c ≠ ',' ∧ c ≠ NUL := by
  have h1 : 48 ≤ c.val ∧ c.val ≤ 57 := by
    simpa [Char.isDigit] using h
  obtain ⟨h1, h2⟩ := h1
  have e1 : 48 ≤ c.val.toNat := by
    rw [UInt32.le_def] at h1; exact h1
  have key : ∀ d : Char, d.val.toNat < 48 → c ≠ d := by
    intro d hd e
    rw [e] at e1
    omega
  exact ⟨key _ (by decide), key _ (by decide), key _ (by decide), key _ (by decide)⟩

/-- A number that fits a `short` is converted to itself. -/
theorem convert16_fits (over : List (Int × Int)) (n : Nat) (h : n ≤ 32767) : convert16 over (n : Int) = n := by
  unfold convert16 SHRT_MIN SHRT_MAX
  rw [if_pos]
  omega

/-- A numeral followed by a byte that is no digit is read whole. -/
theorem scanInt_numeral (over : List (Int × Int)) (ds : List Char) (x : Char) (rest : List Char)
    (hd : IsNumeral ds) (hx : x.isDigit = false) :
    scanInt over ((ds ++ x :: rest).dropWhile isspace)
      = some (convert16 over (decVal ds : Int), x :: rest) := by
  obtain ⟨hne, hall⟩ := hd
  cases ds with
  | nil => exact absurd rfl hne
  | cons d t =>
    have hdig : d.isDigit = true := hall d (by simp)
    have hsp : isspace d = false := isDigit_not_space d hdig
    obtain ⟨hm, hp, _, _⟩ := isDigit_not_sign d hdig
    have htw : (d :: t ++ x :: rest).takeWhile Char.isDigit = d :: t := by
      have : ((d :: t) ++ x :: rest).takeWhile Char.isDigit
          = (d :: t) ++ (x :: rest).takeWhile Char.isDigit :=
        List.takeWhile_append_of_pos hall
      rw [this]
      simp [List.takeWhile_cons, hx]
    have hdw : (d :: t ++ x :: rest).dropWhile Char.isDigit = x :: rest := by
      have : ((d :: t) ++ x :: rest).dropWhile Char.isDigit
          = (x :: rest).dropWhile Char.isDigit :=
        List.dropWhile_append_of_pos hall
      rw [this]
      simp [List.dropWhile_cons, hx]
    have h1 : (d :: t ++ x :: rest).dropWhile isspace = d :: t ++ x :: rest := by
      simp [List.dropWhile_cons, hsp]
    rw [h1]
    show scanInt over (d :: (t ++ x :: rest)) = _
    unfold scanInt
    simp only [hm, hp, if_false]
    unfold scanDigits
    have htw2 : (d :: (t ++ x :: rest)).takeWhile Char.isDigit = d :: t := htw
    have hdw2 : (d :: (t ++ x :: rest)).dropWhile Char.isDigit = x :: rest := hdw
    rw [htw2, hdw2]
    simp

/-- The six conversions on a well-formed sextet of numbers that fit a `short`. -/
theorem scan_fields_sextet (over : List (Int × Int)) (a b c d e f post : List Char)
    (ha : IsNumeral a) (hb : IsNumeral b) (hc : IsNumeral c) (hd : IsNumeral d)
    (he : IsNumeral e) (hf : IsNumeral f)
    (hva : decVal a ≤ 32767) (hvb : decVal b ≤ 32767) (hvc : decVal c ≤ 32767)
    (hvd : decVal d ≤ 32767) (hve : decVal e ≤ 32767) (hvf : decVal f ≤ 32767) :
    scan_fields over 6
        (a ++ ',' :: (b ++ ',' :: (c ++ ',' :: (d ++ ',' :: (e ++ ',' :: (f ++ ')' :: post))))))
      = [(decVal a : Int), decVal b, decVal c, decVal d, decVal e, decVal f] := by
  have hcomma : (',' : Char).isDigit = false := by decide
  have hparen : (')' : Char).isDigit = false := by decide
  simp only [scan_fields, scanInt_numeral _ _ _ _ ha hcomma, scanInt_numeral _ _ _ _ hb hcomma,
    scanInt_numeral _ _ _ _ hc hcomma, scanInt_numeral _ _ _ _ hd hcomma,
    scanInt_numeral _ _ _ _ he hcomma, scanInt_numeral _ _ _ _ hf hparen,
    convert16_fits _ _ hva, convert16_fits _ _ hvb, convert16_fits _ _ hvc,
    convert16_fits _ _ hvd, convert16_fits _ _ hve, convert16_fits _ _ hvf]
  simp
theorem consoleOnly_pure {α : Type} (a : α) : ConsoleOnly (Pure.pure a : Prog α) := by
  intro w b w1 h
  cases h
  rfl

theorem consoleOnly_Prog_pure {α : Type} (a : α) : ConsoleOnly (Prog.pure a : Prog α) :=
  consoleOnly_pure a

theorem consoleOnly_bind {α β : Type} {m : Prog α} {f : α → Prog β}
    (hm : ConsoleOnly m) (hf : ∀ a, ConsoleOnly (f a)) : ConsoleOnly (m >>= f) := by
  intro w b w2 h
  rw [bind_run] at h
  cases hmw : m w with
  | ret a w1 =>
    rw [hmw] at h
    have h1 := hm w a w1 hmw
    have h2 := hf a w1 b w2 h
    rw [h2, h1]
  | fault => rw [hmw] at h; cases h
  | pending => rw [hmw] at h; cases h

theorem consoleOnly_ite {α : Type} {c : Prop} [Decidable c] {m1 m2 : Prog α}
    (h1 : ConsoleOnly m1) (h2 : ConsoleOnly m2) : ConsoleOnly (if c then m1 else m2) := by
  split
  · exact h1
  · exact h2

theorem consoleOnly_fault {α : Type} : ConsoleOnly (Prog.fault : Prog α) := by
  intro w a w1 h; cases h

theorem consoleOnly_get : ConsoleOnly Prog.get := by
  intro w a w1 h; cases h; rfl

theorem consoleOnly_cputs (s : List Char) : ConsoleOnly (cputs s) := by
  intro w a w1 h; cases h; rfl

theorem consoleOnly_cprintf (text : List Char) : ConsoleOnly (cprintf text) := by
  unfold cprintf
  apply consoleOnly_ite
  · exact consoleOnly_fault
  · exact consoleOnly_cputs _

theorem consoleOnly_cputs_reply : ConsoleOnly cputs_reply := by
  unfold cputs_reply
  repeat' first
    | (with_reducible first
        | exact consoleOnly_fault
        | exact consoleOnly_get
        | exact consoleOnly_cputs _
        | apply consoleOnly_bind
        | apply consoleOnly_ite
        | intro _
        | dsimp only
        | split)

theorem consoleOnly_message (rc : Int) : ConsoleOnly (message rc) := by
  unfold message
  repeat' first
    | (with_reducible first
        | exact consoleOnly_fault
        | apply consoleOnly_Prog_pure
        | exact consoleOnly_get
        | exact consoleOnly_cputs_reply
        | exact consoleOnly_cprintf _
        | apply consoleOnly_bind
        | apply consoleOnly_ite
        | intro _
        | dsimp only
        | split)

/-- Showing a server reply (code 100..599) returns when the reply buffer
holds a C string. -/
theorem message_reply_returns (rc : Int) (w : World) (mem : List Char)
    (h1 : 100 ≤ rc) (h2 : rc ≤ 599) (hrep : w.reply = some mem) (hnul : NUL ∈ mem) :
    ∃ w1, message rc w = Res.ret () w1 ∧ w1 = { w with console := w1.console } := by
  have hret : ∃ w1, message rc w = Res.ret () w1 := by
    unfold message
    have e1 : ¬ (rc = 0 ∨ rc = FTP_EXIT ∨ rc = NOMESSAGE_ERROR) := by
      simp only [FTP_EXIT, NOMESSAGE_ERROR]; omega
    have e2 : rc ≥ 100 ∧ rc ≤ 599 := ⟨h1, h2⟩
    simp only [e1, e2, if_false, and_self, if_true]
    rw [bind_run, get_run]
    dsimp only
    split
    · unfold cputs_reply
      rw [bind_run, get_run]
      simp only [hrep, hnul, if_true]
      exact ⟨_, rfl⟩
    · exact ⟨_, rfl⟩
  obtain ⟨w1, hw1⟩ := hret
  exact ⟨w1, hw1, consoleOnly_message rc w () w1 hw1⟩

theorem extract_hp_run (cab : CAB) (w : World) (text junk : List Char)
    (hrep : w.reply = some (text ++ NUL :: junk)) (hnul : NUL ∉ text) :
    extract_hp cab w = Res.ret (parse_hp w.overflows text cab) w := by
  unfold extract_hp
  rw [bind_run, get_run]
  simp only [hrep]
  have hmem : NUL ∈ text ++ NUL :: junk := by simp
  simp only [hmem, if_true, cstr_append_nul text junk hnul]
  rfl

theorem scanDigits_some (over : List (Int × Int)) (neg : Bool) (t : List Char) (v : Int) (rest : List Char)
    (h : scanDigits over neg t = some (v, rest)) : ∃ ds, t = ds ++ rest ∧ IsNumeral ds := by
  unfold scanDigits at h
  split at h
  · cases h
  · rename_i hne
    simp only [Option.some.injEq, Prod.mk.injEq] at h
    refine ⟨t.takeWhile Char.isDigit, ?_, hne, ?_⟩
    · rw [← h.2]; exact (List.takeWhile_append_dropWhile _ _).symm
    · intro c hc
      exact List.mem_takeWhile_imp hc

theorem scanInt_some (over : List (Int × Int)) (t : List Char) (v : Int) (rest : List Char)
    (h : scanInt over t = some (v, rest)) :
    ∃ sg ds, t = sg ++ (ds ++ rest) ∧ (sg = [] ∨ sg = ['-'] ∨ sg = ['+']) ∧ IsNumeral ds := by
  cases t with
  | nil => cases h
  | cons c t =>
    simp only [scanInt] at h
    split at h
    · rename_i hc
      obtain ⟨ds, e, hd⟩ := scanDigits_some _ _ _ _ _ h
      exact ⟨['-'], ds, by rw [hc, e]; rfl, Or.inr (Or.inl rfl), hd⟩
    · split at h
      · rename_i hc
        obtain ⟨ds, e, hd⟩ := scanDigits_some _ _ _ _ _ h
        exact ⟨['+'], ds, by rw [hc, e]; rfl, Or.inr (Or.inr rfl), hd⟩
      · obtain ⟨ds, e, hd⟩ := scanDigits_some _ _ _ _ _ h
        exact ⟨[], ds, by rw [e]; rfl, Or.inl rfl, hd⟩

/-- When `sscanf` converts all `n` fields the text starts with `n`
comma-separated integers. -/
theorem scan_fields_full (over : List (Int × Int)) (n : Nat) (s : List Char)
    (h : (scan_fields over n s).length = n) : StartsWithInts n s := by
  induction n generalizing s with
  | zero => exact trivial
  | succ n ih =>
    unfold scan_fields at h
    cases hs : scanInt over (s.dropWhile isspace) with
    | none => rw [hs] at h; cases h
    | some vr =>
      obtain ⟨v, rest⟩ := vr
      rw [hs] at h
      dsimp only at h
      obtain ⟨sg, ds, e, hsg, hds⟩ := scanInt_some _ _ _ _ hs
      refine ⟨s.takeWhile isspace, sg, ds, rest, ?_, ?_, hsg, hds, ?_⟩
      · rw [← e]; exact (List.takeWhile_append_dropWhile _ _).symm
      · intro c hc
        exact List.mem_takeWhile_imp hc
      · by_cases hn : n = 0
        · exact Or.inl hn
        · right
          simp only [hn, if_false, List.length_cons, Nat.add_right_cancel_iff] at h
          split at h
          · rename_i t
            exact ⟨t, rfl, ih t h⟩
          · simp only [List.length_nil] at h
            exact absurd h.symm hn

theorem parse_hp_rejects (over : List (Int × Int)) (text : List Char) (cab : CAB)
    (hbad : '(' ∉ text ∨
      ∃ pre body, text = pre ++ '(' :: body ∧ '(' ∉ pre ∧ ¬ StartsWithInts 6 body) :
    parse_hp over text cab = (-1, cab) := by
  unfold parse_hp
  rcases hbad with h | ⟨pre, body, e, hpre, hno⟩
  · simp [after_paren_none text h]
  · rw [e, after_paren_first pre body hpre]
    dsimp only
    split
    · rfl
    · split
      · rename_i h0 h1 h2 h3 p0 p1 heq
        exact absurd (scan_fields_full over 6 body (by rw [heq]; rfl)) hno
      · rfl
theorem toUWORD_natCast (n : Nat) : toUWORD (n : Int) = n % 65536 := by
  unfold toUWORD
  omega

/-- What `extract_hp` derives from a sextet of numerals that fit a `short`,
above 255 or not. -/
theorem parse_hp_sextet (over : List (Int × Int)) (cab : CAB) (pre a b c d e f post : List Char)
    (hpre : '(' ∉ pre)
    (ha : IsNumeral a) (hb : IsNumeral b) (hc : IsNumeral c) (hd : IsNumeral d)
    (he : IsNumeral e) (hf : IsNumeral f)
    (hva : decVal a ≤ 32767) (hvb : decVal b ≤ 32767) (hvc : decVal c ≤ 32767)
    (hvd : decVal d ≤ 32767) (hve : decVal e ≤ 32767) (hvf : decVal f ≤ 32767) :
    parse_hp over (pasv_text pre a b c d e f post) cab =
      (0, { cab with
        rhost := { q0 := decVal a % 256, q1 := decVal b % 256,
                   q2 := decVal c % 256, q3 := decVal d % 256 },
        rport := (((decVal e % 65536) <<< 8) ||| (decVal f % 65536)) % 65536 }) := by
  unfold parse_hp pasv_text
  rw [after_paren_first pre _ hpre]
  have hne : a ++ ',' :: (b ++ ',' :: (c ++ ',' :: (d ++ ',' :: (e ++ ',' :: (f ++ ')' :: post))))) ≠ [] := by
    intro h
    have := congrArg List.length h
    simp at this
  simp only [hne, if_false,
    scan_fields_sextet over a b c d e f post ha hb hc hd he hf hva hvb hvc hvd hve hvf,
    toUWORD_natCast]
  have m : ∀ n : Nat, n % 65536 % 256 = n % 256 := fun n => by omega
  simp only [m]

/-- C3: when the first `(` of the reply text is followed by `a,b,c,d,e,f)`
with six decimal numbers in 0..255, `extract_hp` returns 0 and sets the remote
host to `a.b.c.d` (`quad[0]` = a, …, `quad[3]` = d) and the remote port to
`(e<<8)|f`. -/
theorem extract_hp_reads_sextet (w : World) (cab : CAB) (pre a b c d e f post junk : List Char)
    (hrep : w.reply = some (pasv_text pre a b c d e f post ++ NUL :: junk))
    (hnul : NUL ∉ pasv_text pre a b c d e f post) (hpre : '(' ∉ pre)
    (ha : IsNumeral a) (hb : IsNumeral b) (hc : IsNumeral c) (hd : IsNumeral d)
    (he : IsNumeral e) (hf : IsNumeral f)
    (hva : decVal a ≤ 255) (hvb : decVal b ≤ 255) (hvc : decVal c ≤ 255) (hvd : decVal d ≤ 255)
    (hve : decVal e ≤ 255) (hvf : decVal f ≤ 255) :
    extract_hp cab w =
      Res.ret (0, { cab with
        rhost := { q0 := decVal a, q1 := decVal b, q2 := decVal c, q3 := decVal d },
        rport := (decVal e <<< 8) ||| decVal f }) w := by
  rw [extract_hp_run cab w _ junk hrep hnul,
    parse_hp_sextet w.overflows cab pre a b c d e f post hpre ha hb hc hd he hf
      (by omega) (by omega) (by omega) (by omega) (by omega) (by omega)]
  have e1 : decVal a % 256 = decVal a := Nat.mod_eq_of_lt (by omega)
  have e2 : decVal b % 256 = decVal b := Nat.mod_eq_of_lt (by omega)
  have e3 : decVal c % 256 = decVal c := Nat.mod_eq_of_lt (by omega)
  have e4 : decVal d % 256 = decVal d := Nat.mod_eq_of_lt (by omega)
  have e5 : decVal e % 65536 = decVal e := Nat.mod_eq_of_lt (by omega)
  have e6 : decVal f % 65536 = decVal f := Nat.mod_eq_of_lt (by omega)
  have e7 : (decVal e <<< 8 ||| decVal f) % 65536 = decVal e <<< 8 ||| decVal f := by
    apply Nat.mod_eq_of_lt
    have h1 : decVal e <<< 8 < 2 ^ 16 := by
      rw [Nat.shiftLeft_eq]
      have : (2 : Nat) ^ 8 = 256 := by norm_num
      have : (2 : Nat) ^ 16 = 65536 := by norm_num
      omega
    have h2 : decVal f < 2 ^ 16 := by
      have : (2 : Nat) ^ 16 = 65536 := by norm_num
      omega
    have := Nat.or_lt_two_pow h1 h2
    simpa using this
  rw [e1, e2, e3, e4, e5, e6, e7]

/-- C3 at the reply `227 Entering Passive Mode (10,0,0,1,19,137)`. -/
theorem extract_hp_reads_sextet_witness :
    extract_hp {} (repliedWorld (pasv_text "227 Entering Passive Mode ".toList "10".toList "0".toList
        "0".toList "1".toList "19".toList "137".toList "\r\n".toList))
      = Res.ret (0, { ({} : CAB) with
          rhost := { q0 := decVal "10".toList, q1 := decVal "0".toList, q2 := decVal "0".toList,
                     q3 := decVal "1".toList },
          rport := (decVal "19".toList <<< 8) ||| decVal "137".toList })
        (repliedWorld (pasv_text "227 Entering Passive Mode ".toList "10".toList "0".toList
          "0".toList "1".toList "19".toList "137".toList "\r\n".toList)) ∧
    (decVal "19".toList <<< 8) ||| decVal "137".toList = 5001 :=
  ⟨extract_hp_reads_sextet _ {} "227 Entering Passive Mode ".toList "10".toList "0".toList "0".toList
      "1".toList "19".toList "137".toList "\r\n".toList _ rfl (by decide) (by decide)
      ⟨by decide, by decide⟩ ⟨by decide, by decide⟩ ⟨by decide, by decide⟩ ⟨by decide, by decide⟩
      ⟨by decide, by decide⟩ ⟨by decide, by decide⟩
      (by decide) (by decide) (by decide) (by decide) (by decide) (by decide),
   by decide⟩

/-- C5, as stated, fails: on `(256,0,0,1,19,137)` `extract_hp` returns 0,
not -1, and derives the address 0.0.0.1 and the port 5001. -/
theorem extract_hp_accepts_out_of_range :
    (extract_hp {} pasv256World).code
      = some (0, { ({} : CAB) with rhost := { q0 := 0, q1 := 0, q2 := 0, q3 := 1 }, rport := 5001 }) ∧
    ((extract_hp {} pasv256World).code.map Prod.fst) ≠ some (-1) := by
  decide!

/-- C5 as amended: `extract_hp` makes no range check.  For every reply text
whose first `(` is followed by `a,b,c,d,e,f)` with six decimal numbers that
a `short` holds (at most 32767), numbers above 255 included, it returns 0;
the address bytes are the numbers modulo 256 and the port is `(e<<8)|f` cut
to 16 bits.  This holds whatever the C library stores for the numbers a
`short` cannot hold (`w.overflows` is arbitrary). -/
theorem extract_hp_truncates_sextet (w : World) (cab : CAB) (pre a b c d e f post junk : List Char)
    (hrep : w.reply = some (pasv_text pre a b c d e f post ++ NUL :: junk))
    (hnul : NUL ∉ pasv_text pre a b c d e f post) (hpre : '(' ∉ pre)
    (ha : IsNumeral a) (hb : IsNumeral b) (hc : IsNumeral c) (hd : IsNumeral d)
    (he : IsNumeral e) (hf : IsNumeral f)
    (hva : decVal a ≤ 32767) (hvb : decVal b ≤ 32767) (hvc : decVal c ≤ 32767)
    (hvd : decVal d ≤ 32767) (hve : decVal e ≤ 32767) (hvf : decVal f ≤ 32767) :
    extract_hp cab w =
      Res.ret (0, { cab with
        rhost := { q0 := decVal a % 256, q1 := decVal b % 256,
                   q2 := decVal c % 256, q3 := decVal d % 256 },
        rport := (((decVal e % 65536) <<< 8) ||| (decVal f % 65536)) % 65536 }) w := by
  rw [extract_hp_run cab w _ junk hrep hnul,
    parse_hp_sextet w.overflows cab pre a b c d e f post hpre ha hb hc hd he hf
      hva hvb hvc hvd hve hvf]

/-- C5 as amended, at the reply `227 Entering Passive Mode (256,0,0,1,19,137)`. -/
theorem extract_hp_truncates_sextet_witness :
    extract_hp {} pasv256World
      = Res.ret (0, { ({} : CAB) with
          rhost := { q0 := decVal "256".toList % 256, q1 := decVal "0".toList % 256,
                     q2 := decVal "0".toList % 256, q3 := decVal "1".toList % 256 },
          rport := (((decVal "19".toList % 65536) <<< 8) ||| (decVal "137".toList % 65536)) % 65536 })
        pasv256World ∧
    decVal "256".toList % 256 = 0 :=
  ⟨extract_hp_truncates_sextet pasv256World {} "227 Entering Passive Mode ".toList "256".toList
      "0".toList "0".toList "1".toList "19".toList "137".toList "\r\n".toList _ rfl (by decide)
      (by decide) ⟨by decide, by decide⟩ ⟨by decide, by decide⟩ ⟨by decide, by decide⟩
      ⟨by decide, by decide⟩ ⟨by decide, by decide⟩ ⟨by decide, by decide⟩
      (by decide) (by decide) (by decide) (by decide) (by decide) (by decide),
   by decide⟩
/-- C4: when the text of a 227 reply holds no `(`, or its first `(` is not
followed by six comma-separated integers, `extract_hp` returns -1 and
`ftp_data_connect` returns `INTERNAL_ERROR` without any `TCP_open`. -/
theorem malformed_pasv_reply_rejected (fuel : Nat) (w0 w : World) (cab : CAB) (l r : IPADDR)
    (text junk : List Char)
    (hpassive : w0.passive = true)
    (hinfo : (findConn w0.handle w0.net).bind Conn.info = some (l, r))
    (hsend : send_command fuel w0.handle "PASV".toList w0 = Res.ret 227 w)
    (hrep : w.reply = some (text ++ NUL :: junk)) (hnul : NUL ∉ text)
    (hbad : '(' ∉ text ∨
      ∃ pre body, text = pre ++ '(' :: body ∧ '(' ∉ pre ∧ ¬ StartsWithInts 6 body) :
    extract_hp cab w = Res.ret (-1, cab) w ∧
    ∃ w2, ftp_data_connect fuel w0 = Res.ret INTERNAL_ERROR w2 ∧ w2.opened = w0.opened := by
  refine ⟨by rw [extract_hp_run cab w text junk hrep hnul, parse_hp_rejects _ text cab hbad], ?_⟩
  obtain ⟨w1, hm, hw1⟩ := message_reply_returns 227 w (text ++ NUL :: junk) (by decide) (by decide)
    hrep (by simp)
  have hrep1 : w1.reply = some (text ++ NUL :: junk) := by rw [hw1]; exact hrep
  have hx : extract_hp {} w1 = Res.ret (-1, {}) w1 := by
    rw [extract_hp_run {} w1 text junk hrep1 hnul, parse_hp_rejects _ text {} hbad]
  refine ⟨w1, ?_, ?_⟩
  · unfold ftp_data_connect
    rw [bind_run, get_run]
    dsimp only
    rw [bind_run]
    have hi : CNgetinfo w0.handle w0 = Res.ret (some (l, r)) w0 := by
      unfold CNgetinfo; rw [hinfo]
    rw [hi]
    dsimp only
    simp only [hpassive, if_true]
    rw [bind_ret hsend, bind_ret hm]
    simp only [ne_eq, not_true_eq_false, if_false]
    rw [bind_ret hx]
    rfl
  · have h1 : w1.opened = w.opened := by rw [hw1]
    have h2 := send_command_session fuel w0.handle _ w0 w 227 hsend
    have h3 : w.opened = w0.opened := by
      have := congrArg World.opened h2
      exact this
    rw [h1, h3]

/-- C4 at a 227 reply without parentheses. -/
theorem malformed_pasv_reply_rejected_witness :
    extract_hp {} ((send_command 5 3 "PASV".toList noParenWorld).world.getD noParenWorld)
      = Res.ret (-1, {}) ((send_command 5 3 "PASV".toList noParenWorld).world.getD noParenWorld) ∧
    ∃ w2, ftp_data_connect 5 noParenWorld = Res.ret INTERNAL_ERROR w2 ∧
      w2.opened = noParenWorld.opened :=
  malformed_pasv_reply_rejected 5 noParenWorld
    ((send_command 5 3 "PASV".toList noParenWorld).world.getD noParenWorld) {}
    { q0 := 10, q1 := 0, q2 := 0, q3 := 2 } { q0 := 10, q1 := 0, q2 := 0, q3 := 1 }
    "227 Entering Passive Mode 10,0,0,1,19,137\r\n".toList (List.replicate 956 NUL)
    (by decide) (by decide) (Res.eq_ret_of_code noParenWorld (by decide!)) (by decide!) (by decide)
    (Or.inl (by decide))

/-! ## C6: replies to PASV and PORT -/

theorem Res.forall_ret {α : Type} {r : Res α} {a : α} {P : World → Prop} (w : World)
    (h : P (r.world.getD w)) : ∀ w1, r = Res.ret a w1 → P w1 := by
  intro w1 e
  subst e
  exact h

theorem sprintf_command_code (text c : List Char) (w : World)
    (h : (sprintf_command text w).code = some c) : sprintf_command text w = Res.ret c w := by
  unfold sprintf_command at h ⊢
  split
  · rename_i hl
    simp only [hl, if_true] at h
    cases h
  · rename_i hl
    simp only [hl, if_false] at h
    simp only [Prog_pure_run, Res.code, Option.some.injEq] at h
    rw [h]
    rfl

/-- C6, as stated, fails in both modes.  Passive: a 500 reply to PASV makes
`ftp_data_connect` return `NOMESSAGE_ERROR`, not 500.  Active: after a 500
reply to PORT it goes on to `TCP_open` and returns the new handle. -/
theorem ftp_data_connect_reply_not_propagated :
    (ftp_data_connect 5 refusedWorld).code = some NOMESSAGE_ERROR ∧
    (ftp_data_connect 5 refusedWorld).code ≠ some 500 ∧
    (ftp_data_connect 5 refusedActiveWorld).code = some 7 ∧
    ((ftp_data_connect 5 refusedActiveWorld).world.map fun w => w.opened.length) = some 1 := by
  decide!

/-- C6 as amended.  Passive mode: when the PASV exchange ends in anything
but 227, that result is shown by `message`, `ftp_data_connect` returns
`NOMESSAGE_ERROR`, and no `TCP_open` took place.  Active mode: when the PORT
exchange ends in a negative result, `ftp_data_connect` returns that result
and no `TCP_open` took place. -/
theorem ftp_data_connect_failed_exchange (fuel : Nat) (w0 : World) (l r : IPADDR)
    (hinfo : (findConn w0.handle w0.net).bind Conn.info = some (l, r)) :
    (∀ rc : Int, w0.passive = true →
      (send_command fuel w0.handle "PASV".toList w0).code = some rc → rc ≠ 227 →
      (∀ w1, send_command fuel w0.handle "PASV".toList w0 = Res.ret rc w1 →
        (message rc w1).code = some ()) →
      ∃ w2, ftp_data_connect fuel w0 = Res.ret NOMESSAGE_ERROR w2 ∧ w2.opened = w0.opened) ∧
    (∀ (rc : Int) (command : List Char), w0.passive = false →
      (sprintf_command (port_command l (port_of (w0.rands.headD 0)))
          { w0 with rands := w0.rands.tail }).code = some command →
      (send_command fuel w0.handle command { w0 with rands := w0.rands.tail }).code = some rc →
      rc < 0 →
      ∃ w1, ftp_data_connect fuel w0 = Res.ret rc w1 ∧ w1.opened = w0.opened) := by
  have hi : CNgetinfo w0.handle w0 = Res.ret (some (l, r)) w0 := by
    unfold CNgetinfo; rw [hinfo]
  constructor
  · intro rc hp hcode hrc hshow
    obtain ⟨w1, hsend⟩ := ret_of_code hcode
    obtain ⟨w2, hmsg⟩ := ret_of_code (hshow w1 hsend)
    refine ⟨w2, ?_, ?_⟩
    · unfold ftp_data_connect
      rw [bind_run, get_run]
      dsimp only
      rw [bind_ret hi]
      dsimp only
      simp only [hp, if_true]
      rw [bind_ret hsend, bind_ret hmsg]
      simp only [hrc, ne_eq, not_false_eq_true, if_true]
      rfl
    · have h1 : w2.opened = w1.opened := by
        rw [consoleOnly_message rc w1 () w2 hmsg]
      have h2 := send_command_session fuel w0.handle _ w0 w1 rc hsend
      have h3 : w1.opened = w0.opened := by
        have := congrArg World.opened h2
        exact this
      rw [h1, h3]
  · intro rc command hp hfmt hcode hrc
    have hfmt2 := sprintf_command_code _ _ _ hfmt
    obtain ⟨w1, hsend⟩ := ret_of_code hcode
    refine ⟨w1, ?_, ?_⟩
    · unfold ftp_data_connect
      rw [bind_run, get_run]
      dsimp only
      rw [bind_ret hi]
      dsimp only
      simp only [hp, Bool.false_eq_true, if_false]
      have hg : generate_port w0 = Res.ret (port_of (w0.rands.headD 0))
          { w0 with rands := w0.rands.tail } := rfl
      rw [bind_ret hg, bind_ret hfmt2]
      have hsend2 : send_command fuel w0.handle command { w0 with rands := w0.rands.tail }
          = Res.ret rc w1 := hsend
      rw [bind_ret hsend2]
      simp only [hrc, if_true]
      rfl
    · have h2 := send_command_session fuel w0.handle _ _ w1 rc hsend
      have h3 : w1.opened = w0.opened := by
        have := congrArg World.opened h2
        exact this
      exact h3

/-- C6 as amended, at a 500 reply to PASV and at a PORT whose send fails with -12. -/
theorem ftp_data_connect_failed_exchange_witness :
    (∃ w2, ftp_data_connect 5 refusedWorld = Res.ret NOMESSAGE_ERROR w2 ∧
      w2.opened = refusedWorld.opened) ∧
    (∃ w1, ftp_data_connect 5 sendFailsWorld = Res.ret (-12) w1 ∧
      w1.opened = sendFailsWorld.opened) :=
  ⟨(ftp_data_connect_failed_exchange 5 refusedWorld
      { q0 := 10, q1 := 0, q2 := 0, q3 := 2 } { q0 := 10, q1 := 0, q2 := 0, q3 := 1 }
      (by decide)).1 500 (by decide) (by decide!) (by decide)
      (Res.forall_ret refusedWorld (by decide!)),
   (ftp_data_connect_failed_exchange 5 sendFailsWorld
      { q0 := 10, q1 := 0, q2 := 0, q3 := 2 } { q0 := 10, q1 := 0, q2 := 0, q3 := 1 }
      (by decide)).2 (-12) "PORT 10,0,0,2,226,71".toList (by decide) (by decide!) (by decide!)
      (by decide)⟩

/-! ## C1, C2: the reply reader, one line at a time -/

theorem findConn_setConn (h : Int) (c c0 : Conn) (net : List (Int × Conn))
    (hf : findConn h net = some c0) : findConn h (setConn h c net) = some c := by
  induction net with
  | nil => cases hf
  | cons e rest ih =>
    obtain ⟨k, d⟩ := e
    by_cases hk : k = h
    · simp [findConn, setConn, hk]
    · simp only [findConn, hk, if_false] at hf
      simp [findConn, setConn, hk, ih hf]

theorem deliver_queue (c : Conn) : ∃ seg, c.deliver.queue = c.queue ++ seg := by
  unfold Conn.deliver
  split
  · exact ⟨[], by simp⟩
  · exact ⟨_, rfl⟩

theorem not_ended_of_queue (c : Conn) (h : c.queue ≠ []) : c.ended = false := by
  unfold Conn.ended
  cases hq : c.queue with
  | nil => exact absurd hq h
  | cons a t => simp

/-- The first loop of `get_one_line` when four bytes or more are waiting. -/
theorem wait_header_ready (fuel : Nat) (h : Int) (w : World) (c : Conn) (q : List Char)
    (hc : findConn h w.net = some c) (hq : c.queue = q) (hlen : 4 ≤ q.length) :
    ∃ net1 c1 seg, wait_header (fuel + 1) h w = Res.ret 0 { w with net := net1 } ∧
      findConn h net1 = some c1 ∧ c1.queue = q ++ seg := by
  obtain ⟨seg, hseg⟩ := deliver_queue c
  have hne : c.deliver.queue ≠ [] := by
    rw [hseg, hq]
    intro e
    have := congrArg List.length e
    rw [List.length_append, List.length_nil] at this
    omega
  have hcount : CNbyte_count h w = Res.ret (c.deliver.queue.length : Int)
      { w with net := setConn h c.deliver w.net } := by
    unfold CNbyte_count
    simp only [hc, not_ended_of_queue _ hne]
    rfl
  refine ⟨setConn h c.deliver w.net, c.deliver, seg, ?_, ?_, ?_⟩
  · unfold wait_header
    rw [bind_ret hcount]
    have : (c.deliver.queue.length : Int) ≥ (HEADER_LEN : Int) := by
      rw [hseg, hq]
      simp only [HEADER_LEN, List.length_append]
      omega
    simp only [this, if_true]
    rfl
  · exact findConn_setConn h _ c _ hc
  · rw [hseg, hq]

/-- The call `CNget_block` when the bytes asked for are waiting. -/
theorem CNget_block_ready (h : Int) (n : Nat) (w : World) (c : Conn) (hd tl : List Char)
    (hc : findConn h w.net = some c) (hq : c.queue = hd ++ tl) (hn : hd.length = n) (hpos : 0 < n) :
    ∃ net1 c1 seg, CNget_block h n w = Res.ret ((n : Int), hd) { w with net := net1 } ∧
      findConn h net1 = some c1 ∧ c1.queue = tl ++ seg := by
  obtain ⟨seg, hseg⟩ := deliver_queue c
  have hqq : c.deliver.queue = hd ++ (tl ++ seg) := by rw [hseg, hq]; simp
  have hne : c.deliver.queue ≠ [] := by
    rw [hqq]
    intro e
    have := congrArg List.length e
    rw [List.length_append, List.length_nil] at this
    omega
  refine ⟨setConn h { c.deliver with queue := c.deliver.queue.drop n } w.net,
    { c.deliver with queue := c.deliver.queue.drop n }, seg, ?_, ?_, ?_⟩
  · unfold CNget_block
    simp only [hc, not_ended_of_queue _ hne]
    have hle : n ≤ c.deliver.queue.length := by
      rw [hqq]; simp; omega
    simp only [hle, if_true, Bool.false_eq_true, if_false]
    have ht : c.deliver.queue.take n = hd := by
      rw [hqq, ← hn]; simp
    rw [ht]
  · exact findConn_setConn h _ c _ hc
  · show c.deliver.queue.drop n = tl ++ seg
    rw [hqq, ← hn]; simp

theorem span_until (text rest : List Char) (delim : Char) (h : delim ∉ text) :
    (text ++ delim :: rest).span (fun x => x != delim) = (text, delim :: rest) := by
  induction text with
  | nil => simp [List.span_eq_take_drop]
  | cons a t ih =>
    have ha : a ≠ delim := fun e => h (by simp [e])
    have ht : delim ∉ t := fun e => h (by simp [e])
    have ih2 := ih ht
    rw [List.span_eq_take_drop] at ih2 ⊢
    simp only [Prod.mk.injEq] at ih2
    simp [List.takeWhile_cons, List.dropWhile_cons, ha, ih2.1, ih2.2]

/-- The call `CNgets` when a whole line is waiting and fits. -/
theorem CNgets_ready (h : Int) (len : Int) (delim : Char) (w : World) (c : Conn)
    (text rest : List Char)
    (hc : findConn h w.net = some c) (hq : c.queue = text ++ delim :: rest)
    (hd : delim ∉ text) (hfit : (text.length : Int) + 1 ≤ len) :
    ∃ net1 c1 seg, CNgets h len delim w = Res.ret ((text.length : Int), text) { w with net := net1 } ∧
      findConn h net1 = some c1 ∧ c1.queue = rest ++ seg := by
  obtain ⟨seg, hseg⟩ := deliver_queue c
  have hqq : c.deliver.queue = text ++ delim :: (rest ++ seg) := by rw [hseg, hq]; simp
  refine ⟨setConn h { c.deliver with queue := rest ++ seg } w.net,
    { c.deliver with queue := rest ++ seg }, seg, ?_, ?_, rfl⟩
  · unfold CNgets
    simp only [hc]
    rw [hqq, span_until text (rest ++ seg) delim hd]
    simp only [hfit, if_true]
  · exact findConn_setConn h _ c _ hc

/-- A store into the reply buffer at the end of a known prefix. -/
theorem poke_reply_append (p : Nat) (bytes A B : List Char) (w : World)
    (hrep : w.reply = some (A ++ B)) (hp : p = A.length) (hlen : bytes.length ≤ B.length) :
    poke_reply p bytes w = Res.ret () { w with reply := some (A ++ bytes ++ B.drop bytes.length) } := by
  unfold poke_reply
  simp only [hrep]
  unfold store
  have h1 : p + bytes.length ≤ (A ++ B).length := by simp; omega
  simp only [h1, if_true]
  have h2 : (A ++ B).take p = A := by rw [hp]; simp
  have h3 : (A ++ B).drop (p + bytes.length) = B.drop bytes.length := by
    rw [hp, List.drop_append_eq_append_drop]
    simp
  rw [h2, h3]
theorem getD_three_append (hdr : List Char) (hlen : hdr.length = 4) :
    (hdr ++ [NUL]).getD 3 NUL = hdr.getD 3 NUL := by
  match hdr, hlen with
  | [a, b, c, d], _ => rfl

/-- The second loop of `get_one_line` when the rest of the line is waiting
and fits the limit given. -/
theorem read_rest_ready (fuel : Nat) (h : Int) (q : Nat) (maxlen : Int) (w : World) (c : Conn)
    (text rest A B : List Char)
    (hc : findConn h w.net = some c) (hq : c.queue = text ++ '\n' :: rest) (hnl : '\n' ∉ text)
    (hrep : w.reply = some (A ++ B)) (hqA : q = A.length) (hfit : text.length + 1 ≤ B.length)
    (hmax : (text.length : Int) + 2 ≤ maxlen) (hshort : text.length + 2 ≤ 32767) :
    ∃ net1 c1 seg, read_rest (fuel + 1) h q maxlen w
        = Res.ret (LineExit.brk (text.length : Int) q)
            { w with net := net1,
                     reply := some (A ++ (text ++ [NUL]) ++ B.drop (text ++ [NUL]).length) } ∧
      findConn h net1 = some c1 ∧ c1.queue = rest ++ seg := by
  have hlim : (text.length : Int) + 1 ≤ (if maxlen > SHRT_MAX then SHRT_MAX else maxlen) - 1 := by
    unfold SHRT_MAX
    split <;> omega
  obtain ⟨neta, ca, sa, ha, hca, hqa⟩ := CNgets_ready h _ '\n' w c text rest hc hq hnl hlim
  have hpoke := poke_reply_append q (text ++ [NUL]) A B { w with net := neta } hrep hqA
    (by simp; omega)
  refine ⟨neta, ca, sa, ?_, hca, hqa⟩
  unfold read_rest
  dsimp only
  rw [bind_ret ha]
  dsimp only
  have e1 : ¬ ((text.length : Int) = E_BIGBUF) := by unfold E_BIGBUF; omega
  have e2 : (text.length : Int) ≠ E_NODATA := by unfold E_NODATA; omega
  have e3 : (text.length : Int) ≥ 0 := by omega
  simp only [e1, e2, e3, if_false, if_true, ne_eq, not_false_eq_true]
  rw [bind_ret hpoke]
  rfl
/-- Source `get_one_line` on a line that has arrived and fits the buffer
with the limit given: the header and the text are stored at `p`, a newline
and a NUL after them, and the result is 0 for a header that ends in a
space, 1 for any other. -/
theorem get_one_line_line (fuel : Nat) (h : Int) (p : Nat) (maxlen : Int) (w : World) (c : Conn)
    (mem hdr text rest : List Char)
    (hc : findConn h w.net = some c)
    (hq : c.queue = hdr ++ (text ++ '\n' :: rest))
    (hlen : hdr.length = 4) (hnulh : NUL ∉ hdr) (hnl : '\n' ∉ text)
    (hmem : w.reply = some mem) (hfit : p + 4 + text.length + 2 ≤ mem.length)
    (hmax : (text.length : Int) + 2 ≤ maxlen) (hshort : text.length + 2 ≤ 32767) :
    ∃ net1 c1 seg, get_one_line (fuel + 1) h p maxlen w
        = Res.ret (if hdr.getD 3 NUL = ' ' then 0 else 1, p + 4 + text.length + 1)
            { w with net := net1, header := hdr ++ [NUL],
                     reply := some (mem.take p ++ hdr ++ text ++ ['\n', NUL]
                                      ++ mem.drop (p + 4 + text.length + 2)) } ∧
      findConn h net1 = some c1 ∧ c1.queue = rest ++ seg := by
  -- the header is waiting
  obtain ⟨neta, ca, sa, ha, hca, hqa⟩ :=
    wait_header_ready fuel h w c _ hc hq (by simp [hlen])
  have hqa2 : ca.queue = hdr ++ (text ++ '\n' :: (rest ++ sa)) := by rw [hqa]; simp
  obtain ⟨netb, cb, sb, hb, hcb, hqb⟩ :=
    CNget_block_ready h HEADER_LEN { w with net := neta } ca hdr _ hca hqa2 hlen (by decide)
  have hqb2 : cb.queue = text ++ '\n' :: (rest ++ sa ++ sb) := by rw [hqb]; simp
  -- the header goes into the buffer
  have hsplit : mem = mem.take p ++ mem.drop p := (List.take_append_drop p mem).symm
  have hA : (mem.take p).length = p := by simp; omega
  have hB : (mem.drop p).length = mem.length - p := by simp
  have hpoke1 := poke_reply_append p (hdr ++ [NUL]) (mem.take p) (mem.drop p)
    { w with net := netb, header := hdr ++ [NUL] } (by show w.reply = _; rw [hmem, ← hsplit]) hA.symm
    (by simp [hlen]; omega)
  -- the rest of the line
  have hrep2 : ({ w with
        net := netb, header := hdr ++ [NUL],
        reply := some (mem.take p ++ (hdr ++ [NUL]) ++ (mem.drop p).drop (hdr ++ [NUL]).length) }
      : World).reply
      = some ((mem.take p ++ hdr) ++ (NUL :: (mem.drop p).drop 5)) := by
    show some _ = some _
    simp [hlen]
  obtain ⟨netc, cc, sc, hcr, hcc, hqc⟩ :=
    read_rest_ready fuel h (p + HEADER_LEN) maxlen _ cb text _ (mem.take p ++ hdr)
      (NUL :: (mem.drop p).drop 5) hcb hqb2 hnl hrep2
      (by simp [HEADER_LEN, hlen]; omega) (by simp; omega) hmax hshort
  -- the newline and the NUL
  have hpoke3 := poke_reply_append (p + HEADER_LEN + (text.length : Int).toNat) ['\n']
    (mem.take p ++ hdr ++ text) (NUL :: ((NUL :: (mem.drop p).drop 5).drop (text ++ [NUL]).length))
    { w with
        net := netc, header := hdr ++ [NUL],
        reply := some ((mem.take p ++ hdr) ++ (text ++ [NUL])
          ++ (NUL :: (mem.drop p).drop 5).drop (text ++ [NUL]).length) }
    (by show some _ = some _; simp)
    (by simp [HEADER_LEN, hlen]; omega) (by simp)
  have hpoke4 := poke_reply_append (p + HEADER_LEN + (text.length : Int).toNat + 1) [NUL]
    (mem.take p ++ hdr ++ text ++ ['\n']) ((NUL :: (mem.drop p).drop 5).drop (text ++ [NUL]).length)
    { w with
        net := netc, header := hdr ++ [NUL],
        reply := some ((mem.take p ++ hdr ++ text) ++ ['\n']
          ++ (NUL :: ((NUL :: (mem.drop p).drop 5).drop (text ++ [NUL]).length)).drop ['\n'].length) }
    (by show some _ = some _; simp)
    (by simp [HEADER_LEN, hlen]; omega) (by simp; omega)
  refine ⟨netc, cc, sa ++ (sb ++ sc), ?_, hcc, by rw [hqc]; simp⟩
  unfold get_one_line
  rw [bind_ret ha]
  simp only [ne_eq, not_true_eq_false, if_false]
  rw [bind_ret hb]
  dsimp only
  simp only [ne_eq, not_true_eq_false, if_false]
  rw [bind_run, modify_run]
  dsimp only
  rw [bind_run, get_run]
  dsimp only
  rw [cstr_append_nul hdr [] hnulh]
  rw [bind_ret hpoke1]
  rw [bind_ret hcr]
  dsimp only
  have e3 : (text.length : Int) ≥ 0 := by omega
  simp only [e3, if_true]
  rw [bind_ret hpoke3, bind_ret hpoke4]
  rw [bind_run, get_run]
  dsimp only
  have hidx : HEADER_LEN - 1 = 3 := rfl
  have hpos : p + HEADER_LEN + ((text.length : Int)).toNat + 1 = p + 4 + text.length + 1 := by
    simp [HEADER_LEN]
  have hmemeq : List.take p mem ++ hdr ++ text ++ ['\n'] ++ [NUL]
        ++ List.drop [NUL].length
            (List.drop (text ++ [NUL]).length (NUL :: List.drop 5 (List.drop p mem)))
      = List.take p mem ++ hdr ++ text ++ ['\n', NUL] ++ List.drop (p + 4 + text.length + 2) mem := by
    have e1 : List.drop [NUL].length
        (List.drop (text ++ [NUL]).length (NUL :: List.drop 5 (List.drop p mem)))
        = List.drop (p + 4 + text.length + 2) mem := by
      simp only [List.length_append, List.length_singleton, List.drop_succ_cons, List.drop_drop]
      congr 1
      omega
    rw [e1]
    simp
  rw [hidx, getD_three_append hdr hlen, hpos, hmemeq]
  rfl
/-- C2, as stated, fails: the line `220xhello` has `x` as fourth header
byte, yet `get_one_line` returns 1 for it, as for a continuation line, and
`get_reply` reads on and returns the code of the line after it. -/
theorem get_one_line_accepts_other_indicator :
    (get_one_line 5 3 0 1000 (connectedWorld ["220xhello\r\n".toList])).code = some (1, 11) ∧
    ((get_one_line 5 3 0 1000 (connectedWorld ["220xhello\r\n".toList])).code.map Prod.fst)
      ≠ some INTERNAL_ERROR ∧
    (get_reply 5 3 (connectedWorld ["220xhello\r\n220 bye\r\n".toList])).code = some 220 ∧
    ((get_reply 5 3 (connectedWorld ["220xhello\r\n220 bye\r\n".toList])).world.map
      World.replyText) = some "220xhello\r\n220 bye\r\n".toList := by
  decide!

/-- C2 as amended: a line whose fourth header byte is not a space, be it
`-` or any other byte, is taken as a continuation line.  Once the line has
arrived and fits the buffer within the limit given, `get_one_line` stores
header, text, newline and NUL at the write position and returns 1, never
`INTERNAL_ERROR`. -/
theorem get_one_line_continues_unless_space (fuel : Nat) (h : Int) (p : Nat) (maxlen : Int)
    (w : World) (c : Conn) (mem hdr text rest : List Char)
    (hc : findConn h w.net = some c)
    (hq : c.queue = hdr ++ (text ++ '\n' :: rest))
    (hlen : hdr.length = 4) (hnulh : NUL ∉ hdr) (hind : hdr.getD 3 NUL ≠ ' ')
    (hnl : '\n' ∉ text)
    (hmem : w.reply = some mem) (hfit : p + 4 + text.length + 2 ≤ mem.length)
    (hmax : (text.length : Int) + 2 ≤ maxlen) (hshort : text.length + 2 ≤ 32767) :
    ∃ net1, get_one_line (fuel + 1) h p maxlen w
        = Res.ret (1, p + 4 + text.length + 1)
            { w with net := net1, header := hdr ++ [NUL],
                     reply := some (mem.take p ++ hdr ++ text ++ ['\n', NUL]
                                      ++ mem.drop (p + 4 + text.length + 2)) } := by
  obtain ⟨net1, c1, seg, hrun, _, _⟩ :=
    get_one_line_line fuel h p maxlen w c mem hdr text rest hc hq hlen hnulh hnl hmem hfit hmax hshort
  refine ⟨net1, ?_⟩
  rw [hrun]
  simp only [hind, if_false]

/-- C2 as amended, at the line `220xhello`. -/
theorem get_one_line_continues_unless_space_witness :
    ∃ net1, get_one_line (0 + 1) 3 0 1000 (arrivedWorld ("220x".toList ++ ("hello\r".toList ++ '\n' :: [])))
        = Res.ret (1, 0 + 4 + "hello\r".toList.length + 1)
            { arrivedWorld ("220x".toList ++ ("hello\r".toList ++ '\n' :: [])) with
              net := net1, header := "220x".toList ++ [NUL],
              reply := some ((List.replicate 1000 NUL).take 0 ++ "220x".toList ++ "hello\r".toList
                              ++ ['\n', NUL]
                              ++ (List.replicate 1000 NUL).drop (0 + 4 + "hello\r".toList.length + 2)) } :=
  get_one_line_continues_unless_space 0 3 0 1000
    (arrivedWorld ("220x".toList ++ ("hello\r".toList ++ '\n' :: [])))
    { queue := "220x".toList ++ ("hello\r".toList ++ '\n' :: []) }
    (List.replicate 1000 NUL) "220x".toList "hello\r".toList []
    rfl rfl (by decide) (by decide) (by decide) (by decide) rfl
    (by rw [List.length_replicate]; decide) (by decide) (by decide)

/-! ## C1: the overrun of the reply buffer -/

/-- C1, at failing inputs.  With the 1000-byte buffer `ftp_connect`
allocates: a single final line of 994 bytes of text is read as claimed, but
with 995 bytes of text (1000 bytes with header and newline, so that the NUL
needs a 1001st byte) `get_reply` stores past the end of the buffer; and when
a first line has filled the grown buffer to its last byte, the header of the
next line is stored past its end.  No key is pressed and every `malloc`
succeeds. -/
theorem get_reply_overruns_reply_buffer :
    (get_reply 5 3 (connectedWorld ["220 ".toList ++ List.replicate 994 'a' ++ ['\n']])).code
      = some 220 ∧
    (get_reply 5 3 (connectedWorld ["220 ".toList ++ List.replicate 995 'a' ++ ['\n']])).isFault
      = true ∧
    (get_reply 5 3 (connectedWorld
      ["220-".toList ++ List.replicate 1994 'a' ++ ['\n'] ++ "220 ok\n".toList])).isFault = true := by
  decide!

/-! ## C1: replies that fit the buffer as it is -/

theorem wireReply_length_pos (cont : List (List Char × List Char)) (final : List Char × List Char) :
    0 < (wireReply cont final).length := by
  cases cont with
  | nil => simp [wireReply, wireLine]
  | cons l ls => simp [wireReply, wireLine]

/-- The loop of `get_reply` on a reply that has arrived and fits, NUL
included, in the buffer as it is: every line is appended in order and the
code of the final line's header returned. -/
theorem get_reply_loop_fitting (h : Int) (final : List Char × List Char)
    (hfinal : WellFramed final) (hsp : final.1.getD 3 NUL = ' ')
    (cont : List (List Char × List Char)) :
    ∀ (fuel p : Nat) (w : World) (c : Conn) (mem rest : List Char),
      (∀ l ∈ cont, WellFramed l ∧ l.1.getD 3 NUL ≠ ' ') →
      findConn h w.net = some c → c.queue = wireReply cont final ++ rest →
      w.reply = some mem → w.reply_size = mem.length →
      p + (wireReply cont final).length + 1 ≤ mem.length →
      (wireReply cont final).length + 1 ≤ 32767 →
      ∃ net1, get_reply_loop (cont.length + 2 + fuel) h p w
        = Res.ret (atoi w.overflows final.1)
            { w with net := net1, header := final.1 ++ [NUL],
                     reply := some (mem.take p ++ wireReply cont final ++ [NUL]
                                      ++ mem.drop (p + (wireReply cont final).length + 1)) } := by
  induction cont with
  | nil =>
    intro fuel p w c mem rest _ hc hq hmem hsize hfit hshort
    obtain ⟨h4, hn, hnl⟩ := hfinal
    have hlenw : (wireReply [] final).length = 4 + final.2.length + 1 := by
      simp [wireReply, wireLine, h4]; omega
    rw [hlenw] at hfit hshort
    have hq2 : c.queue = final.1 ++ (final.2 ++ '\n' :: rest) := by
      rw [hq]; simp [wireReply, wireLine]
    obtain ⟨net1, c1, seg, hrun, _, _⟩ :=
      get_one_line_line fuel h p ((w.reply_size : Int) - p) w c mem final.1 final.2 rest hc hq2 h4 hn
        hnl hmem (by omega) (by rw [hsize]; omega) (by omega)
    refine ⟨net1, ?_⟩
    have hf : ([] : List (List Char × List Char)).length + 2 + fuel = (fuel + 1) + 1 := by
      simp only [List.length_nil]; omega
    rw [hf]
    unfold get_reply_loop
    rw [bind_run, get_run]
    dsimp only
    rw [bind_ret hrun]
    simp only [hsp, if_true]
    simp only [show ¬ ((0 : Int) < 0) by decide, if_false]
    rw [bind_run, get_run]
    dsimp only
    rw [cstr_append_nul final.1 [] hn]
    have hm : List.take p mem ++ final.1 ++ final.2 ++ ['\n', NUL]
          ++ List.drop (p + 4 + final.2.length + 2) mem
        = List.take p mem ++ wireReply [] final ++ [NUL]
          ++ List.drop (p + (wireReply [] final).length + 1) mem := by
      rw [hlenw]
      simp only [wireReply, wireLine]
      have : p + 4 + final.2.length + 2 = p + (4 + final.2.length + 1) + 1 := by omega
      rw [this]
      simp
    rw [hm]
    rfl
  | cons l ls ih =>
    intro fuel p w c mem rest hcont hc hq hmem hsize hfit hshort
    obtain ⟨⟨h4, hn, hnl⟩, hns⟩ := hcont l (by simp)
    have hpos := wireReply_length_pos ls final
    have hlenw : (wireReply (l :: ls) final).length
        = 4 + l.2.length + 1 + (wireReply ls final).length := by
      simp [wireReply, wireLine, h4]; omega
    rw [hlenw] at hfit hshort
    have hq2 : c.queue = l.1 ++ (l.2 ++ '\n' :: (wireReply ls final ++ rest)) := by
      rw [hq]; simp [wireReply, wireLine]
    obtain ⟨net1, c1, seg, hrun, hc1, hq1⟩ :=
      get_one_line_line (ls.length + 1 + fuel) h p ((w.reply_size : Int) - p) w c mem l.1 l.2 _
        hc hq2 h4 hn hnl hmem (by omega) (by rw [hsize]; omega) (by omega)
    have hq1b : c1.queue = wireReply ls final ++ (rest ++ seg) := by rw [hq1]; simp
    have hlen1 : (List.take p mem ++ l.1 ++ l.2 ++ ['\n', NUL]
        ++ List.drop (p + 4 + l.2.length + 2) mem).length = mem.length := by
      simp [h4]; omega
    obtain ⟨net2, hrest⟩ := ih fuel (p + 4 + l.2.length + 1)
      { w with net := net1, header := l.1 ++ [NUL],
               reply := some (List.take p mem ++ l.1 ++ l.2 ++ ['\n', NUL]
                                ++ List.drop (p + 4 + l.2.length + 2) mem) }
      c1 _ (rest ++ seg) (fun x hx => hcont x (by simp [hx])) hc1 hq1b rfl
      (by show w.reply_size = _; rw [hsize, hlen1]) (by rw [hlen1]; omega) (by omega)
    refine ⟨net2, ?_⟩
    have hf : (l :: ls).length + 2 + fuel = (ls.length + 1 + fuel + 1) + 1 := by
      simp only [List.length_cons]; omega
    rw [hf]
    unfold get_reply_loop
    rw [bind_run, get_run]
    dsimp only
    rw [bind_ret hrun]
    simp only [hns, if_false]
    simp only [show ¬ ((1 : Int) < 0) by decide, show ¬ ((1 : Int) = 0) by decide, if_false]
    have hfu : ls.length + 1 + fuel + 1 = ls.length + 2 + fuel := by omega
    rw [hfu, hrest]
    have hX : (List.take p mem ++ l.1 ++ l.2 ++ ['\n']).length = p + 4 + l.2.length + 1 := by
      simp [h4]; omega
    have hM : List.take p mem ++ l.1 ++ l.2 ++ ['\n', NUL] ++ List.drop (p + 4 + l.2.length + 2) mem
        = (List.take p mem ++ l.1 ++ l.2 ++ ['\n'])
          ++ NUL :: List.drop (p + 4 + l.2.length + 2) mem := by
      simp
    have hT : List.take (p + 4 + l.2.length + 1)
        (List.take p mem ++ l.1 ++ l.2 ++ ['\n', NUL] ++ List.drop (p + 4 + l.2.length + 2) mem)
        = List.take p mem ++ l.1 ++ l.2 ++ ['\n'] := by
      rw [hM]
      exact List.take_left' hX
    have hD : List.drop (p + 4 + l.2.length + 1 + (wireReply ls final).length + 1)
        (List.take p mem ++ l.1 ++ l.2 ++ ['\n', NUL] ++ List.drop (p + 4 + l.2.length + 2) mem)
        = List.drop (p + (4 + l.2.length + 1 + (wireReply ls final).length) + 1) mem := by
      rw [hM]
      have e : p + 4 + l.2.length + 1 + (wireReply ls final).length + 1
          = (List.take p mem ++ l.1 ++ l.2 ++ ['\n']).length + ((wireReply ls final).length + 1) := by
        rw [hX]; omega
      rw [e, List.drop_append, List.drop_succ_cons, List.drop_drop]
      congr 1
      omega
    rw [hT, hD, hlenw]
    have hW : List.take p mem ++ l.1 ++ l.2 ++ ['\n'] ++ wireReply ls final
        = List.take p mem ++ wireReply (l :: ls) final := by
      simp [wireReply, wireLine]
    rw [hW]
theorem digitVal_le (c : Char) (h : c.isDigit = true) : digitVal c ≤ 9 := by
  have h1 : 48 ≤ c.val ∧ c.val ≤ 57 := by
    simpa [Char.isDigit] using h
  have e2 : c.val.toNat ≤ 57 := by
    have := h1.2
    rw [UInt32.le_def] at this; exact this
  have e3 : c.toNat = c.val.toNat := rfl
  unfold digitVal
  omega

/-- Three digits make a number below 1000. -/
theorem decVal_three (ds : List Char) (hlen : ds.length = 3) (hd : ∀ d ∈ ds, d.isDigit = true) :
    decVal ds ≤ 999 := by
  match ds, hlen with
  | [a, b, c], _ =>
    have ha := digitVal_le a (hd a (by simp))
    have hb := digitVal_le b (hd b (by simp))
    have hc := digitVal_le c (hd c (by simp))
    show 10 * (10 * (10 * 0 + digitVal a) + digitVal b) + digitVal c ≤ 999
    omega

theorem atoi_code (over : List (Int × Int)) (ds : List Char) (hlen : ds.length = 3)
    (hd : ∀ d ∈ ds, d.isDigit = true) :
    atoi over (ds ++ [' ']) = (decVal ds : Int) := by
  have hne : ds ≠ [] := by
    intro e
    rw [e] at hlen
    cases hlen
  have h999 := decVal_three ds hlen hd
  unfold atoi
  rw [scanInt_numeral over ds ' ' [] ⟨hne, hd⟩ (by decide), convert16_fits over _ (by omega)]

/-- C1 for replies that fit: when the N continuation lines (`ccc-`, text,
newline) and the final line (`ddd `, text, newline) have arrived and fit,
with the NUL after them, in the reply buffer as it is, `get_reply` returns
the number `ddd` and the buffer holds the N+1 lines in order, each with its
newline, and a NUL after them. -/
theorem get_reply_fitting_reply (fuel : Nat) (h : Int) (w : World) (c : Conn)
    (mem rest ds text : List Char) (cont : List (List Char × List Char))
    (hcont : ∀ l ∈ cont, ∃ ccc, l.1 = ccc ++ ['-'] ∧ ccc.length = 3 ∧ NUL ∉ ccc ∧ '\n' ∉ l.2)
    (hds : ds.length = 3) (hdig : ∀ d ∈ ds, d.isDigit = true) (hnl : '\n' ∉ text)
    (hc : findConn h w.net = some c)
    (hq : c.queue = wireReply cont (ds ++ [' '], text) ++ rest)
    (hmem : w.reply = some mem) (hsize : w.reply_size = mem.length)
    (hfit : (wireReply cont (ds ++ [' '], text)).length + 1 ≤ mem.length)
    (hshort : (wireReply cont (ds ++ [' '], text)).length + 1 ≤ 32767) :
    ∃ net1, get_reply (cont.length + 2 + fuel) h w
      = Res.ret (decVal ds : Int)
          { w with net := net1, header := ds ++ [' '] ++ [NUL],
                   reply := some (wireReply cont (ds ++ [' '], text) ++ [NUL]
                     ++ mem.drop ((wireReply cont (ds ++ [' '], text)).length + 1)) } := by
  have hne : ds ≠ [] := by
    intro e; rw [e] at hds; cases hds
  have hnulds : NUL ∉ ds := fun hm => (isDigit_not_sign NUL (hdig NUL hm)).2.2.2 rfl
  have hfinal : WellFramed (ds ++ [' '], text) := by
    refine ⟨by simp [hds], ?_, hnl⟩
    simp only [List.mem_append, List.mem_singleton, not_or]
    exact ⟨hnulds, by decide⟩
  have hsp : (ds ++ [' ']).getD 3 NUL = ' ' := by
    match ds, hds with
    | [a, b, c], _ => rfl
  have hcont2 : ∀ l ∈ cont, WellFramed l ∧ l.1.getD 3 NUL ≠ ' ' := by
    intro l hl
    obtain ⟨ccc, e, h3, hn, hnl2⟩ := hcont l hl
    refine ⟨⟨by rw [e]; simp [h3], ?_, hnl2⟩, ?_⟩
    · rw [e]
      simp only [List.mem_append, List.mem_singleton, not_or]
      exact ⟨hn, by decide⟩
    · rw [e]
      match ccc, h3 with
      | [a, b, c], _ => exact (show ('-' : Char) ≠ ' ' by decide)
  obtain ⟨net1, hrun⟩ := get_reply_loop_fitting h (ds ++ [' '], text) hfinal hsp cont fuel 0 w c mem
    rest hcont2 hc hq hmem hsize (by omega) hshort
  refine ⟨net1, ?_⟩
  unfold get_reply
  rw [hrun]
  have ha : atoi w.overflows (ds ++ [' '], text).1 = (decVal ds : Int) :=
    atoi_code _ ds hds hdig
  rw [ha]
  simp

/-! ## C17: nothing happens without a control connection -/

/-- C17: with an invalid control handle (`handle < 0`) each of `ftp_pwd`,
`ftp_cwd`, `ftp_cdup`, `ftp_delete`, `ftp_mkdir`, `ftp_rmdir`, `ftp_rename`,
`ftp_system`, `ftp_bye`, `ftp_type`, `ftp_get`, `ftp_put`, `ftp_dir`,
`ftp_nlist`, `ftp_matching` and `ftp_disconnect` returns `NOT_CONNECTED` and
leaves the whole world as it was: nothing sent, nothing read, no key taken,
no session variable and no collector changed. -/
theorem not_connected_is_inert (fuel : Nat) (w : World) (hneg : w.handle < 0) :
    ftp_pwd fuel w = Res.ret NOT_CONNECTED w ∧
    (∀ path, ftp_cwd fuel path w = Res.ret NOT_CONNECTED w) ∧
    ftp_cdup fuel w = Res.ret NOT_CONNECTED w ∧
    (∀ file multiple, ftp_delete fuel file multiple w = Res.ret NOT_CONNECTED w) ∧
    (∀ dir, ftp_mkdir fuel dir w = Res.ret NOT_CONNECTED w) ∧
    (∀ dir, ftp_rmdir fuel dir w = Res.ret NOT_CONNECTED w) ∧
    (∀ a b, ftp_rename fuel a b w = Res.ret NOT_CONNECTED w) ∧
    ftp_system fuel w = Res.ret NOT_CONNECTED w ∧
    ftp_bye fuel w = Res.ret NOT_CONNECTED w ∧
    (∀ t, ftp_type fuel t w = Res.ret NOT_CONNECTED w) ∧
    (∀ l r multiple, ftp_get fuel l r multiple w = Res.ret NOT_CONNECTED w) ∧
    (∀ l r multiple, ftp_put fuel l r multiple w = Res.ret NOT_CONNECTED w) ∧
    (∀ dir file, ftp_dir fuel dir file w = Res.ret NOT_CONNECTED w) ∧
    (∀ dir file, ftp_nlist fuel dir file w = Res.ret NOT_CONNECTED w) ∧
    (∀ b file, ftp_matching fuel b file w = Res.ret (NOT_CONNECTED, b) w) ∧
    ftp_disconnect w = Res.ret NOT_CONNECTED w := by
  have hdir : ∀ cmd dir file b,
      ftp_directory fuel cmd dir file b w = Res.ret (NOT_CONNECTED, b) w := by
    intro cmd dir file b
    unfold ftp_directory
    rw [bind_run, get_run]
    simp only [hneg, if_true]
    rfl
  refine ⟨?_, ?_, ?_, ?_, ?_, ?_, ?_, ?_, ?_, ?_, ?_, ?_, ?_, ?_, ?_, ?_⟩
  · unfold ftp_pwd; rw [bind_run, get_run]; simp only [hneg, if_true]; rfl
  · intro p; unfold ftp_cwd; rw [bind_run, get_run]; simp only [hneg, if_true]; rfl
  · unfold ftp_cdup; rw [bind_run, get_run]; simp only [hneg, if_true]; rfl
  · intro f m; unfold ftp_delete; rw [bind_run, get_run]; simp only [hneg, if_true]; rfl
  · intro d; unfold ftp_mkdir; rw [bind_run, get_run]; simp only [hneg, if_true]; rfl
  · intro d; unfold ftp_rmdir; rw [bind_run, get_run]; simp only [hneg, if_true]; rfl
  · intro a b; unfold ftp_rename; rw [bind_run, get_run]; simp only [hneg, if_true]; rfl
  · unfold ftp_system; rw [bind_run, get_run]; simp only [hneg, if_true]; rfl
  · unfold ftp_bye; rw [bind_run, get_run]; simp only [hneg, if_true]; rfl
  · intro t; unfold ftp_type; rw [bind_run, get_run]; simp only [hneg, if_true]; rfl
  · intro l r m; unfold ftp_get; rw [bind_run, get_run]; simp only [hneg, if_true]; rfl
  · intro l r m; unfold ftp_put; rw [bind_run, get_run]; simp only [hneg, if_true]; rfl
  · intro d f; unfold ftp_dir; rw [bind_ret (hdir _ d f none)]; rfl
  · intro d f; unfold ftp_nlist; rw [bind_ret (hdir _ d f none)]; rfl
  · intro b f; unfold ftp_matching; rw [bind_run, get_run]; simp only [hneg, if_true]; rfl
  · unfold ftp_disconnect; rw [bind_run, get_run]; simp only [hneg, if_true]; rfl

/-- C17 on the session as the program starts it (`handle` is -1). -/
theorem not_connected_is_inert_witness :
    ({} : World).handle < 0 ∧ ftp_pwd 9 {} = Res.ret NOT_CONNECTED {} ∧
    ftp_disconnect {} = Res.ret NOT_CONNECTED {} :=
  ⟨by decide, (not_connected_is_inert 9 {} (by decide)).1,
    (not_connected_is_inert 9 {} (by decide)).2.2.2.2.2.2.2.2.2.2.2.2.2.2.2⟩

/-! ## C18: RNFR before RNTO -/

theorem sprintf_command_run (text : List Char) (w : World) (hn : NUL ∉ text)
    (hl : text.length + 1 ≤ MAXCMDLEN) : sprintf_command text w = Res.ret text w := by
  unfold sprintf_command
  have : ¬ (text.length + 1 > MAXCMDLEN) := by omega
  simp only [this, if_false]
  rw [cstr_append_nul text [] hn]
  rfl

/-- The diagnostic echo returns or faults; it never waits. -/
theorem send_command_echo_ends (c : List Char) (w : World) :
    send_command_echo c w = Res.fault ∨ ∃ w0, send_command_echo c w = Res.ret () w0 := by
  unfold send_command_echo
  rw [bind_run, get_run]
  dsimp only
  split
  · unfold cprintf
    split
    · exact Or.inl rfl
    · exact Or.inr ⟨_, rfl⟩
  · exact Or.inr ⟨_, rfl⟩

/-- A command that does not fit `cmdsave` with CR, LF and NUL overruns it. -/
theorem send_command_too_long (fuel : Nat) (h : Int) (c : List Char) (w : World)
    (hl : c.length + 3 > CMDSAVE_SIZE) : send_command fuel h c w = Res.fault := by
  unfold send_command
  rcases send_command_echo_ends c w with he | ⟨w0, he⟩
  · rw [bind_fault he]
  · rw [bind_ret he]
    simp only [hl, if_true]
    rfl

/-- A `send_command` that returned had a command that fits `cmdsave`. -/
theorem send_command_fits (fuel : Nat) (h : Int) (c : List Char) (w w1 : World) (rc : Int)
    (hr : send_command fuel h c w = Res.ret rc w1) : c.length + 3 ≤ CMDSAVE_SIZE := by
  by_contra hl
  rw [send_command_too_long fuel h c w (by omega)] at hr
  cases hr

/-- What a returned `send_command` added to the log of `TCP_send`. -/
theorem send_command_sent (fuel : Nat) (h : Int) (c : List Char) (w w1 : World) (rc : Int)
    (hr : send_command fuel h c w = Res.ret rc w1) :
    w1.sent = w.sent ++ [(h, c ++ ['\r', '\n'])] := by
  have := congrArg World.sent (send_command_session fuel h c w w1 rc hr)
  exact this

/-- C18: on a connected session `ftp_rename a b` sends `RNFR a` first.  When
that exchange returns `rc`, nothing but `RNFR a` has been sent; if `rc` is
not 350 `ftp_rename` returns `rc` there and then, so RNTO is never sent; if
`rc` is 350 the reply is shown and `ftp_rename` is the exchange of `RNTO b`:
it returns that command's result, and `RNFR a`, `RNTO b` are the two
commands sent, in this order. -/
theorem rename_is_two_step (fuel : Nat) (w : World) (a b : List Char) (rc : Int)
    (hconn : 0 ≤ w.handle) (ha : NUL ∉ a) (hb : NUL ∉ b)
    (hrc : (send_command fuel w.handle ("RNFR ".toList ++ a) w).code = some rc) :
    ∃ w1, send_command fuel w.handle ("RNFR ".toList ++ a) w = Res.ret rc w1 ∧
      w1.sent = w.sent ++ [(w.handle, "RNFR ".toList ++ a ++ "\r\n".toList)] ∧
      (rc ≠ 350 → ftp_rename fuel a b w = Res.ret rc w1) ∧
      (rc = 350 →
        ftp_rename fuel a b w
          = (message 350 >>= fun _ => send_command fuel w.handle ("RNTO ".toList ++ b)) w1 ∧
        ∀ rc2 w3, ftp_rename fuel a b w = Res.ret rc2 w3 →
          w3.sent = w.sent ++ [(w.handle, "RNFR ".toList ++ a ++ "\r\n".toList),
                               (w.handle, "RNTO ".toList ++ b ++ "\r\n".toList)]) := by
  obtain ⟨w1, hw1⟩ := ret_of_code hrc
  have hfit := send_command_fits fuel _ _ w w1 rc hw1
  have hsent := send_command_sent fuel _ _ w w1 rc hw1
  have hh : ¬ (w.handle < 0) := by omega
  have hna : NUL ∉ "RNFR ".toList ++ a := by
    simp only [List.mem_append, not_or]
    exact ⟨by decide, ha⟩
  have hnb : NUL ∉ "RNTO ".toList ++ b := by
    simp only [List.mem_append, not_or]
    exact ⟨by decide, hb⟩
  have hcmd : sprintf_command ("RNFR ".toList ++ a) w = Res.ret ("RNFR ".toList ++ a) w :=
    sprintf_command_run _ w hna (by simp only [CMDSAVE_SIZE] at hfit; simp only [MAXCMDLEN]; omega)
  have hstep : ftp_rename fuel a b w =
      if rc ≠ 350 then Res.ret rc w1
      else (message rc >>= fun _ =>
        sprintf_command ("RNTO ".toList ++ b) >>= fun command =>
          send_command fuel w.handle command) w1 := by
    unfold ftp_rename
    rw [bind_run, get_run]
    simp only [hh, if_false]
    rw [bind_ret hcmd, bind_ret hw1]
    split <;> rfl
  have htail : ∀ w2, (sprintf_command ("RNTO ".toList ++ b) >>= fun command =>
      send_command fuel w.handle command) w2
        = send_command fuel w.handle ("RNTO ".toList ++ b) w2 := by
    intro w2
    by_cases hl : ("RNTO ".toList ++ b).length + 1 ≤ MAXCMDLEN
    · rw [bind_ret (sprintf_command_run _ w2 hnb hl)]
    · have hf : sprintf_command ("RNTO ".toList ++ b) w2 = Res.fault := by
        unfold sprintf_command
        have : ("RNTO ".toList ++ b).length + 1 > MAXCMDLEN := by omega
        simp only [this, if_true]
        rfl
      rw [bind_fault hf, send_command_too_long]
      simp only [MAXCMDLEN] at hl
      simp only [CMDSAVE_SIZE]
      omega
  have heq : rc = 350 → ftp_rename fuel a b w
      = (message 350 >>= fun _ => send_command fuel w.handle ("RNTO ".toList ++ b)) w1 := by
    intro h350
    rw [hstep]
    simp only [h350, ne_eq, not_true_eq_false, if_false]
    rw [bind_run, bind_run]
    cases message 350 w1 with
    | fault => rfl
    | pending => rfl
    | ret u w2 => exact htail w2
  refine ⟨w1, hw1, ?_, ?_, ?_⟩
  · rw [hsent]; simp
  · intro hne
    rw [hstep]
    simp only [hne, ne_eq, not_false_eq_true, if_true]
  · intro h350
    refine ⟨heq h350, ?_⟩
    intro rc2 w3 hr
    rw [heq h350, bind_run] at hr
    cases hm : message 350 w1 with
    | fault => rw [hm] at hr; cases hr
    | pending => rw [hm] at hr; cases hr
    | ret u w2 =>
      rw [hm] at hr
      dsimp only at hr
      have h2 := send_command_sent fuel _ _ w2 w3 rc2 hr
      have h1 : w2.sent = w1.sent := session_sent (readsOnly_message 350 w1 u w2 hm)
      rw [h2, h1, hsent]
      simp

/-- C18 on the two sessions of the specification: a server that answers
`RNFR a` with 450, and one that answers 350 and then 250 to `RNTO b`. -/
theorem rename_is_two_step_witness :
    (∃ w1, ftp_rename 5 "a".toList "b".toList (connectedWorld ["450 busy\r\n".toList])
        = Res.ret 450 w1 ∧ w1.sent = [(3, "RNFR a\r\n".toList)]) ∧
    (∀ rc2 w3, ftp_rename 5 "a".toList "b".toList
        (connectedWorld ["350 go on\r\n".toList, "250 done\r\n".toList]) = Res.ret rc2 w3 →
      w3.sent = [(3, "RNFR a\r\n".toList), (3, "RNTO b\r\n".toList)]) ∧
    (ftp_rename 5 "a".toList "b".toList
        (connectedWorld ["350 go on\r\n".toList, "250 done\r\n".toList])).code = some 250 := by
  obtain ⟨w1, _, h2, h3, _⟩ := rename_is_two_step 5 (connectedWorld ["450 busy\r\n".toList])
    "a".toList "b".toList 450 (by decide) (by decide) (by decide) (by decide!)
  obtain ⟨_, _, _, _, h5⟩ := rename_is_two_step 5
    (connectedWorld ["350 go on\r\n".toList, "250 done\r\n".toList])
    "a".toList "b".toList 350 (by decide) (by decide) (by decide) (by decide!)
  exact ⟨⟨w1, h3 (by decide), h2⟩, (h5 rfl).2, by decide!⟩

/-! ## C20: growing the reply buffer -/

/-- The end of `expand_buffer`: the optional diagnostic line, then the result. -/
theorem expand_buffer_tail (d : Int) (s : List Char) (x : Option Nat) (w2 : World) :
    ∃ w1, (if d ≠ 0 then (cputs s >>= fun _ => Prog.pure x)
           else (Pure.pure PUnit.unit >>= fun _ => Prog.pure x)) w2 = Res.ret x w1 ∧
      w1.reply = w2.reply ∧ w1.reply_size = w2.reply_size := by
  split
  · exact ⟨_, rfl, rfl, rfl⟩
  · exact ⟨_, rfl, rfl, rfl⟩

/-- What `expand_buffer` does once `malloc` has given it the block `blk`. -/
theorem expand_buffer_with_block (w wm : World) (blk : List Char)
    (hm : malloc (w.reply_size + REPLY_SIZE_INCR) w = Res.ret (some blk) wm)
    (hblk : blk.length = w.reply_size + REPLY_SIZE_INCR)
    (hbuf : ∀ mem, w.reply = some mem → NUL ∈ mem ∧ mem.length ≤ w.reply_size + REPLY_SIZE_INCR) :
    ∃ w1 junk, expand_buffer w = Res.ret (some w.replyText.length) w1 ∧
      w1.reply = some (w.replyText ++ NUL :: junk) ∧
      (w.replyText ++ NUL :: junk).length = w1.reply_size ∧
      w1.reply_size = w.reply_size + REPLY_SIZE_INCR := by
  have hpos : 1 ≤ blk.length := by rw [hblk]; simp only [REPLY_SIZE_INCR]; omega
  have hs0 : store blk 0 [NUL] = some (NUL :: blk.drop 1) := by
    unfold store
    have : 0 + [NUL].length ≤ blk.length := by simpa using hpos
    simp only [this, if_true]
    simp
  have hlen0 : (NUL :: blk.drop 1).length = blk.length := by
    simp only [List.length_cons, List.length_drop]; omega
  cases hr : w.reply with
  | none =>
    have htext : w.replyText = [] := by simp only [World.replyText, hr]
    have hc : cstr (NUL :: blk.drop 1) = [] := by simp [cstr]
    obtain ⟨w1, h1, h2, h3⟩ := expand_buffer_tail w.debug
      ("***> reply buffer now ".toList ++ (toString (w.reply_size + REPLY_SIZE_INCR)).toList
        ++ " bytes\r\n".toList) (some (cstr (NUL :: blk.drop 1)).length)
      { wm with reply := some (NUL :: blk.drop 1), reply_size := w.reply_size + REPLY_SIZE_INCR }
    refine ⟨w1, blk.drop 1, ?_, ?_, ?_, ?_⟩
    · unfold expand_buffer
      rw [bind_run, get_run]
      dsimp only
      rw [bind_ret hm]
      dsimp only
      rw [hs0]
      dsimp only
      rw [hr]
      dsimp only
      rw [bind_run, modify_run]
      dsimp only
      rw [htext]
      rw [hc] at h1
      exact h1
    · rw [h2, htext]; rfl
    · rw [h3, htext]
      show (NUL :: blk.drop 1).length = _
      rw [hlen0, hblk]
    · rw [h3]
  | some old =>
    obtain ⟨hnul, hfit⟩ := hbuf old hr
    have htext : w.replyText = cstr old := by simp only [World.replyText, hr]
    have hclen : (cstr old).length < old.length := by
      unfold cstr
      rcases Nat.lt_or_ge (List.takeWhile (fun c => c != NUL) old).length old.length with h | h
      · exact h
      · exfalso
        have he : List.takeWhile (fun c => c != NUL) old = old := by
          apply List.IsPrefix.eq_of_length_le (List.takeWhile_prefix _) h
        have := (List.takeWhile_eq_self_iff.mp he) NUL hnul
        simp at this
    have hcp : strcpy (NUL :: blk.drop 1) 0 old
        = some (cstr old ++ NUL :: (NUL :: blk.drop 1).drop ((cstr old).length + 1)) := by
      unfold strcpy store
      simp only [hnul, if_true]
      have : 0 + (cstr old ++ [NUL]).length ≤ (NUL :: blk.drop 1).length := by
        rw [hlen0, hblk]; simp only [List.length_append, List.length_singleton]; omega
      simp only [this, if_true]
      simp
    have hnc : NUL ∉ cstr old := by
      unfold cstr
      intro hmem
      have := List.mem_takeWhile_imp hmem
      simp at this
    have hc : cstr (cstr old ++ NUL :: (NUL :: blk.drop 1).drop ((cstr old).length + 1)) = cstr old :=
      cstr_append_nul _ _ hnc
    obtain ⟨w1, h1, h2, h3⟩ := expand_buffer_tail w.debug
      ("***> reply buffer now ".toList ++ (toString (w.reply_size + REPLY_SIZE_INCR)).toList
        ++ " bytes\r\n".toList)
      (some (cstr (cstr old ++ NUL :: (NUL :: blk.drop 1).drop ((cstr old).length + 1))).length)
      { wm with reply := some (cstr old ++ NUL :: (NUL :: blk.drop 1).drop ((cstr old).length + 1)),
                reply_size := w.reply_size + REPLY_SIZE_INCR }
    refine ⟨w1, (NUL :: blk.drop 1).drop ((cstr old).length + 1), ?_, ?_, ?_, ?_⟩
    · unfold expand_buffer
      rw [bind_run, get_run]
      dsimp only
      rw [bind_ret hm]
      dsimp only
      rw [hs0]
      dsimp only
      rw [hr]
      dsimp only
      rw [hcp]
      dsimp only
      rw [bind_run, modify_run]
      dsimp only
      rw [htext, hc]
      rw [hc] at h1
      exact h1
    · rw [h2, htext]
    · rw [h3, htext]
      simp only [List.length_append, List.length_cons, List.length_drop]
      omega
    · rw [h3]

theorem cstr_no_nul (s : List Char) : NUL ∉ cstr s := by
  unfold cstr
  intro hmem
  have := List.mem_takeWhile_imp hmem
  simp at this

theorem replyText_of_reply (w : World) (text junk : List Char)
    (h : w.reply = some (text ++ NUL :: junk)) (hn : NUL ∉ text) : w.replyText = text := by
  simp only [World.replyText, h]
  exact cstr_append_nul text junk hn

/-- C20: `expand_buffer` on a reply buffer that is NULL or holds a C string
(in a block no larger than the new one).  When `malloc` succeeds the call
returns the offset right after the text, the new buffer starts with the same
text, byte for byte, followed by its NUL, the buffer is as large as
`reply_size` says and `reply_size` has grown (by `REPLY_SIZE_INCR`).  When
`malloc` fails the call returns NULL and buffer and `reply_size` are what
they were: only the allocator has moved on. -/
theorem expand_buffer_preserves_reply (w : World)
    (hbuf : ∀ mem, w.reply = some mem → NUL ∈ mem ∧ mem.length ≤ w.reply_size + REPLY_SIZE_INCR) :
    (w.mallocs.head? ≠ some none →
      ∃ w1 junk, expand_buffer w = Res.ret (some w.replyText.length) w1 ∧
        w1.reply = some (w.replyText ++ NUL :: junk) ∧ w1.replyText = w.replyText ∧
        (w.replyText ++ NUL :: junk).length = w1.reply_size ∧
        w.reply_size < w1.reply_size ∧ w1.reply_size = w.reply_size + REPLY_SIZE_INCR) ∧
    (w.mallocs.head? = some none →
      expand_buffer w = Res.ret none { w with mallocs := w.mallocs.tail }) := by
  have hnt : NUL ∉ w.replyText := by
    unfold World.replyText
    split
    · simp
    · exact cstr_no_nul _
  constructor
  · intro hok
    have hm : ∃ blk wm, malloc (w.reply_size + REPLY_SIZE_INCR) w = Res.ret (some blk) wm ∧
        blk.length = w.reply_size + REPLY_SIZE_INCR := by
      unfold malloc
      cases hmal : w.mallocs with
      | nil => exact ⟨_, _, rfl, by simp⟩
      | cons g rest =>
        cases g with
        | none => rw [hmal] at hok; exact absurd rfl hok
        | some g => exact ⟨_, _, rfl, by simp⟩
    obtain ⟨blk, wm, hm, hblk⟩ := hm
    obtain ⟨w1, junk, h1, h2, h3, h4⟩ := expand_buffer_with_block w wm blk hm hblk hbuf
    refine ⟨w1, junk, h1, h2, replyText_of_reply w1 _ junk h2 hnt, h3, ?_, h4⟩
    rw [h4]
    simp only [REPLY_SIZE_INCR]
    omega
  · intro hfail
    have hm : malloc (w.reply_size + REPLY_SIZE_INCR) w
        = Res.ret none { w with mallocs := w.mallocs.tail } := by
      unfold malloc
      cases hmal : w.mallocs with
      | nil => rw [hmal] at hfail; cases hfail
      | cons g rest =>
        cases g with
        | none => rfl
        | some g => rw [hmal] at hfail; simp at hfail
    unfold expand_buffer
    rw [bind_run, get_run]
    dsimp only
    rw [bind_ret hm]
    rfl

/-- C20 on a buffer that holds `220 hello`: once with the allocator handing
out a block full of other bytes, once with the allocator failing. -/
theorem expand_buffer_preserves_reply_witness :
    (∃ w1 junk, expand_buffer { repliedWorld "220 hello\n".toList with
          mallocs := [some (List.replicate 2000 'x')] }
        = Res.ret (some 10) w1 ∧ w1.reply = some ("220 hello\n".toList ++ NUL :: junk) ∧
          w1.reply_size = 2000) ∧
    expand_buffer { repliedWorld "220 hello\n".toList with mallocs := [none] }
      = Res.ret none (repliedWorld "220 hello\n".toList) := by
  have hb : ∀ (ms : List (Option (List Char))) (mem : List Char),
      ({ repliedWorld "220 hello\n".toList with mallocs := ms } : World).reply = some mem →
      NUL ∈ mem ∧ mem.length ≤
        ({ repliedWorld "220 hello\n".toList with mallocs := ms } : World).reply_size
          + REPLY_SIZE_INCR := by
    intro ms mem h
    have e : mem = "220 hello\n".toList ++ NUL :: List.replicate 989 NUL := by
      have : some ("220 hello\n".toList ++ NUL :: List.replicate 989 NUL) = some mem := h
      exact (Option.some.inj this).symm
    subst e
    refine ⟨List.mem_append.mpr (Or.inr (List.mem_cons_self _ _)), ?_⟩
    rw [List.length_append, List.length_cons, List.length_replicate]
    show "220 hello\n".toList.length + (989 + 1) ≤ 1000 + 1000
    decide
  have h1 := (expand_buffer_preserves_reply
    { repliedWorld "220 hello\n".toList with mallocs := [some (List.replicate 2000 'x')] }
    (hb _)).1 (by decide)
  have h2 := (expand_buffer_preserves_reply
    { repliedWorld "220 hello\n".toList with mallocs := [none] } (hb _)).2 rfl
  have ht : ∀ ms, ({ repliedWorld "220 hello\n".toList with mallocs := ms } : World).replyText
      = "220 hello\n".toList := by
    intro ms
    exact replyText_of_reply _ _ (List.replicate 989 NUL) rfl (by decide)
  obtain ⟨w1, junk, a1, a2, _, _, _, a6⟩ := h1
  rw [ht] at a1 a2
  exact ⟨⟨w1, junk, a1, a2, a6⟩, h2⟩

/-! ## Frame lemmas for an observation of the world -/

theorem keeps_pure {α β : Type} (f : World → β) (a : α) : Keeps f (Pure.pure a : Prog α) := by
  intro w b w1 h
  cases h
  rfl

theorem keeps_Prog_pure {α β : Type} (f : World → β) (a : α) : Keeps f (Prog.pure a : Prog α) :=
  keeps_pure f a

theorem keeps_bind {α β γ : Type} {f : World → γ} {m : Prog α} {g : α → Prog β}
    (hm : Keeps f m) (hg : ∀ a, Keeps f (g a)) : Keeps f (m >>= g) := by
  intro w b w2 h
  rw [bind_run] at h
  cases hmw : m w with
  | ret a w1 =>
    rw [hmw] at h
    exact (hg a w1 b w2 h).trans (hm w a w1 hmw)
  | fault => rw [hmw] at h; cases h
  | pending => rw [hmw] at h; cases h

theorem keeps_ite {α γ : Type} {f : World → γ} {c : Prop} [Decidable c] {m1 m2 : Prog α}
    (h1 : Keeps f m1) (h2 : Keeps f m2) : Keeps f (if c then m1 else m2) := by
  split
  · exact h1
  · exact h2

theorem keeps_fault {α γ : Type} (f : World → γ) : Keeps f (Prog.fault : Prog α) := by
  intro w a w1 h; cases h

theorem keeps_pending {α γ : Type} (f : World → γ) : Keeps f (Prog.pending : Prog α) := by
  intro w a w1 h; cases h

theorem keeps_get {γ : Type} (f : World → γ) : Keeps f Prog.get := by
  intro w a w1 h; cases h; rfl

theorem keeps_modify {γ : Type} (f : World → γ) (g : World → World) (hg : ∀ w, f (g w) = f w) :
    Keeps f (Prog.modify g) := by
  intro w a w1 h; cases h; exact hg w

/-- A program that only reads replies keeps every observation of the session. -/
theorem keeps_of_readsOnly {α γ : Type} {f : World → γ} {m : Prog α}
    (hf : ∀ w w1 : World, w1.session = w.session → f w1 = f w) (hm : ReadsOnly m) : Keeps f m :=
  fun w a w1 h => hf w w1 (hm w a w1 h)

/-! ## Reading from one connection leaves the others alone -/

theorem findConn_setConn_ne (h k : Int) (c : Conn) (net : List (Int × Conn)) (hk : k ≠ h) :
    findConn k (setConn h c net) = findConn k net := by
  induction net with
  | nil => rfl
  | cons p rest ih =>
    obtain ⟨j, d⟩ := p
    unfold setConn
    split
    · rename_i hj
      unfold findConn
      have : ¬ (j = k) := fun e => hk (e.symm.trans hj)
      simp only [this, if_false]
    · unfold findConn
      split
      · rfl
      · exact ih

theorem keeps_conn_cputs (k : Int) (s : List Char) : Keeps (World.conn k) (cputs s) :=
  keeps_modify _ _ (fun _ => rfl)

theorem keeps_conn_constat (k : Int) : Keeps (World.conn k) constat := by
  intro w a w1 h; cases h; rfl

theorem keeps_conn_conin (k : Int) : Keeps (World.conn k) conin := by
  intro w a w1 h
  unfold conin at h
  split at h
  · cases h
  · cases h; rfl

theorem keeps_conn_CNbyte_count (k hd : Int) (hk : k ≠ hd) :
    Keeps (World.conn k) (CNbyte_count hd) := by
  intro w a w1 h
  unfold CNbyte_count at h
  split at h
  · cases h; rfl
  · cases h; exact findConn_setConn_ne hd k _ _ hk

theorem keeps_conn_CNget_block (k hd : Int) (n : Nat) (hk : k ≠ hd) :
    Keeps (World.conn k) (CNget_block hd n) := by
  intro w a w1 h
  unfold CNget_block at h
  split at h
  · cases h; rfl
  · dsimp only at h
    split at h
    · cases h; exact findConn_setConn_ne hd k _ _ hk
    · split at h <;> (cases h; exact findConn_setConn_ne hd k _ _ hk)

theorem keeps_conn_CNgets (k hd : Int) (len : Int) (delim : Char) (hk : k ≠ hd) :
    Keeps (World.conn k) (CNgets hd len delim) := by
  intro w a w1 h
  unfold CNgets at h
  split at h
  · cases h; rfl
  · dsimp only at h
    split at h
    · split at h <;> (cases h; exact findConn_setConn_ne hd k _ _ hk)
    · cases h; exact findConn_setConn_ne hd k _ _ hk

theorem keeps_conn_malloc (k : Int) (n : Nat) : Keeps (World.conn k) (malloc n) := by
  intro w a w1 h
  unfold malloc at h
  split at h <;> (cases h; rfl)

theorem keeps_conn_poke_reply (k : Int) (p : Nat) (bytes : List Char) :
    Keeps (World.conn k) (poke_reply p bytes) := by
  intro w a w1 h
  unfold poke_reply at h
  split at h
  · cases h
  · split at h
    · cases h
    · cases h; rfl

theorem keeps_conn_user_break (k : Int) : Keeps (World.conn k) user_break := by
  unfold user_break
  apply keeps_bind (keeps_conn_conin k)
  intro c
  apply keeps_ite <;> apply keeps_Prog_pure

theorem keeps_conn_cprintf (k : Int) (text : List Char) : Keeps (World.conn k) (cprintf text) := by
  unfold cprintf
  apply keeps_ite
  · exact keeps_fault _
  · exact keeps_conn_cputs _ _

theorem keeps_conn_expand_buffer (k : Int) : Keeps (World.conn k) expand_buffer := by
  unfold expand_buffer
  repeat' first
    | (with_reducible first
        | exact keeps_fault _
        | apply keeps_pure
        | apply keeps_Prog_pure
        | exact keeps_get _
        | exact keeps_conn_malloc _ _
        | exact keeps_conn_cputs _ _
        | apply keeps_bind
        | apply keeps_ite
        | intro _
        | dsimp only
        | split)
    | exact keeps_modify _ _ (fun _ => rfl)

theorem keeps_conn_wait_header (k : Int) (fuel : Nat) (hd : Int) (hk : k ≠ hd) :
    Keeps (World.conn k) (wait_header fuel hd) := by
  induction fuel with
  | zero => exact keeps_pending _
  | succ n ih =>
    unfold wait_header
    repeat' first
      | (with_reducible first
          | exact ih
          | apply keeps_Prog_pure
          | exact keeps_conn_CNbyte_count _ _ hk
          | exact keeps_conn_constat _
          | exact keeps_conn_user_break _
          | apply keeps_bind
          | apply keeps_ite
          | intro _
          | dsimp only
          | split)

theorem keeps_conn_read_rest (k : Int) (fuel : Nat) (hd : Int) (p : Nat) (maxlen : Int)
    (hk : k ≠ hd) : Keeps (World.conn k) (read_rest fuel hd p maxlen) := by
  induction fuel generalizing p maxlen with
  | zero => exact keeps_pending _
  | succ n ih =>
    unfold read_rest
    repeat' first
      | (with_reducible first
          | exact ih _ _
          | exact keeps_fault _
          | apply keeps_pure
          | apply keeps_Prog_pure
          | exact keeps_get _
          | exact keeps_conn_CNgets _ _ _ _ hk
          | exact keeps_conn_expand_buffer _
          | exact keeps_conn_poke_reply _ _ _
          | exact keeps_conn_constat _
          | exact keeps_conn_user_break _
          | apply keeps_bind
          | apply keeps_ite
          | intro _
          | dsimp only
          | split)

theorem keeps_conn_get_one_line (k : Int) (fuel : Nat) (hd : Int) (p : Nat) (maxlen : Int)
    (hk : k ≠ hd) : Keeps (World.conn k) (get_one_line fuel hd p maxlen) := by
  unfold get_one_line
  repeat' first
    | (with_reducible first
        | exact keeps_fault _
        | apply keeps_pure
        | apply keeps_Prog_pure
        | exact keeps_get _
        | exact keeps_conn_wait_header _ _ _ hk
        | exact keeps_conn_CNget_block _ _ _ hk
        | exact keeps_conn_read_rest _ _ _ _ _ hk
        | exact keeps_conn_poke_reply _ _ _
        | apply keeps_bind
        | apply keeps_ite
        | intro _
        | dsimp only
        | split)
    | exact keeps_modify _ _ (fun _ => rfl)

theorem keeps_conn_get_reply_loop (k : Int) (fuel : Nat) (hd : Int) (p : Nat) (hk : k ≠ hd) :
    Keeps (World.conn k) (get_reply_loop fuel hd p) := by
  induction fuel generalizing p with
  | zero => exact keeps_pending _
  | succ n ih =>
    unfold get_reply_loop
    repeat' first
      | (with_reducible first
          | exact ih _
          | apply keeps_pure
          | apply keeps_Prog_pure
          | exact keeps_get _
          | exact keeps_conn_get_one_line _ _ _ _ _ hk
          | apply keeps_bind
          | apply keeps_ite
          | intro _
          | dsimp only
          | split)

theorem keeps_conn_get_reply (k : Int) (fuel : Nat) (hd : Int) (hk : k ≠ hd) :
    Keeps (World.conn k) (get_reply fuel hd) :=
  keeps_conn_get_reply_loop k fuel hd 0 hk

/-- A program that only writes to the console keeps every observation that
does not look at the console. -/
theorem keeps_of_consoleOnly {α γ : Type} {f : World → γ} {m : Prog α}
    (hf : ∀ (w : World) (s : List Char), f { w with console := s } = f w)
    (hm : ConsoleOnly m) : Keeps f m := by
  intro w a w1 h
  rw [hm w a w1 h]
  exact hf w _

theorem keeps_conn_message (k : Int) (rc : Int) : Keeps (World.conn k) (message rc) :=
  keeps_of_consoleOnly (fun _ _ => rfl) (consoleOnly_message rc)

theorem keeps_conn_send_command_echo (k : Int) (c : List Char) :
    Keeps (World.conn k) (send_command_echo c) := by
  unfold send_command_echo
  repeat' first
    | (with_reducible first
        | apply keeps_pure
        | exact keeps_get _
        | exact keeps_conn_cprintf _ _
        | apply keeps_bind
        | apply keeps_ite
        | intro _
        | dsimp only
        | split)

theorem keeps_conn_TCP_send (k : Int) (hd : Int) (bytes : List Char) :
    Keeps (World.conn k) (TCP_send hd bytes) := by
  intro w a w1 h; cases h; rfl

/-- An exchange on the control connection leaves every other connection alone. -/
theorem keeps_conn_send_command (k : Int) (fuel : Nat) (hd : Int) (c : List Char) (hk : k ≠ hd) :
    Keeps (World.conn k) (send_command fuel hd c) := by
  unfold send_command
  repeat' first
    | (with_reducible first
        | exact keeps_fault _
        | apply keeps_Prog_pure
        | exact keeps_conn_send_command_echo _ _
        | exact keeps_conn_TCP_send _ _ _
        | exact keeps_conn_get_reply _ _ _ hk
        | apply keeps_bind
        | apply keeps_ite
        | intro _
        | dsimp only
        | split)

/-! ## C11: the type last sent is remembered -/

theorem cstr_prefix (p rest : List Char) (hp : NUL ∉ p) : cstr (p ++ rest) = p ++ cstr rest := by
  induction p with
  | nil => rfl
  | cons c p ih =>
    have hc : c ≠ NUL := fun e => hp (by rw [e]; exact List.mem_cons_self _ _)
    have hp2 : NUL ∉ p := fun hm => hp (List.mem_cons_of_mem _ hm)
    have ih2 := ih hp2
    unfold cstr at ih2 ⊢
    rw [List.cons_append, List.takeWhile_cons]
    have : (c != NUL) = true := by simpa using hc
    rw [this]
    simp only [if_true, List.cons_append, ih2]

theorem sprintf_command_ret (text c : List Char) (w w1 : World)
    (h : sprintf_command text w = Res.ret c w1) : w1 = w ∧ c = cstr (text ++ [NUL]) := by
  unfold sprintf_command at h
  split at h
  · cases h
  · cases h
    exact ⟨rfl, rfl⟩

/-- What `ftp_data_connect` sends: nothing (no address for the control
connection), or PASV, or a PORT command. -/
theorem ftp_data_connect_sent (fuel : Nat) (w : World) (d : Int) (w1 : World)
    (h : ftp_data_connect fuel w = Res.ret d w1) :
    w1.sent = w.sent ∨ ∃ cmd, w1.sent = w.sent ++ [(w.handle, cmd)] ∧
      (cmd = "PASV\r\n".toList ∨ "PORT ".toList <+: cmd) := by
  unfold ftp_data_connect at h
  rw [bind_run, get_run] at h
  dsimp only at h
  rw [bind_run] at h
  unfold CNgetinfo at h
  dsimp only at h
  cases hinfo : (findConn w.handle w.net).bind Conn.info with
  | none => rw [hinfo] at h; cases h; exact Or.inl rfl
  | some p =>
    obtain ⟨lhost, rhost⟩ := p
    rw [hinfo] at h
    dsimp only at h
    split at h
    · -- passive
      rw [bind_run] at h
      cases hs : send_command fuel w.handle "PASV".toList w with
      | fault => rw [hs] at h; cases h
      | pending => rw [hs] at h; cases h
      | ret rc w2 =>
        rw [hs] at h
        dsimp only at h
        have e2 := send_command_sent fuel _ _ w w2 rc hs
        rw [bind_run] at h
        cases hm : message rc w2 with
        | fault => rw [hm] at h; cases h
        | pending => rw [hm] at h; cases h
        | ret u w3 =>
          rw [hm] at h
          dsimp only at h
          have e3 : w3.sent = w2.sent := session_sent (readsOnly_message rc w2 u w3 hm)
          have key : w1.sent = w3.sent := by
            split at h
            · cases h; rfl
            · rw [bind_run] at h
              cases hx : extract_hp {} w3 with
              | fault => rw [hx] at h; cases h
              | pending => rw [hx] at h; cases h
              | ret rcab w4 =>
                rw [hx] at h
                dsimp only at h
                have e4 : w4.sent = w3.sent := session_sent (readsOnly_extract_hp {} w3 rcab w4 hx)
                split at h
                · cases h; exact e4
                · unfold TCP_open at h
                  split at h <;> (cases h; exact e4)
          refine Or.inr ⟨_, ?_, Or.inl rfl⟩
          rw [key, e3, e2]
          rfl
    · -- active
      rw [bind_run] at h
      have hg : generate_port w = Res.ret (port_of (w.rands.headD 0))
          { w with rands := w.rands.tail } := rfl
      rw [hg] at h
      dsimp only at h
      rw [bind_run] at h
      cases hc : sprintf_command (port_command lhost (port_of (w.rands.headD 0)))
          { w with rands := w.rands.tail } with
      | fault => rw [hc] at h; cases h
      | pending => rw [hc] at h; cases h
      | ret command wc =>
        rw [hc] at h
        dsimp only at h
        obtain ⟨ewc, ecmd⟩ := sprintf_command_ret _ _ _ _ hc
        subst ewc
        subst ecmd
        rw [bind_run] at h
        cases hs : send_command fuel w.handle
            (cstr (port_command lhost (port_of (w.rands.headD 0)) ++ [NUL]))
            { w with rands := w.rands.tail } with
        | fault => rw [hs] at h; cases h
        | pending => rw [hs] at h; cases h
        | ret rc w2 =>
          rw [hs] at h
          dsimp only at h
          have e2 := send_command_sent fuel _ _ _ w2 rc hs
          have hpre : "PORT ".toList <+:
              cstr (port_command lhost (port_of (w.rands.headD 0)) ++ [NUL]) ++ ['\r', '\n'] := by
            obtain ⟨tail, ht⟩ : ∃ tail, port_command lhost (port_of (w.rands.headD 0))
                = "PORT ".toList ++ tail :=
              ⟨_, by unfold port_command; simp only [List.append_assoc]; rfl⟩
            rw [ht, List.append_assoc, cstr_prefix _ _ (by decide), List.append_assoc]
            exact List.prefix_append _ _
          have key : w1.sent = w2.sent := by
            split at h
            · cases h; rfl
            · rw [bind_run] at h
              cases hm : message rc w2 with
              | fault => rw [hm] at h; cases h
              | pending => rw [hm] at h; cases h
              | ret u w3 =>
                rw [hm] at h
                dsimp only at h
                have e3 : w3.sent = w2.sent := session_sent (readsOnly_message rc w2 u w3 hm)
                unfold TCP_open at h
                split at h <;> (cases h; exact e3)
          refine Or.inr ⟨_, ?_, Or.inr hpre⟩
          rw [key, e2]

/-- A TYPE exchange that `ftp_type` reports as 200 leaves `last_type_set` at
the type asked for. -/
theorem ftp_type_remembers (fuel : Nat) (t : Int) (w w1 : World)
    (h : ftp_type fuel t w = Res.ret 200 w1) : w1.last_type_set = t := by
  unfold ftp_type at h
  rw [bind_run, get_run] at h
  dsimp only at h
  split at h
  · cases h
  · split at h
    · rw [bind_run] at h
      cases hc : cprintf ("Using ".toList ++ (if w.transfer_type = 65 then "ascii" else "binary").toList
          ++ " mode to transfer files\r\n".toList) w with
      | fault => rw [hc] at h; cases h
      | pending => rw [hc] at h; cases h
      | ret u w2 => rw [hc] at h; cases h
    · rw [bind_run] at h
      cases hc : sprintf_command ("TYPE ".toList ++ [Char.ofNat (t % 256).toNat]) w with
      | fault => rw [hc] at h; cases h
      | pending => rw [hc] at h; cases h
      | ret command wc =>
        rw [hc] at h
        dsimp only at h
        rw [bind_run] at h
        cases hs : send_command fuel w.handle command wc with
        | fault => rw [hs] at h; cases h
        | pending => rw [hs] at h; cases h
        | ret rc w2 =>
          rw [hs] at h
          dsimp only at h
          split at h
          · rw [bind_run, modify_run] at h
            cases h
            rfl
          · rename_i hneg
            rw [bind_run] at h
            cases h
            exact absurd (by decide : (200 : Int) ≥ 0) hneg

theorem not_type_of_prefix (cmd : List Char)
    (h : cmd = "PASV\r\n".toList ∨ "PORT ".toList <+: cmd) : ¬ IsTypeCommand cmd := by
  intro ht
  rcases h with rfl | hp
  · revert ht
    unfold IsTypeCommand
    decide
  · have := List.prefix_of_prefix_length_le ht hp (by decide)
    revert this
    decide

/-- C11: when `ftp_type t` returns 200, `last_type_set` is `t`.  From then
on, in any connected session where `last_type_set` still is `t` (no other
TYPE went out since): `ftp_get` and `ftp_put` with `transfer_type = t`, once
their prompt or `local: … remote: …` line is through, go straight to the
negotiation of the data connection, and so does a listing when `t` is `A`;
and that negotiation sends nothing, or PASV, or PORT: no TYPE command goes
out before it is over. -/
theorem type_sent_once (fuel : Nat) (t : Int) (w : World)
    (h200 : (ftp_type fuel t w).code = some 200) :
    ∃ w1, ftp_type fuel t w = Res.ret 200 w1 ∧ w1.last_type_set = t ∧
      ∀ (fuel2 : Nat) (w2 : World), w2.last_type_set = t → 0 ≤ w2.handle →
        (∀ l r m w3, w2.transfer_type = t →
          (if m then prompt_and_reply "mget".toList r
           else cprintf ("local: ".toList ++ l ++ " remote: ".toList ++ r ++ "\r\n".toList)
                  >>= fun _ => Prog.pure 1) w2 = Res.ret 1 w3 →
          ftp_get fuel2 l r m w2 = ftp_get_data fuel2 l r w3) ∧
        (∀ l r m w3, w2.transfer_type = t →
          (if m then prompt_and_reply "mput".toList l
           else cprintf ("local: ".toList ++ l ++ " remote: ".toList ++ r ++ "\r\n".toList)
                  >>= fun _ => Prog.pure 1) w2 = Res.ret 1 w3 →
          ftp_put fuel2 l r m w2 = ftp_put_data fuel2 l r w3) ∧
        (t = 65 → ∀ cmd dir file b,
          ftp_directory fuel2 cmd dir file b w2 = ftp_directory_data fuel2 cmd dir file b w2) ∧
        (∀ w3 d w4, ftp_data_connect fuel2 w3 = Res.ret d w4 →
          w4.sent = w3.sent ∨
          ∃ cmd, w4.sent = w3.sent ++ [(w3.handle, cmd)] ∧ ¬ IsTypeCommand cmd) := by
  obtain ⟨w1, hw1⟩ := ret_of_code h200
  refine ⟨w1, hw1, ftp_type_remembers fuel t w w1 hw1, ?_⟩
  intro fuel2 w2 hlast hconn
  have hh : ¬ (w2.handle < 0) := by omega
  refine ⟨?_, ?_, ?_, ?_⟩
  · intro l r m w3 htt hpre
    have hs := preamble_session _ _ _ m w2 w3 1 hpre
    have e : ¬ (w3.last_type_set ≠ w3.transfer_type) := by
      rw [session_last_type_set hs, session_transfer_type hs, hlast, htt]
      exact fun hne => hne rfl
    rw [ftp_get_after_preamble fuel2 l r m w2 w3 hconn hpre]
    unfold ftp_get_typed
    rw [bind_run, get_run]
    simp only [e, if_false]
  · intro l r m w3 htt hpre
    have hs := preamble_session _ _ _ m w2 w3 1 hpre
    have e : ¬ (w3.last_type_set ≠ w3.transfer_type) := by
      rw [session_last_type_set hs, session_transfer_type hs, hlast, htt]
      exact fun hne => hne rfl
    rw [ftp_put_after_preamble fuel2 l r m w2 w3 hconn hpre]
    unfold ftp_put_typed
    rw [bind_run, get_run]
    simp only [e, if_false]
  · intro ht cmd dir file b
    have e : ¬ (w2.last_type_set ≠ 65) := by
      rw [hlast, ht]
      exact fun hne => hne rfl
    unfold ftp_directory
    rw [bind_run, get_run]
    simp only [hh, e, if_false]
  · intro w3 d w4 hd
    rcases ftp_data_connect_sent fuel2 w3 d w4 hd with h0 | ⟨cmd, h1, h2⟩
    · exact Or.inl h0
    · exact Or.inr ⟨cmd, h1, not_type_of_prefix cmd h2⟩

/-- C11 on a session whose server answers `TYPE I` with 200: `TYPE I` is
remembered, and a GET that follows sends PASV and RETR and no second TYPE. -/
theorem type_sent_once_witness :
    (∃ w1, ftp_type 5 73 typedWorld = Res.ret 200 w1 ∧ w1.last_type_set = 73) ∧
    ((ftp_type 5 73 >>= fun _ => ftp_get 5 "a.txt".toList "b.txt".toList false)
      typedWorld).world.map World.sent
      = some [(3, "TYPE I\r\n".toList), (3, "PASV\r\n".toList), (3, "RETR b.txt\r\n".toList)] := by
  obtain ⟨w1, h1, h2, _⟩ := type_sent_once 5 73 typedWorld (by decide!)
  exact ⟨⟨w1, h1, h2⟩, by decide!⟩

/-! ## What a transfer leaves alone -/

theorem xferBlind_closed : XferBlind World.closed :=
  ⟨fun _ _ h => session_closed h, fun _ _ _ => rfl, fun _ _ => rfl, fun _ _ => rfl,
   fun _ _ _ => rfl, fun _ _ _ => rfl, fun _ _ => rfl, fun _ _ => rfl,
   fun _ _ => rfl, fun _ _ => rfl, fun _ _ => rfl⟩

theorem xferBlind_handle : XferBlind World.handle :=
  ⟨fun _ _ h => session_handle h, fun _ _ _ => rfl, fun _ _ => rfl, fun _ _ => rfl,
   fun _ _ _ => rfl, fun _ _ _ => rfl, fun _ _ => rfl, fun _ _ => rfl,
   fun _ _ => rfl, fun _ _ => rfl, fun _ _ => rfl⟩

theorem keeps_xfer_readsOnly {α γ : Type} {f : World → γ} (hf : XferBlind f) {m : Prog α}
    (hm : ReadsOnly m) :
    Keeps f m :=
  keeps_of_readsOnly hf.session hm

theorem keeps_xfer_TCP_send {γ : Type} {f : World → γ} (hf : XferBlind f) (hd : Int)
    (bytes : List Char) :
    Keeps f (TCP_send hd bytes) := by
  intro w a w1 h; cases h; exact hf.sent _ _ _

theorem keeps_TCP_open {γ : Type} {f : World → γ}
    (hopen : ∀ (w : World) r o n, f { w with open_results := r, opened := o, net := n } = f w)
    (cab : CAB) (active : Bool) : Keeps f (TCP_open cab active) := by
  intro w a w1 h
  unfold TCP_open at h
  split at h
  · cases h; exact hopen w w.open_results _ w.net
  · cases h; exact hopen _ _ _ _

theorem keeps_xfer_send_command {γ : Type} {f : World → γ} (hf : XferBlind f) (fuel : Nat)
    (hd : Int) (c : List Char) :
    Keeps f (send_command fuel hd c) := by
  unfold send_command
  repeat' first
    | (with_reducible first
        | exact keeps_fault _
        | apply keeps_Prog_pure
        | exact keeps_xfer_readsOnly hf (readsOnly_send_command_echo _)
        | exact keeps_xfer_TCP_send hf _ _
        | exact keeps_xfer_readsOnly hf (readsOnly_get_reply _ _)
        | apply keeps_bind
        | apply keeps_ite
        | intro _
        | dsimp only
        | split)

theorem keeps_xfer_message {γ : Type} {f : World → γ} (hf : XferBlind f) (rc : Int) :
    Keeps f (message rc) :=
  keeps_xfer_readsOnly hf (readsOnly_message rc)

theorem keeps_xfer_abort_transfer {γ : Type} {f : World → γ} (hf : XferBlind f) (fuel : Nat) :
    Keeps f (abort_transfer fuel) := by
  unfold abort_transfer
  repeat' first
    | (with_reducible first
        | apply keeps_Prog_pure
        | exact keeps_get _
        | exact keeps_xfer_send_command hf _ _ _
        | exact keeps_xfer_message hf _
        | exact keeps_xfer_readsOnly hf (readsOnly_get_reply _ _)
        | apply keeps_bind
        | apply keeps_ite
        | intro _
        | dsimp only
        | split)

theorem keeps_xfer_generate_port {γ : Type} {f : World → γ} (hf : XferBlind f) :
    Keeps f generate_port := by
  intro w a w1 h; cases h; exact hf.rands _ _

theorem keeps_sprintf_command {γ : Type} (f : World → γ) (text : List Char) :
    Keeps f (sprintf_command text) := by
  unfold sprintf_command
  apply keeps_ite
  · exact keeps_fault _
  · exact keeps_Prog_pure _ _

theorem keeps_xfer_ftp_data_connect {γ : Type} {f : World → γ} (hf : XferBlind f)
    (hopen : ∀ (w : World) r o n, f { w with open_results := r, opened := o, net := n } = f w)
    (fuel : Nat) : Keeps f (ftp_data_connect fuel) := by
  unfold ftp_data_connect
  repeat' first
    | (with_reducible first
        | apply keeps_Prog_pure
        | exact keeps_get _
        | exact keeps_xfer_readsOnly hf (readsOnly_CNgetinfo _)
        | exact keeps_xfer_send_command hf _ _ _
        | exact keeps_xfer_message hf _
        | exact keeps_xfer_readsOnly hf (readsOnly_extract_hp _)
        | exact keeps_TCP_open hopen _ _
        | exact keeps_xfer_generate_port hf
        | exact keeps_sprintf_command _ _
        | apply keeps_bind
        | apply keeps_ite
        | intro _
        | dsimp only
        | split)

theorem keeps_xfer_ftp_type {γ : Type} {f : World → γ} (hf : XferBlind f) (fuel : Nat) (t : Int) :
    Keeps f (ftp_type fuel t) := by
  unfold ftp_type
  repeat' first
    | (with_reducible first
        | apply keeps_Prog_pure
        | apply keeps_pure
        | exact keeps_get _
        | exact keeps_xfer_send_command hf _ _ _
        | exact keeps_xfer_readsOnly hf (readsOnly_cprintf _)
        | exact keeps_sprintf_command _ _
        | apply keeps_bind
        | apply keeps_ite
        | intro _
        | dsimp only
        | split)
    | exact keeps_modify _ _ (fun _ => hf.last_type _ _)


theorem keeps_xfer_Fcreate {γ : Type} {f : World → γ} (hf : XferBlind f) (path : List Char) :
    Keeps f (Fcreate path) := by
  intro w a w1 h; cases h; exact hf.fopened _ _ _

theorem keeps_xfer_Fopen {γ : Type} {f : World → γ} (hf : XferBlind f) (path : List Char) :
    Keeps f (Fopen path) := by
  intro w a w1 h; cases h; exact hf.fopened _ _ _

theorem keeps_xfer_Fwrite {γ : Type} {f : World → γ} (hf : XferBlind f) (fh : Int)
    (block : List Char) : Keeps f (Fwrite fh block) := by
  intro w a w1 h; cases h; exact hf.fwritten _ _ _

theorem keeps_xfer_Fread {γ : Type} {f : World → γ} (hf : XferBlind f) (fh : Int) (count : Nat) :
    Keeps f (Fread fh count) := by
  intro w a w1 h
  unfold Fread at h
  split at h
  · cases h; rfl
  · cases h; exact hf.fread _ _

theorem keeps_xfer_Fclose {γ : Type} {f : World → γ} (hf : XferBlind f) (fh : Int) :
    Keeps f (Fclose fh) :=
  keeps_modify _ _ (fun _ => hf.fclosed _ _)

theorem keeps_xfer_clock {γ : Type} {f : World → γ} (hf : XferBlind f) : Keeps f clock := by
  intro w a w1 h; cases h; exact hf.clocks _ _

theorem keeps_xfer_count_bytes {γ : Type} {f : World → γ} (hf : XferBlind f) (n : Nat) :
    Keeps f (count_bytes n) :=
  keeps_modify _ _ (fun _ => hf.bytes _ _)

theorem keeps_xfer_tick_report {γ : Type} {f : World → γ} (hf : XferBlind f) (prev : Nat) :
    Keeps f (tick_report prev) := by
  unfold tick_report
  repeat' first
    | (with_reducible first
        | apply keeps_Prog_pure
        | exact keeps_get _
        | exact keeps_xfer_readsOnly hf (readsOnly_cprintf _)
        | apply keeps_bind
        | apply keeps_ite
        | intro _
        | dsimp only
        | split)

theorem keeps_xfer_display_transfer_stats {γ : Type} {f : World → γ} (hf : XferBlind f) :
    Keeps f display_transfer_stats := by
  unfold display_transfer_stats
  repeat' first
    | (with_reducible first
        | apply keeps_Prog_pure
        | exact keeps_get _
        | exact keeps_xfer_readsOnly hf (readsOnly_cprintf _)
        | apply keeps_bind
        | apply keeps_ite
        | intro _
        | dsimp only
        | split)
    | exact keeps_modify _ _ (fun _ => hf.ticks _ _)

theorem keeps_xfer_check_established {γ : Type} {f : World → γ} (hf : XferBlind f) (data : Int) :
    Keeps f (check_established data) := by
  unfold check_established
  repeat' first
    | (with_reducible first
        | apply keeps_Prog_pure
        | apply keeps_pure
        | exact keeps_get _
        | exact keeps_xfer_readsOnly hf (readsOnly_cprintf _)
        | apply keeps_bind
        | apply keeps_ite
        | intro _
        | dsimp only
        | split)

theorem readsOnly_user_input_pause (fuel : Nat) : ReadsOnly (user_input_pause fuel) := by
  induction fuel with
  | zero => exact readsOnly_pending
  | succ n ih =>
    unfold user_input_pause
    repeat' first
      | (with_reducible first
          | exact ih
          | apply readsOnly_Prog_pure
          | exact readsOnly_conin
          | apply readsOnly_bind
          | apply readsOnly_ite
          | intro _
          | dsimp only
          | split)

theorem readsOnly_user_input (fuel : Nat) : ReadsOnly (user_input fuel) := by
  unfold user_input
  repeat' first
    | (with_reducible first
        | apply readsOnly_Prog_pure
        | exact readsOnly_conin
        | exact readsOnly_user_input_pause _
        | apply readsOnly_bind
        | apply readsOnly_ite
        | intro _
        | dsimp only
        | split)

theorem keeps_xfer_get_loop {γ : Type} {f : World → γ} (hf : XferBlind f) (fuel : Nat)
    (data fh : Int) (prev : Nat) : Keeps f (get_loop fuel data fh prev) := by
  induction fuel generalizing prev with
  | zero => exact keeps_pending _
  | succ n ih =>
    unfold get_loop
    repeat' first
      | (with_reducible first
          | exact ih _
          | apply keeps_Prog_pure
          | apply keeps_pure
          | exact keeps_xfer_readsOnly hf readsOnly_constat
          | exact keeps_xfer_readsOnly hf readsOnly_user_break
          | exact keeps_xfer_readsOnly hf (readsOnly_CNbyte_count _)
          | exact keeps_xfer_readsOnly hf (readsOnly_CNget_block _ _)
          | exact keeps_xfer_abort_transfer hf _
          | exact keeps_xfer_Fwrite hf _ _
          | exact keeps_xfer_count_bytes hf _
          | exact keeps_xfer_tick_report hf _
          | apply keeps_bind
          | apply keeps_ite
          | intro _
          | dsimp only
          | split)

theorem keeps_xfer_put_send {γ : Type} {f : World → γ} (hf : XferBlind f) (fuel : Nat)
    (data : Int) (chunk : List Char) : Keeps f (put_send fuel data chunk) := by
  induction fuel with
  | zero => exact keeps_pending _
  | succ n ih =>
    unfold put_send
    repeat' first
      | (with_reducible first
          | exact ih
          | apply keeps_Prog_pure
          | apply keeps_pure
          | exact keeps_xfer_readsOnly hf readsOnly_constat
          | exact keeps_xfer_readsOnly hf readsOnly_user_break
          | exact keeps_xfer_TCP_send hf _ _
          | exact keeps_xfer_abort_transfer hf _
          | apply keeps_bind
          | apply keeps_ite
          | intro _
          | dsimp only
          | split)

theorem keeps_xfer_put_chunks {γ : Type} {f : World → γ} (hf : XferBlind f) (fuel : Nat)
    (data : Int) (buf : List Char) (remaining rc : Int) (prev : Nat) :
    Keeps f (put_chunks fuel data buf remaining rc prev) := by
  induction fuel generalizing buf remaining rc prev with
  | zero => exact keeps_pending _
  | succ n ih =>
    unfold put_chunks
    repeat' first
      | (with_reducible first
          | exact ih _ _ _ _
          | apply keeps_Prog_pure
          | apply keeps_pure
          | exact keeps_xfer_put_send hf _ _ _
          | exact keeps_xfer_count_bytes hf _
          | exact keeps_xfer_tick_report hf _
          | apply keeps_bind
          | apply keeps_ite
          | intro _
          | dsimp only
          | split)

theorem keeps_xfer_put_loop {γ : Type} {f : World → γ} (hf : XferBlind f) (fuel : Nat)
    (data fh : Int) (prev : Nat) : Keeps f (put_loop fuel data fh prev) := by
  induction fuel generalizing prev with
  | zero => exact keeps_pending _
  | succ n ih =>
    unfold put_loop
    repeat' first
      | (with_reducible first
          | exact ih _
          | apply keeps_Prog_pure
          | apply keeps_pure
          | exact keeps_xfer_Fread hf _ _
          | exact keeps_xfer_put_chunks hf _ _ _ _ _ _
          | apply keeps_bind
          | apply keeps_ite
          | intro _
          | dsimp only
          | split)

theorem keeps_xfer_bufstore {γ : Type} {f : World → γ} (hf : XferBlind f) (b : BUFCTL)
    (name : List Char) : Keeps f (bufstore b name) := by
  unfold bufstore
  repeat' first
    | (with_reducible first
        | exact keeps_fault _
        | apply keeps_Prog_pure
        | apply keeps_pure
        | exact keeps_xfer_readsOnly hf (readsOnly_malloc _)
        | apply keeps_bind
        | apply keeps_ite
        | intro _
        | dsimp only
        | split)

theorem keeps_xfer_dir_loop {γ : Type} {f : World → γ} (hf : XferBlind f) (fuel : Nat)
    (data fh : Int) (bufctl : Option BUFCTL) : Keeps f (dir_loop fuel data fh bufctl) := by
  induction fuel generalizing bufctl with
  | zero => exact keeps_pending _
  | succ n ih =>
    unfold dir_loop
    repeat' first
      | (with_reducible first
          | exact ih _
          | apply keeps_Prog_pure
          | apply keeps_pure
          | exact keeps_xfer_readsOnly hf readsOnly_constat
          | exact keeps_xfer_readsOnly hf readsOnly_user_break
          | exact keeps_xfer_readsOnly hf (readsOnly_user_input _)
          | exact keeps_xfer_readsOnly hf (readsOnly_CNgets _ _ _)
          | exact keeps_xfer_readsOnly hf (readsOnly_cprintf _)
          | exact keeps_xfer_abort_transfer hf _
          | exact keeps_xfer_Fwrite hf _ _
          | exact keeps_xfer_bufstore hf _ _
          | apply keeps_bind
          | apply keeps_ite
          | intro _
          | dsimp only
          | split)

/-! ## C12: a refused transfer -/

/-- An exchange on the control connection touches no local file. -/
theorem send_command_filesIdle (fuel : Nat) (h : Int) (c : List Char) (w w1 : World) (rc : Int)
    (hr : send_command fuel h c w = Res.ret rc w1) : FilesIdle w w1 := by
  have hs := send_command_session fuel h c w w1 rc hr
  refine ⟨?_, ?_, ?_, ?_⟩
  · have := congrArg World.fopened hs; exact this
  · have := congrArg World.fwritten hs; exact this
  · have := congrArg World.fread_results hs; exact this
  · have := congrArg World.fclosed hs; exact this

/-- The part the three transfer operations share when the initiating command
is refused: whatever `tail` would do, the data connection is closed and the
result returned. -/
theorem refused_exchange (fuel : Nat) (w w1 : World) (data rc : Int) (cmd : List Char)
    (hne : data ≠ w.handle) (hh : w1.handle = w.handle)
    (hcode : (send_command fuel w.handle cmd w1).code = some rc) :
    ∃ w2, send_command fuel w1.handle cmd w1 = Res.ret rc w2 ∧
      w2.sent = w1.sent ++ [(w.handle, cmd ++ "\r\n".toList)] ∧ FilesIdle w1 w2 ∧
      w2.conn data = w1.conn data ∧ w2.closed = w1.closed ∧ w2.opened = w1.opened ∧
      cmd.length + 3 ≤ CMDSAVE_SIZE := by
  obtain ⟨w2, hs⟩ := ret_of_code hcode
  have hsess := send_command_session fuel _ _ w1 w2 rc hs
  refine ⟨w2, by rw [hh]; exact hs, send_command_sent fuel _ _ w1 w2 rc hs,
    send_command_filesIdle fuel _ _ w1 w2 rc hs,
    keeps_conn_send_command data fuel w.handle cmd hne w1 rc w2 hs, ?_, ?_,
    send_command_fits fuel _ _ w1 w2 rc hs⟩
  · have := congrArg World.closed hsess; exact this
  · have := congrArg World.opened hsess; exact this

/-- C12: in `ftp_get`, `ftp_put` and `ftp_directory`, once `ftp_data_connect`
has returned the data handle `data`, whenever the exchange of the initiating
command (RETR, STOR, LIST or NLST) returns a result `rc` other than 125 and
150: that command is the only thing sent, no local file was created, opened,
written, read or closed, the data connection was not read, nothing else was
opened or closed, and the operation returns `rc` after one `TCP_close` of
`data`. -/
theorem refused_transfer_closes_data (fuel : Nat) (w : World) (data rc : Int)
    (hdc : (ftp_data_connect fuel w).code = some data) (hdata : 0 ≤ data)
    (hne : data ≠ w.handle) (h125 : rc ≠ 125) (h150 : rc ≠ 150) :
    ∃ w1, ftp_data_connect fuel w = Res.ret data w1 ∧
      (∀ l r, NUL ∉ r →
        (send_command fuel w.handle ("RETR ".toList ++ r) w1).code = some rc →
        ∃ w2, send_command fuel w.handle ("RETR ".toList ++ r) w1 = Res.ret rc w2 ∧
          w2.sent = w1.sent ++ [(w.handle, "RETR ".toList ++ r ++ "\r\n".toList)] ∧
          FilesIdle w1 w2 ∧ w2.conn data = w1.conn data ∧
          w2.closed = w1.closed ∧ w2.opened = w1.opened ∧
          ftp_get_data fuel l r w = Res.ret rc
            { w2 with close_results := w2.close_results.tail, closed := w2.closed ++ [data] }) ∧
      (∀ l r, NUL ∉ r →
        (send_command fuel w.handle ("STOR ".toList ++ r) w1).code = some rc →
        ∃ w2, send_command fuel w.handle ("STOR ".toList ++ r) w1 = Res.ret rc w2 ∧
          w2.sent = w1.sent ++ [(w.handle, "STOR ".toList ++ r ++ "\r\n".toList)] ∧
          FilesIdle w1 w2 ∧ w2.conn data = w1.conn data ∧
          w2.closed = w1.closed ∧ w2.opened = w1.opened ∧
          ftp_put_data fuel l r w = Res.ret rc
            { w2 with close_results := w2.close_results.tail, closed := w2.closed ++ [data] }) ∧
      (∀ cmd dir file b, NUL ∉ cmd → (∀ d, dir = some d → NUL ∉ d) →
        (send_command fuel w.handle
          (match dir with | some d => cmd ++ [' '] ++ d | none => cmd) w1).code = some rc →
        ∃ w2, send_command fuel w.handle
              (match dir with | some d => cmd ++ [' '] ++ d | none => cmd) w1 = Res.ret rc w2 ∧
          w2.sent = w1.sent ++ [(w.handle,
            (match dir with | some d => cmd ++ [' '] ++ d | none => cmd) ++ "\r\n".toList)] ∧
          FilesIdle w1 w2 ∧ w2.conn data = w1.conn data ∧
          w2.closed = w1.closed ∧ w2.opened = w1.opened ∧
          ftp_directory_data fuel cmd dir file b w = Res.ret (rc, b)
            { w2 with close_results := w2.close_results.tail, closed := w2.closed ++ [data] }) := by
  obtain ⟨w1, hw1⟩ := ret_of_code hdc
  have hh : w1.handle = w.handle := keeps_xfer_ftp_data_connect xferBlind_handle (fun _ _ _ _ => rfl) fuel w data w1 hw1
  have hd : ¬ (data < 0) := by omega
  have hrc : rc ≠ 125 ∧ rc ≠ 150 := ⟨h125, h150⟩
  refine ⟨w1, hw1, ?_, ?_, ?_⟩
  · intro l r hr hcode
    obtain ⟨w2, hs, e1, e2, e3, e4, e5, hfit⟩ := refused_exchange fuel w w1 data rc _ hne hh hcode
    have hcmd : sprintf_command ("RETR ".toList ++ r) w1 = Res.ret ("RETR ".toList ++ r) w1 :=
      sprintf_command_run _ w1
        (by simp only [List.mem_append, not_or]; exact ⟨by decide, hr⟩)
        (by simp only [CMDSAVE_SIZE] at hfit; simp only [MAXCMDLEN]; omega)
    refine ⟨w2, by rw [← hh]; exact hs, e1, e2, e3, e4, e5, ?_⟩
    unfold ftp_get_data
    rw [bind_ret hw1]
    simp only [hd, if_false]
    rw [bind_ret hcmd, bind_run, get_run]
    dsimp only
    rw [bind_ret hs]
    rw [if_pos hrc]
    rfl
  · intro l r hr hcode
    obtain ⟨w2, hs, e1, e2, e3, e4, e5, hfit⟩ := refused_exchange fuel w w1 data rc _ hne hh hcode
    have hcmd : sprintf_command ("STOR ".toList ++ r) w1 = Res.ret ("STOR ".toList ++ r) w1 :=
      sprintf_command_run _ w1
        (by simp only [List.mem_append, not_or]; exact ⟨by decide, hr⟩)
        (by simp only [CMDSAVE_SIZE] at hfit; simp only [MAXCMDLEN]; omega)
    refine ⟨w2, by rw [← hh]; exact hs, e1, e2, e3, e4, e5, ?_⟩
    unfold ftp_put_data
    rw [bind_ret hw1]
    simp only [hd, if_false]
    rw [bind_ret hcmd, bind_run, get_run]
    dsimp only
    rw [bind_ret hs]
    rw [if_pos hrc]
    rfl
  · intro cmd dir file b hc hdir hcode
    cases dir with
    | none =>
      dsimp only at hcode ⊢
      obtain ⟨w2, hs, e1, e2, e3, e4, e5, hfit⟩ := refused_exchange fuel w w1 data rc _ hne hh hcode
      have hcmd : sprintf_command cmd w1 = Res.ret cmd w1 :=
        sprintf_command_run _ w1 hc
          (by simp only [CMDSAVE_SIZE] at hfit; simp only [MAXCMDLEN]; omega)
      refine ⟨w2, by rw [← hh]; exact hs, e1, e2, e3, e4, e5, ?_⟩
      unfold ftp_directory_data
      rw [bind_ret hw1]
      simp only [hd, if_false]
      rw [bind_ret hcmd, bind_run, get_run]
      dsimp only
      rw [bind_ret hs]
      rw [if_pos hrc]
      rfl
    | some d =>
      dsimp only at hcode ⊢
      obtain ⟨w2, hs, e1, e2, e3, e4, e5, hfit⟩ := refused_exchange fuel w w1 data rc _ hne hh hcode
      have hcmd : sprintf_command (cmd ++ [' '] ++ d) w1 = Res.ret (cmd ++ [' '] ++ d) w1 :=
        sprintf_command_run _ w1
          (by simp only [List.mem_append, List.mem_singleton, not_or]
              exact ⟨⟨hc, by decide⟩, hdir d rfl⟩)
          (by simp only [CMDSAVE_SIZE] at hfit; simp only [MAXCMDLEN]; omega)
      refine ⟨w2, by rw [← hh]; exact hs, e1, e2, e3, e4, e5, ?_⟩
      unfold ftp_directory_data
      rw [bind_ret hw1]
      simp only [hd, if_false]
      rw [bind_ret hcmd, bind_run, get_run]
      dsimp only
      rw [bind_ret hs]
      rw [if_pos hrc]
      rfl

/-- C12 on a session whose server answers RETR with 550: `ftp_get` returns
550, the data connection 7 is closed once with its bytes unread, and no
file was created. -/
theorem refused_transfer_closes_data_witness :
    (∃ w1 w2, ftp_data_connect 5 refusedTransferWorld = Res.ret 7 w1 ∧
      ftp_get_data 5 "a.txt".toList "b.txt".toList refusedTransferWorld = Res.ret 550
        { w2 with close_results := w2.close_results.tail, closed := w2.closed ++ [7] } ∧
      w2.closed = w1.closed ∧ FilesIdle w1 w2 ∧ w2.conn 7 = w1.conn 7) ∧
    (ftp_get 5 "a.txt".toList "b.txt".toList false refusedTransferWorld).code = some 550 ∧
    (ftp_get 5 "a.txt".toList "b.txt".toList false refusedTransferWorld).world.map World.closed
      = some [7] ∧
    (ftp_get 5 "a.txt".toList "b.txt".toList false refusedTransferWorld).world.map World.fopened
      = some [] ∧
    (ftp_get 5 "a.txt".toList "b.txt".toList false refusedTransferWorld).world.map World.sent
      = some [(3, "PASV\r\n".toList), (3, "RETR b.txt\r\n".toList)] ∧
    (ftp_get 5 "a.txt".toList "b.txt".toList false refusedTransferWorld).world.map
        (fun w => (w.conn 7).map Conn.queue) = some (some "stray".toList) := by
  obtain ⟨w1, h1, hget, _, _⟩ := refused_transfer_closes_data 5 refusedTransferWorld 7 550
    (by decide!) (by decide) (by decide) (by decide) (by decide)
  have e : w1 = (ftp_data_connect 5 refusedTransferWorld).world.getD refusedTransferWorld := by
    rw [h1]; rfl
  obtain ⟨w2, _, _, a3, a4, a5, _, a7⟩ := hget "a.txt".toList "b.txt".toList (by decide)
    (by rw [e]; decide!)
  exact ⟨⟨w1, w2, h1, a7, a5, a3, a4⟩, by decide!, by decide!, by decide!, by decide!, by decide!⟩

/-! ## C16: the data connection is closed exactly once -/

theorem xferBlind_opened : XferBlind World.opened :=
  ⟨fun _ _ h => session_opened h, fun _ _ _ => rfl, fun _ _ => rfl, fun _ _ => rfl,
   fun _ _ _ => rfl, fun _ _ _ => rfl, fun _ _ => rfl, fun _ _ => rfl,
   fun _ _ => rfl, fun _ _ => rfl, fun _ _ => rfl⟩

theorem closesOnce_TCP_close (data : Int) : ClosesOnce data (TCP_close data) := by
  intro w a w1 h; cases h; rfl

theorem closesOnce_bind_left {α β : Type} {data : Int} {m : Prog α} {g : α → Prog β}
    (hm : Keeps World.closed m) (hg : ∀ a, ClosesOnce data (g a)) : ClosesOnce data (m >>= g) := by
  intro w b w2 h
  rw [bind_run] at h
  cases hmw : m w with
  | ret a w1 =>
    rw [hmw] at h
    rw [hg a w1 b w2 h, hm w a w1 hmw]
  | fault => rw [hmw] at h; cases h
  | pending => rw [hmw] at h; cases h

theorem closesOnce_bind_right {α β : Type} {data : Int} {m : Prog α} {g : α → Prog β}
    (hm : ClosesOnce data m) (hg : ∀ a, Keeps World.closed (g a)) : ClosesOnce data (m >>= g) := by
  intro w b w2 h
  rw [bind_run] at h
  cases hmw : m w with
  | ret a w1 =>
    rw [hmw] at h
    rw [hg a w1 b w2 h, hm w a w1 hmw]
  | fault => rw [hmw] at h; cases h
  | pending => rw [hmw] at h; cases h

theorem closesOnce_ite {α : Type} {data : Int} {c : Prop} [Decidable c] {m1 m2 : Prog α}
    (h1 : ClosesOnce data m1) (h2 : ClosesOnce data m2) :
    ClosesOnce data (if c then m1 else m2) := by
  split
  · exact h1
  · exact h2

/-- The end of `ftp_get` and `ftp_put` closes the data connection once. -/
theorem closesOnce_finish_transfer (fuel : Nat) (data : Int) (start : Nat) (rc : Int) :
    ClosesOnce data (finish_transfer fuel data start rc) := by
  unfold finish_transfer
  apply closesOnce_bind_right (closesOnce_TCP_close data)
  intro n
  repeat' first
    | (with_reducible first
        | apply keeps_Prog_pure
        | apply keeps_pure
        | exact keeps_get _
        | exact keeps_xfer_clock xferBlind_closed
        | exact keeps_xfer_message xferBlind_closed _
        | exact keeps_xfer_readsOnly xferBlind_closed (readsOnly_get_reply _ _)
        | exact keeps_xfer_readsOnly xferBlind_closed (readsOnly_cputs _)
        | exact keeps_xfer_display_transfer_stats xferBlind_closed
        | apply keeps_bind
        | apply keeps_ite
        | intro _
        | dsimp only
        | split)
    | exact keeps_modify _ _ (fun _ => rfl)

/-- `ftp_get` after a data connection was set up closes it once. -/
theorem ftp_get_data_closes (fuel : Nat) (l r : List Char) (w w1 wf : World) (data rc : Int)
    (hdc : ftp_data_connect fuel w = Res.ret data w1) (hdata : 0 ≤ data)
    (hr : ftp_get_data fuel l r w = Res.ret rc wf) : wf.closed = w1.closed ++ [data] := by
  have hd : ¬ (data < 0) := by omega
  unfold ftp_get_data at hr
  rw [bind_ret hdc] at hr
  simp only [hd, if_false] at hr
  refine (show ClosesOnce data _ from ?_) w1 rc wf hr
  apply closesOnce_bind_left (keeps_sprintf_command _ _)
  intro command
  apply closesOnce_bind_left (keeps_get _)
  intro w2
  apply closesOnce_bind_left (keeps_xfer_send_command xferBlind_closed _ _ _)
  intro rc1
  apply closesOnce_ite
  · apply closesOnce_bind_right (closesOnce_TCP_close data)
    intro _
    exact keeps_Prog_pure _ _
  · apply closesOnce_bind_left (keeps_xfer_message xferBlind_closed _)
    intro _
    apply closesOnce_bind_left (keeps_xfer_clock xferBlind_closed)
    intro start
    apply closesOnce_bind_left
    · exact keeps_modify _ _ (fun _ => rfl)
    intro _
    apply closesOnce_bind_left (keeps_xfer_Fcreate xferBlind_closed _)
    intro rc2
    apply closesOnce_bind_left
    · repeat' first
        | (with_reducible first
            | apply keeps_Prog_pure
            | apply keeps_pure
            | exact keeps_get _
            | exact keeps_xfer_get_loop xferBlind_closed _ _ _ _
            | exact keeps_xfer_Fclose xferBlind_closed _
            | exact keeps_xfer_readsOnly xferBlind_closed (readsOnly_cputs _)
            | apply keeps_bind
            | apply keeps_ite
            | intro _
            | dsimp only
            | split)
    · intro rc3
      exact closesOnce_finish_transfer _ _ _ _

/-- `ftp_put` after a data connection was set up closes it once. -/
theorem ftp_put_data_closes (fuel : Nat) (l r : List Char) (w w1 wf : World) (data rc : Int)
    (hdc : ftp_data_connect fuel w = Res.ret data w1) (hdata : 0 ≤ data)
    (hr : ftp_put_data fuel l r w = Res.ret rc wf) : wf.closed = w1.closed ++ [data] := by
  have hd : ¬ (data < 0) := by omega
  unfold ftp_put_data at hr
  rw [bind_ret hdc] at hr
  simp only [hd, if_false] at hr
  refine (show ClosesOnce data _ from ?_) w1 rc wf hr
  apply closesOnce_bind_left (keeps_sprintf_command _ _)
  intro command
  apply closesOnce_bind_left (keeps_get _)
  intro w2
  apply closesOnce_bind_left (keeps_xfer_send_command xferBlind_closed _ _ _)
  intro rc1
  apply closesOnce_ite
  · apply closesOnce_bind_right (closesOnce_TCP_close data)
    intro _
    exact keeps_Prog_pure _ _
  · apply closesOnce_bind_left (keeps_xfer_message xferBlind_closed _)
    intro _
    apply closesOnce_bind_left (keeps_xfer_check_established xferBlind_closed _)
    intro _
    apply closesOnce_bind_left (keeps_xfer_clock xferBlind_closed)
    intro start
    apply closesOnce_bind_left
    · exact keeps_modify _ _ (fun _ => rfl)
    intro _
    apply closesOnce_bind_left (keeps_xfer_Fopen xferBlind_closed _)
    intro rc2
    apply closesOnce_bind_left
    · repeat' first
        | (with_reducible first
            | apply keeps_Prog_pure
            | apply keeps_pure
            | exact keeps_get _
            | exact keeps_xfer_put_loop xferBlind_closed _ _ _ _
            | exact keeps_xfer_Fclose xferBlind_closed _
            | exact keeps_xfer_readsOnly xferBlind_closed (readsOnly_cputs _)
            | apply keeps_bind
            | apply keeps_ite
            | intro _
            | dsimp only
            | split)
    · intro rc3
      exact closesOnce_finish_transfer _ _ _ _

/-- `ftp_directory` after a data connection was set up closes it once. -/
theorem ftp_directory_data_closes (fuel : Nat) (cmd : List Char) (dir file : Option (List Char))
    (b : Option BUFCTL) (w w1 wf : World) (data : Int) (rc : Int × Option BUFCTL)
    (hdc : ftp_data_connect fuel w = Res.ret data w1) (hdata : 0 ≤ data)
    (hr : ftp_directory_data fuel cmd dir file b w = Res.ret rc wf) :
    wf.closed = w1.closed ++ [data] := by
  have hd : ¬ (data < 0) := by omega
  unfold ftp_directory_data at hr
  rw [bind_ret hdc] at hr
  simp only [hd, if_false] at hr
  refine (show ClosesOnce data _ from ?_) w1 rc wf hr
  apply closesOnce_bind_left
  · split
    · exact keeps_sprintf_command _ _
    · exact keeps_sprintf_command _ _
  intro command
  apply closesOnce_bind_left (keeps_get _)
  intro w2
  apply closesOnce_bind_left (keeps_xfer_send_command xferBlind_closed _ _ _)
  intro rc1
  apply closesOnce_ite
  · apply closesOnce_bind_right (closesOnce_TCP_close data)
    intro _
    exact keeps_Prog_pure _ _
  · apply closesOnce_bind_left (keeps_xfer_message xferBlind_closed _)
    intro _
    apply closesOnce_bind_left
    · split
      · exact keeps_xfer_Fcreate xferBlind_closed _
      · exact keeps_Prog_pure _ _
    intro fh
    apply closesOnce_bind_left (keeps_xfer_dir_loop xferBlind_closed _ _ _ _)
    intro rcb
    dsimp only
    apply closesOnce_ite
    all_goals
      apply closesOnce_bind_left
      · first
          | exact keeps_xfer_Fclose xferBlind_closed _
          | exact keeps_pure _ _
      intro _
      apply closesOnce_bind_right (closesOnce_TCP_close data)
      intro n
      repeat' first
        | (with_reducible first
            | apply keeps_Prog_pure
            | apply keeps_pure
            | exact keeps_xfer_readsOnly xferBlind_closed (readsOnly_get_reply _ _)
            | apply keeps_bind
            | apply keeps_ite
            | intro _
            | dsimp only
            | split)

/-- Two continuations that agree after `m` give the same run. -/
theorem bind_congr_run {α β : Type} (m : Prog α) (f g : α → Prog β) (w : World)
    (h : ∀ a w1, m w = Res.ret a w1 → f a w1 = g a w1) : (m >>= f) w = (m >>= g) w := by
  rw [bind_run, bind_run]
  cases hm : m w with
  | ret a w1 => exact h a w1 hm
  | fault => rfl
  | pending => rfl

theorem bind_assoc_run {α β γ : Type} (m : Prog α) (f : α → Prog β) (g : β → Prog γ) (w : World) :
    ((m >>= f) >>= g) w = (m >>= fun a => f a >>= g) w := by
  rw [bind_run, bind_run, bind_run]
  cases m w with
  | ret a w1 => rfl
  | fault => rfl
  | pending => rfl

/-- `ftp_get` from the type step on is the type step followed by the data phase. -/
theorem ftp_get_typed_split (fuel : Nat) (l r : List Char) (w : World) :
    ftp_get_typed fuel l r w = (type_enter fuel >>= carry_on (ftp_get_data fuel l r)) w := by
  unfold ftp_get_typed type_enter
  rw [bind_assoc_run]
  apply bind_congr_run
  intro w0 _ _
  dsimp only
  split
  · rw [bind_assoc_run]
    apply bind_congr_run
    intro rc _ _
    dsimp only
    split
    · rfl
    · rw [bind_assoc_run]
      rfl
  · rfl

theorem ftp_put_typed_split (fuel : Nat) (l r : List Char) (w : World) :
    ftp_put_typed fuel l r w = (type_enter fuel >>= carry_on (ftp_put_data fuel l r)) w := by
  unfold ftp_put_typed type_enter
  rw [bind_assoc_run]
  apply bind_congr_run
  intro w0 _ _
  dsimp only
  split
  · rw [bind_assoc_run]
    apply bind_congr_run
    intro rc _ _
    dsimp only
    split
    · rfl
    · rw [bind_assoc_run]
      rfl
  · rfl

/-- `ftp_get` is its statements in front of the data connection followed by
the statements from the data connection on. -/
theorem ftp_get_split (fuel : Nat) (l r : List Char) (m : Bool) (w : World) :
    ftp_get fuel l r m w = (ftp_get_enter fuel l r m >>= carry_on (ftp_get_data fuel l r)) w := by
  unfold ftp_get ftp_get_enter
  rw [bind_assoc_run]
  apply bind_congr_run
  intro w0 _ _
  dsimp only
  split
  · rfl
  · split
    · rw [bind_assoc_run]
      apply bind_congr_run
      intro ans _ _
      dsimp only
      split
      · rfl
      · split
        · rfl
        · exact ftp_get_typed_split fuel l r _
    · rw [bind_assoc_run]
      apply bind_congr_run
      intro _ _ _
      exact ftp_get_typed_split fuel l r _

theorem ftp_put_split (fuel : Nat) (l r : List Char) (m : Bool) (w : World) :
    ftp_put fuel l r m w = (ftp_put_enter fuel l r m >>= carry_on (ftp_put_data fuel l r)) w := by
  unfold ftp_put ftp_put_enter
  rw [bind_assoc_run]
  apply bind_congr_run
  intro w0 _ _
  dsimp only
  split
  · rfl
  · split
    · rw [bind_assoc_run]
      apply bind_congr_run
      intro ans _ _
      dsimp only
      split
      · rfl
      · split
        · rfl
        · exact ftp_put_typed_split fuel l r _
    · rw [bind_assoc_run]
      apply bind_congr_run
      intro _ _ _
      exact ftp_put_typed_split fuel l r _

theorem ftp_directory_split (fuel : Nat) (cmd : List Char) (dir file : Option (List Char))
    (b : Option BUFCTL) (w : World) :
    ftp_directory fuel cmd dir file b w
      = (ftp_directory_enter fuel b >>= carry_on (ftp_directory_data fuel cmd dir file b)) w := by
  unfold ftp_directory ftp_directory_enter
  rw [bind_assoc_run]
  apply bind_congr_run
  intro w0 _ _
  dsimp only
  split
  · rfl
  · split
    · rw [bind_assoc_run]
      apply bind_congr_run
      intro rc _ _
      dsimp only
      split
      · rfl
      · rw [bind_assoc_run]
        rfl
    · rfl

theorem keeps_closed_type_enter (fuel : Nat) : Keeps World.closed (type_enter fuel) := by
  unfold type_enter
  repeat' first
    | (with_reducible first
        | apply keeps_Prog_pure
        | apply keeps_pure
        | exact keeps_get _
        | exact keeps_xfer_ftp_type xferBlind_closed _ _
        | exact keeps_xfer_message xferBlind_closed _
        | apply keeps_bind
        | apply keeps_ite
        | intro _
        | dsimp only
        | split)

theorem keeps_closed_ftp_get_enter (fuel : Nat) (l r : List Char) (m : Bool) :
    Keeps World.closed (ftp_get_enter fuel l r m) := by
  unfold ftp_get_enter
  repeat' first
    | (with_reducible first
        | apply keeps_Prog_pure
        | apply keeps_pure
        | exact keeps_get _
        | exact keeps_closed_type_enter _
        | exact keeps_xfer_readsOnly xferBlind_closed (readsOnly_prompt_and_reply _ _)
        | exact keeps_xfer_readsOnly xferBlind_closed (readsOnly_cprintf _)
        | apply keeps_bind
        | apply keeps_ite
        | intro _
        | dsimp only
        | split)

theorem keeps_closed_ftp_put_enter (fuel : Nat) (l r : List Char) (m : Bool) :
    Keeps World.closed (ftp_put_enter fuel l r m) := by
  unfold ftp_put_enter
  repeat' first
    | (with_reducible first
        | apply keeps_Prog_pure
        | apply keeps_pure
        | exact keeps_get _
        | exact keeps_closed_type_enter _
        | exact keeps_xfer_readsOnly xferBlind_closed (readsOnly_prompt_and_reply _ _)
        | exact keeps_xfer_readsOnly xferBlind_closed (readsOnly_cprintf _)
        | apply keeps_bind
        | apply keeps_ite
        | intro _
        | dsimp only
        | split)

theorem keeps_closed_ftp_directory_enter (fuel : Nat) (b : Option BUFCTL) :
    Keeps World.closed (ftp_directory_enter fuel b) := by
  unfold ftp_directory_enter
  repeat' first
    | (with_reducible first
        | apply keeps_Prog_pure
        | apply keeps_pure
        | exact keeps_get _
        | exact keeps_xfer_ftp_type xferBlind_closed _ _
        | exact keeps_xfer_message xferBlind_closed _
        | apply keeps_bind
        | apply keeps_ite
        | intro _
        | dsimp only
        | split)

/-- C16: every execution of `ftp_get`, `ftp_put` and `ftp_directory` from a
world `w` that reaches its call of `ftp_data_connect` (in the world `w0`
where the statements in front of the call end) and gets a valid
(non-negative) handle `data` from it: when the operation returns, on whatever
path, the calls of `TCP_close` it has made from its start are exactly one, of
`data`.  The last three parts tie `w0` to the run: each operation is its
statements in front of the call followed by the statements from
`data = ftp_data_connect()` on. -/
theorem data_connection_closed_once (fuel : Nat) (w w0 w1 wf : World) (data : Int)
    (hdc : ftp_data_connect fuel w0 = Res.ret data w1) (hdata : 0 ≤ data) :
    (∀ l r m rc, ftp_get_enter fuel l r m w = Res.ret none w0 →
      ftp_get fuel l r m w = Res.ret rc wf → wf.closed = w.closed ++ [data]) ∧
    (∀ l r m rc, ftp_put_enter fuel l r m w = Res.ret none w0 →
      ftp_put fuel l r m w = Res.ret rc wf → wf.closed = w.closed ++ [data]) ∧
    (∀ cmd dir file b rc, ftp_directory_enter fuel b w = Res.ret none w0 →
      ftp_directory fuel cmd dir file b w = Res.ret rc wf → wf.closed = w.closed ++ [data]) ∧
    (∀ l r m (v : World), ftp_get fuel l r m v
      = (ftp_get_enter fuel l r m >>= carry_on (ftp_get_data fuel l r)) v) ∧
    (∀ l r m (v : World), ftp_put fuel l r m v
      = (ftp_put_enter fuel l r m >>= carry_on (ftp_put_data fuel l r)) v) ∧
    (∀ cmd dir file b (v : World), ftp_directory fuel cmd dir file b v
      = (ftp_directory_enter fuel b >>= carry_on (ftp_directory_data fuel cmd dir file b)) v) := by
  have h1 : w1.closed = w0.closed :=
    keeps_xfer_ftp_data_connect xferBlind_closed (fun _ _ _ _ => rfl) fuel w0 data w1 hdc
  refine ⟨?_, ?_, ?_, fun l r m v => ftp_get_split fuel l r m v,
    fun l r m v => ftp_put_split fuel l r m v,
    fun cmd dir file b v => ftp_directory_split fuel cmd dir file b v⟩
  · intro l r m rc he hr
    rw [ftp_get_split, bind_ret he] at hr
    rw [ftp_get_data_closes fuel l r w0 w1 wf data rc hdc hdata hr, h1,
      keeps_closed_ftp_get_enter fuel l r m w none w0 he]
  · intro l r m rc he hr
    rw [ftp_put_split, bind_ret he] at hr
    rw [ftp_put_data_closes fuel l r w0 w1 wf data rc hdc hdata hr, h1,
      keeps_closed_ftp_put_enter fuel l r m w none w0 he]
  · intro cmd dir file b rc he hr
    rw [ftp_directory_split, bind_ret he] at hr
    rw [ftp_directory_data_closes fuel cmd dir file b w0 w1 wf data rc hdc hdata hr, h1,
      keeps_closed_ftp_directory_enter fuel b w none w0 he]

/-- C16 on a download that completes and on one whose RETR is refused: in
both 7 is the handle `ftp_data_connect` returned and the one handle closed. -/
theorem data_connection_closed_once_witness :
    ((ftp_get 9 "a.txt".toList "b.txt".toList false downloadWorld).world.getD downloadWorld).closed
      = downloadWorld.closed ++ [7] ∧
    ((ftp_get 9 "a.txt".toList "b.txt".toList false refusedTransferWorld).world.getD
        refusedTransferWorld).closed
      = refusedTransferWorld.closed ++ [7] ∧
    (ftp_get 9 "a.txt".toList "b.txt".toList false downloadWorld).world.map World.fwritten
      = some [(5, "hello".toList)] :=
  ⟨(data_connection_closed_once 9 downloadWorld
      ((ftp_get_enter 9 "a.txt".toList "b.txt".toList false downloadWorld).world.getD downloadWorld)
      ((ftp_data_connect 9
        ((ftp_get_enter 9 "a.txt".toList "b.txt".toList false downloadWorld).world.getD
          downloadWorld)).world.getD downloadWorld)
      ((ftp_get 9 "a.txt".toList "b.txt".toList false downloadWorld).world.getD downloadWorld) 7
      (Res.eq_ret_of_code downloadWorld (by decide!)) (by decide)).1
      "a.txt".toList "b.txt".toList false 0
      (Res.eq_ret_of_code downloadWorld (by decide!))
      (Res.eq_ret_of_code downloadWorld (by decide!)),
   (data_connection_closed_once 9 refusedTransferWorld
      ((ftp_get_enter 9 "a.txt".toList "b.txt".toList false refusedTransferWorld).world.getD
        refusedTransferWorld)
      ((ftp_data_connect 9
        ((ftp_get_enter 9 "a.txt".toList "b.txt".toList false refusedTransferWorld).world.getD
          refusedTransferWorld)).world.getD refusedTransferWorld)
      ((ftp_get 9 "a.txt".toList "b.txt".toList false refusedTransferWorld).world.getD
        refusedTransferWorld) 7
      (Res.eq_ret_of_code refusedTransferWorld (by decide!)) (by decide)).1
      "a.txt".toList "b.txt".toList false 550
      (Res.eq_ret_of_code refusedTransferWorld (by decide!))
      (Res.eq_ret_of_code refusedTransferWorld (by decide!)),
   by decide!⟩

/-! ## C13: cancelling a download or a listing -/

/-- The loop of `get_reply` on a reply that has arrived and fits: as
`get_reply_loop_fitting`, and what is left on the connection is what came
after the reply. -/
theorem get_reply_loop_consumes (h : Int) (final : List Char × List Char)
    (hfinal : WellFramed final) (hsp : final.1.getD 3 NUL = ' ')
    (cont : List (List Char × List Char)) :
    ∀ (fuel p : Nat) (w : World) (c : Conn) (mem rest : List Char),
      (∀ l ∈ cont, WellFramed l ∧ l.1.getD 3 NUL ≠ ' ') →
      findConn h w.net = some c → c.queue = wireReply cont final ++ rest →
      w.reply = some mem → w.reply_size = mem.length →
      p + (wireReply cont final).length + 1 ≤ mem.length →
      (wireReply cont final).length + 1 ≤ 32767 →
      ∃ net1 c1 seg, get_reply_loop (cont.length + 2 + fuel) h p w
        = Res.ret (atoi w.overflows final.1)
            { w with net := net1, header := final.1 ++ [NUL],
                     reply := some (mem.take p ++ wireReply cont final ++ [NUL]
                                      ++ mem.drop (p + (wireReply cont final).length + 1)) } ∧
        findConn h net1 = some c1 ∧ c1.queue = rest ++ seg := by
  induction cont with
  | nil =>
    intro fuel p w c mem rest _ hc hq hmem hsize hfit hshort
    obtain ⟨h4, hn, hnl⟩ := hfinal
    have hlenw : (wireReply [] final).length = 4 + final.2.length + 1 := by
      simp [wireReply, wireLine, h4]; omega
    rw [hlenw] at hfit hshort
    have hq2 : c.queue = final.1 ++ (final.2 ++ '\n' :: rest) := by
      rw [hq]; simp [wireReply, wireLine]
    obtain ⟨net1, c1, seg, hrun, hc1, hq1⟩ :=
      get_one_line_line fuel h p ((w.reply_size : Int) - p) w c mem final.1 final.2 rest hc hq2 h4 hn
        hnl hmem (by omega) (by rw [hsize]; omega) (by omega)
    refine ⟨net1, c1, seg, ?_, hc1, hq1⟩
    have hf : ([] : List (List Char × List Char)).length + 2 + fuel = (fuel + 1) + 1 := by
      simp only [List.length_nil]; omega
    rw [hf]
    unfold get_reply_loop
    rw [bind_run, get_run]
    dsimp only
    rw [bind_ret hrun]
    simp only [hsp, if_true]
    simp only [show ¬ ((0 : Int) < 0) by decide, if_false]
    rw [bind_run, get_run]
    dsimp only
    rw [cstr_append_nul final.1 [] hn]
    have hm : List.take p mem ++ final.1 ++ final.2 ++ ['\n', NUL]
          ++ List.drop (p + 4 + final.2.length + 2) mem
        = List.take p mem ++ wireReply [] final ++ [NUL]
          ++ List.drop (p + (wireReply [] final).length + 1) mem := by
      rw [hlenw]
      simp only [wireReply, wireLine]
      have : p + 4 + final.2.length + 2 = p + (4 + final.2.length + 1) + 1 := by omega
      rw [this]
      simp
    rw [hm]
    rfl
  | cons l ls ih =>
    intro fuel p w c mem rest hcont hc hq hmem hsize hfit hshort
    obtain ⟨⟨h4, hn, hnl⟩, hns⟩ := hcont l (by simp)
    have hpos := wireReply_length_pos ls final
    have hlenw : (wireReply (l :: ls) final).length
        = 4 + l.2.length + 1 + (wireReply ls final).length := by
      simp [wireReply, wireLine, h4]; omega
    rw [hlenw] at hfit hshort
    have hq2 : c.queue = l.1 ++ (l.2 ++ '\n' :: (wireReply ls final ++ rest)) := by
      rw [hq]; simp [wireReply, wireLine]
    obtain ⟨net1, c1, seg, hrun, hc1, hq1⟩ :=
      get_one_line_line (ls.length + 1 + fuel) h p ((w.reply_size : Int) - p) w c mem l.1 l.2 _
        hc hq2 h4 hn hnl hmem (by omega) (by rw [hsize]; omega) (by omega)
    have hq1b : c1.queue = wireReply ls final ++ (rest ++ seg) := by rw [hq1]; simp
    have hlen1 : (List.take p mem ++ l.1 ++ l.2 ++ ['\n', NUL]
        ++ List.drop (p + 4 + l.2.length + 2) mem).length = mem.length := by
      simp [h4]; omega
    obtain ⟨net2, c2, seg2, hrest, hc2, hq2c⟩ := ih fuel (p + 4 + l.2.length + 1)
      { w with net := net1, header := l.1 ++ [NUL],
               reply := some (List.take p mem ++ l.1 ++ l.2 ++ ['\n', NUL]
                                ++ List.drop (p + 4 + l.2.length + 2) mem) }
      c1 _ (rest ++ seg) (fun x hx => hcont x (by simp [hx])) hc1 hq1b rfl
      (by show w.reply_size = _; rw [hsize, hlen1]) (by rw [hlen1]; omega) (by omega)
    refine ⟨net2, c2, seg ++ seg2, ?_, hc2, by rw [hq2c, List.append_assoc]⟩
    have hf : (l :: ls).length + 2 + fuel = (ls.length + 1 + fuel + 1) + 1 := by
      simp only [List.length_cons]; omega
    rw [hf]
    unfold get_reply_loop
    rw [bind_run, get_run]
    dsimp only
    rw [bind_ret hrun]
    simp only [hns, if_false]
    simp only [show ¬ ((1 : Int) < 0) by decide, show ¬ ((1 : Int) = 0) by decide, if_false]
    have hfu : ls.length + 1 + fuel + 1 = ls.length + 2 + fuel := by omega
    rw [hfu, hrest]
    have hX : (List.take p mem ++ l.1 ++ l.2 ++ ['\n']).length = p + 4 + l.2.length + 1 := by
      simp [h4]; omega
    have hM : List.take p mem ++ l.1 ++ l.2 ++ ['\n', NUL] ++ List.drop (p + 4 + l.2.length + 2) mem
        = (List.take p mem ++ l.1 ++ l.2 ++ ['\n'])
          ++ NUL :: List.drop (p + 4 + l.2.length + 2) mem := by
      simp
    have hT : List.take (p + 4 + l.2.length + 1)
        (List.take p mem ++ l.1 ++ l.2 ++ ['\n', NUL] ++ List.drop (p + 4 + l.2.length + 2) mem)
        = List.take p mem ++ l.1 ++ l.2 ++ ['\n'] := by
      rw [hM]
      exact List.take_left' hX
    have hD : List.drop (p + 4 + l.2.length + 1 + (wireReply ls final).length + 1)
        (List.take p mem ++ l.1 ++ l.2 ++ ['\n', NUL] ++ List.drop (p + 4 + l.2.length + 2) mem)
        = List.drop (p + (4 + l.2.length + 1 + (wireReply ls final).length) + 1) mem := by
      rw [hM]
      have e : p + 4 + l.2.length + 1 + (wireReply ls final).length + 1
          = (List.take p mem ++ l.1 ++ l.2 ++ ['\n']).length + ((wireReply ls final).length + 1) := by
        rw [hX]; omega
      rw [e, List.drop_append, List.drop_succ_cons, List.drop_drop]
      congr 1
      omega
    rw [hT, hD, hlenw]
    have hW : List.take p mem ++ l.1 ++ l.2 ++ ['\n'] ++ wireReply ls final
        = List.take p mem ++ wireReply (l :: ls) final := by
      simp [wireReply, wireLine]
    rw [hW]

/-- `get_reply` on a reply that has arrived and fits the buffer as it is:
the code of the final line is returned, the buffer holds the reply, and what
is left on the connection is what came after the reply. -/
theorem get_reply_consumes (fuel : Nat) (h : Int) (w : World) (c : Conn)
    (mem rest ds text : List Char) (cont : List (List Char × List Char))
    (hwire : ReplyOnWire cont ds text)
    (hc : findConn h w.net = some c)
    (hq : c.queue = wireReply cont (ds ++ [' '], text) ++ rest)
    (hmem : w.reply = some mem) (hsize : w.reply_size = mem.length)
    (hfit : (wireReply cont (ds ++ [' '], text)).length + 1 ≤ mem.length)
    (hshort : (wireReply cont (ds ++ [' '], text)).length + 1 ≤ 32767) :
    ∃ net1 c1 seg, get_reply (cont.length + 2 + fuel) h w
      = Res.ret (decVal ds : Int)
          { w with net := net1, header := ds ++ [' '] ++ [NUL],
                   reply := some (wireReply cont (ds ++ [' '], text) ++ [NUL]
                     ++ mem.drop ((wireReply cont (ds ++ [' '], text)).length + 1)) } ∧
      findConn h net1 = some c1 ∧ c1.queue = rest ++ seg := by
  obtain ⟨hcont, hds, hdig, hnl⟩ := hwire
  have hne : ds ≠ [] := by
    intro e; rw [e] at hds; cases hds
  have hnulds : NUL ∉ ds := fun hm => (isDigit_not_sign NUL (hdig NUL hm)).2.2.2 rfl
  have hfinal : WellFramed (ds ++ [' '], text) := by
    refine ⟨by simp [hds], ?_, hnl⟩
    simp only [List.mem_append, List.mem_singleton, not_or]
    exact ⟨hnulds, by decide⟩
  have hsp : (ds ++ [' ']).getD 3 NUL = ' ' := by
    match ds, hds with
    | [a, b, c], _ => rfl
  have hcont2 : ∀ l ∈ cont, WellFramed l ∧ l.1.getD 3 NUL ≠ ' ' := by
    intro l hl
    obtain ⟨ccc, e, h3, hn, hnl2⟩ := hcont l hl
    refine ⟨⟨by rw [e]; simp [h3], ?_, hnl2⟩, ?_⟩
    · rw [e]
      simp only [List.mem_append, List.mem_singleton, not_or]
      exact ⟨hn, by decide⟩
    · rw [e]
      match ccc, h3 with
      | [a, b, c], _ => exact (show ('-' : Char) ≠ ' ' by decide)
  obtain ⟨net1, c1, seg, hrun, hc1, hq1⟩ := get_reply_loop_consumes h (ds ++ [' '], text) hfinal
    hsp cont fuel 0 w c mem rest hcont2 hc hq hmem hsize (by omega) hshort
  refine ⟨net1, c1, seg, ?_, hc1, hq1⟩
  unfold get_reply
  rw [hrun]
  have ha : atoi w.overflows (ds ++ [' '], text).1 = (decVal ds : Int) :=
    atoi_code _ ds hds hdig
  rw [ha]
  simp

/-- Reading a reply touches no local file. -/
theorem filesIdle_of_session {w w1 : World} (h : w1.session = w.session) : FilesIdle w w1 := by
  refine ⟨?_, ?_, ?_, ?_⟩
  · have := congrArg World.fopened h; exact this
  · have := congrArg World.fwritten h; exact this
  · have := congrArg World.fread_results h; exact this
  · have := congrArg World.fclosed h; exact this

theorem filesIdle_trans {w1 w2 w3 : World} (h12 : FilesIdle w1 w2) (h23 : FilesIdle w2 w3) :
    FilesIdle w1 w3 :=
  ⟨h23.1.trans h12.1, h23.2.1.trans h12.2.1, h23.2.2.1.trans h12.2.2.1,
   h23.2.2.2.trans h12.2.2.2⟩

/-- Every returned run of `abort_transfer`: the result is `USER_INTERRUPT`,
the one thing sent is ABOR on the control connection, no other connection
was read, no file touched, nothing opened or closed. -/
theorem abort_transfer_result (fuel : Nat) (w w1 : World) (rc : Int)
    (h : abort_transfer fuel w = Res.ret rc w1) :
    rc = USER_INTERRUPT ∧ w1.sent = w.sent ++ [(w.handle, "ABOR\r\n".toList)] ∧
    (∀ k, k ≠ w.handle → w1.conn k = w.conn k) ∧ FilesIdle w w1 ∧
    w1.closed = w.closed ∧ w1.opened = w.opened := by
  unfold abort_transfer at h
  rw [bind_run, get_run] at h
  dsimp only at h
  rw [bind_run] at h
  cases hs : send_command fuel w.handle "ABOR".toList w with
  | fault => rw [hs] at h; cases h
  | pending => rw [hs] at h; cases h
  | ret rc1 w2 =>
    rw [hs] at h
    dsimp only at h
    rw [bind_run] at h
    cases hm : message rc1 w2 with
    | fault => rw [hm] at h; cases h
    | pending => rw [hm] at h; cases h
    | ret u w3 =>
      rw [hm] at h
      dsimp only at h
      rw [bind_run] at h
      cases hg : get_reply fuel w.handle w3 with
      | fault => rw [hg] at h; cases h
      | pending => rw [hg] at h; cases h
      | ret rc2 w4 =>
        rw [hg] at h
        dsimp only at h
        rw [bind_run] at h
        cases hm2 : message rc2 w4 with
        | fault => rw [hm2] at h; cases h
        | pending => rw [hm2] at h; cases h
        | ret u2 w5 =>
          rw [hm2] at h
          cases h
          have s3 := readsOnly_message rc1 w2 u w3 hm
          have s4 := readsOnly_get_reply fuel w.handle w3 rc2 w4 hg
          have s5 := readsOnly_message rc2 w4 u2 w1 hm2
          have s35 : w1.session = w2.session := s5.trans (s4.trans s3)
          have hsess := send_command_session fuel _ _ w w2 rc1 hs
          refine ⟨rfl, ?_, ?_, ?_, ?_, ?_⟩
          · rw [session_sent s35, send_command_sent fuel _ _ w w2 rc1 hs]
            rfl
          · intro k hk
            rw [keeps_conn_message k rc2 w4 u2 w1 hm2,
              keeps_conn_get_reply k fuel w.handle hk w3 rc2 w4 hg,
              keeps_conn_message k rc1 w2 u w3 hm,
              keeps_conn_send_command k fuel w.handle _ hk w rc1 w2 hs]
          · exact filesIdle_trans (send_command_filesIdle fuel _ _ w w2 rc1 hs)
              (filesIdle_of_session s35)
          · rw [session_closed s35]
            have := congrArg World.closed hsess
            exact this
          · rw [session_opened s35]
            have := congrArg World.opened hsess
            exact this

/-- When the transport takes the ABOR, `abort_transfer` is: read a reply,
show it, read a second reply, show it; the codes of the two replies decide
nothing. -/
theorem abort_transfer_reads_two (fuel : Nat) (w w0 : World)
    (hecho : send_command_echo "ABOR".toList w = Res.ret () w0)
    (hacc : 0 ≤ w0.send_results.headD E_NORMAL) :
    abort_transfer fuel w =
      (get_reply fuel w.handle >>= fun rc1 => message rc1 >>= fun _ =>
        get_reply fuel w.handle >>= fun rc2 => message rc2 >>= fun _ =>
          Prog.pure USER_INTERRUPT)
        { w0 with send_results := w0.send_results.tail,
                  sent := w0.sent ++ [(w.handle, "ABOR\r\n".toList)] } := by
  unfold abort_transfer
  rw [bind_run, get_run]
  dsimp only
  rw [bind_run, send_command_run fuel w.handle "ABOR".toList w w0 (by decide) hecho]
  have : ¬ (w0.send_results.headD E_NORMAL < 0) := by omega
  simp only [this, if_false]
  rfl

theorem consoleOnly_send_command_echo (c : List Char) : ConsoleOnly (send_command_echo c) := by
  unfold send_command_echo
  repeat' first
    | (with_reducible first
        | apply consoleOnly_pure
        | exact consoleOnly_get
        | exact consoleOnly_cprintf _
        | apply consoleOnly_bind
        | apply consoleOnly_ite
        | intro _
        | dsimp only
        | split)

/-- The echo of ABOR, if any, fits the print buffer. -/
theorem send_command_echo_abor (w : World) :
    ∃ w0, send_command_echo "ABOR".toList w = Res.ret () w0 ∧
      w0 = { w with console := w0.console } := by
  have hret : ∃ w0, send_command_echo "ABOR".toList w = Res.ret () w0 := by
    unfold send_command_echo
    rw [bind_run, get_run]
    dsimp only
    split
    · exact ⟨_, cprintf_run _ w (by decide) (by decide)⟩
    · exact ⟨_, rfl⟩
  obtain ⟨w0, h0⟩ := hret
  exact ⟨w0, h0, consoleOnly_send_command_echo _ w () w0 h0⟩

/-- The cancellation when both replies to it have arrived and each fits the
reply buffer as it is: `abort_transfer` returns `USER_INTERRUPT`, and what
is left on the control connection is exactly what came after the second
reply. -/
theorem abort_transfer_consumes (fuel : Nat) (w : World) (c : Conn) (mem rest : List Char)
    (cont1 cont2 : List (List Char × List Char)) (ds1 t1 ds2 t2 : List Char)
    (hfuel1 : cont1.length + 2 ≤ fuel) (hfuel2 : cont2.length + 2 ≤ fuel)
    (hacc : 0 ≤ w.send_results.headD E_NORMAL)
    (hw1 : ReplyOnWire cont1 ds1 t1) (hw2 : ReplyOnWire cont2 ds2 t2)
    (hcode1 : 100 ≤ decVal ds1 ∧ decVal ds1 ≤ 599) (hcode2 : 100 ≤ decVal ds2 ∧ decVal ds2 ≤ 599)
    (hc : findConn w.handle w.net = some c)
    (hq : c.queue = wireReply cont1 (ds1 ++ [' '], t1)
            ++ (wireReply cont2 (ds2 ++ [' '], t2) ++ rest))
    (hmem : w.reply = some mem) (hsize : w.reply_size = mem.length)
    (hfit1 : (wireReply cont1 (ds1 ++ [' '], t1)).length + 1 ≤ mem.length)
    (hfit2 : (wireReply cont2 (ds2 ++ [' '], t2)).length + 1 ≤ mem.length)
    (hshort : mem.length ≤ 32767) :
    ∃ w1 c1 seg, abort_transfer fuel w = Res.ret USER_INTERRUPT w1 ∧
      findConn w.handle w1.net = some c1 ∧ c1.queue = rest ++ seg := by
  obtain ⟨w0, hecho, hw0⟩ := send_command_echo_abor w
  have e0net : w0.net = w.net := by rw [hw0]
  have e0rep : w0.reply = w.reply := by rw [hw0]
  have e0size : w0.reply_size = w.reply_size := by rw [hw0]
  have e0sr : w0.send_results = w.send_results := by rw [hw0]
  rw [abort_transfer_reads_two fuel w w0 hecho (by rw [e0sr]; exact hacc)]
  obtain ⟨f1, hf1⟩ := Nat.exists_eq_add_of_le hfuel1
  obtain ⟨f2, hf2⟩ := Nat.exists_eq_add_of_le hfuel2
  -- the first reply
  obtain ⟨net1, c1, seg1, hrun1, hc1, hq1⟩ := get_reply_consumes f1 w.handle
    { w0 with send_results := w0.send_results.tail,
              sent := w0.sent ++ [(w.handle, "ABOR\r\n".toList)] }
    c mem _ ds1 t1 cont1 hw1 (by show findConn w.handle w0.net = _; rw [e0net]; exact hc) hq
    (by show w0.reply = _; rw [e0rep]; exact hmem)
    (by show w0.reply_size = _; rw [e0size]; exact hsize) hfit1 (by omega)
  rw [← hf1] at hrun1
  rw [bind_ret hrun1]
  have hnul1 : NUL ∈ wireReply cont1 (ds1 ++ [' '], t1) ++ [NUL]
      ++ mem.drop ((wireReply cont1 (ds1 ++ [' '], t1)).length + 1) := by
    simp
  have hlen1 : (wireReply cont1 (ds1 ++ [' '], t1) ++ [NUL]
      ++ mem.drop ((wireReply cont1 (ds1 ++ [' '], t1)).length + 1)).length = mem.length := by
    simp only [List.length_append, List.length_singleton, List.length_drop]
    omega
  obtain ⟨w3, hm1, hw3⟩ := message_reply_returns (decVal ds1 : Int)
    { w0 with send_results := w0.send_results.tail,
              sent := w0.sent ++ [(w.handle, "ABOR\r\n".toList)],
              net := net1, header := ds1 ++ [' '] ++ [NUL],
              reply := some (wireReply cont1 (ds1 ++ [' '], t1) ++ [NUL]
                ++ mem.drop ((wireReply cont1 (ds1 ++ [' '], t1)).length + 1)) } _
    (by exact_mod_cast hcode1.1) (by exact_mod_cast hcode1.2) rfl hnul1
  rw [bind_ret hm1]
  -- the second reply
  have e3net : w3.net = net1 := by rw [hw3]
  have e3rep : w3.reply = some (wireReply cont1 (ds1 ++ [' '], t1) ++ [NUL]
      ++ mem.drop ((wireReply cont1 (ds1 ++ [' '], t1)).length + 1)) := by rw [hw3]
  have e3size : w3.reply_size = w0.reply_size := by rw [hw3]
  obtain ⟨net2, c2, seg2, hrun2, hc2, hq2⟩ := get_reply_consumes f2 w.handle w3 c1 _ (rest ++ seg1)
    ds2 t2 cont2 hw2 (by rw [e3net]; exact hc1) (by rw [hq1, List.append_assoc]) e3rep
    (by rw [e3size, e0size, hsize, hlen1]) (by rw [hlen1]; exact hfit2) (by omega)
  rw [← hf2] at hrun2
  rw [bind_ret hrun2]
  have hnul2 : NUL ∈ wireReply cont2 (ds2 ++ [' '], t2) ++ [NUL]
      ++ (wireReply cont1 (ds1 ++ [' '], t1) ++ [NUL]
        ++ mem.drop ((wireReply cont1 (ds1 ++ [' '], t1)).length + 1)).drop
          ((wireReply cont2 (ds2 ++ [' '], t2)).length + 1) := by
    simp
  obtain ⟨w5, hm2, hw5⟩ := message_reply_returns (decVal ds2 : Int)
    { w3 with net := net2, header := ds2 ++ [' '] ++ [NUL],
              reply := some (wireReply cont2 (ds2 ++ [' '], t2) ++ [NUL]
                ++ (wireReply cont1 (ds1 ++ [' '], t1) ++ [NUL]
                  ++ mem.drop ((wireReply cont1 (ds1 ++ [' '], t1)).length + 1)).drop
                    ((wireReply cont2 (ds2 ++ [' '], t2)).length + 1)) } _
    (by exact_mod_cast hcode2.1) (by exact_mod_cast hcode2.2) rfl hnul2
  rw [bind_ret hm2]
  refine ⟨w5, c2, seg1 ++ seg2, rfl, ?_, by rw [hq2, List.append_assoc]⟩
  have e5net : w5.net = net2 := by rw [hw5]
  rw [e5net]
  exact hc2

/-- The copy loop of `ftp_directory` is followed by `finish_directory`. -/
theorem ftp_directory_data_eq (fuel : Nat) (cmd : List Char) (dir file : Option (List Char))
    (b : Option BUFCTL) :
    ftp_directory_data fuel cmd dir file b = (do
      let data ← ftp_data_connect fuel
      if data < 0 then Prog.pure (data, b)
      else
        let command ← (match dir with
          | some d => sprintf_command (cmd ++ [' '] ++ d)
          | none => sprintf_command cmd)
        let w ← get
        let rc ← send_command fuel w.handle command
        if rc ≠ 125 ∧ rc ≠ 150 then
          let _ ← TCP_close data
          Prog.pure (rc, b)
        else
          message rc
          let fh : Int ← (match file with
            | some path => Fcreate path
            | none => Prog.pure (-1))
          let rcb ← dir_loop fuel data fh b
          finish_directory fuel data fh w.handle rcb) := rfl

/-- With control-C as the key that is waiting, an iteration of the copy loop
of `ftp_get` is the cancellation: nothing is read from the data connection. -/
theorem get_loop_ctrl_c (fuel : Nat) (data fh : Int) (prev : Nat) (w : World) (ks : List Char)
    (hkey : w.keys = CTL_C :: ks) :
    get_loop (fuel + 1) data fh prev w = abort_transfer fuel { w with keys := ks } := by
  have hc : constat w = Res.ret true w := by
    unfold constat; rw [hkey]; rfl
  have hu : user_break w = Res.ret (-1) { w with keys := ks } := by
    unfold user_break
    have hci : conin w = Res.ret CTL_C { w with keys := ks } := by
      unfold conin; rw [hkey]
    rw [bind_ret hci]
    rfl
  unfold get_loop
  rw [bind_run, bind_ret hc]
  simp only [if_true]
  rw [bind_ret hu]
  rfl

/-- With control-C as the key that is waiting, an iteration of the copy loop
of `ftp_directory` is the cancellation, whether the listing goes to a file,
to the collector or to the console. -/
theorem dir_loop_ctrl_c (fuel : Nat) (data fh : Int) (b : Option BUFCTL) (w : World)
    (ks : List Char) (hkey : w.keys = CTL_C :: ks) :
    dir_loop (fuel + 1) data fh b w
      = (abort_transfer fuel >>= fun rc => Prog.pure (rc, b)) { w with keys := ks } := by
  have hc : constat w = Res.ret true w := by
    unfold constat; rw [hkey]; rfl
  have hci : conin w = Res.ret CTL_C { w with keys := ks } := by
    unfold conin; rw [hkey]
  have hu : user_break w = Res.ret (-1) { w with keys := ks } := by
    unfold user_break
    rw [bind_ret hci]
    rfl
  have hi : user_input fuel w = Res.ret (-1) { w with keys := ks } := by
    unfold user_input
    rw [bind_ret hci]
    rfl
  have hstop : ((if fh ≥ 0 ∨ b.isSome = true then user_break else user_input fuel) >>=
      fun rc => (Prog.pure (decide (rc ≠ 0)) : Prog Bool)) w
      = Res.ret true { w with keys := ks } := by
    by_cases hcond : fh ≥ 0 ∨ b.isSome = true
    · simp only [hcond, if_true]
      rw [bind_ret hu]
      rfl
    · simp only [hcond, if_false]
      rw [bind_ret hi]
      rfl
  unfold dir_loop
  rw [bind_run, bind_ret hc]
  simp only [if_true]
  rw [hstop]
  rfl

/-- The end of `ftp_get` and `ftp_put` after a failure (`rc` is not 0): the
data connection is closed, the time taken, the failure shown and 0
returned.  No reply is read. -/
theorem finish_transfer_error (fuel : Nat) (data : Int) (start : Nat) (rc : Int) (w : World)
    (h0 : rc ≠ 0) (h226 : rc ≠ 226) (h250 : rc ≠ 250) :
    finish_transfer fuel data start rc w =
      (message rc >>= fun _ =>
        if w.bell then cputs [Char.ofNat 7] >>= fun _ => Prog.pure 0 else Prog.pure 0)
        { w with close_results := w.close_results.tail, closed := w.closed ++ [data],
                 clocks := w.clocks.tail,
                 transfer_ticks := (w.clocks.headD 0 + 4294967296 - start) % 4294967296 } := by
  have hv : ¬ (w.verbose = true ∧ (rc = 226 ∨ rc = 250)) := by
    intro h
    rcases h.2 with h | h
    · exact h226 h
    · exact h250 h
  unfold finish_transfer
  rw [bind_run]
  unfold TCP_close
  dsimp only
  simp only [h0, if_false]
  rw [bind_run]
  unfold clock
  dsimp only
  rw [bind_run, modify_run]
  dsimp only
  rw [bind_run, get_run]
  dsimp only
  rw [bind_run, Prog_pure_run]
  dsimp only
  simp only [hv, if_false]
  rfl

/-- The end of a cancelled `ftp_get`: nothing is read and nothing sent. -/
theorem finish_transfer_interrupted (fuel : Nat) (data : Int) (start : Nat) (w : World) :
    ∃ wf, finish_transfer fuel data start USER_INTERRUPT w = Res.ret 0 wf ∧
      wf.net = w.net ∧ wf.sent = w.sent ∧ wf.keys = w.keys ∧
      wf.closed = w.closed ++ [data] := by
  rw [finish_transfer_error fuel data start USER_INTERRUPT w (by decide) (by decide) (by decide)]
  have hm : ∀ w1 : World, message USER_INTERRUPT w1
      = Res.ret () { w1 with console := w1.console ++ "Interrupted by user\r\n".toList } :=
    fun w1 => cprintf_run "Interrupted by user\r\n".toList w1 (by decide) (by decide)
  rw [bind_ret (hm _)]
  by_cases hb : w.bell = true
  · simp only [hb, if_true]
    exact ⟨_, rfl, rfl, rfl, rfl, rfl⟩
  · simp only [hb, if_false]
    exact ⟨_, rfl, rfl, rfl, rfl, rfl⟩

/-- The end of a cancelled `ftp_directory`: the local file and the data
connection are closed; nothing is read and nothing sent. -/
theorem finish_directory_interrupted (fuel : Nat) (data fh h : Int) (b : Option BUFCTL)
    (w : World) :
    ∃ wf, finish_directory fuel data fh h (USER_INTERRUPT, b) w
        = Res.ret (USER_INTERRUPT, b) wf ∧
      wf.net = w.net ∧ wf.sent = w.sent ∧ wf.keys = w.keys ∧
      wf.closed = w.closed ++ [data] := by
  unfold finish_directory
  by_cases hf : fh ≥ 0
  · simp only [hf, if_true]
    exact ⟨_, rfl, rfl, rfl, rfl, rfl⟩
  · simp only [hf, if_false]
    exact ⟨_, rfl, rfl, rfl, rfl, rfl⟩

theorem deliver_stream (c : Conn) : c.deliver.stream = c.stream := by
  unfold Conn.deliver Conn.stream
  split
  · rfl
  · rename_i s rest hs
    rw [hs]
    simp

theorem deliver_arrivals (c : Conn) : c.deliver.arrivals = c.arrivals.tail := by
  unfold Conn.deliver
  split
  · rename_i hs; rw [hs]; rfl
  · rename_i s rest hs
    rw [hs]
    rfl

theorem deliver_arrivals_le (c : Conn) : c.deliver.arrivals.length ≤ c.arrivals.length := by
  rw [deliver_arrivals, List.length_tail]
  omega

theorem deliver_queue_length (c : Conn) : c.queue.length ≤ c.deliver.queue.length := by
  obtain ⟨seg, h⟩ := deliver_queue c
  rw [h, List.length_append]
  omega

theorem keys_tail_nil (w : World) (h : w.keys = []) : { w with keys := w.keys.tail } = w := by
  cases w
  simp only at h
  subst h
  rfl

/-- A look at the keyboard that finds no control-C goes on, one key less. -/
theorem key_poll {α : Type} (A B : Prog α) (w : World) (hk : CTL_C ∉ w.keys) :
    (constat >>= fun b => if b = true then (user_break >>= fun r => if r ≠ 0 then A else B) else B) w
      = B { w with keys := w.keys.tail } := by
  cases hkeys : w.keys with
  | nil =>
    have hc : constat w = Res.ret false w := by
      unfold constat; rw [hkeys]; rfl
    rw [bind_ret hc]
    simp only [Bool.false_eq_true, if_false]
    have := keys_tail_nil w hkeys
    rw [hkeys] at this
    rw [this]
  | cons k ks =>
    have hc : constat w = Res.ret true w := by
      unfold constat; rw [hkeys]; rfl
    have hne : k ≠ CTL_C := by
      intro e; apply hk; rw [hkeys, e]; simp
    have hu : user_break w = Res.ret 0 { w with keys := ks } := by
      unfold user_break
      have hci : conin w = Res.ret k { w with keys := ks } := by
        unfold conin; rw [hkeys]
      rw [bind_ret hci]
      simp only [hne, if_false]
      rfl
    rw [bind_ret hc]
    simp only [if_true]
    rw [bind_ret hu]
    simp only [ne_eq, not_true_eq_false, if_false]
    rfl

theorem not_mem_tail {α : Type} (a : α) (l : List α) (h : a ∉ l) : a ∉ l.tail :=
  fun hm => h (List.mem_of_mem_tail hm)

/-- The first loop of `get_one_line` while the header is still on its way. -/
theorem wait_header_arrives (h : Int) : ∀ (fuel : Nat) (w : World) (c : Conn),
    findConn h w.net = some c → 4 ≤ c.stream.length → CTL_C ∉ w.keys →
    c.arrivals.length + 1 ≤ fuel →
    ∃ net1 c1 ks1, wait_header fuel h w = Res.ret 0 { w with net := net1, keys := ks1 } ∧
      findConn h net1 = some c1 ∧ c1.stream = c.stream ∧ 4 ≤ c1.queue.length ∧
      c1.arrivals.length ≤ c.arrivals.length ∧ CTL_C ∉ ks1 := by
  intro fuel
  induction fuel with
  | zero => intro w c _ _ _ hf; omega
  | succ fuel ih =>
    intro w c hc hs hk hf
    by_cases h4 : 4 ≤ c.deliver.queue.length
    · have hne : c.deliver.queue ≠ [] := by
        intro e; rw [e] at h4; simp at h4
      have hcount : CNbyte_count h w = Res.ret (c.deliver.queue.length : Int)
          { w with net := setConn h c.deliver w.net } := by
        unfold CNbyte_count
        simp only [hc, not_ended_of_queue _ hne]
        rfl
      refine ⟨setConn h c.deliver w.net, c.deliver, w.keys, ?_, findConn_setConn h _ c _ hc,
        deliver_stream c, h4, deliver_arrivals_le c, hk⟩
      unfold wait_header
      rw [bind_ret hcount]
      have : (c.deliver.queue.length : Int) ≥ (HEADER_LEN : Int) := by
        simp only [HEADER_LEN]; omega
      simp only [this, if_true]
      rfl
    · have harr : c.arrivals ≠ [] := by
        intro e
        have hd : c.deliver = c := by unfold Conn.deliver; rw [e]
        have : c.stream = c.queue := by unfold Conn.stream; rw [e]; simp
        rw [this] at hs
        rw [hd] at h4
        exact h4 hs
      have hcount : ∃ n : Int, n < 4 ∧ CNbyte_count h w = Res.ret n
          { w with net := setConn h c.deliver w.net } := by
        unfold CNbyte_count
        simp only [hc]
        by_cases he : c.deliver.ended = true
        · exact ⟨E_EOF, by decide, by simp only [he, if_true]⟩
        · exact ⟨(c.deliver.queue.length : Int), by omega, by simp only [he, if_false]; rfl⟩
      obtain ⟨n, hn, hcount⟩ := hcount
      have hlen : c.deliver.arrivals.length + 1 ≤ fuel := by
        rw [deliver_arrivals, List.length_tail]
        have : 0 < c.arrivals.length := List.length_pos.mpr harr
        omega
      obtain ⟨net1, c1, ks1, hrun, hc1, hs1, hq1, ha1, hk1⟩ :=
        ih { w with net := setConn h c.deliver w.net, keys := w.keys.tail } c.deliver
          (findConn_setConn h _ c _ hc) (by rw [deliver_stream]; exact hs)
          (not_mem_tail _ _ hk) hlen
      refine ⟨net1, c1, ks1, ?_, hc1, hs1.trans (deliver_stream c), hq1,
        le_trans ha1 (deliver_arrivals_le c), hk1⟩
      unfold wait_header
      rw [bind_ret hcount]
      have : ¬ (n ≥ (HEADER_LEN : Int)) := by
        simp only [HEADER_LEN]; omega
      simp only [this, if_false]
      have hp := key_poll (Prog.pure USER_INTERRUPT) (wait_header fuel h)
        { w with net := setConn h c.deliver w.net } hk
      exact hp.trans hrun

/-- The call `CNget_block` when the bytes asked for have been received. -/
theorem CNget_block_stream (h : Int) (n : Nat) (w : World) (c : Conn) (hd tl : List Char)
    (hc : findConn h w.net = some c) (hq : n ≤ c.queue.length) (hs : c.stream = hd ++ tl)
    (hn : hd.length = n) (hpos : 0 < n) :
    ∃ net1 c1, CNget_block h n w = Res.ret ((n : Int), hd) { w with net := net1 } ∧
      findConn h net1 = some c1 ∧ c1.stream = tl ∧ c1.arrivals.length ≤ c.arrivals.length := by
  have hle : n ≤ c.deliver.queue.length := le_trans hq (deliver_queue_length c)
  have hne : c.deliver.queue ≠ [] := by
    intro e; rw [e] at hle; simp at hle; omega
  have hst : c.deliver.queue ++ c.deliver.arrivals.flatten = hd ++ tl := by
    have := deliver_stream c
    unfold Conn.stream at this hs
    rw [this, hs]
  have htake : c.deliver.queue.take n = hd := by
    have h1 : (c.deliver.queue ++ c.deliver.arrivals.flatten).take n = c.deliver.queue.take n :=
      List.take_append_of_le_length hle
    rw [← h1, hst, ← hn]
    simp
  have hdrop : c.deliver.queue.drop n ++ c.deliver.arrivals.flatten = tl := by
    have h1 : (c.deliver.queue ++ c.deliver.arrivals.flatten).drop n
        = c.deliver.queue.drop n ++ c.deliver.arrivals.flatten :=
      List.drop_append_of_le_length hle
    rw [← h1, hst, ← hn]
    simp
  refine ⟨setConn h { c.deliver with queue := c.deliver.queue.drop n } w.net,
    { c.deliver with queue := c.deliver.queue.drop n }, ?_, findConn_setConn h _ c _ hc, hdrop,
    deliver_arrivals_le c⟩
  unfold CNget_block
  simp only [hc, not_ended_of_queue _ hne]
  simp only [hle, if_true, Bool.false_eq_true, if_false]
  rw [htake]

theorem span_none (q : List Char) (delim : Char) (h : delim ∉ q) :
    q.span (fun x => x != delim) = (q, []) := by
  rw [List.span_eq_take_drop]
  have hall : ∀ x ∈ q, (x != delim) = true := by
    intro x hx
    simp only [bne_iff_ne, ne_eq]
    intro e; exact h (e ▸ hx)
  rw [List.takeWhile_eq_self_iff.mpr hall, List.dropWhile_eq_nil_iff.mpr hall]

/-- Where the first newline of a stream lies when it has been received. -/
theorem stream_split_in (q j text rest : List Char) (hs : q ++ j = text ++ '\n' :: rest)
    (hnl : '\n' ∉ text) (hin : '\n' ∈ q) : ∃ r1, q = text ++ '\n' :: r1 ∧ r1 ++ j = rest := by
  rcases List.append_eq_append_iff.mp hs with ⟨a, e1, _⟩ | ⟨c, e1, e2⟩
  · exact absurd (by rw [e1]; simp [hin]) hnl
  · cases c with
    | nil =>
      rw [List.append_nil] at e1
      exact absurd (e1 ▸ hin) hnl
    | cons x c =>
      simp only [List.cons_append, List.cons.injEq] at e2
      exact ⟨c, by rw [e1, ← e2.1], e2.2.symm⟩

/-- When the first newline of a stream has not been received, more is on its way. -/
theorem stream_split_out (q j text rest : List Char) (hs : q ++ j = text ++ '\n' :: rest)
    (hout : '\n' ∉ q) : j ≠ [] := by
  intro e
  rw [e, List.append_nil] at hs
  apply hout
  rw [hs]
  simp

/-- The second loop of `get_one_line` while the rest of the line is still
on its way: it is read when it has come, and fits the limit given. -/
theorem read_rest_arrives (h : Int) (q : Nat) (text rest A B : List Char) (hnl : '\n' ∉ text)
    (hqA : q = A.length) (hfit : text.length + 1 ≤ B.length) (hshort : text.length + 2 ≤ 32767) :
    ∀ (fuel : Nat) (maxlen : Int) (w : World) (c : Conn),
    findConn h w.net = some c → c.stream = text ++ '\n' :: rest →
    w.reply = some (A ++ B) → (text.length : Int) + 2 ≤ maxlen → CTL_C ∉ w.keys →
    c.arrivals.length + 1 ≤ fuel →
    ∃ net1 c1 ks1, read_rest fuel h q maxlen w
        = Res.ret (LineExit.brk (text.length : Int) q)
            { w with net := net1, keys := ks1,
                     reply := some (A ++ (text ++ [NUL]) ++ B.drop (text ++ [NUL]).length) } ∧
      findConn h net1 = some c1 ∧ c1.stream = rest ∧
      c1.arrivals.length ≤ c.arrivals.length ∧ CTL_C ∉ ks1 := by
  intro fuel
  induction fuel with
  | zero => intro maxlen w c _ _ _ _ _ hf; omega
  | succ fuel ih =>
    intro maxlen w c hc hs hrep hmax hk hf
    have hlim : (text.length : Int) + 1 ≤ (if maxlen > SHRT_MAX then SHRT_MAX else maxlen) - 1 := by
      unfold SHRT_MAX
      split <;> omega
    have hst : c.deliver.queue ++ c.deliver.arrivals.flatten = text ++ '\n' :: rest := by
      have := deliver_stream c
      unfold Conn.stream at this hs
      rw [this, hs]
    by_cases hin : '\n' ∈ c.deliver.queue
    · obtain ⟨r1, hq1, hr1⟩ := stream_split_in _ _ text rest hst hnl hin
      have hgets : CNgets h ((if maxlen > SHRT_MAX then SHRT_MAX else maxlen) - 1) '\n' w
          = Res.ret ((text.length : Int), text)
              { w with net := setConn h { c.deliver with queue := r1 } w.net } := by
        unfold CNgets
        simp only [hc]
        rw [hq1, span_until text r1 '\n' hnl]
        simp only [hlim, if_true]
      have hpoke := poke_reply_append q (text ++ [NUL]) A B
        { w with net := setConn h { c.deliver with queue := r1 } w.net } hrep hqA (by simp; omega)
      refine ⟨_, { c.deliver with queue := r1 }, w.keys, ?_, findConn_setConn h _ c _ hc, hr1,
        deliver_arrivals_le c, hk⟩
      unfold read_rest
      dsimp only
      rw [bind_ret hgets]
      dsimp only
      have e1 : ¬ ((text.length : Int) = E_BIGBUF) := by unfold E_BIGBUF; omega
      have e2 : (text.length : Int) ≠ E_NODATA := by unfold E_NODATA; omega
      have e3 : (text.length : Int) ≥ 0 := by omega
      simp only [e1, e2, e3, if_false, if_true, ne_eq, not_false_eq_true]
      rw [bind_ret hpoke]
      rfl
    · have hj := stream_split_out _ _ text rest hst hin
      have harr : c.deliver.arrivals ≠ [] := by
        intro e; rw [e] at hj; exact hj rfl
      have hne : c.deliver.ended = false := by
        unfold Conn.ended
        cases ha : c.deliver.arrivals with
        | nil => exact absurd ha harr
        | cons s t => simp
      have hgets : CNgets h ((if maxlen > SHRT_MAX then SHRT_MAX else maxlen) - 1) '\n' w
          = Res.ret (E_NODATA, []) { w with net := setConn h c.deliver w.net } := by
        unfold CNgets
        simp only [hc]
        rw [span_none _ _ hin]
        simp only [hne, Bool.false_eq_true, if_false]
      have hlen : c.deliver.arrivals.length + 1 ≤ fuel := by
        have h0 : 0 < c.deliver.arrivals.length := List.length_pos.mpr harr
        have h1 := deliver_arrivals c
        have h2 : c.deliver.arrivals.length = c.arrivals.length - 1 := by
          rw [h1, List.length_tail]
        omega
      have hmax2 : (text.length : Int) + 2 ≤ (if maxlen > SHRT_MAX then SHRT_MAX else maxlen) := by
        unfold SHRT_MAX
        split <;> omega
      obtain ⟨net1, c1, ks1, hrun, hc1, hs1, ha1, hk1⟩ :=
        ih (if maxlen > SHRT_MAX then SHRT_MAX else maxlen)
          { w with net := setConn h c.deliver w.net, keys := w.keys.tail } c.deliver
          (findConn_setConn h _ c _ hc) (by unfold Conn.stream; exact hst) hrep hmax2
          (not_mem_tail _ _ hk) hlen
      refine ⟨net1, c1, ks1, ?_, hc1, hs1, le_trans ha1 (deliver_arrivals_le c), hk1⟩
      unfold read_rest
      dsimp only
      rw [bind_ret hgets]
      dsimp only
      have e1 : ¬ (E_NODATA = E_BIGBUF) := by decide
      simp only [e1, if_false, ne_eq, not_true_eq_false]
      have hp := key_poll (Prog.pure (LineExit.retn USER_INTERRUPT))
        (read_rest fuel h q (if maxlen > SHRT_MAX then SHRT_MAX else maxlen))
        { w with net := setConn h c.deliver w.net } hk
      exact hp.trans hrun

/-- Source `get_one_line` on a line that is still on its way, in whatever
segments, and fits the buffer with the limit given, when no control-C is
among the keys typed: the line is read as in `get_one_line_line` and the
connection is left with what the peer sent after it. -/
theorem get_one_line_arrives (fuel : Nat) (h : Int) (p : Nat) (maxlen : Int) (w : World) (c : Conn)
    (mem hdr text rest : List Char)
    (hc : findConn h w.net = some c)
    (hs : c.stream = hdr ++ (text ++ '\n' :: rest))
    (hlen : hdr.length = 4) (hnulh : NUL ∉ hdr) (hnl : '\n' ∉ text)
    (hmem : w.reply = some mem) (hfit : p + 4 + text.length + 2 ≤ mem.length)
    (hmax : (text.length : Int) + 2 ≤ maxlen) (hshort : text.length + 2 ≤ 32767)
    (hk : CTL_C ∉ w.keys) (hf : c.arrivals.length + 1 ≤ fuel) :
    ∃ net1 c1 ks1, get_one_line fuel h p maxlen w
        = Res.ret (if hdr.getD 3 NUL = ' ' then 0 else 1, p + 4 + text.length + 1)
            { w with net := net1, keys := ks1, header := hdr ++ [NUL],
                     reply := some (mem.take p ++ hdr ++ text ++ ['\n', NUL]
                                      ++ mem.drop (p + 4 + text.length + 2)) } ∧
      findConn h net1 = some c1 ∧ c1.stream = rest ∧
      c1.arrivals.length ≤ c.arrivals.length ∧ CTL_C ∉ ks1 := by
  -- the header arrives
  obtain ⟨neta, ca, ksa, ha, hca, hsa, hqa, haa, hka⟩ :=
    wait_header_arrives h fuel w c hc (by rw [hs]; simp [hlen]) hk hf
  obtain ⟨netb, cb, hb, hcb, hsb, hab⟩ :=
    CNget_block_stream h HEADER_LEN { w with net := neta, keys := ksa } ca hdr _ hca
      (by simp only [HEADER_LEN]; exact hqa) (hsa.trans hs) hlen (by decide)
  -- the header goes into the buffer
  have hsplit : mem = mem.take p ++ mem.drop p := (List.take_append_drop p mem).symm
  have hA : (mem.take p).length = p := by simp; omega
  have hB : (mem.drop p).length = mem.length - p := by simp
  have hpoke1 := poke_reply_append p (hdr ++ [NUL]) (mem.take p) (mem.drop p)
    { w with net := netb, keys := ksa, header := hdr ++ [NUL] }
    (by show w.reply = _; rw [hmem, ← hsplit]) hA.symm
    (by simp [hlen]; omega)
  -- the rest of the line
  have hrep2 : ({ w with
        net := netb, keys := ksa, header := hdr ++ [NUL],
        reply := some (mem.take p ++ (hdr ++ [NUL]) ++ (mem.drop p).drop (hdr ++ [NUL]).length) }
      : World).reply
      = some ((mem.take p ++ hdr) ++ (NUL :: (mem.drop p).drop 5)) := by
    show some _ = some _
    simp [hlen]
  obtain ⟨netc, cc, ksc, hcr, hcc, hsc, hac, hkc⟩ :=
    read_rest_arrives h (p + HEADER_LEN) text rest (mem.take p ++ hdr)
      (NUL :: (mem.drop p).drop 5) hnl (by simp [HEADER_LEN, hlen]; omega) (by simp; omega) hshort
      fuel maxlen _ cb hcb hsb hrep2 hmax hka (by omega)
  -- the newline and the NUL
  have hpoke3 := poke_reply_append (p + HEADER_LEN + (text.length : Int).toNat) ['\n']
    (mem.take p ++ hdr ++ text) (NUL :: ((NUL :: (mem.drop p).drop 5).drop (text ++ [NUL]).length))
    { w with
        net := netc, keys := ksc, header := hdr ++ [NUL],
        reply := some ((mem.take p ++ hdr) ++ (text ++ [NUL])
          ++ (NUL :: (mem.drop p).drop 5).drop (text ++ [NUL]).length) }
    (by show some _ = some _; simp)
    (by simp [HEADER_LEN, hlen]; omega) (by simp)
  have hpoke4 := poke_reply_append (p + HEADER_LEN + (text.length : Int).toNat + 1) [NUL]
    (mem.take p ++ hdr ++ text ++ ['\n']) ((NUL :: (mem.drop p).drop 5).drop (text ++ [NUL]).length)
    { w with
        net := netc, keys := ksc, header := hdr ++ [NUL],
        reply := some ((mem.take p ++ hdr ++ text) ++ ['\n']
          ++ (NUL :: ((NUL :: (mem.drop p).drop 5).drop (text ++ [NUL]).length)).drop ['\n'].length) }
    (by show some _ = some _; simp)
    (by simp [HEADER_LEN, hlen]; omega) (by simp; omega)
  refine ⟨netc, cc, ksc, ?_, hcc, hsc, by omega, hkc⟩
  unfold get_one_line
  rw [bind_ret ha]
  simp only [ne_eq, not_true_eq_false, if_false]
  rw [bind_ret hb]
  dsimp only
  simp only [ne_eq, not_true_eq_false, if_false]
  rw [bind_run, modify_run]
  dsimp only
  rw [bind_run, get_run]
  dsimp only
  rw [cstr_append_nul hdr [] hnulh]
  rw [bind_ret hpoke1]
  rw [bind_ret hcr]
  dsimp only
  have e3 : (text.length : Int) ≥ 0 := by omega
  simp only [e3, if_true]
  rw [bind_ret hpoke3, bind_ret hpoke4]
  rw [bind_run, get_run]
  dsimp only
  have hidx : HEADER_LEN - 1 = 3 := rfl
  have hpos : p + HEADER_LEN + ((text.length : Int)).toNat + 1 = p + 4 + text.length + 1 := by
    simp [HEADER_LEN]
  have hmemeq : List.take p mem ++ hdr ++ text ++ ['\n'] ++ [NUL]
        ++ List.drop [NUL].length
            (List.drop (text ++ [NUL]).length (NUL :: List.drop 5 (List.drop p mem)))
      = List.take p mem ++ hdr ++ text ++ ['\n', NUL] ++ List.drop (p + 4 + text.length + 2) mem := by
    have e1 : List.drop [NUL].length
        (List.drop (text ++ [NUL]).length (NUL :: List.drop 5 (List.drop p mem)))
        = List.drop (p + 4 + text.length + 2) mem := by
      simp only [List.length_append, List.length_singleton, List.drop_succ_cons, List.drop_drop]
      congr 1
      omega
    rw [e1]
    simp
  rw [hidx, getD_three_append hdr hlen, hpos, hmemeq]
  rfl

/-- The loop of `get_reply` on a reply that is still on its way, in whatever
segments, and fits the buffer, when no control-C is among the keys typed:
the reply is read whole and the connection is left with what the peer sent
after it. -/
theorem get_reply_loop_arrives (h : Int) (final : List Char × List Char)
    (hfinal : WellFramed final) (hsp : final.1.getD 3 NUL = ' ')
    (cont : List (List Char × List Char)) :
    ∀ (fuel p : Nat) (w : World) (c : Conn) (mem rest : List Char),
      (∀ l ∈ cont, WellFramed l ∧ l.1.getD 3 NUL ≠ ' ') →
      findConn h w.net = some c → c.stream = wireReply cont final ++ rest →
      w.reply = some mem → w.reply_size = mem.length →
      p + (wireReply cont final).length + 1 ≤ mem.length →
      (wireReply cont final).length + 1 ≤ 32767 →
      CTL_C ∉ w.keys → cont.length + 2 + c.arrivals.length ≤ fuel →
      ∃ net1 c1 ks1, get_reply_loop fuel h p w
        = Res.ret (atoi w.overflows final.1)
            { w with net := net1, keys := ks1, header := final.1 ++ [NUL],
                     reply := some (mem.take p ++ wireReply cont final ++ [NUL]
                                      ++ mem.drop (p + (wireReply cont final).length + 1)) } ∧
        findConn h net1 = some c1 ∧ c1.stream = rest ∧
        c1.arrivals.length ≤ c.arrivals.length ∧ CTL_C ∉ ks1 := by
  induction cont with
  | nil =>
    intro fuel p w c mem rest _ hc hs hmem hsize hfit hshort hk hf
    obtain ⟨h4, hn, hnl⟩ := hfinal
    have hlenw : (wireReply [] final).length = 4 + final.2.length + 1 := by
      simp [wireReply, wireLine, h4]; omega
    rw [hlenw] at hfit hshort
    have hs2 : c.stream = final.1 ++ (final.2 ++ '\n' :: rest) := by
      rw [hs]; simp [wireReply, wireLine]
    simp only [List.length_nil] at hf
    obtain ⟨f1, hf1⟩ : ∃ f1, fuel = f1 + 1 := ⟨fuel - 1, by omega⟩
    obtain ⟨net1, c1, ks1, hrun, hc1, hs1, ha1, hk1⟩ :=
      get_one_line_arrives f1 h p ((w.reply_size : Int) - p) w c mem final.1 final.2 rest hc hs2 h4 hn
        hnl hmem (by omega) (by rw [hsize]; omega) (by omega) hk (by omega)
    refine ⟨net1, c1, ks1, ?_, hc1, hs1, ha1, hk1⟩
    rw [hf1]
    unfold get_reply_loop
    rw [bind_run, get_run]
    dsimp only
    rw [bind_ret hrun]
    simp only [hsp, if_true]
    simp only [show ¬ ((0 : Int) < 0) by decide, if_false]
    rw [bind_run, get_run]
    dsimp only
    rw [cstr_append_nul final.1 [] hn]
    have hm : List.take p mem ++ final.1 ++ final.2 ++ ['\n', NUL]
          ++ List.drop (p + 4 + final.2.length + 2) mem
        = List.take p mem ++ wireReply [] final ++ [NUL]
          ++ List.drop (p + (wireReply [] final).length + 1) mem := by
      rw [hlenw]
      simp only [wireReply, wireLine]
      have : p + 4 + final.2.length + 2 = p + (4 + final.2.length + 1) + 1 := by omega
      rw [this]
      simp
    rw [hm]
    rfl
  | cons l ls ih =>
    intro fuel p w c mem rest hcont hc hs hmem hsize hfit hshort hk hf
    obtain ⟨⟨h4, hn, hnl⟩, hns⟩ := hcont l (by simp)
    have hpos := wireReply_length_pos ls final
    have hlenw : (wireReply (l :: ls) final).length
        = 4 + l.2.length + 1 + (wireReply ls final).length := by
      simp [wireReply, wireLine, h4]; omega
    rw [hlenw] at hfit hshort
    have hs2 : c.stream = l.1 ++ (l.2 ++ '\n' :: (wireReply ls final ++ rest)) := by
      rw [hs]; simp [wireReply, wireLine]
    simp only [List.length_cons] at hf
    obtain ⟨f1, hf1⟩ : ∃ f1, fuel = f1 + 1 := ⟨fuel - 1, by omega⟩
    obtain ⟨net1, c1, ks1, hrun, hc1, hs1, ha1, hk1⟩ :=
      get_one_line_arrives f1 h p ((w.reply_size : Int) - p) w c mem l.1 l.2 _
        hc hs2 h4 hn hnl hmem (by omega) (by rw [hsize]; omega) (by omega) hk (by omega)
    have hlen1 : (List.take p mem ++ l.1 ++ l.2 ++ ['\n', NUL]
        ++ List.drop (p + 4 + l.2.length + 2) mem).length = mem.length := by
      simp [h4]; omega
    obtain ⟨net2, c2, ks2, hrest, hc2, hs2c, ha2, hk2⟩ := ih f1 (p + 4 + l.2.length + 1)
      { w with net := net1, keys := ks1, header := l.1 ++ [NUL],
               reply := some (List.take p mem ++ l.1 ++ l.2 ++ ['\n', NUL]
                                ++ List.drop (p + 4 + l.2.length + 2) mem) }
      c1 _ rest (fun x hx => hcont x (by simp [hx])) hc1 hs1 rfl
      (by show w.reply_size = _; rw [hsize, hlen1]) (by rw [hlen1]; omega) (by omega) hk1
      (by omega)
    refine ⟨net2, c2, ks2, ?_, hc2, hs2c, by omega, hk2⟩
    rw [hf1]
    unfold get_reply_loop
    rw [bind_run, get_run]
    dsimp only
    rw [bind_ret hrun]
    simp only [hns, if_false]
    simp only [show ¬ ((1 : Int) < 0) by decide, show ¬ ((1 : Int) = 0) by decide, if_false]
    rw [hrest]
    have hX : (List.take p mem ++ l.1 ++ l.2 ++ ['\n']).length = p + 4 + l.2.length + 1 := by
      simp [h4]; omega
    have hM : List.take p mem ++ l.1 ++ l.2 ++ ['\n', NUL] ++ List.drop (p + 4 + l.2.length + 2) mem
        = (List.take p mem ++ l.1 ++ l.2 ++ ['\n'])
          ++ NUL :: List.drop (p + 4 + l.2.length + 2) mem := by
      simp
    have hT : List.take (p + 4 + l.2.length + 1)
        (List.take p mem ++ l.1 ++ l.2 ++ ['\n', NUL] ++ List.drop (p + 4 + l.2.length + 2) mem)
        = List.take p mem ++ l.1 ++ l.2 ++ ['\n'] := by
      rw [hM]
      exact List.take_left' hX
    have hD : List.drop (p + 4 + l.2.length + 1 + (wireReply ls final).length + 1)
        (List.take p mem ++ l.1 ++ l.2 ++ ['\n', NUL] ++ List.drop (p + 4 + l.2.length + 2) mem)
        = List.drop (p + (4 + l.2.length + 1 + (wireReply ls final).length) + 1) mem := by
      rw [hM]
      have e : p + 4 + l.2.length + 1 + (wireReply ls final).length + 1
          = (List.take p mem ++ l.1 ++ l.2 ++ ['\n']).length + ((wireReply ls final).length + 1) := by
        rw [hX]; omega
      rw [e, List.drop_append, List.drop_succ_cons, List.drop_drop]
      congr 1
      omega
    rw [hT, hD, hlenw]
    have hW : List.take p mem ++ l.1 ++ l.2 ++ ['\n'] ++ wireReply ls final
        = List.take p mem ++ wireReply (l :: ls) final := by
      simp [wireReply, wireLine]
    rw [hW]

/-- `get_reply` on a reply that is still on its way, in whatever segments,
and fits the buffer as it is, when no control-C is among the keys typed: the
code of the final line is returned and the connection is left with what the
peer sent after the reply. -/
theorem get_reply_arrives (fuel : Nat) (h : Int) (w : World) (c : Conn)
    (mem rest ds text : List Char) (cont : List (List Char × List Char))
    (hwire : ReplyOnWire cont ds text)
    (hc : findConn h w.net = some c)
    (hs : c.stream = wireReply cont (ds ++ [' '], text) ++ rest)
    (hmem : w.reply = some mem) (hsize : w.reply_size = mem.length)
    (hfit : (wireReply cont (ds ++ [' '], text)).length + 1 ≤ mem.length)
    (hshort : (wireReply cont (ds ++ [' '], text)).length + 1 ≤ 32767)
    (hk : CTL_C ∉ w.keys) (hf : cont.length + 2 + c.arrivals.length ≤ fuel) :
    ∃ net1 c1 ks1, get_reply fuel h w
      = Res.ret (decVal ds : Int)
          { w with net := net1, keys := ks1, header := ds ++ [' '] ++ [NUL],
                   reply := some (wireReply cont (ds ++ [' '], text) ++ [NUL]
                     ++ mem.drop ((wireReply cont (ds ++ [' '], text)).length + 1)) } ∧
      findConn h net1 = some c1 ∧ c1.stream = rest ∧
      c1.arrivals.length ≤ c.arrivals.length ∧ CTL_C ∉ ks1 := by
  obtain ⟨hcont, hds, hdig, hnl⟩ := hwire
  have hnulds : NUL ∉ ds := fun hm => (isDigit_not_sign NUL (hdig NUL hm)).2.2.2 rfl
  have hfinal : WellFramed (ds ++ [' '], text) := by
    refine ⟨by simp [hds], ?_, hnl⟩
    simp only [List.mem_append, List.mem_singleton, not_or]
    exact ⟨hnulds, by decide⟩
  have hsp : (ds ++ [' ']).getD 3 NUL = ' ' := by
    match ds, hds with
    | [a, b, c], _ => rfl
  have hcont2 : ∀ l ∈ cont, WellFramed l ∧ l.1.getD 3 NUL ≠ ' ' := by
    intro l hl
    obtain ⟨ccc, e, h3, hn, hnl2⟩ := hcont l hl
    refine ⟨⟨by rw [e]; simp [h3], ?_, hnl2⟩, ?_⟩
    · rw [e]
      simp only [List.mem_append, List.mem_singleton, not_or]
      exact ⟨hn, by decide⟩
    · rw [e]
      match ccc, h3 with
      | [a, b, c], _ => exact (show ('-' : Char) ≠ ' ' by decide)
  obtain ⟨net1, c1, ks1, hrun, hc1, hs1, ha1, hk1⟩ := get_reply_loop_arrives h (ds ++ [' '], text)
    hfinal hsp cont fuel 0 w c mem rest hcont2 hc hs hmem hsize (by omega) hshort hk hf
  refine ⟨net1, c1, ks1, ?_, hc1, hs1, ha1, hk1⟩
  unfold get_reply
  rw [hrun]
  have ha : atoi w.overflows (ds ++ [' '], text).1 = (decVal ds : Int) :=
    atoi_code _ ds hds hdig
  rw [ha]
  simp

/-- The cancellation when no control-C is among the keys typed after the one
that cancelled, the transport takes the ABOR, and the two replies to it are
received or still on their way, in whatever segments, each fitting the reply
buffer as it is: `abort_transfer` returns `USER_INTERRUPT`, and the control
connection is left with exactly what the server sent after the second reply. -/
theorem abort_transfer_arrives (fuel : Nat) (w : World) (c : Conn) (mem rest : List Char)
    (cont1 cont2 : List (List Char × List Char)) (ds1 t1 ds2 t2 : List Char)
    (hfuel1 : cont1.length + 2 + c.arrivals.length ≤ fuel)
    (hfuel2 : cont2.length + 2 + c.arrivals.length ≤ fuel)
    (hk : CTL_C ∉ w.keys)
    (hacc : 0 ≤ w.send_results.headD E_NORMAL)
    (hw1 : ReplyOnWire cont1 ds1 t1) (hw2 : ReplyOnWire cont2 ds2 t2)
    (hcode1 : 100 ≤ decVal ds1 ∧ decVal ds1 ≤ 599) (hcode2 : 100 ≤ decVal ds2 ∧ decVal ds2 ≤ 599)
    (hc : findConn w.handle w.net = some c)
    (hs : c.stream = wireReply cont1 (ds1 ++ [' '], t1)
            ++ (wireReply cont2 (ds2 ++ [' '], t2) ++ rest))
    (hmem : w.reply = some mem) (hsize : w.reply_size = mem.length)
    (hfit1 : (wireReply cont1 (ds1 ++ [' '], t1)).length + 1 ≤ mem.length)
    (hfit2 : (wireReply cont2 (ds2 ++ [' '], t2)).length + 1 ≤ mem.length)
    (hshort : mem.length ≤ 32767) :
    ∃ w1 c1, abort_transfer fuel w = Res.ret USER_INTERRUPT w1 ∧
      findConn w.handle w1.net = some c1 ∧ c1.stream = rest := by
  obtain ⟨w0, hecho, hw0⟩ := send_command_echo_abor w
  have e0net : w0.net = w.net := by rw [hw0]
  have e0rep : w0.reply = w.reply := by rw [hw0]
  have e0size : w0.reply_size = w.reply_size := by rw [hw0]
  have e0sr : w0.send_results = w.send_results := by rw [hw0]
  have e0keys : w0.keys = w.keys := by rw [hw0]
  rw [abort_transfer_reads_two fuel w w0 hecho (by rw [e0sr]; exact hacc)]
  -- the first reply
  obtain ⟨net1, c1, ks1, hrun1, hc1, hs1, ha1, hk1⟩ := get_reply_arrives fuel w.handle
    { w0 with send_results := w0.send_results.tail,
              sent := w0.sent ++ [(w.handle, "ABOR\r\n".toList)] }
    c mem _ ds1 t1 cont1 hw1 (by show findConn w.handle w0.net = _; rw [e0net]; exact hc) hs
    (by show w0.reply = _; rw [e0rep]; exact hmem)
    (by show w0.reply_size = _; rw [e0size]; exact hsize) hfit1 (by omega)
    (by show CTL_C ∉ w0.keys; rw [e0keys]; exact hk) hfuel1
  rw [bind_ret hrun1]
  have hnul1 : NUL ∈ wireReply cont1 (ds1 ++ [' '], t1) ++ [NUL]
      ++ mem.drop ((wireReply cont1 (ds1 ++ [' '], t1)).length + 1) := by
    simp
  have hlen1 : (wireReply cont1 (ds1 ++ [' '], t1) ++ [NUL]
      ++ mem.drop ((wireReply cont1 (ds1 ++ [' '], t1)).length + 1)).length = mem.length := by
    simp only [List.length_append, List.length_singleton, List.length_drop]
    omega
  obtain ⟨w3, hm1, hw3⟩ := message_reply_returns (decVal ds1 : Int)
    { w0 with send_results := w0.send_results.tail,
              sent := w0.sent ++ [(w.handle, "ABOR\r\n".toList)],
              net := net1, keys := ks1, header := ds1 ++ [' '] ++ [NUL],
              reply := some (wireReply cont1 (ds1 ++ [' '], t1) ++ [NUL]
                ++ mem.drop ((wireReply cont1 (ds1 ++ [' '], t1)).length + 1)) } _
    (by exact_mod_cast hcode1.1) (by exact_mod_cast hcode1.2) rfl hnul1
  rw [bind_ret hm1]
  -- the second reply
  have e3net : w3.net = net1 := by rw [hw3]
  have e3keys : w3.keys = ks1 := by rw [hw3]
  have e3rep : w3.reply = some (wireReply cont1 (ds1 ++ [' '], t1) ++ [NUL]
      ++ mem.drop ((wireReply cont1 (ds1 ++ [' '], t1)).length + 1)) := by rw [hw3]
  have e3size : w3.reply_size = w0.reply_size := by rw [hw3]
  obtain ⟨net2, c2, ks2, hrun2, hc2, hs2, _, _⟩ := get_reply_arrives fuel w.handle w3 c1 _ rest
    ds2 t2 cont2 hw2 (by rw [e3net]; exact hc1) hs1 e3rep
    (by rw [e3size, e0size, hsize, hlen1]) (by rw [hlen1]; exact hfit2) (by omega)
    (by rw [e3keys]; exact hk1) (by omega)
  rw [bind_ret hrun2]
  have hnul2 : NUL ∈ wireReply cont2 (ds2 ++ [' '], t2) ++ [NUL]
      ++ (wireReply cont1 (ds1 ++ [' '], t1) ++ [NUL]
        ++ mem.drop ((wireReply cont1 (ds1 ++ [' '], t1)).length + 1)).drop
          ((wireReply cont2 (ds2 ++ [' '], t2)).length + 1) := by
    simp
  obtain ⟨w5, hm2, hw5⟩ := message_reply_returns (decVal ds2 : Int)
    { w3 with net := net2, keys := ks2, header := ds2 ++ [' '] ++ [NUL],
              reply := some (wireReply cont2 (ds2 ++ [' '], t2) ++ [NUL]
                ++ (wireReply cont1 (ds1 ++ [' '], t1) ++ [NUL]
                  ++ mem.drop ((wireReply cont1 (ds1 ++ [' '], t1)).length + 1)).drop
                    ((wireReply cont2 (ds2 ++ [' '], t2)).length + 1)) } _
    (by exact_mod_cast hcode2.1) (by exact_mod_cast hcode2.2) rfl hnul2
  rw [bind_ret hm2]
  refine ⟨w5, c2, rfl, ?_, hs2⟩
  have e5net : w5.net = net2 := by rw [hw5]
  rw [e5net]
  exact hc2

/-- C13, as stated, fails: with control-C typed twice, the second one is
found by the poll of `get_one_line` while the reply to the ABOR has not
arrived.  `ftp_get` returns 0 having sent ABOR once, but it has read one
reply only (426): `226 Abort ok` is left unread on the control connection,
and the next command, here CDUP, takes it for its own reply. -/
theorem second_ctrl_c_leaves_reply_unread :
    (ftp_get 12 "a.txt".toList "b.txt".toList false recancelWorld).code = some 0 ∧
    (ftp_get 12 "a.txt".toList "b.txt".toList false recancelWorld).world.map World.sent
      = some [(3, "PASV\r\n".toList), (3, "RETR b.txt\r\n".toList), (3, "ABOR\r\n".toList)] ∧
    (ftp_get 12 "a.txt".toList "b.txt".toList false recancelWorld).world.map
        (fun w => (w.conn 3).map Conn.stream) = some (some "226 Abort ok\r\n".toList) ∧
    ((ftp_get 12 "a.txt".toList "b.txt".toList false >>= fun _ => ftp_cdup 12) recancelWorld).code
      = some 226 := by
  decide!

/-- C13 as amended: with control-C as the key waiting when the copy loop of
`ftp_get` or `ftp_directory` polls the keyboard, the iteration is
`abort_transfer` and nothing is read from the data connection.  Every
returned `abort_transfer` gives `USER_INTERRUPT` and has sent ABOR once, on
the control connection, and nothing else; it read no other connection and
touched no file.  When no further control-C is among the keys typed, the
transport takes the ABOR, and the two replies to it (codes 100 to 599,
whatever they are, each fitting the reply buffer as it is) are received or
still on their way, in whatever segments, `abort_transfer` returns and the
control connection is left with exactly what the server sent after the
second reply: two replies were read, no more and no less.  The same holds
whatever keys were typed when both replies had been received before the
ABOR went out.  After the loop `ftp_get` (through `finish_transfer`) and
`ftp_directory` (through `finish_directory`) close the data connection and
return without reading or sending anything more. -/
theorem cancel_sends_abor_reads_two (fuel : Nat) (w : World) (ks : List Char)
    (hkey : w.keys = CTL_C :: ks) :
    (∀ data fh prev,
      get_loop (fuel + 1) data fh prev w = abort_transfer fuel { w with keys := ks }) ∧
    (∀ data fh b,
      dir_loop (fuel + 1) data fh b w
        = (abort_transfer fuel >>= fun rc => Prog.pure (rc, b)) { w with keys := ks }) ∧
    (∀ rc w1, abort_transfer fuel { w with keys := ks } = Res.ret rc w1 →
      rc = USER_INTERRUPT ∧ w1.sent = w.sent ++ [(w.handle, "ABOR\r\n".toList)] ∧
      (∀ k, k ≠ w.handle → w1.conn k = w.conn k) ∧ FilesIdle w w1) ∧
    (∀ (c : Conn) (mem rest : List Char) (cont1 cont2 : List (List Char × List Char))
        (ds1 t1 ds2 t2 : List Char),
      CTL_C ∉ ks →
      cont1.length + 2 + c.arrivals.length ≤ fuel → cont2.length + 2 + c.arrivals.length ≤ fuel →
      0 ≤ w.send_results.headD E_NORMAL →
      ReplyOnWire cont1 ds1 t1 → ReplyOnWire cont2 ds2 t2 →
      100 ≤ decVal ds1 ∧ decVal ds1 ≤ 599 → 100 ≤ decVal ds2 ∧ decVal ds2 ≤ 599 →
      findConn w.handle w.net = some c →
      c.stream = wireReply cont1 (ds1 ++ [' '], t1)
                  ++ (wireReply cont2 (ds2 ++ [' '], t2) ++ rest) →
      w.reply = some mem → w.reply_size = mem.length →
      (wireReply cont1 (ds1 ++ [' '], t1)).length + 1 ≤ mem.length →
      (wireReply cont2 (ds2 ++ [' '], t2)).length + 1 ≤ mem.length →
      mem.length ≤ 32767 →
      ∃ w1 c1, abort_transfer fuel { w with keys := ks } = Res.ret USER_INTERRUPT w1 ∧
        findConn w.handle w1.net = some c1 ∧ c1.stream = rest) ∧
    (∀ (c : Conn) (mem rest : List Char) (cont1 cont2 : List (List Char × List Char))
        (ds1 t1 ds2 t2 : List Char),
      cont1.length + 2 ≤ fuel → cont2.length + 2 ≤ fuel →
      0 ≤ w.send_results.headD E_NORMAL →
      ReplyOnWire cont1 ds1 t1 → ReplyOnWire cont2 ds2 t2 →
      100 ≤ decVal ds1 ∧ decVal ds1 ≤ 599 → 100 ≤ decVal ds2 ∧ decVal ds2 ≤ 599 →
      findConn w.handle w.net = some c →
      c.queue = wireReply cont1 (ds1 ++ [' '], t1)
                  ++ (wireReply cont2 (ds2 ++ [' '], t2) ++ rest) →
      w.reply = some mem → w.reply_size = mem.length →
      (wireReply cont1 (ds1 ++ [' '], t1)).length + 1 ≤ mem.length →
      (wireReply cont2 (ds2 ++ [' '], t2)).length + 1 ≤ mem.length →
      mem.length ≤ 32767 →
      ∃ w1 c1 seg, abort_transfer fuel { w with keys := ks } = Res.ret USER_INTERRUPT w1 ∧
        findConn w.handle w1.net = some c1 ∧ c1.queue = rest ++ seg) ∧
    (∀ data start (wl : World),
      ∃ wf, finish_transfer fuel data start USER_INTERRUPT wl = Res.ret 0 wf ∧
        wf.net = wl.net ∧ wf.sent = wl.sent ∧ wf.keys = wl.keys ∧
        wf.closed = wl.closed ++ [data]) ∧
    (∀ data fh h b (wl : World),
      ∃ wf, finish_directory fuel data fh h (USER_INTERRUPT, b) wl
          = Res.ret (USER_INTERRUPT, b) wf ∧
        wf.net = wl.net ∧ wf.sent = wl.sent ∧ wf.keys = wl.keys ∧
        wf.closed = wl.closed ++ [data]) := by
  refine ⟨fun data fh prev => get_loop_ctrl_c fuel data fh prev w ks hkey,
    fun data fh b => dir_loop_ctrl_c fuel data fh b w ks hkey, ?_, ?_, ?_,
    fun data start wl => finish_transfer_interrupted fuel data start wl,
    fun data fh h b wl => finish_directory_interrupted fuel data fh h b wl⟩
  · intro rc w1 hr
    obtain ⟨h1, h2, h3, h4, _, _⟩ := abort_transfer_result fuel _ w1 rc hr
    exact ⟨h1, h2, h3, h4⟩
  · intro c mem rest cont1 cont2 ds1 t1 ds2 t2 hk hf1 hf2 hacc hw1 hw2 hc1 hc2 hc hs hmem hsize
      hfit1 hfit2 hshort
    exact abort_transfer_arrives fuel { w with keys := ks } c mem rest cont1 cont2 ds1 t1 ds2 t2
      hf1 hf2 hk hacc hw1 hw2 hc1 hc2 hc hs hmem hsize hfit1 hfit2 hshort
  · intro c mem rest cont1 cont2 ds1 t1 ds2 t2 hf1 hf2 hacc hw1 hw2 hc1 hc2 hc hq hmem hsize
      hfit1 hfit2 hshort
    exact abort_transfer_consumes fuel { w with keys := ks } c mem rest cont1 cont2 ds1 t1 ds2 t2
      hf1 hf2 hacc hw1 hw2 hc1 hc2 hc hq hmem hsize hfit1 hfit2 hshort

/-- C13 as amended, at concrete sessions: a cancellation whose two replies
come late and in pieces while `x` is typed, which leaves the three bytes
sent after them; a download cancelled at its first poll (the run sends PASV,
RETR, ABOR, reads 426 and 226 and leaves the control connection empty and
the data bytes unread), and a listing cancelled likewise. -/
theorem cancel_sends_abor_reads_two_witness :
    (∃ w1 c1, abort_transfer 8 { lateAbortWorld with keys := ['x'] } = Res.ret USER_INTERRUPT w1 ∧
      findConn 3 w1.net = some c1 ∧ c1.stream = "xyz".toList) ∧
    get_loop 9 7 5 0 lateAbortWorld = abort_transfer 8 { lateAbortWorld with keys := ['x'] } ∧
    (ftp_get 9 "a.txt".toList "b.txt".toList false cancelWorld).code = some 0 ∧
    (ftp_get 9 "a.txt".toList "b.txt".toList false cancelWorld).world.map World.sent
      = some [(3, "PASV\r\n".toList), (3, "RETR b.txt\r\n".toList), (3, "ABOR\r\n".toList)] ∧
    (ftp_get 9 "a.txt".toList "b.txt".toList false cancelWorld).world.map
        (fun w => (w.conn 3).map fun c => (c.queue, c.arrivals)) = some (some ([], [])) ∧
    (ftp_get 9 "a.txt".toList "b.txt".toList false cancelWorld).world.map
        (fun w => (w.conn 7).map fun c => (c.queue, c.arrivals))
      = some (some ([], ["hello".toList])) ∧
    (ftp_get 9 "a.txt".toList "b.txt".toList false cancelWorld).world.map World.closed
      = some [7] ∧
    (ftp_dir 9 none none { cancelWorld with last_type_set := 65 }).code
      = some USER_INTERRUPT ∧
    (ftp_dir 9 none none { cancelWorld with last_type_set := 65 }).world.map World.sent
      = some [(3, "PASV\r\n".toList), (3, "LIST\r\n".toList), (3, "ABOR\r\n".toList)] ∧
    (ftp_dir 9 none none { cancelWorld with last_type_set := 65 }).world.map
        (fun w => (w.conn 3).map fun c => (c.queue, c.arrivals)) = some (some ([], [])) := by
  have h := cancel_sends_abor_reads_two 8 lateAbortWorld ['x'] rfl
  have hwire : ∀ ds t : List Char, ds.length = 3 → (∀ d ∈ ds, d.isDigit = true) → '\n' ∉ t →
      ReplyOnWire [] ds t :=
    fun ds t h1 h2 h3 => by
      unfold ReplyOnWire
      exact ⟨(fun l hl => by cases hl), h1, h2, h3⟩
  refine ⟨?_, h.1 7 5 0, by decide!, by decide!, by decide!, by decide!, by decide!,
    by decide!, by decide!, by decide!⟩
  exact h.2.2.2.1
    { arrivals := [[], "426 Abor".toList, "ted\r\n226 ".toList, "Abort ok\r\nxyz".toList],
      info := some ({ q0 := 10, q1 := 0, q2 := 0, q3 := 2 }, { q0 := 10, q1 := 0, q2 := 0, q3 := 1 }) }
    (List.replicate 1000 NUL) "xyz".toList [] [] "426".toList "Aborted\r".toList
    "226".toList "Abort ok\r".toList (by decide) (by decide) (by decide) (by decide)
    (hwire _ _ (by decide) (by decide) (by decide))
    (hwire _ _ (by decide) (by decide) (by decide))
    (by decide) (by decide) rfl (by decide) rfl
    (by show 1000 = _; rw [List.length_replicate])
    (by rw [List.length_replicate]; decide) (by rw [List.length_replicate]; decide)
    (by rw [List.length_replicate]; decide)

/-! ## C14: cancelling an upload -/

/-- C14, at the failing input: the user cancels the upload of a two-block
file while the first block goes out.  ABOR is sent and its two replies are
read, but the copy loop goes on: the file is read again and the second block
is sent on the data connection after the ABOR; at the end of the file `rc` is
0, so a third reply is awaited.  When the server sends one more reply the
operation reads it, shows it and reports 11 bytes transferred, and
"Interrupted by user" is never shown; when it sends none the operation is
still waiting when the fuel is used up. -/
theorem ftp_put_goes_on_after_abort :
    (ftp_put 12 "a.txt".toList "b.txt".toList false
        (putCancelWorld ["226 Transfer complete\r\n".toList])).world.map World.sent
      = some [(3, "PASV\r\n".toList), (3, "STOR b.txt\r\n".toList), (7, "first".toList),
              (3, "ABOR\r\n".toList), (7, "second".toList)] ∧
    (ftp_put 12 "a.txt".toList "b.txt".toList false
        (putCancelWorld ["226 Transfer complete\r\n".toList])).world.map
        (fun w => ((w.conn 3).map fun c => (c.queue, c.arrivals), w.fread_results))
      = some (some ([], []), []) ∧
    (ftp_put 12 "a.txt".toList "b.txt".toList false
        (putCancelWorld ["226 Transfer complete\r\n".toList])).world.map World.console
      = some ("local: a.txt remote: b.txt\r\n227 Entering Passive Mode (10,0,0,1,19,137)\r\n"
              ++ "150 Opening\r\n426 Aborted\r\n226 Abort ok\r\n226 Transfer complete\r\n"
              ++ "11 bytes in 0.005 secs (2200 bps)\r\n").toList ∧
    (ftp_put 12 "a.txt".toList "b.txt".toList false (putCancelWorld [])).code = none ∧
    (ftp_put 12 "a.txt".toList "b.txt".toList false (putCancelWorld [])).isFault = false := by
  refine ⟨by decide!, by decide!, by decide!, by decide!, by decide!⟩

/-! ## C15: a write to the local file fails -/

theorem constat_idle (w : World) (hk : w.keys = []) : constat w = Res.ret false w := by
  unfold constat; rw [hk]; rfl

/-- An iteration of the copy loop of `ftp_get` with no key waiting, bytes
waiting on the data connection and a write that fails: the bytes are read,
handed to `Fwrite`, and the loop ends with `FILE_WRITE_ERROR`. -/
theorem get_loop_write_fails (fuel : Nat) (data fh : Int) (prev : Nat) (w : World) (c : Conn)
    (r : Int) (rest : List Int)
    (hk : w.keys = []) (hc : findConn data w.net = some c) (hq : c.queue ≠ [])
    (hw : w.fwrite_results = r :: rest) (hr : toWORD r ≤ 0) :
    ∃ net1 block, get_loop (fuel + 1) data fh prev w
        = Res.ret FILE_WRITE_ERROR
            { w with net := net1, fwrite_results := rest,
                     fwritten := w.fwritten ++ [(fh, block)] } ∧
      ∀ k, k ≠ data → findConn k net1 = findConn k w.net := by
  obtain ⟨seg, hseg⟩ := deliver_queue c
  have hne : c.deliver.queue ≠ [] := by
    rw [hseg]
    intro e
    exact hq (List.append_eq_nil.mp e).1
  have hpos : 0 < c.deliver.queue.length := List.length_pos.mpr hne
  have hcount : CNbyte_count data w = Res.ret (c.deliver.queue.length : Int)
      { w with net := setConn data c.deliver w.net } := by
    unfold CNbyte_count
    simp only [hc, not_ended_of_queue _ hne]
    rfl
  -- the count asked of `CNget_block`
  obtain ⟨n, hn, hn1, hn2⟩ : ∃ n : Nat, (if (c.deliver.queue.length : Int) > (IOBUFSIZE : Int)
      then (IOBUFSIZE : Int) else (c.deliver.queue.length : Int)) = (n : Int) ∧ 0 < n ∧
      n ≤ c.deliver.queue.length := by
    by_cases hbig : (c.deliver.queue.length : Int) > (IOBUFSIZE : Int)
    · refine ⟨IOBUFSIZE, by simp only [hbig, if_true], by decide, ?_⟩
      omega
    · exact ⟨c.deliver.queue.length, by simp only [hbig, if_false], hpos, le_refl _⟩
  obtain ⟨net1, c1, seg1, hblock, _, _⟩ := CNget_block_ready data n
    { w with net := setConn data c.deliver w.net } c.deliver
    (c.deliver.queue.take n) (c.deliver.queue.drop n)
    (findConn_setConn data _ c _ hc) (List.take_append_drop n _).symm
    (by rw [List.length_take]; omega) hn1
  dsimp only at hblock
  have hwrite : Fwrite fh (c.deliver.queue.take n)
      { w with net := net1 } = Res.ret r
        { w with net := net1, fwrite_results := rest,
                 fwritten := w.fwritten ++ [(fh, c.deliver.queue.take n)] } := by
    unfold Fwrite
    show Res.ret (w.fwrite_results.headD _) _ = _
    simp only [hw]
    rfl
  refine ⟨net1, c.deliver.queue.take n, ?_, ?_⟩
  · unfold get_loop
    rw [bind_run, bind_ret (constat_idle w hk)]
    simp only [Bool.false_eq_true, if_false, Prog_pure_run]
    rw [bind_ret hcount]
    have h0 : ¬ ((c.deliver.queue.length : Int) = 0) := by omega
    have h1 : ¬ ((c.deliver.queue.length : Int) < 0) := by omega
    simp only [h0, h1, if_false, hn, Int.toNat_ofNat]
    rw [bind_ret hblock]
    simp only [ne_eq, not_true_eq_false, if_false]
    rw [bind_ret hwrite]
    have h2 : toWORD r ≠ (n : Int) := by omega
    simp only [h2, ne_eq, not_false_eq_true, if_true]
    rfl
  · intro k hk2
    have e1 := keeps_conn_CNget_block k data n hk2 _ _ _ hblock
    have e2 := keeps_conn_CNbyte_count k data hk2 _ _ _ hcount
    exact e1.trans e2

/-- After RETR was accepted `ftp_get` is: show the reply, start the clock,
`get_copy`, `finish_transfer`. -/
theorem ftp_get_data_eq (fuel : Nat) (l r : List Char) :
    ftp_get_data fuel l r = (do
      let data ← ftp_data_connect fuel
      if data < 0 then Prog.pure data
      else
        let command ← sprintf_command ("RETR ".toList ++ r)
        let w ← get
        let rc ← send_command fuel w.handle command
        if rc ≠ 125 ∧ rc ≠ 150 then
          let _ ← TCP_close data
          Prog.pure rc
        else
          message rc
          let start ← clock
          modify fun w => { w with transfer_bytes := 0 }
          let rc ← get_copy fuel data l rc
          finish_transfer fuel data start rc) := rfl

/-- The copy block of `ftp_get` when the first write fails: the file is
closed and `FILE_WRITE_ERROR` passed on; nothing was sent, nothing closed on
the network, no other connection read. -/
theorem get_copy_write_fails (fuel : Nat) (data : Int) (l : List Char) (rc0 : Int) (w : World)
    (c : Conn) (fh0 : Int) (frest : List Int) (r : Int) (rest : List Int)
    (hopen : w.fopen_results = fh0 :: frest) (hfh : 0 ≤ fh0)
    (hk : w.keys = []) (hc : findConn data w.net = some c) (hq : c.queue ≠ [])
    (hw : w.fwrite_results = r :: rest) (hr : toWORD r ≤ 0) :
    ∃ wf block, get_copy (fuel + 1) data l rc0 w = Res.ret FILE_WRITE_ERROR wf ∧
      wf.fwritten = w.fwritten ++ [(toWORD fh0, block)] ∧
      wf.fclosed = w.fclosed ++ [toWORD fh0] ∧ wf.sent = w.sent ∧ wf.closed = w.closed ∧
      ∀ k, k ≠ data → wf.conn k = w.conn k := by
  have hcreate : Fcreate l w = Res.ret fh0
      { w with fopen_results := frest, fopened := w.fopened ++ [(true, l)] } := by
    unfold Fcreate
    show Res.ret (w.fopen_results.headD _) _ = _
    simp only [hopen]
    rfl
  obtain ⟨net1, block, hloop, hnet⟩ := get_loop_write_fails fuel data (toWORD fh0) 0
    { w with fopen_results := frest, fopened := w.fopened ++ [(true, l)] } c r rest hk hc hq hw hr
  dsimp only at hloop hnet
  have hne : ¬ (FILE_WRITE_ERROR = E_EOF) := by decide
  by_cases ht : w.tick = true
  · refine ⟨{ w with fopen_results := frest, fopened := w.fopened ++ [(true, l)], net := net1,
                     fwrite_results := rest, fwritten := w.fwritten ++ [(toWORD fh0, block)],
                     fclosed := w.fclosed ++ [toWORD fh0],
                     console := w.console ++ BLANKOUT_XFER_MSG },
      block, ?_, rfl, rfl, rfl, rfl, hnet⟩
    unfold get_copy
    rw [bind_ret hcreate]
    simp only [ge_iff_le, hfh, if_true]
    rw [bind_ret hloop]
    simp only [hne, if_false]
    rw [bind_run]
    unfold Fclose
    rw [modify_run]
    dsimp only
    rw [bind_run, get_run]
    dsimp only
    simp only [ht, if_true]
    rfl
  · refine ⟨{ w with fopen_results := frest, fopened := w.fopened ++ [(true, l)], net := net1,
                     fwrite_results := rest, fwritten := w.fwritten ++ [(toWORD fh0, block)],
                     fclosed := w.fclosed ++ [toWORD fh0] },
      block, ?_, rfl, rfl, rfl, rfl, hnet⟩
    unfold get_copy
    rw [bind_ret hcreate]
    simp only [ge_iff_le, hfh, if_true]
    rw [bind_ret hloop]
    simp only [hne, if_false]
    rw [bind_run]
    unfold Fclose
    rw [modify_run]
    dsimp only
    rw [bind_run, get_run]
    dsimp only
    simp only [ht, if_false]
    rfl

/-- The end of `ftp_get` after a failed write: the data connection is
closed, "Error writing file" shown and 0 returned; nothing is read from any
connection and nothing sent. -/
theorem finish_transfer_write_error (fuel : Nat) (data : Int) (start : Nat) (w : World) :
    ∃ wf, finish_transfer fuel data start FILE_WRITE_ERROR w = Res.ret 0 wf ∧
      wf.net = w.net ∧ wf.sent = w.sent ∧ wf.closed = w.closed ++ [data] ∧
      wf.console = w.console ++ "Error writing file\r\n".toList
        ++ (if w.bell then [Char.ofNat 7] else []) := by
  rw [finish_transfer_error fuel data start FILE_WRITE_ERROR w (by decide) (by decide) (by decide)]
  have hm : ∀ w1 : World, message FILE_WRITE_ERROR w1
      = Res.ret () { w1 with console := w1.console ++ "Error writing file\r\n".toList } :=
    fun w1 => cprintf_run "Error writing file\r\n".toList w1 (by decide) (by decide)
  rw [bind_ret (hm _)]
  by_cases hb : w.bell = true
  · simp only [hb, if_true]
    exact ⟨_, rfl, rfl, rfl, rfl, rfl⟩
  · simp only [hb, if_false]
    refine ⟨_, rfl, rfl, rfl, rfl, ?_⟩
    simp

theorem bind_ret_inv {α β : Type} {m : Prog α} {g : α → Prog β} {w w2 : World} {b : β}
    (h : (m >>= g) w = Res.ret b w2) : ∃ a w1, m w = Res.ret a w1 ∧ g a w1 = Res.ret b w2 := by
  rw [bind_run] at h
  cases hm : m w with
  | ret a w1 => rw [hm] at h; exact ⟨a, w1, rfl, h⟩
  | fault => rw [hm] at h; cases h
  | pending => rw [hm] at h; cases h

theorem readsOnly_cgets_loop (echo : Bool) (size : Nat) (fuel : Nat) (acc : List Char) :
    ReadsOnly (cgets_loop echo size fuel acc) := by
  induction fuel generalizing acc with
  | zero => exact readsOnly_pending
  | succ n ih =>
    unfold cgets_loop
    repeat' first
      | (with_reducible first
          | exact ih _
          | exact readsOnly_fault
          | apply readsOnly_pure
          | apply readsOnly_Prog_pure
          | exact readsOnly_conin
          | exact readsOnly_cputs _
          | apply readsOnly_bind
          | apply readsOnly_ite
          | intro _
          | dsimp only
          | split)

theorem readsOnly_cgets (fuel size : Nat) : ReadsOnly (cgets fuel size) := by
  unfold cgets
  repeat' first
    | (with_reducible first
        | exact readsOnly_cgets_loop _ _ _ _
        | exact readsOnly_fault
        | apply readsOnly_pure
        | apply readsOnly_Prog_pure
        | exact readsOnly_cputs _
        | apply readsOnly_bind
        | apply readsOnly_ite
        | intro _
        | dsimp only
        | split)

theorem readsOnly_cgets_noecho (fuel size : Nat) : ReadsOnly (cgets_noecho fuel size) := by
  unfold cgets_noecho
  repeat' first
    | (with_reducible first
        | exact readsOnly_cgets_loop _ _ _ _
        | exact readsOnly_fault
        | apply readsOnly_pure
        | apply readsOnly_Prog_pure
        | exact readsOnly_cputs _
        | apply readsOnly_bind
        | apply readsOnly_ite
        | intro _
        | dsimp only
        | split)

theorem keeps_xfer_ftp_connect_account {γ : Type} {f : World → γ} (hf : XferBlind f)
    (fuel : Nat) (h rc : Int) :
    Keeps f (ftp_connect_account fuel h rc) := by
  unfold ftp_connect_account
  repeat' first
    | (with_reducible first
        | exact keeps_fault _
        | apply keeps_Prog_pure
        | exact keeps_xfer_readsOnly hf readsOnly_cputs_reply
        | exact keeps_xfer_readsOnly hf (readsOnly_cputs _)
        | exact keeps_xfer_readsOnly hf (readsOnly_cgets _ _)
        | exact keeps_sprintf_command _ _
        | exact keeps_xfer_send_command hf _ _ _
        | apply keeps_bind
        | apply keeps_ite
        | intro _
        | dsimp only
        | split)

theorem keeps_xfer_ftp_connect_login {γ : Type} {f : World → γ} (hf : XferBlind f)
    (fuel : Nat) (h : Int) :
    Keeps f (ftp_connect_login fuel h) := by
  unfold ftp_connect_login
  repeat' first
    | (with_reducible first
        | exact keeps_fault _
        | apply keeps_Prog_pure
        | exact keeps_get _
        | exact keeps_xfer_readsOnly hf readsOnly_cputs_reply
        | exact keeps_xfer_readsOnly hf (readsOnly_cputs _)
        | exact keeps_xfer_readsOnly hf (readsOnly_cprintf _)
        | exact keeps_xfer_readsOnly hf (readsOnly_cgets _ _)
        | exact keeps_xfer_readsOnly hf (readsOnly_cgets_noecho _ _)
        | exact keeps_sprintf_command _ _
        | exact keeps_xfer_send_command hf _ _ _
        | exact keeps_xfer_ftp_connect_account hf _ _ _
        | apply keeps_bind
        | apply keeps_ite
        | intro _
        | dsimp only
        | split)

/-- The greeting and login of `ftp_connect`, after the connection is open. -/
theorem keeps_xfer_ftp_connect_greeting {γ : Type} {f : World → γ} (hf : XferBlind f)
    (fuel : Nat) (h : Int) :
    Keeps f (do
      let rc ← get_reply fuel h
      let rc ← (do
        if rc = 120 then
          cputs_reply
          get_reply fuel h
        else Prog.pure rc : Prog Int)
      if rc ≠ 220 then Prog.pure rc
      else
        cputs_reply
        ftp_connect_login fuel h) := by
  repeat' first
    | (with_reducible first
        | exact keeps_fault _
        | apply keeps_Prog_pure
        | exact keeps_xfer_readsOnly hf readsOnly_cputs_reply
        | exact keeps_xfer_readsOnly hf (readsOnly_get_reply _ _)
        | exact keeps_xfer_ftp_connect_login hf _ _
        | apply keeps_bind
        | apply keeps_ite
        | intro _
        | dsimp only
        | split)

theorem resolve_frame (server : List Char) (w : World) (x : Int × IPADDR) (w1 : World)
    (h : resolve server w = Res.ret x w1) :
    w1.handle = w.handle ∧ w1.closed = w.closed ∧ w1.open_results = w.open_results := by
  unfold resolve at h
  split at h <;> cases h <;> exact ⟨rfl, rfl, rfl⟩

theorem TCP_open_frame (cab : CAB) (active : Bool) (w : World) (hd : Int) (w1 : World)
    (h : TCP_open cab active w = Res.ret hd w1) :
    w1.handle = w.handle ∧ w1.closed = w.closed ∧
    (0 ≤ hd → hd ∈ w.open_results.map Prod.fst) := by
  unfold TCP_open at h
  split at h
  · cases h
    exact ⟨rfl, rfl, fun h0 => absurd h0 (by decide)⟩
  · rename_i k c rest heq
    cases h
    refine ⟨rfl, rfl, fun _ => ?_⟩
    rw [heq]
    exact List.mem_cons_self _ _

/-- What `open_connection` does to the log of closes and which handle it
returns: it closes nothing, or only the connection it has just opened; a
valid handle returned is the one `TCP_open` handed out. -/
theorem open_connection_result (server : List Char) (port : Int) (w : World) (h : Int)
    (w1 : World) (hrun : open_connection server port w = Res.ret h w1) :
    w1.handle = w.handle ∧
    (w1.closed = w.closed ∨ ∃ k ∈ w.open_results.map Prod.fst, w1.closed = w.closed ++ [k]) ∧
    (0 ≤ h → h ∈ w.open_results.map Prod.fst) := by
  unfold open_connection at hrun
  obtain ⟨_, wa, h1, hrun⟩ := bind_ret_inv hrun
  have ea : wa.handle = w.handle ∧ wa.closed = w.closed ∧ wa.open_results = w.open_results := by
    cases h1; exact ⟨rfl, rfl, rfl⟩
  clear h1
  obtain ⟨⟨rc, addr⟩, wb, h2, hrun⟩ := bind_ret_inv hrun
  have eb := resolve_frame _ _ _ _ h2
  clear h2
  dsimp only at hrun
  split at hrun
  · rename_i hneg
    cases hrun
    exact ⟨eb.1.trans ea.1, Or.inl (eb.2.1.trans ea.2.1), fun h0 => absurd h0 (not_le.mpr hneg)⟩
  · obtain ⟨_, wc, h3, hrun⟩ := bind_ret_inv hrun
    have ec : wc.handle = wb.handle ∧ wc.closed = wb.closed ∧
        wc.open_results = wb.open_results := by
      cases h3; exact ⟨rfl, rfl, rfl⟩
    clear h3
    obtain ⟨hd, wd, h4, hrun⟩ := bind_ret_inv hrun
    have ed := TCP_open_frame _ _ _ _ _ h4
    clear h4
    have hh : wd.handle = w.handle := ed.1.trans (ec.1.trans (eb.1.trans ea.1))
    have hc : wd.closed = w.closed := ed.2.1.trans (ec.2.1.trans (eb.2.1.trans ea.2.1))
    have ho : 0 ≤ hd → hd ∈ w.open_results.map Prod.fst := by
      intro h0
      have := ed.2.2 h0
      rw [ec.2.2, eb.2.2, ea.2.2] at this
      exact this
    split at hrun
    · rename_i hneg
      cases hrun
      exact ⟨hh, Or.inl hc, fun h0 => absurd h0 (not_le.mpr hneg)⟩
    · rename_i hpos
      obtain ⟨rc2, we, h5, hrun⟩ := bind_ret_inv hrun
      have ee : we.handle = wd.handle ∧ we.closed = wd.closed := by
        cases h5; exact ⟨rfl, rfl⟩
      clear h5
      split at hrun
      · rename_i hneg
        obtain ⟨_, wf, h6, hrun⟩ := bind_ret_inv hrun
        have ef : wf.handle = we.handle ∧ wf.closed = we.closed ++ [hd] := by
          cases h6; exact ⟨rfl, rfl⟩
        clear h6
        cases hrun
        refine ⟨ef.1.trans (ee.1.trans hh), Or.inr ⟨hd, ho (not_lt.mp hpos), ?_⟩,
          fun h0 => absurd h0 (not_le.mpr hneg)⟩
        rw [ef.2, ee.2, hc]
      · cases hrun
        exact ⟨ee.1.trans hh, Or.inl (ee.2.trans hc), fun _ => ho (not_lt.mp hpos)⟩

/-- C19 (fails on the code): whenever `ftp_connect` is called while a control
connection is live (reply buffer allocated, `handle` valid and not closed,
and `TCP_open` not handing out that handle again) and returns, it has not
closed the earlier connection and `handle` no longer refers to it: the
earlier connection is left open and unreferenced. -/
theorem ftp_connect_leaks_live_connection (fuel : Nat) (server : List Char) (port : Int)
    (w : World) (rc : Int)
    (hreply : w.reply.isSome = true) (hlive : 0 ≤ w.handle) (hopen : w.handle ∉ w.closed)
    (hfresh : w.handle ∉ w.open_results.map Prod.fst)
    (hcode : (ftp_connect fuel server port w).code = some rc) :
    ∃ w1, ftp_connect fuel server port w = Res.ret rc w1 ∧
      w.handle ∉ w1.closed ∧ w1.handle ≠ w.handle := by
  obtain ⟨w1, hrun⟩ := ret_of_code hcode
  refine ⟨w1, hrun, ?_⟩
  unfold ftp_connect at hrun
  obtain ⟨w0, wa, h0, hrun⟩ := bind_ret_inv hrun
  cases h0
  obtain ⟨ok, wb, h1, hrun⟩ := bind_ret_inv hrun
  have hnone : w.reply.isNone = false := by
    cases hr : w.reply with
    | none => rw [hr] at hreply; cases hreply
    | some m => rfl
  rw [hnone] at h1
  cases h1
  obtain ⟨h, wc, h2, hrun⟩ := bind_ret_inv hrun
  obtain ⟨eh, ec, eo⟩ := open_connection_result _ _ _ _ _ h2
  clear h2
  have hne : h ≠ w.handle := by
    intro e
    rcases lt_or_le h 0 with hneg | hpos
    · rw [e] at hneg; exact absurd hlive (not_le.mpr hneg)
    · exact hfresh (e ▸ eo hpos)
  have hcl : w.handle ∉ wc.closed := by
    rcases ec with ec | ⟨k, hk, ec⟩
    · rw [ec]; exact hopen
    · rw [ec]
      intro hmem
      rcases List.mem_append.mp hmem with h1 | h1
      · exact hopen h1
      · rw [List.mem_singleton] at h1
        exact hfresh (h1 ▸ hk)
  obtain ⟨_, wd, h3, hrun⟩ := bind_ret_inv hrun
  have ed : wd.handle = h ∧ wd.closed = wc.closed := by
    cases h3; exact ⟨rfl, rfl⟩
  clear h3
  split at hrun
  · cases hrun
    exact ⟨ed.2 ▸ hcl, ed.1 ▸ hne⟩
  · have k1 := keeps_xfer_ftp_connect_greeting xferBlind_closed fuel h wd rc w1 hrun
    have k2 := keeps_xfer_ftp_connect_greeting xferBlind_handle fuel h wd rc w1 hrun
    rw [k1, k2, ed.1, ed.2]
    exact ⟨hcl, hne⟩

theorem ftp_connect_leaks_live_connection_witness :
    (ftp_connect 9 "one".toList 21 twoServersWorld).code = some 215 ∧
    onceConnectedWorld.handle = 3 ∧
    ∃ w1, ftp_connect 9 "two".toList 21 onceConnectedWorld = Res.ret 215 w1 ∧
      (3 : Int) ∉ w1.closed ∧ w1.handle ≠ 3 ∧
      (ftp_disconnect w1).world.map World.closed = some [7] := by
  have h3 : onceConnectedWorld.handle = 3 := by decide!
  obtain ⟨w1, h1, h2, h4⟩ := ftp_connect_leaks_live_connection 9 "two".toList 21
    onceConnectedWorld 215 (by decide!) (by decide!) (by decide!) (by decide!) (by decide!)
  rw [h3] at h2 h4
  refine ⟨by decide!, h3, w1, h1, h2, h4, ?_⟩
  have e : w1 = (ftp_connect 9 "two".toList 21 onceConnectedWorld).world.getD onceConnectedWorld := by
    rw [h1]; rfl
  rw [e]
  decide!

/-! ## C24: comparing strings without regard to case -/

/-- C24: for all C strings `s1` and `s2` (their bytes before the NUL),
`strequal s1 s2` is 1 exactly when the two have the same length and are equal
once the ASCII capitals `A`..`Z` are mapped to lower case, and 0 otherwise;
so `strequal` is reflexive and symmetric. -/
theorem strequal_ignores_case (s1 s2 : List Char) :
    (strequal s1 s2 = 1 ↔
      s1.length = s2.length ∧ s1.map Char.toLower = s2.map Char.toLower) ∧
    (¬ (s1.length = s2.length ∧ s1.map Char.toLower = s2.map Char.toLower) →
      strequal s1 s2 = 0) ∧
    strequal s1 s1 = 1 ∧
    strequal s1 s2 = strequal s2 s1 := by
  have hiff : ∀ a b : List Char, strequal a b = 1 ↔
      a.length = b.length ∧ a.map Char.toLower = b.map Char.toLower := by
    intro a b
    rw [strequal_eq_one_iff, map_lowerAZ, map_lowerAZ]
    constructor
    · intro h
      refine ⟨?_, h⟩
      have := congrArg List.length h
      rw [List.length_map, List.length_map] at this
      exact this
    · intro h
      exact h.2
  refine ⟨hiff s1 s2, ?_, (hiff s1 s1).mpr ⟨rfl, rfl⟩, ?_⟩
  · intro hn
    rcases strequal_zero_or_one s1 s2 with h | h
    · exact h
    · exact absurd ((hiff s1 s2).mp h) hn
  · rcases strequal_zero_or_one s1 s2 with h | h
    · rcases strequal_zero_or_one s2 s1 with h2 | h2
      · rw [h, h2]
      · have := (hiff s2 s1).mp h2
        have h3 := (hiff s1 s2).mpr ⟨this.1.symm, this.2.symm⟩
        rw [h3] at h
        cases h
    · have := (hiff s1 s2).mp h
      rw [h, (hiff s2 s1).mpr ⟨this.1.symm, this.2.symm⟩]

/-! ## C25: what `ftp_type` remembers after a refusal -/

/-- What a returned `ftp_type` did to `last_type_set` and `transfer_type` on a
connected session: the type is recorded for every result that is not
negative, and left alone for a negative one. -/
theorem ftp_type_last_type (fuel : Nat) (t : Int) (w w1 : World) (rc : Int)
    (hconn : 0 ≤ w.handle) (ht : 0 ≤ t) (hr : ftp_type fuel t w = Res.ret rc w1) :
    w1.transfer_type = w.transfer_type ∧
    (0 ≤ rc → w1.last_type_set = t) ∧ (rc < 0 → w1.last_type_set = w.last_type_set) := by
  unfold ftp_type at hr
  rw [bind_run, get_run] at hr
  dsimp only at hr
  have h1 : ¬ (w.handle < 0) := by omega
  have h2 : ¬ (t < 0) := by omega
  simp only [h1, h2, if_false] at hr
  obtain ⟨command, wc, hc, hr⟩ := bind_ret_inv hr
  obtain ⟨rfl, -⟩ := sprintf_command_ret _ _ _ _ hc
  obtain ⟨rc1, w2, hs, hr⟩ := bind_ret_inv hr
  have hsess := send_command_session fuel _ _ _ _ _ hs
  have e1 : w2.last_type_set = wc.last_type_set := by
    have := congrArg World.last_type_set hsess
    exact this
  have e2 : w2.transfer_type = wc.transfer_type := by
    have := congrArg World.transfer_type hsess
    exact this
  split at hr
  · rename_i hpos
    rw [bind_run, modify_run] at hr
    cases hr
    exact ⟨e2, fun _ => rfl, fun hneg => absurd hpos (not_le.mpr hneg)⟩
  · rename_i hneg
    rw [bind_run] at hr
    cases hr
    exact ⟨e2, fun hpos => absurd hpos hneg, fun _ => e1⟩

/-- C25 (fails on the code): on a connected session `ftp_type` records the
type in `last_type_set` whenever the result of the TYPE exchange is not
negative, whatever the server replied, and `run_ascii` and `run_binary` then
set `transfer_type` as well; only a negative result (a transport error)
leaves the two variables as they were. -/
theorem ftp_type_records_any_reply (fuel : Nat) (w : World) (hconn : 0 ≤ w.handle) :
    (∀ t rc w1, 0 ≤ t → ftp_type fuel t w = Res.ret rc w1 →
      (0 ≤ rc → w1.last_type_set = t) ∧ (rc < 0 → w1.last_type_set = w.last_type_set)) ∧
    (∀ rc w1, run_ascii fuel w = Res.ret rc w1 →
      (0 ≤ rc → w1.last_type_set = 65 ∧ w1.transfer_type = 65) ∧
      (rc < 0 → w1.last_type_set = w.last_type_set ∧ w1.transfer_type = w.transfer_type)) ∧
    (∀ rc w1, run_binary fuel w = Res.ret rc w1 →
      (0 ≤ rc → w1.last_type_set = 73 ∧ w1.transfer_type = 73) ∧
      (rc < 0 → w1.last_type_set = w.last_type_set ∧ w1.transfer_type = w.transfer_type)) := by
  refine ⟨fun t rc w1 ht hr => (ftp_type_last_type fuel t w w1 rc hconn ht hr).2, ?_, ?_⟩
  · intro rc w1 hr
    unfold run_ascii at hr
    obtain ⟨rc1, w2, ht, hr⟩ := bind_ret_inv hr
    obtain ⟨e1, e2, e3⟩ := ftp_type_last_type fuel 65 w w2 rc1 hconn (by decide) ht
    split at hr
    · rename_i hpos
      rw [bind_run, modify_run] at hr
      cases hr
      exact ⟨fun _ => ⟨e2 hpos, rfl⟩, fun hneg => absurd hpos (not_le.mpr hneg)⟩
    · rename_i hneg
      rw [bind_run] at hr
      cases hr
      exact ⟨fun hpos => absurd hpos hneg, fun h => ⟨e3 h, e1⟩⟩
  · intro rc w1 hr
    unfold run_binary at hr
    obtain ⟨rc1, w2, ht, hr⟩ := bind_ret_inv hr
    obtain ⟨e1, e2, e3⟩ := ftp_type_last_type fuel 73 w w2 rc1 hconn (by decide) ht
    split at hr
    · rename_i hpos
      rw [bind_run, modify_run] at hr
      cases hr
      exact ⟨fun _ => ⟨e2 hpos, rfl⟩, fun hneg => absurd hpos (not_le.mpr hneg)⟩
    · rename_i hneg
      rw [bind_run] at hr
      cases hr
      exact ⟨fun hpos => absurd hpos hneg, fun h => ⟨e3 h, e1⟩⟩

theorem ftp_type_records_any_reply_witness :
    refusedWorld.last_type_set = -1 ∧ refusedWorld.transfer_type = 73 ∧
    (ftp_type 5 65 refusedWorld).code = some 500 ∧
    (ftp_type 5 65 refusedWorld).world.map World.last_type_set = some 65 ∧
    (run_ascii 5 refusedWorld).code = some 500 ∧
    (run_ascii 5 refusedWorld).world.map World.transfer_type = some 65 := by
  have hw : (0 : Int) ≤ refusedWorld.handle := by decide
  obtain ⟨h1, h2, -⟩ := ftp_type_records_any_reply 5 refusedWorld hw
  have c1 : (ftp_type 5 65 refusedWorld).code = some 500 := by decide!
  have c2 : (run_ascii 5 refusedWorld).code = some 500 := by decide!
  have r1 := Res.eq_ret_of_code refusedWorld c1
  have r2 := Res.eq_ret_of_code refusedWorld c2
  refine ⟨by decide, by decide, c1, ?_, c2, ?_⟩
  · have := (h1 65 500 _ (by decide) r1).1 (by decide)
    rw [r1]
    exact congrArg some this
  · have := ((h2 500 _ r2).1 (by decide)).2
    rw [r2]
    exact congrArg some this

/-! ## C29: commands that fit `command[MAXCMDLEN]` but not `cmdsave` -/

/-- C29 (fails on the code): on a connected session, for every path of 74 to
251 bytes, `ftp_cwd` builds a command (`CWD` and the path, at most 255 bytes,
so that it fits its `command[MAXCMDLEN]`) which with CR, LF and NUL does not
fit `cmdsave`: the copy made by `send_command` runs past the array. -/
theorem ftp_cwd_overruns_cmdsave (fuel : Nat) (w : World) (path : List Char)
    (hconn : 0 ≤ w.handle) (hnul : NUL ∉ path)
    (hlo : 74 ≤ path.length) (hhi : path.length ≤ 251) :
    ("CWD ".toList ++ path).length + 1 ≤ MAXCMDLEN ∧
    CMDSAVE_SIZE < ("CWD ".toList ++ path).length + 3 ∧
    ftp_cwd fuel path w = Res.fault := by
  have hlen : ("CWD ".toList ++ path).length = 4 + path.length := by
    rw [List.length_append]; rfl
  have h1 : ("CWD ".toList ++ path).length + 1 ≤ MAXCMDLEN := by
    rw [hlen]; show 4 + path.length + 1 ≤ 256; omega
  have h2 : CMDSAVE_SIZE < ("CWD ".toList ++ path).length + 3 := by
    rw [hlen]; show 80 < 4 + path.length + 3; omega
  refine ⟨h1, h2, ?_⟩
  unfold ftp_cwd
  rw [bind_run, get_run]
  have hh : ¬ (w.handle < 0) := by omega
  simp only [hh, if_false]
  have hn : NUL ∉ "CWD ".toList ++ path := by
    simp only [List.mem_append, not_or]
    exact ⟨by decide, hnul⟩
  rw [bind_ret (sprintf_command_run _ w hn h1)]
  exact send_command_too_long fuel _ _ w h2

theorem ftp_cwd_overruns_cmdsave_witness :
    ("CWD ".toList ++ List.replicate 74 'd').length + 1 ≤ MAXCMDLEN ∧
    CMDSAVE_SIZE < ("CWD ".toList ++ List.replicate 74 'd').length + 3 ∧
    ftp_cwd 5 (List.replicate 74 'd') (connectedWorld ["250 ok\r\n".toList]) = Res.fault :=
  ftp_cwd_overruns_cmdsave 5 (connectedWorld ["250 ok\r\n".toList]) (List.replicate 74 'd')
    (by decide) (by decide) (by decide) (by decide)

/-! ## C28: the length limit `get_one_line` gives to the line read -/

theorem poke_reply_fits (p : Nat) (bytes mem : List Char) (w : World)
    (hrep : w.reply = some mem) (hfit : p + bytes.length ≤ mem.length) :
    ∃ m1, poke_reply p bytes w = Res.ret () { w with reply := some m1 } ∧
      m1.length = mem.length := by
  unfold poke_reply
  simp only [hrep]
  unfold store
  simp only [hfit, if_true]
  refine ⟨_, rfl, ?_⟩
  simp only [List.length_append, List.length_take, List.length_drop]
  omega

theorem poke_reply_outside (p : Nat) (bytes mem : List Char) (w : World)
    (hrep : w.reply = some mem) (hout : mem.length < p + bytes.length) :
    poke_reply p bytes w = Res.fault := by
  unfold poke_reply
  simp only [hrep]
  unfold store
  have : ¬ (p + bytes.length ≤ mem.length) := by omega
  simp only [this, if_false]

/-- C28 (fails on the code): `get_one_line` is given the room left from the
position `p` where the header goes (`reply_size - p`, as `get_reply` passes
it), stores the four header bytes there and then gives `CNgets` that same
length minus one.  A line that has arrived whose text is within that limit
but, with the header before it and the newline and NUL after it, longer than
the room left is accepted by the line read, and a byte is stored past the
end of the reply buffer. -/
theorem get_one_line_overruns_reply_buffer (fuel : Nat) (h : Int) (p : Nat) (w : World)
    (c : Conn) (mem hdr text rest : List Char)
    (hc : findConn h w.net = some c)
    (hq : c.queue = hdr ++ (text ++ '\n' :: rest))
    (hlen : hdr.length = 4) (hnulh : NUL ∉ hdr) (hnl : '\n' ∉ text)
    (hmem : w.reply = some mem) (hsize : w.reply_size = mem.length)
    (hroom : p + 5 ≤ mem.length)
    (hlimit : (text.length : Int) + 1 ≤ ((w.reply_size : Int) - p) - 1)
    (hlong : mem.length < p + 4 + text.length + 2)
    (hshort : text.length + 2 ≤ 32767) :
    get_one_line (fuel + 1) h p ((w.reply_size : Int) - p) w = Res.fault := by
  obtain ⟨neta, ca, sa, ha, hca, hqa⟩ :=
    wait_header_ready fuel h w c _ hc hq (by simp [hlen])
  have hqa2 : ca.queue = hdr ++ (text ++ '\n' :: (rest ++ sa)) := by rw [hqa]; simp
  obtain ⟨netb, cb, sb, hb, hcb, hqb⟩ :=
    CNget_block_ready h HEADER_LEN { w with net := neta } ca hdr _ hca hqa2 hlen (by decide)
  have hqb2 : cb.queue = text ++ '\n' :: (rest ++ sa ++ sb) := by rw [hqb]; simp
  have hcs : cstr (hdr ++ [NUL]) = hdr := cstr_append_nul hdr [] hnulh
  obtain ⟨m1, hpoke1, hm1⟩ := poke_reply_fits p (hdr ++ [NUL]) mem
    { w with net := netb, header := hdr ++ [NUL] } hmem (by simp [hlen]; omega)
  have hlim : (text.length : Int) + 1 ≤
      (if (w.reply_size : Int) - p > SHRT_MAX then SHRT_MAX else (w.reply_size : Int) - p) - 1 := by
    unfold SHRT_MAX
    split <;> omega
  obtain ⟨netc, cc, sc, hgets, -, -⟩ := CNgets_ready h _ '\n'
    { w with net := netb, header := hdr ++ [NUL], reply := some m1 } cb text _ hcb hqb2 hnl hlim
  unfold get_one_line
  rw [bind_ret ha]
  simp only [ne_eq, not_true_eq_false, if_false]
  rw [bind_ret hb]
  dsimp only
  simp only [ne_eq, not_true_eq_false, if_false]
  rw [bind_run, modify_run]
  dsimp only
  rw [bind_run, get_run]
  dsimp only
  rw [hcs, bind_ret hpoke1]
  have e1 : ¬ ((text.length : Int) = E_BIGBUF) := by unfold E_BIGBUF; omega
  have e2 : (text.length : Int) ≠ E_NODATA := by unfold E_NODATA; omega
  have e3 : (text.length : Int) ≥ 0 := by omega
  have hrest : read_rest (fuel + 1) h (p + HEADER_LEN) ((w.reply_size : Int) - p)
      { w with net := netb, header := hdr ++ [NUL], reply := some m1 }
      = (poke_reply (p + HEADER_LEN) (text ++ [NUL]) >>= fun _ =>
          Prog.pure (LineExit.brk (text.length : Int) (p + HEADER_LEN)))
        { w with net := netc, header := hdr ++ [NUL], reply := some m1 } := by
    unfold read_rest
    dsimp only
    rw [bind_ret hgets]
    dsimp only
    simp only [e1, e2, e3, if_false, if_true, ne_eq, not_false_eq_true]
  rw [bind_run, hrest]
  by_cases htext : p + 4 + (text.length + 1) ≤ mem.length
  · obtain ⟨m2, hpoke2, hm2⟩ := poke_reply_fits (p + HEADER_LEN) (text ++ [NUL]) m1
      { w with net := netc, header := hdr ++ [NUL], reply := some m1 } rfl
      (by simp [HEADER_LEN]; omega)
    rw [bind_ret hpoke2]
    obtain ⟨m3, hpoke3, hm3⟩ := poke_reply_fits (p + HEADER_LEN + (text.length : Int).toNat) ['\n']
      m2 { w with net := netc, header := hdr ++ [NUL], reply := some m2 } rfl
      (by simp [HEADER_LEN]; omega)
    have hpoke4 := poke_reply_outside (p + HEADER_LEN + (text.length : Int).toNat + 1) [NUL]
      m3 { w with net := netc, header := hdr ++ [NUL], reply := some m3 } rfl
      (by simp [HEADER_LEN]; omega)
    rw [Prog_pure_run]
    dsimp only
    simp only [e3, if_true]
    rw [bind_ret hpoke3, bind_fault hpoke4]
  · have hpoke2 := poke_reply_outside (p + HEADER_LEN) (text ++ [NUL]) m1
      { w with net := netc, header := hdr ++ [NUL], reply := some m1 } rfl
      (by simp [HEADER_LEN]; omega)
    rw [bind_fault hpoke2]

theorem get_one_line_overruns_reply_buffer_witness :
    get_one_line (0 + 1) 3 0 (((arrivedWorld ("220 ".toList
        ++ (List.replicate 995 'a' ++ '\n' :: []))).reply_size : Int) - (0 : Nat))
      (arrivedWorld ("220 ".toList ++ (List.replicate 995 'a' ++ '\n' :: []))) = Res.fault :=
  get_one_line_overruns_reply_buffer 0 3 0
    (arrivedWorld ("220 ".toList ++ (List.replicate 995 'a' ++ '\n' :: [])))
    { queue := "220 ".toList ++ (List.replicate 995 'a' ++ '\n' :: []) }
    (List.replicate 1000 NUL) "220 ".toList (List.replicate 995 'a') []
    rfl rfl (by decide) (by decide) (by decide!) rfl
    (by rw [List.length_replicate]; rfl)
    (by rw [List.length_replicate]; decide)
    (by rw [List.length_replicate]; decide)
    (by rw [List.length_replicate, List.length_replicate]; decide)
    (by rw [List.length_replicate]; decide)

/-! ## C30: the type last sent, across a reconnection -/

theorem session_types {w w1 : World} (h : w1.session = w.session) : w1.types = w.types := by
  have := congrArg World.types h
  exact this

theorem keeps_types_send_command (fuel : Nat) (h : Int) (c : List Char) :
    Keeps World.types (send_command fuel h c) := by
  intro w rc w1 hr
  have := congrArg World.types (send_command_session fuel h c w w1 rc hr)
  exact this

theorem keeps_types_ftp_connect_account (fuel : Nat) (h rc : Int) :
    Keeps World.types (ftp_connect_account fuel h rc) := by
  unfold ftp_connect_account
  repeat' first
    | (with_reducible first
        | exact keeps_fault _
        | apply keeps_Prog_pure
        | exact keeps_of_readsOnly (fun _ _ => session_types) readsOnly_cputs_reply
        | exact keeps_of_readsOnly (fun _ _ => session_types) (readsOnly_cputs _)
        | exact keeps_of_readsOnly (fun _ _ => session_types) (readsOnly_cgets _ _)
        | exact keeps_sprintf_command _ _
        | exact keeps_types_send_command _ _ _
        | apply keeps_bind
        | apply keeps_ite
        | intro _
        | dsimp only
        | split)

theorem keeps_types_ftp_connect_login (fuel : Nat) (h : Int) :
    Keeps World.types (ftp_connect_login fuel h) := by
  unfold ftp_connect_login
  repeat' first
    | (with_reducible first
        | exact keeps_fault _
        | apply keeps_Prog_pure
        | exact keeps_get _
        | exact keeps_of_readsOnly (fun _ _ => session_types) readsOnly_cputs_reply
        | exact keeps_of_readsOnly (fun _ _ => session_types) (readsOnly_cputs _)
        | exact keeps_of_readsOnly (fun _ _ => session_types) (readsOnly_cprintf _)
        | exact keeps_of_readsOnly (fun _ _ => session_types) (readsOnly_cgets _ _)
        | exact keeps_of_readsOnly (fun _ _ => session_types) (readsOnly_cgets_noecho _ _)
        | exact keeps_sprintf_command _ _
        | exact keeps_types_send_command _ _ _
        | exact keeps_types_ftp_connect_account _ _ _
        | apply keeps_bind
        | apply keeps_ite
        | intro _
        | dsimp only
        | split)

theorem keeps_types_resolve (server : List Char) : Keeps World.types (resolve server) := by
  intro w x w1 h
  unfold resolve at h
  split at h <;> cases h <;> rfl

theorem keeps_types_TCP_open (cab : CAB) (active : Bool) :
    Keeps World.types (TCP_open cab active) := by
  intro w x w1 h
  unfold TCP_open at h
  split at h <;> cases h <;> rfl

theorem keeps_types_TCP_wait_state (hd : Int) : Keeps World.types (TCP_wait_state hd) := by
  intro w x w1 h; cases h; rfl

theorem keeps_types_TCP_close (hd : Int) : Keeps World.types (TCP_close hd) := by
  intro w x w1 h; cases h; rfl

theorem keeps_types_open_connection (server : List Char) (port : Int) :
    Keeps World.types (open_connection server port) := by
  unfold open_connection
  repeat' first
    | (with_reducible first
        | apply keeps_Prog_pure
        | exact keeps_types_resolve _
        | exact keeps_types_TCP_open _ _
        | exact keeps_types_TCP_wait_state _
        | exact keeps_types_TCP_close _
        | apply keeps_bind
        | apply keeps_ite
        | intro _
        | dsimp only
        | split)
    | exact keeps_modify _ _ (fun _ => rfl)

theorem keeps_types_ftp_connect (fuel : Nat) (server : List Char) (port : Int) :
    Keeps World.types (ftp_connect fuel server port) := by
  unfold ftp_connect
  repeat' first
    | (with_reducible first
        | exact keeps_fault _
        | apply keeps_Prog_pure
        | exact keeps_get _
        | exact keeps_of_readsOnly (fun _ _ => session_types) readsOnly_expand_buffer
        | exact keeps_of_readsOnly (fun _ _ => session_types) readsOnly_cputs_reply
        | exact keeps_of_readsOnly (fun _ _ => session_types) (readsOnly_get_reply _ _)
        | exact keeps_types_open_connection _ _
        | exact keeps_types_ftp_connect_login _ _
        | apply keeps_bind
        | apply keeps_ite
        | intro _
        | dsimp only
        | split)
    | exact keeps_modify _ _ (fun _ => rfl)

theorem keeps_types_ftp_disconnect : Keeps World.types ftp_disconnect := by
  unfold ftp_disconnect
  repeat' first
    | (with_reducible first
        | apply keeps_Prog_pure
        | exact keeps_get _
        | exact keeps_types_TCP_close _
        | apply keeps_bind
        | apply keeps_ite
        | intro _
        | dsimp only
        | split)
    | exact keeps_modify _ _ (fun _ => rfl)

/-- C30 (fails on the code): neither `ftp_disconnect` nor `ftp_connect`
touches `last_type_set`.  After a disconnection and a new connection it
still holds the type sent on the previous connection, so when that is the
transfer type asked for, `ftp_get` and `ftp_put` on the new connection go
straight to the negotiation of the data connection (and a listing does when
it is `A`): no TYPE command is sent first. -/
theorem last_type_set_survives_reconnect (fuel : Nat) (server : List Char) (port : Int)
    (w w1 w2 : World) (rc1 rc2 : Int)
    (hd : ftp_disconnect w = Res.ret rc1 w1)
    (hc : ftp_connect fuel server port w1 = Res.ret rc2 w2) :
    w2.last_type_set = w.last_type_set ∧ w2.transfer_type = w.transfer_type ∧
    (w.last_type_set = w.transfer_type → ∀ fuel2 l r,
      ftp_get_typed fuel2 l r w2 = ftp_get_data fuel2 l r w2 ∧
      ftp_put_typed fuel2 l r w2 = ftp_put_data fuel2 l r w2) ∧
    (w.last_type_set = 65 → 0 ≤ w2.handle → ∀ fuel2 cmd dir file b,
      ftp_directory fuel2 cmd dir file b w2 = ftp_directory_data fuel2 cmd dir file b w2) := by
  have e1 := keeps_types_ftp_disconnect w rc1 w1 hd
  have e2 := keeps_types_ftp_connect fuel server port w1 rc2 w2 hc
  have e : w2.types = w.types := e2.trans e1
  have el : w2.last_type_set = w.last_type_set := congrArg Prod.fst e
  have et : w2.transfer_type = w.transfer_type := congrArg Prod.snd e
  refine ⟨el, et, ?_, ?_⟩
  · intro hsame fuel2 l r
    have hs : ¬ (w2.last_type_set ≠ w2.transfer_type) := by
      rw [el, et]; exact fun hne => hne hsame
    constructor
    · unfold ftp_get_typed
      rw [bind_run, get_run]
      simp only [hs, if_false]
    · unfold ftp_put_typed
      rw [bind_run, get_run]
      simp only [hs, if_false]
  · intro hA hconn fuel2 cmd dir file b
    unfold ftp_directory
    rw [bind_run, get_run]
    have h1 : ¬ (w2.handle < 0) := by omega
    have h2 : ¬ (w2.last_type_set ≠ 65) := by
      rw [el]; exact fun hne => hne hA
    simp only [h1, h2, if_false]

theorem last_type_set_survives_reconnect_witness :
    typedReconnectWorld.last_type_set = 73 ∧
    ((ftp_disconnect >>= fun _ => ftp_connect 9 "two".toList 21) typedReconnectWorld).code
      = some 215 ∧
    ((ftp_disconnect >>= fun _ => ftp_connect 9 "two".toList 21)
      typedReconnectWorld).world.map World.last_type_set = some 73 ∧
    ((ftp_disconnect >>= fun _ => ftp_connect 9 "two".toList 21 >>= fun _ =>
      ftp_get 9 "f".toList "f".toList false) typedReconnectWorld).world.map World.sent
      = some [(7, "USER bob\r\n".toList), (7, "SYST\r\n".toList), (7, "PASV\r\n".toList),
              (7, "RETR f\r\n".toList)] := by
  have c1 : (ftp_disconnect typedReconnectWorld).code = some 0 := by decide!
  have r1 := Res.eq_ret_of_code typedReconnectWorld c1
  have c2 : (ftp_connect 9 "two".toList 21
      ((ftp_disconnect typedReconnectWorld).world.getD typedReconnectWorld)).code = some 215 := by
    decide!
  have r2 := Res.eq_ret_of_code typedReconnectWorld c2
  have h := (last_type_set_survives_reconnect 9 "two".toList 21 typedReconnectWorld _ _ 0 215
    r1 r2).1
  refine ⟨by decide, by decide!, ?_, by decide!⟩
  rw [bind_ret r1, r2]
  exact congrArg some h

/-! ## C21: the collector of matching names -/

theorem malloc_block (n : Nat) (w : World) (hm : w.mallocs.head? ≠ some none) :
    ∃ blk w1, malloc n w = Res.ret (some blk) w1 ∧ blk.length = n := by
  unfold malloc
  cases hl : w.mallocs with
  | nil => exact ⟨_, _, rfl, by simp⟩
  | cons a rest =>
    cases a with
    | none => rw [hl] at hm; exact absurd rfl hm
    | some g => exact ⟨_, _, rfl, by simp⟩

/-- C21 (fails on the code): `bufstore` doubles the collector once at most.
For a name (with its trailing CR) that reaches more than twice the size of
the collector from the write position, and an allocation that succeeds, the
name is stored past the end of the new block. -/
theorem bufstore_doubles_only_once (b : BUFCTL) (old name : List Char) (w : World)
    (hstart : b.start = some old) (hname : 1 ≤ name.length)
    (hbig : 2 * b.size < b.pos + name.length)
    (hm : w.mallocs.head? ≠ some none) :
    bufstore b name w = Res.fault := by
  obtain ⟨blk, w1, hmal, hlen⟩ := malloc_block (b.size * 2) w hm
  have hgrow : (b.pos : Int) + ((name.length : Int) - 1) ≥ (b.size : Int) := by omega
  have hn : ¬ ((name.length : Int) - 1 < 0) := by omega
  have htake : (old.take b.size).length ≤ blk.length := by
    rw [List.length_take, hlen]; omega
  unfold bufstore
  dsimp only
  simp only [hgrow, if_true]
  rw [bind_run, bind_run, hmal]
  dsimp only
  rw [hstart]
  dsimp only
  unfold store
  have h0 : 0 + (old.take b.size).length ≤ blk.length := by omega
  simp only [h0, if_true]
  rw [Prog_pure_run]
  dsimp only
  simp only [hn, if_false]
  have hout : ¬ (b.pos + (List.take ((name.length : Int) - 1).toNat name ++ [NUL]).length
      ≤ (List.take 0 blk ++ List.take b.size old
          ++ List.drop (0 + (List.take b.size old).length) blk).length) := by
    have e1 : ((name.length : Int) - 1).toNat = name.length - 1 := by omega
    simp only [e1, List.length_append, List.length_take, List.length_drop, List.length_cons,
      List.length_nil, hlen]
    omega
  simp only [hout, if_false]
  rfl

theorem bufstore_doubles_only_once_witness :
    bufstore { count := 0, size := INITIAL_BUFCTL_SIZE,
               start := some (List.replicate INITIAL_BUFCTL_SIZE NUL), pos := 0 }
      (List.replicate 2048 'a' ++ ['\r']) { } = Res.fault ∧
    (ftp_matching 9 { } "*".toList (listingWorld [List.replicate 2047 'a'])).code.map
      (fun x => (x.1, x.2.count, x.2.size, x.2.pos)) = some (226, 1, 2048, 2048) ∧
    (ftp_matching 9 { } "*".toList (listingWorld [List.replicate 2048 'a'])).isFault = true :=
  ⟨bufstore_doubles_only_once _ (List.replicate INITIAL_BUFCTL_SIZE NUL) _ { } rfl
     (by rw [List.length_append, List.length_replicate]; decide)
     (by rw [List.length_append, List.length_replicate]; decide) (by decide),
   by decide!, by decide!⟩

/-! ## C23: what `parse_line` accepts -/

theorem peek_append (pre : List Char) (c : Char) (s : List Char) :
    peek (pre ++ c :: s) pre.length = c := by
  unfold peek
  rw [List.getD_eq_getElem?_getD, List.getElem?_append_right (le_refl _)]
  simp

theorem peek_end (pre : List Char) : peek pre pre.length = NUL := by
  unfold peek
  rw [List.getD_eq_getElem?_getD, List.getElem?_eq_none (le_refl _)]
  rfl

theorem drop_append_length (pre s : List Char) : (pre ++ s).drop pre.length = s :=
  List.drop_left pre s

theorem set_append_length (pre : List Char) (c x : Char) (s : List Char) :
    (pre ++ c :: s).set pre.length x = pre ++ x :: s := by
  induction pre with
  | nil => rfl
  | cons a t ih => simp [List.set, ih]

theorem skip_blanks_blanks (k : Nat) (s : List Char) (p : Nat) :
    skip_blanks (blanks k ++ s) p = skip_blanks s (p + k) := by
  induction k generalizing p with
  | zero => rfl
  | succ n ih =>
    show skip_blanks (' ' :: (blanks n ++ s)) p = _
    rw [skip_blanks]
    have h1 : ¬ (' ' = NUL) := by decide
    simp only [h1, if_false, ne_eq, not_true_eq_false]
    rw [ih, Nat.add_assoc, Nat.add_comm 1 n]

theorem skip_blanks_stop (c : Char) (s : List Char) (p : Nat) (hc : c ≠ ' ') :
    skip_blanks (c :: s) p = p := by
  rw [skip_blanks]
  split
  · rfl
  · simp only [ne_eq, hc, not_false_eq_true, if_true]

/-- Every string is a run of blanks followed by nothing or by a byte that
is not a blank. -/
theorem blanks_split (s : List Char) :
    ∃ k s1, s = blanks k ++ s1 ∧ (s1 = [] ∨ ∃ c t, s1 = c :: t ∧ c ≠ ' ') := by
  induction s with
  | nil => exact ⟨0, [], rfl, Or.inl rfl⟩
  | cons a t ih =>
    by_cases ha : a = ' '
    · obtain ⟨k, s1, h1, h2⟩ := ih
      refine ⟨k + 1, s1, ?_, h2⟩
      rw [ha, h1]
      rfl
    · exact ⟨0, a :: t, rfl, Or.inr ⟨a, t, rfl, ha⟩⟩

theorem scan_arg_plain (a rest : List Char) (p : Nat)
    (hq : '"' ∉ a) (hb : ' ' ∉ a) (hn : NUL ∉ a) :
    scan_arg (a ++ rest) p false = scan_arg rest (p + a.length) false := by
  induction a generalizing p with
  | nil => rfl
  | cons c t ih =>
    have h1 : c ≠ NUL := fun e => hn (by simp [e])
    have h2 : c ≠ '"' := fun e => hq (by simp [e])
    have h3 : c ≠ ' ' := fun e => hb (by simp [e])
    show scan_arg (c :: (t ++ rest)) p false = _
    rw [scan_arg]
    simp only [h1, h2, h3, if_false, Bool.false_eq_true]
    rw [ih (p + 1) (fun e => hq (by simp [e])) (fun e => hb (by simp [e]))
      (fun e => hn (by simp [e])), List.length_cons, Nat.add_assoc, Nat.add_comm 1]

theorem scan_arg_inner (a rest : List Char) (p : Nat) (hq : '"' ∉ a) (hn : NUL ∉ a) :
    scan_arg (a ++ rest) p true = scan_arg rest (p + a.length) true := by
  induction a generalizing p with
  | nil => rfl
  | cons c t ih =>
    have h1 : c ≠ NUL := fun e => hn (by simp [e])
    have h2 : c ≠ '"' := fun e => hq (by simp [e])
    show scan_arg (c :: (t ++ rest)) p true = _
    rw [scan_arg]
    simp only [h1, h2, if_false, if_true]
    rw [ih (p + 1) (fun e => hq (by simp [e])) (fun e => hn (by simp [e])), List.length_cons,
      Nat.add_assoc, Nat.add_comm 1]

theorem scan_arg_closing (rest : List Char) (p : Nat) :
    scan_arg ('"' :: rest) p true = scan_arg rest (p + 1) false := by
  rw [scan_arg]
  have h1 : ¬ ('"' = NUL) := by decide
  simp only [h1, if_false, if_true, Bool.not_true, Bool.false_eq_true]

theorem scan_arg_end (rest : List Char) (p : Nat) (hrest : rest = [] ∨ ∃ r, rest = ' ' :: r) :
    scan_arg rest p false = some (p, decide (rest ≠ []), false) := by
  rcases hrest with rfl | ⟨r, rfl⟩
  · rfl
  · rw [scan_arg]
    have h1 : ¬ (' ' = NUL) := by decide
    have h2 : ¬ (' ' = '"') := by decide
    simp only [h1, h2, if_false, Bool.false_eq_true, if_true]
    rfl

theorem blanks_length (k : Nat) : (blanks k).length = k := List.length_replicate k ' '

theorem goodArg_head (a : List Char) (h : GoodArg a) :
    ∃ c t, a = c :: t ∧ c ≠ ' ' ∧ c ≠ NUL := by
  obtain ⟨hne, hnul, hform⟩ := h
  cases a with
  | nil => exact absurd rfl hne
  | cons c t =>
    refine ⟨c, t, rfl, ?_, fun e => hnul (by simp [e])⟩
    rcases hform with ⟨-, hb⟩ | ⟨inner, tail, he, -, -, -⟩
    · exact fun e => hb (by simp [e])
    · have : c = '"' := (List.cons.inj he).1
      rw [this]
      decide

/-- The second loop of `get_next_arg` on an argument the specification
accepts, followed by nothing or by a blank: it stops right after the
argument, outside quotes. -/
theorem scan_arg_good (a rest : List Char) (p : Nat) (h : GoodArg a)
    (hrest : rest = [] ∨ ∃ r, rest = ' ' :: r) :
    scan_arg ((a ++ rest).drop (if peek a 0 = '"' then 1 else 0))
        (if peek a 0 = '"' then p + 1 else p) (decide (peek a 0 = '"'))
      = some (p + a.length, decide (rest ≠ []), false) := by
  obtain ⟨hne, hnul, hform⟩ := h
  rcases hform with ⟨hq, hb⟩ | ⟨inner, tail, he, hqi, hqt, hbt⟩
  · have h0 : peek a 0 ≠ '"' := by
      cases a with
      | nil => exact absurd rfl hne
      | cons c t => exact fun e => hq (by rw [← e]; simp [peek])
    simp only [h0, if_false, decide_False, List.drop_zero]
    rw [scan_arg_plain a rest p hq hb hnul, scan_arg_end rest _ hrest]
  · have h0 : peek a 0 = '"' := by rw [he]; rfl
    simp only [h0, if_true, decide_True]
    have hni : NUL ∉ inner := fun e => hnul (by rw [he]; simp [e])
    have hnt : NUL ∉ tail := fun e => hnul (by rw [he]; simp [e])
    have hd : (a ++ rest).drop 1 = inner ++ ('"' :: (tail ++ rest)) := by
      rw [he]; simp
    rw [hd, scan_arg_inner inner _ (p + 1) hqi hni, scan_arg_closing,
      scan_arg_plain tail rest _ hqt hbt hnt, scan_arg_end rest _ hrest]
    have hl : a.length = inner.length + tail.length + 2 := by
      rw [he]; simp; omega
    rw [hl]
    have : p + 1 + inner.length + 1 + tail.length = p + (inner.length + tail.length + 2) := by
      omega
    rw [this]

/-- One call of `get_next_arg` with an argument the specification accepts
ahead: the argument is found, the blank after it (if any) is overwritten
with NUL and `*pp` is moved past it. -/
theorem get_next_arg_good (pre a rest : List Char) (k : Nat) (h : GoodArg a)
    (hrest : rest = [] ∨ ∃ r, rest = ' ' :: r) :
    get_next_arg (pre ++ blanks k ++ a ++ rest) pre.length
      = { rc := ARG_NORMAL, mem := pre ++ blanks k ++ a ++ rest.set 0 NUL,
          pp := pre.length + k + a.length + (if rest = [] then 0 else 1),
          arg := some (pre.length + k) } := by
  obtain ⟨c, t, hct, hcb, hcn⟩ := goodArg_head a h
  have hP : (pre ++ blanks k).length = pre.length + k := by
    rw [List.length_append, blanks_length]
  have hskip : skip_blanks ((pre ++ blanks k ++ a ++ rest).drop pre.length) pre.length
      = pre.length + k := by
    have : pre ++ blanks k ++ a ++ rest = pre ++ (blanks k ++ (c :: (t ++ rest))) := by
      rw [hct]; simp
    rw [this, drop_append_length, skip_blanks_blanks, skip_blanks_stop c _ _ hcb]
  have hpeek : peek (pre ++ blanks k ++ a ++ rest) (pre.length + k) = c := by
    have : pre ++ blanks k ++ a ++ rest = (pre ++ blanks k) ++ c :: (t ++ rest) := by
      rw [hct]; simp
    rw [this, ← hP, peek_append]
  have hpa : peek a 0 = c := by rw [hct]; rfl
  have hdrop : ∀ n, (pre ++ blanks k ++ a ++ rest).drop (pre.length + k + n)
      = (a ++ rest).drop n := by
    intro n
    have : pre ++ blanks k ++ a ++ rest = (pre ++ blanks k) ++ (a ++ rest) := by simp
    rw [this, ← hP, List.drop_append]
  have hscan := scan_arg_good a rest (pre.length + k) h hrest
  rw [hpa] at hscan
  unfold get_next_arg
  dsimp only
  rw [hskip, hpeek]
  simp only [hcn, if_false]
  have hp1 : (if decide (c = '"') = true then pre.length + k + 1 else pre.length + k)
      = pre.length + k + (if c = '"' then 1 else 0) := by
    by_cases hq : c = '"' <;> simp [hq]
  have hp2 : (if c = '"' then pre.length + k + 1 else pre.length + k)
      = pre.length + k + (if c = '"' then 1 else 0) := by
    by_cases hq : c = '"' <;> simp [hq]
  rw [hp2] at hscan
  rw [hp1, hdrop, hscan]
  dsimp only
  rcases hrest with rfl | ⟨r, rfl⟩
  · simp
  · have hset : (pre ++ blanks k ++ a ++ ' ' :: r).set (pre.length + k + a.length) NUL
        = pre ++ blanks k ++ a ++ NUL :: r := by
      have hl : (pre ++ blanks k ++ a).length = pre.length + k + a.length := by
        rw [List.length_append, hP]
      rw [← hl, set_append_length]
    simp only [List.append_assoc] at hset
    simp [hset]

/-- One call of `get_next_arg` with only blanks ahead. -/
theorem get_next_arg_blanks (pre : List Char) (k : Nat) :
    get_next_arg (pre ++ blanks k) pre.length
      = { rc := NO_MORE_ARGS, mem := pre ++ blanks k, pp := pre.length + k, arg := none } := by
  have hskip : skip_blanks ((pre ++ blanks k).drop pre.length) pre.length = pre.length + k := by
    rw [drop_append_length]
    have := skip_blanks_blanks k [] pre.length
    rw [List.append_nil] at this
    rw [this]
    rfl
  have hpeek : peek (pre ++ blanks k) (pre.length + k) = NUL := by
    have := peek_end (pre ++ blanks k)
    rw [List.length_append, blanks_length] at this
    exact this
  unfold get_next_arg
  dsimp only
  rw [hskip, hpeek]
  simp only [if_true]

/-- What the second loop of `get_next_arg` has gone over when it stops
outside quotes: the rest of an argument, followed by nothing or by a blank. -/
theorem scan_arg_sound (s : List Char) (hn : NUL ∉ s) :
    ∀ (p : Nat) (q : Bool) (p2 : Nat) (blank : Bool),
      scan_arg s p q = some (p2, blank, false) →
      ∃ a rest, s = a ++ rest ∧ p2 = p + a.length ∧ (rest = [] ∨ ∃ r, rest = ' ' :: r) ∧
        (q = false → '"' ∉ a ∧ ' ' ∉ a) ∧
        (q = true → ∃ inner tail, a = inner ++ '"' :: tail ∧ '"' ∉ inner ∧ '"' ∉ tail ∧
          ' ' ∉ tail) := by
  induction s with
  | nil =>
    intro p q p2 blank h
    rw [scan_arg] at h
    cases h
    exact ⟨[], [], rfl, rfl, Or.inl rfl, (fun _ => ⟨by simp, by simp⟩),
      (fun e => by cases e)⟩
  | cons c t ih =>
    intro p q p2 blank h
    have hc : c ≠ NUL := fun e => hn (by simp [e])
    have ht : NUL ∉ t := fun e => hn (by simp [e])
    rw [scan_arg] at h
    simp only [hc, if_false] at h
    by_cases hq : c = '"'
    · simp only [hq, if_true] at h
      cases q with
      | false => simp at h
      | true =>
        simp only [Bool.not_true, Bool.false_eq_true, if_false] at h
        obtain ⟨a, rest, e1, e2, e3, e4, -⟩ := ih ht (p + 1) false p2 blank h
        refine ⟨c :: a, rest, (by rw [e1]; rfl), (by rw [e2, List.length_cons]; omega), e3,
          (fun e => by cases e), fun _ => ⟨[], a, (by rw [hq]; rfl), (by simp), (e4 rfl).1, (e4 rfl).2⟩⟩
    · simp only [hq, if_false] at h
      cases q with
      | true =>
        simp only [if_true] at h
        obtain ⟨a, rest, e1, e2, e3, -, e5⟩ := ih ht (p + 1) true p2 blank h
        obtain ⟨inner, tail, f1, f2, f3, f4⟩ := e5 rfl
        refine ⟨c :: a, rest, (by rw [e1]; rfl), (by rw [e2, List.length_cons]; omega), e3,
          (fun e => by cases e), fun _ => ⟨c :: inner, tail, (by rw [f1]; rfl), ?_, f3, f4⟩⟩
        intro hm
        rcases List.mem_cons.mp hm with e | e
        · exact hq e.symm
        · exact f2 e
      | false =>
        simp only [Bool.false_eq_true, if_false] at h
        by_cases hb : c = ' '
        · simp only [hb, if_true] at h
          cases h
          exact ⟨[], c :: t, rfl, rfl, Or.inr ⟨t, by rw [hb]⟩, (fun _ => ⟨by simp, by simp⟩),
            (fun e => by cases e)⟩
        · simp only [hb, if_false] at h
          obtain ⟨a, rest, e1, e2, e3, e4, -⟩ := ih ht (p + 1) false p2 blank h
          refine ⟨c :: a, rest, (by rw [e1]; rfl), (by rw [e2, List.length_cons]; omega), e3,
            (fun _ => ⟨?_, ?_⟩), (fun e => by cases e)⟩
          · intro hm
            rcases List.mem_cons.mp hm with e | e
            · exact hq e.symm
            · exact (e4 rfl).1 e
          · intro hm
            rcases List.mem_cons.mp hm with e | e
            · exact hb e.symm
            · exact (e4 rfl).2 e

/-- The three ways `get_next_arg` can end, and what was ahead in each:
only blanks when it reports no more arguments, an argument the
specification accepts when it reports one. -/
theorem get_next_arg_sound (pre s : List Char) (hn : NUL ∉ s) :
    ((get_next_arg (pre ++ s) pre.length).rc = NO_MORE_ARGS ∧ ∃ k, s = blanks k) ∨
    ((get_next_arg (pre ++ s) pre.length).rc = ARG_NORMAL ∧
      ∃ k a rest, s = blanks k ++ a ++ rest ∧ GoodArg a ∧ (rest = [] ∨ ∃ r, rest = ' ' :: r)) ∨
    ((get_next_arg (pre ++ s) pre.length).rc = QUOTING_ERROR ∧
      ¬ ∃ k a rest, s = blanks k ++ a ++ rest ∧ GoodArg a ∧ (rest = [] ∨ ∃ r, rest = ' ' :: r)) := by
  by_cases hgood : ∃ k a rest, s = blanks k ++ a ++ rest ∧ GoodArg a ∧
      (rest = [] ∨ ∃ r, rest = ' ' :: r)
  · obtain ⟨k, a, rest, e, hg, hr⟩ := hgood
    refine Or.inr (Or.inl ⟨?_, k, a, rest, e, hg, hr⟩)
    have : pre ++ s = pre ++ blanks k ++ a ++ rest := by rw [e]; simp
    rw [this, get_next_arg_good pre a rest k hg hr]
  · obtain ⟨k, s1, e, hs1⟩ := blanks_split s
    rcases hs1 with rfl | ⟨c, t, rfl, hcb⟩
    · refine Or.inl ⟨?_, k, (by rw [e]; simp)⟩
      rw [e, List.append_nil, get_next_arg_blanks]
    · refine Or.inr (Or.inr ⟨?_, hgood⟩)
      have hn1 : NUL ∉ c :: t := fun hm => hn (by rw [e]; simp [hm])
      have hcn : c ≠ NUL := fun h0 => hn1 (by simp [h0])
      have hP : (pre ++ blanks k).length = pre.length + k := by
        rw [List.length_append, blanks_length]
      have hskip : skip_blanks ((pre ++ s).drop pre.length) pre.length = pre.length + k := by
        rw [e, drop_append_length, skip_blanks_blanks, skip_blanks_stop c _ _ hcb]
      have hmem : pre ++ s = (pre ++ blanks k) ++ c :: t := by rw [e]; simp
      have hpeek : peek (pre ++ s) (pre.length + k) = c := by
        rw [hmem, ← hP, peek_append]
      have hdrop : ∀ n, (pre ++ s).drop (pre.length + k + n) = (c :: t).drop n := by
        intro n
        rw [hmem, ← hP, List.drop_append]
      unfold get_next_arg
      dsimp only
      rw [hskip, hpeek]
      simp only [hcn, if_false]
      have hp1 : (if decide (c = '"') = true then pre.length + k + 1 else pre.length + k)
          = pre.length + k + (if c = '"' then 1 else 0) := by
        by_cases hq : c = '"' <;> simp [hq]
      rw [hp1, hdrop]
      cases hsc : scan_arg ((c :: t).drop (if c = '"' then 1 else 0))
          (pre.length + k + (if c = '"' then 1 else 0)) (decide (c = '"')) with
      | none => rfl
      | some res =>
        obtain ⟨p2, blank, q2⟩ := res
        dsimp only
        cases q2 with
        | true => rfl
        | false =>
          exfalso
          apply hgood
          by_cases hq : c = '"'
          · simp only [hq, if_true, decide_True, List.drop_succ_cons, List.drop_zero] at hsc
            have ht : NUL ∉ t := fun hm => hn1 (by simp [hm])
            obtain ⟨a, rest, e1, -, e3, -, e5⟩ := scan_arg_sound t ht _ _ _ _ hsc
            obtain ⟨inner, tail, f1, f2, f3, f4⟩ := e5 rfl
            refine ⟨k, '"' :: a, rest, (by rw [e, hq, e1]; simp), ⟨by simp, ?_, Or.inr
              ⟨inner, tail, (by rw [f1]; rfl), f2, f3, f4⟩⟩, e3⟩
            intro hm
            apply hn1
            rw [e1]
            rcases List.mem_cons.mp hm with h0 | h0
            · exact absurd h0 (by decide)
            · simp [h0]
          · simp only [hq, if_false, decide_False, List.drop_zero] at hsc
            obtain ⟨a, rest, e1, -, e3, e4, -⟩ := scan_arg_sound (c :: t) hn1 _ _ _ _ hsc
            have hane : a ≠ [] := by
              intro ha
              rw [ha, List.nil_append] at e1
              rcases e3 with h0 | ⟨r, h0⟩
              · rw [h0] at e1; cases e1
              · rw [h0] at e1
                exact hcb (List.cons.inj e1).1
            refine ⟨k, a, rest, (by rw [e, e1]; simp), ⟨hane, ?_, Or.inl (e4 rfl)⟩, e3⟩
            intro hm
            apply hn1
            rw [e1]
            simp [hm]

theorem render_nil_of_blank_free (k : Nat) (items : List (List Char × Nat))
    (h : ([] : List Char) = blanks k ++ render items) (hg : ∀ it ∈ items, GoodArg it.1) :
    items = [] := by
  cases items with
  | nil => rfl
  | cons it rest =>
    exfalso
    obtain ⟨a, n⟩ := it
    have ha : a ≠ [] := (hg (a, n) (List.mem_cons_self _ _)).1
    have := congrArg List.length h
    simp only [render, List.length_append, List.length_nil] at this
    have hl : 0 < a.length := List.length_pos.mpr ha
    omega

/-- The rest of a line after an argument: nothing, or a blank and more. -/
theorem after_arg (k : Nat) (rest : List (List Char × Nat))
    (hs : Separated ((([] : List Char), k) :: rest)) :
    (blanks k ++ render rest = [] ∧ k = 0 ∧ rest = []) ∨
    (∃ j, k = j + 1 ∧ blanks k ++ render rest = ' ' :: (blanks j ++ render rest)) := by
  cases k with
  | zero =>
    cases rest with
    | nil => exact Or.inl ⟨rfl, rfl, rfl⟩
    | cons it r =>
      exfalso
      have : 1 ≤ 0 := hs.1
      omega
  | succ j => exact Or.inr ⟨j, rfl, rfl⟩

theorem separated_tail (a b : List Char) (k : Nat) (rest : List (List Char × Nat))
    (hs : Separated ((a, k) :: rest)) : Separated ((b, k) :: rest) ∧ Separated rest := by
  cases rest with
  | nil => exact ⟨trivial, trivial⟩
  | cons it r => exact ⟨⟨hs.1, hs.2⟩, hs.2⟩

/-- The loop of `parse_line` on a line made of arguments the specification
accepts: all of them are stored, in order, when `argv` has room for them;
otherwise an entry is stored past the end of `argv`. -/
theorem parse_loop_layout (cap : Nat) (items : List (List Char × Nat)) :
    ∀ (pre : List Char) (k0 : Nat) (argv : List Nat) (fuel : Nat) (w : World),
      Separated items → (∀ it ∈ items, GoodArg it.1) → items.length < fuel →
      argv.length ≤ cap →
      parse_loop cap fuel (pre ++ blanks k0 ++ render items) pre.length argv w =
        if argv.length + items.length ≤ cap then
          Res.ret (((argv.length + items.length : Nat) : Int),
            pre ++ blanks k0 ++ renderNul items,
            argv ++ offsets (pre.length + k0) items) w
        else Res.fault := by
  induction items with
  | nil =>
    intro pre k0 argv fuel w _ _ hfuel hcap
    obtain ⟨f, rfl⟩ : ∃ f, fuel = f + 1 := ⟨fuel - 1, by simp at hfuel; omega⟩
    have hc : argv.length + ([] : List (List Char × Nat)).length ≤ cap := hcap
    simp only [hc, if_true, render, renderNul, offsets, List.append_nil, List.length_nil,
      Nat.add_zero]
    rw [parse_loop]
    rw [get_next_arg_blanks]
    dsimp only
    have h1 : ¬ (NO_MORE_ARGS = ARG_NORMAL) := by decide
    simp only [h1, if_false, if_true, hcap]
    rfl
  | cons it rest ih =>
    intro pre k0 argv fuel w hsep hgood hfuel hcap
    obtain ⟨a, k⟩ := it
    obtain ⟨f, rfl⟩ : ∃ f, fuel = f + 1 := ⟨fuel - 1, by simp at hfuel; omega⟩
    have hga : GoodArg a := hgood (a, k) (List.mem_cons_self _ _)
    have hgr : ∀ it ∈ rest, GoodArg it.1 := fun it hm => hgood it (List.mem_cons_of_mem _ hm)
    have hsr : Separated rest := (separated_tail a [] k rest hsep).2
    have hfr : rest.length < f := by simp at hfuel; omega
    have hline : pre ++ blanks k0 ++ render ((a, k) :: rest)
        = pre ++ blanks k0 ++ a ++ (blanks k ++ render rest) := by
      simp [render]
    rw [parse_loop]
    rcases after_arg k rest (separated_tail a [] k rest hsep).1 with ⟨hL, hk, hr⟩ | ⟨j, hk, hL⟩
    · -- the last argument, with nothing after it
      rw [hline, get_next_arg_good pre a _ k0 hga (Or.inl hL)]
      dsimp only
      simp only [if_true]
      subst hk
      subst hr
      by_cases hfull : argv.length ≥ cap
      · have hc : ¬ (argv.length + [((a, 0) : List Char × Nat)].length ≤ cap) := by
          simp only [List.length_singleton]; omega
        simp only [hfull, if_true, hc, if_false]
        rfl
      · have hc : argv.length + [((a, 0) : List Char × Nat)].length ≤ cap := by
          simp only [List.length_singleton]; omega
        simp only [hfull, if_false, hc, if_true]
        have hcap2 : (argv ++ [pre.length + k0]).length ≤ cap := by
          rw [List.length_append, List.length_singleton]; omega
        have := ih (pre ++ blanks k0 ++ a) 0 (argv ++ [pre.length + k0]) f w trivial
          (fun _ hm => by cases hm) hfr hcap2
        simp only [blanks, List.replicate_zero, List.append_nil, render, renderNul, offsets,
          List.length_nil, Nat.add_zero] at this
        have hc2 : (argv ++ [pre.length + k0]).length ≤ cap := hcap2
        simp only [hc2, if_true] at this
        simp only [blanks, List.replicate_zero, List.append_nil, render, renderNul, offsets,
          List.set_nil, List.length_append, List.length_replicate, Option.getD_some,
          if_true, Nat.add_zero, List.length_singleton] at this ⊢
        rw [this]
    · -- an argument followed by a blank
      rw [hline, hL, get_next_arg_good pre a _ k0 hga (Or.inr ⟨_, rfl⟩)]
      dsimp only
      simp only [if_true]
      by_cases hfull : argv.length ≥ cap
      · have hc : ¬ (argv.length + ((a, k) :: rest).length ≤ cap) := by
          simp only [List.length_cons]; omega
        simp only [hfull, if_true, hc, if_false]
        rfl
      · simp only [hfull, if_false]
        have hcap2 : (argv ++ [pre.length + k0]).length ≤ cap := by
          rw [List.length_append, List.length_singleton]; omega
        have := ih (pre ++ blanks k0 ++ a ++ [NUL]) j (argv ++ [pre.length + k0]) f w hsr hgr hfr
          hcap2
        have hm : pre ++ blanks k0 ++ a ++ (' ' :: (blanks j ++ render rest)).set 0 NUL
            = pre ++ blanks k0 ++ a ++ [NUL] ++ blanks j ++ render rest := by
          simp
        have hp : pre.length + k0 + a.length + (if (' ' :: (blanks j ++ render rest)) = [] then 0 else 1)
            = (pre ++ blanks k0 ++ a ++ [NUL]).length := by
          rw [if_neg (List.cons_ne_nil _ _)]
          simp only [List.length_append, blanks_length, List.length_singleton]
        rw [hm, hp, Option.getD_some, this]
        have hlen : (argv ++ [pre.length + k0]).length + rest.length
            = argv.length + ((a, k) :: rest).length := by
          rw [List.length_append, List.length_singleton, List.length_cons]
          omega
        rw [hlen]
        have hk1 : ¬ (k = 0) := by omega
        have hoff : (pre ++ blanks k0 ++ a ++ [NUL]).length + j
            = pre.length + k0 + a.length + k := by
          simp only [List.length_append, blanks_length, List.length_singleton]
          omega
        have hkj : k - 1 = j := by omega
        rw [hoff]
        simp only [renderNul, offsets, hk1, if_false, hkj, List.append_assoc,
          List.cons_append, List.nil_append, List.singleton_append]

theorem cstr_of_no_nul (s : List Char) (h : NUL ∉ s) : cstr s = s := by
  have := cstr_append_nul s [] h
  unfold cstr at this ⊢
  induction s with
  | nil => rfl
  | cons a t ih =>
    have ha : a ≠ NUL := fun e => h (by simp [e])
    have ht : NUL ∉ t := fun e => h (by simp [e])
    simp only [List.takeWhile_cons, bne_iff_ne, ne_eq, ha, not_false_eq_true, decide_True,
      if_true, List.cons.injEq, true_and]
    exact ih ht (by
      have h2 := cstr_append_nul t [] ht
      unfold cstr at h2
      exact h2)

/-- The C strings at the offsets of the arguments, in the buffer as
`parse_line` leaves it, are the arguments. -/
theorem argString_renderNul (items : List (List Char × Nat)) :
    ∀ (pre : List Char) (k0 : Nat), Separated items → (∀ it ∈ items, GoodArg it.1) →
      (offsets (pre.length + k0) items).map (argString (pre ++ blanks k0 ++ renderNul items))
        = items.map Prod.fst := by
  induction items with
  | nil => intro pre k0 _ _; rfl
  | cons it rest ih =>
    intro pre k0 hsep hgood
    obtain ⟨a, k⟩ := it
    have hga : GoodArg a := hgood (a, k) (List.mem_cons_self _ _)
    have hgr : ∀ it ∈ rest, GoodArg it.1 := fun it hm => hgood it (List.mem_cons_of_mem _ hm)
    have hsr : Separated rest := (separated_tail a [] k rest hsep).2
    have hP : (pre ++ blanks k0).length = pre.length + k0 := by
      rw [List.length_append, blanks_length]
    rcases after_arg k rest (separated_tail a [] k rest hsep).1 with ⟨-, hk, hr⟩ | ⟨j, hk, -⟩
    · subst hk
      subst hr
      simp only [offsets, renderNul, if_true, List.append_nil, List.map_cons, List.map_nil]
      congr 1
      unfold argString
      have : pre ++ blanks k0 ++ a = (pre ++ blanks k0) ++ a := rfl
      rw [this, ← hP, drop_append_length, cstr_of_no_nul a hga.2.1]
    · have hk1 : ¬ (k = 0) := by omega
      have hkj : k - 1 = j := by omega
      have hmem : pre ++ blanks k0 ++ renderNul ((a, k) :: rest)
          = (pre ++ blanks k0 ++ a ++ [NUL]) ++ blanks j ++ renderNul rest := by
        simp [renderNul, hk1, hkj]
      have hoff : pre.length + k0 + a.length + k = (pre ++ blanks k0 ++ a ++ [NUL]).length + j := by
        simp only [List.length_append, blanks_length, List.length_singleton]
        omega
      simp only [offsets, List.map_cons]
      congr 1
      · unfold argString
        have : pre ++ blanks k0 ++ renderNul ((a, k) :: rest)
            = (pre ++ blanks k0) ++ (a ++ NUL :: (blanks j ++ renderNul rest)) := by
          simp [renderNul, hk1, hkj]
        rw [this, ← hP, drop_append_length, cstr_append_nul a _ hga.2.1]
      · rw [hmem, hoff]
        exact ih _ j hsr hgr

/-- A result of `parse_line` that is not negative was read from a line
made of arguments the specification accepts. -/
theorem parse_loop_sound (cap : Nat) :
    ∀ (fuel : Nat) (pre s : List Char) (argv : List Nat) (w : World)
      (r : Int × List Char × List Nat) (w1 : World),
      NUL ∉ s → parse_loop cap fuel (pre ++ s) pre.length argv w = Res.ret r w1 → 0 ≤ r.1 →
      ∃ k0 items, s = blanks k0 ++ render items ∧ Separated items ∧
        ∀ it ∈ items, GoodArg it.1 := by
  intro fuel
  induction fuel with
  | zero =>
    intro pre s argv w r w1 _ h _
    rw [parse_loop] at h
    cases h
  | succ f ih =>
    intro pre s argv w r w1 hn h hpos
    rw [parse_loop] at h
    rcases get_next_arg_sound pre s hn with ⟨hrc, k, hs⟩ | ⟨hrc, k, a, rest, hs, hg, hr⟩ | ⟨hrc, -⟩
    · exact ⟨k, [], (by rw [hs]; simp [render]), trivial, fun _ hm => by cases hm⟩
    · simp only [hrc, if_true] at h
      split at h
      · cases h
      · have hmem : pre ++ s = pre ++ blanks k ++ a ++ rest := by rw [hs]; simp
        rw [hmem, get_next_arg_good pre a rest k hg hr] at h
        dsimp only at h
        have hna : NUL ∉ a := hg.2.1
        rcases hr with rfl | ⟨r1, rfl⟩
        · have e1 : pre ++ blanks k ++ a ++ ([] : List Char).set 0 NUL
              = (pre ++ blanks k ++ a) ++ [] := by simp
          have e2 : pre.length + k + a.length + (if ([] : List Char) = [] then 0 else 1)
              = (pre ++ blanks k ++ a).length := by
            simp only [List.length_append, blanks_length, if_true, Nat.add_zero]
          rw [e1, e2] at h
          refine ⟨k, [(a, 0)], ?_, trivial, ?_⟩
          · rw [hs]; simp [render, blanks]
          · intro it hm
            rw [List.mem_singleton] at hm
            rw [hm]
            exact hg
        · have e1 : pre ++ blanks k ++ a ++ (' ' :: r1).set 0 NUL
              = (pre ++ blanks k ++ a ++ [NUL]) ++ r1 := by simp
          have e2 : pre.length + k + a.length + (if (' ' :: r1) = [] then 0 else 1)
              = (pre ++ blanks k ++ a ++ [NUL]).length := by
            rw [if_neg (List.cons_ne_nil _ _)]
            simp only [List.length_append, blanks_length, List.length_singleton]
          rw [e1, e2] at h
          have hn1 : NUL ∉ r1 := fun hm => hn (by rw [hs]; simp [hm])
          obtain ⟨k1, items, hs1, hsep, hgood⟩ := ih _ r1 _ w r w1 hn1 h hpos
          refine ⟨k, (a, k1 + 1) :: items, ?_, ?_, ?_⟩
          · rw [hs, hs1]
            simp [render, blanks, List.replicate_succ]
          · cases items with
            | nil => trivial
            | cons it rest => exact ⟨by omega, hsep⟩
          · intro it hm
            rcases List.mem_cons.mp hm with e | e
            · rw [e]; exact hg
            · exact hgood it e
    · have h1 : ¬ (QUOTING_ERROR = ARG_NORMAL) := by decide
      have h2 : ¬ (QUOTING_ERROR = NO_MORE_ARGS) := by decide
      simp only [hrc, h1, h2, if_false, if_true] at h
      cases h
      have hneg : ¬ ((0 : Int) ≤ -1) := by decide
      exact absurd hpos hneg

/-- With fuel for every byte of the line and room in `argv` for as many
arguments as the line can hold, `parse_line` returns: the number of
arguments, or -1. -/
theorem parse_loop_returns (cap : Nat) :
    ∀ (fuel : Nat) (pre s : List Char) (argv : List Nat) (w : World),
      NUL ∉ s → s.length < fuel → argv.length + (s.length + 1) / 2 ≤ cap →
      ∃ r w1, parse_loop cap fuel (pre ++ s) pre.length argv w = Res.ret r w1 ∧
        (0 ≤ r.1 ∨ (r.1 = -1 ∧
          w1 = { w with console := w.console ++ "error in quoted field\r\n".toList })) := by
  intro fuel
  induction fuel with
  | zero => intro pre s argv w _ h _; cases h
  | succ f ih =>
    intro pre s argv w hn hfuel hcap
    rw [parse_loop]
    rcases get_next_arg_sound pre s hn with ⟨hrc, k, hs⟩ | ⟨hrc, k, a, rest, hs, hg, hr⟩ | ⟨hrc, -⟩
    · have h1 : ¬ (NO_MORE_ARGS = ARG_NORMAL) := by decide
      simp only [hrc, h1, if_false, if_true]
      exact ⟨_, _, rfl, Or.inl (Int.ofNat_nonneg _)⟩
    · simp only [hrc, if_true]
      have hmem : pre ++ s = pre ++ blanks k ++ a ++ rest := by rw [hs]; simp
      have hal : 0 < a.length := List.length_pos.mpr hg.1
      have hsl : s.length = k + a.length + rest.length := by
        rw [hs]; simp only [List.length_append, blanks_length]
      have hroom : ¬ (argv.length ≥ cap) := by omega
      simp only [hroom, if_false]
      rw [hmem, get_next_arg_good pre a rest k hg hr]
      dsimp only
      rcases hr with rfl | ⟨r1, rfl⟩
      · have e1 : pre ++ blanks k ++ a ++ ([] : List Char).set 0 NUL
            = (pre ++ blanks k ++ a) ++ [] := by simp
        have e2 : pre.length + k + a.length + (if ([] : List Char) = [] then 0 else 1)
            = (pre ++ blanks k ++ a).length := by
          simp only [List.length_append, blanks_length, if_true, Nat.add_zero]
        rw [e1, e2]
        refine ih _ [] _ w (by simp) (by simp at hfuel ⊢; omega) ?_
        rw [List.length_append, List.length_singleton]
        simp only [List.length_nil]
        omega
      · have e1 : pre ++ blanks k ++ a ++ (' ' :: r1).set 0 NUL
            = (pre ++ blanks k ++ a ++ [NUL]) ++ r1 := by simp
        have e2 : pre.length + k + a.length + (if (' ' :: r1) = [] then 0 else 1)
            = (pre ++ blanks k ++ a ++ [NUL]).length := by
          rw [if_neg (List.cons_ne_nil _ _)]
          simp only [List.length_append, blanks_length, List.length_singleton]
        rw [e1, e2]
        have hn1 : NUL ∉ r1 := fun hm => hn (by rw [hs]; simp [hm])
        rw [List.length_cons] at hsl
        refine ih _ r1 _ w hn1 (by omega) ?_
        rw [List.length_append, List.length_singleton]
        omega
    · have h1 : ¬ (QUOTING_ERROR = ARG_NORMAL) := by decide
      have h2 : ¬ (QUOTING_ERROR = NO_MORE_ARGS) := by decide
      simp only [hrc, h1, h2, if_false, if_true]
      exact ⟨_, _, rfl, Or.inr ⟨rfl, rfl⟩⟩

theorem render_length (items : List (List Char × Nat)) (hg : ∀ it ∈ items, GoodArg it.1) :
    items.length ≤ (render items).length := by
  induction items with
  | nil => exact Nat.le_refl _
  | cons it rest ih =>
    obtain ⟨a, k⟩ := it
    have ha : 0 < a.length := List.length_pos.mpr (hg (a, k) (List.mem_cons_self _ _)).1
    have := ih (fun it hm => hg it (List.mem_cons_of_mem _ hm))
    simp only [render, List.length_append, List.length_cons]
    omega

/-- C23: for every line, given fuel for each of its bytes and an `argv`
array with room for the arguments.  When the line is a sequence of
arguments, each without double quote or beginning with a double quote and
holding exactly one further double quote (blanks between the two quotes do
not end the argument), separated by blanks, `parse_line` returns their
number and `argv` holds them in order, quotes included and separating
blanks excluded.  On every other line it prints `error in quoted field` and
returns -1. -/
theorem parse_line_accepts_exactly (fuel cap : Nat) (line : List Char) (w : World)
    (hnul : NUL ∉ line) (hfuel : line.length < fuel) :
    (∀ k0 items, line = blanks k0 ++ render items → Separated items →
      (∀ it ∈ items, GoodArg it.1) → items.length ≤ cap →
      ∃ mem argv, parse_line fuel cap line w = Res.ret ((items.length : Int), mem, argv) w ∧
        argv.length = items.length ∧ argv.map (argString mem) = items.map Prod.fst) ∧
    (¬ WellQuoted line → (line.length + 1) / 2 ≤ cap →
      ∃ mem argv, parse_line fuel cap line w = Res.ret (-1, mem, argv)
        { w with console := w.console ++ "error in quoted field\r\n".toList }) := by
  constructor
  · intro k0 items hline hsep hgood hcap
    have hlen : items.length < fuel := by
      have h1 := render_length items hgood
      have h2 : (render items).length ≤ line.length := by
        rw [hline, List.length_append]; omega
      omega
    have h := parse_loop_layout cap items [] k0 [] fuel w hsep hgood hlen (Nat.zero_le _)
    simp only [List.nil_append, List.length_nil, Nat.zero_add, hcap, if_true] at h
    refine ⟨blanks k0 ++ renderNul items, offsets k0 items, ?_, ?_, ?_⟩
    · unfold parse_line
      rw [hline]
      exact h
    · clear h hlen hcap hline
      generalize k0 = o
      induction items generalizing o with
      | nil => rfl
      | cons it rest ih =>
        obtain ⟨a, k⟩ := it
        simp only [offsets, List.length_cons]
        rw [ih (separated_tail a [] k rest hsep).2
          (fun it hm => hgood it (List.mem_cons_of_mem _ hm))]
    · have := argString_renderNul items [] k0 hsep hgood
      simp only [List.nil_append, List.length_nil, Nat.zero_add] at this
      exact this
  · intro hbad hcap
    obtain ⟨r, w1, hrun, hres⟩ := parse_loop_returns cap fuel [] line [] w hnul hfuel
      (by rw [List.length_nil]; omega)
    rcases hres with hpos | ⟨hneg, hw⟩
    · exact absurd (parse_loop_sound cap fuel [] line [] w r w1 hnul hrun hpos) hbad
    · obtain ⟨n, mem, argv⟩ := r
      refine ⟨mem, argv, ?_⟩
      unfold parse_line
      have hn : n = -1 := hneg
      rw [← hw, ← hn]
      exact hrun

theorem parse_line_accepts_exactly_witness :
    (∃ mem argv, parse_line 200 30 "  get \"a b\" c".toList { }
        = Res.ret (((3 : Nat) : Int), mem, argv) { } ∧
      argv.length = 3 ∧
      argv.map (argString mem) = ["get".toList, "\"a b\"".toList, "c".toList]) ∧
    (parse_line 200 30 "get \"a b".toList { }).code.map Prod.fst = some (-1) ∧
    (parse_line 200 30 "get a\"b\"".toList { }).code.map Prod.fst = some (-1) ∧
    (parse_line 200 30 "get \"a\"b\"c".toList { }).code.map Prod.fst = some (-1) :=
  ⟨(parse_line_accepts_exactly 200 30 "  get \"a b\" c".toList { } (by decide) (by decide)).1 2
      [("get".toList, 1), ("\"a b\"".toList, 1), ("c".toList, 0)] (by decide)
      ⟨Nat.le_refl 1, Nat.le_refl 1, trivial⟩
      (by
        intro it hm
        simp only [List.mem_cons, List.mem_singleton, List.not_mem_nil, or_false] at hm
        rcases hm with rfl | rfl | rfl
        · exact ⟨by decide, by decide, Or.inl ⟨by decide, by decide⟩⟩
        · exact ⟨by decide, by decide,
            Or.inr ⟨"a b".toList, [], rfl, by decide, by decide, by decide⟩⟩
        · exact ⟨by decide, by decide, Or.inl ⟨by decide, by decide⟩⟩)
      (by decide),
   by decide, by decide, by decide⟩

/-! ## C26: more arguments than `argv` can hold -/

theorem separated_replicate (a b : List Char) (n : Nat) :
    Separated (List.replicate n (a, 1) ++ [(b, 0)]) := by
  induction n with
  | zero => trivial
  | succ m ih =>
    cases m with
    | zero => exact ⟨Nat.le_refl 1, trivial⟩
    | succ j => exact ⟨Nat.le_refl 1, ih⟩

/-- C26 (fails on the code): `parse_line` never compares `argc` with the
size of `argv`.  On a line made of more arguments than `argv` has entries,
each one acceptable, it stores an entry past the end of the array. -/
theorem parse_line_overruns_argv (fuel cap k0 : Nat) (items : List (List Char × Nat))
    (w : World) (hsep : Separated items) (hgood : ∀ it ∈ items, GoodArg it.1)
    (hmany : cap < items.length) (hfuel : items.length < fuel) :
    parse_line fuel cap (blanks k0 ++ render items) w = Res.fault := by
  have h := parse_loop_layout cap items [] k0 [] fuel w hsep hgood hfuel (Nat.zero_le _)
  have hc : ¬ (items.length ≤ cap) := by omega
  simp only [List.nil_append, List.length_nil, Nat.zero_add, hc, if_false] at h
  exact h

theorem parse_line_overruns_argv_witness :
    (blanks 0 ++ render (List.replicate 30 ("a".toList, 1) ++ [("a".toList, 0)])).length = 61 ∧
    61 < MAX_LINE_SIZE ∧
    parse_line MAX_LINE_SIZE MAX_ARGS
      (blanks 0 ++ render (List.replicate 30 ("a".toList, 1) ++ [("a".toList, 0)])) { }
      = Res.fault ∧
    (parse_line MAX_LINE_SIZE MAX_ARGS
      (blanks 0 ++ render (List.replicate 29 ("a".toList, 1) ++ [("a".toList, 0)])) { }).code.map
        Prod.fst = some 30 :=
  ⟨by decide, by decide,
   parse_line_overruns_argv MAX_LINE_SIZE MAX_ARGS 0
     (List.replicate 30 ("a".toList, 1) ++ [("a".toList, 0)]) { }
     (separated_replicate _ _ 30)
     (by
       intro it hm
       have hit : it.1 = "a".toList := by
         rcases List.mem_append.mp hm with h1 | h1
         · rw [(List.mem_replicate.mp h1).2]
         · rw [List.mem_singleton.mp h1]
       rw [hit]
       exact ⟨by decide, by decide, Or.inl ⟨by decide, by decide⟩⟩)
     (by decide) (by decide),
   by decide⟩

/-! ## C27: stripping the quotes of an argument -/

/-- C27 (fails on the code): `parse_line` accepts an argument that goes on
after its closing quote, and `strip_quotes` then removes its first and its
last byte, whatever the last byte is: from the line `get "abc"def` the
second argument becomes `abc"de`.  An argument that ends with its closing
quote loses the pair of quotes, one without quote is left as it is. -/
theorem strip_quotes_cuts_last_byte :
    (parse_line MAX_LINE_SIZE MAX_ARGS "get \"abc\"def".toList { }).code.map
        (fun r => (r.1, r.2.2.map (argString r.2.1)))
      = some (2, ["get".toList, "\"abc\"def".toList]) ∧
    (parse_line MAX_LINE_SIZE MAX_ARGS "get \"abc\"def".toList { }).code.map
        (fun r => (strip_quotes r.2.1 r.2.2).2.map (argString (strip_quotes r.2.1 r.2.2).1))
      = some ["get".toList, "abc\"de".toList] ∧
    (parse_line MAX_LINE_SIZE MAX_ARGS "get \"a b\" c".toList { }).code.map
        (fun r => (strip_quotes r.2.1 r.2.2).2.map (argString (strip_quotes r.2.1 r.2.2).1))
      = some ["get".toList, "a b".toList, "c".toList] := by
  decide

/-! ## C22: the answer to the prompt of a multi-file command -/

theorem conin_key (w : World) (k : Char) (ks : List Char) (hk : w.keys = k :: ks) :
    conin w = Res.ret k { w with keys := ks } := by
  unfold conin
  rw [hk]

/-- The question about one file, answered with a key other than control-C:
0 (skip) for `n` or `N`, 1 (proceed) for any other key. -/
theorem prompt_and_reply_key (cmd file : List Char) (w : World) (k : Char) (ks : List Char)
    (hn : NUL ∉ cmd ++ " ".toList ++ file ++ " (Y/n)? ".toList)
    (hl : (cmd ++ " ".toList ++ file ++ " (Y/n)? ".toList).length + 1 ≤ PRBUF_SIZE)
    (hp : w.prompting = true) (hk : w.keys = k :: ks) (hc : k ≠ CTL_C) :
    prompt_and_reply cmd file w
      = Res.ret (if k = 'N' ∨ k = 'n' then 0 else 1) (asked cmd file ks w) := by
  have hcon : conin { w with
        console := w.console ++ (cmd ++ " ".toList ++ file ++ " (Y/n)? ".toList) }
      = Res.ret k { w with
          keys := ks,
          console := w.console ++ (cmd ++ " ".toList ++ file ++ " (Y/n)? ".toList) } := by
    unfold conin
    dsimp only
    rw [hk]
  unfold prompt_and_reply
  rw [bind_run, get_run]
  dsimp only
  rw [if_pos hp, bind_ret (cprintf_run _ w hn hl), bind_ret hcon]
  unfold cputs
  rw [bind_run, modify_run]
  dsimp only
  rw [if_neg hc]
  split <;> rfl

/-- The question about one file, answered with control-C and then a second
key: -1 (stop) for control-C, `n` or `N`, 0 (skip) for any other key. -/
theorem prompt_and_reply_ctrl_c (cmd file : List Char) (w : World) (k2 : Char)
    (ks2 : List Char)
    (hn : NUL ∉ cmd ++ " ".toList ++ file ++ " (Y/n)? ".toList)
    (hl : (cmd ++ " ".toList ++ file ++ " (Y/n)? ".toList).length + 1 ≤ PRBUF_SIZE)
    (hn2 : NUL ∉ "Continue with ".toList ++ cmd ++ " (Y/n)? ".toList)
    (hl2 : ("Continue with ".toList ++ cmd ++ " (Y/n)? ".toList).length + 1 ≤ PRBUF_SIZE)
    (hp : w.prompting = true) (hk : w.keys = CTL_C :: k2 :: ks2) :
    prompt_and_reply cmd file w
      = Res.ret (if k2 = CTL_C ∨ k2 = 'N' ∨ k2 = 'n' then -1 else 0)
          { w with
            keys := ks2,
            console := w.console ++ (cmd ++ " ".toList ++ file ++ " (Y/n)? ".toList)
              ++ "\r\n".toList ++ ("Continue with ".toList ++ cmd ++ " (Y/n)? ".toList)
              ++ "\r\n".toList } := by
  have hcon : conin { w with
        console := w.console ++ (cmd ++ " ".toList ++ file ++ " (Y/n)? ".toList) }
      = Res.ret CTL_C { w with
          keys := k2 :: ks2,
          console := w.console ++ (cmd ++ " ".toList ++ file ++ " (Y/n)? ".toList) } := by
    unfold conin
    dsimp only
    rw [hk]
  have hcon2 : conin { w with
        keys := k2 :: ks2,
        console := w.console ++ (cmd ++ " ".toList ++ file ++ " (Y/n)? ".toList)
          ++ "\r\n".toList ++ ("Continue with ".toList ++ cmd ++ " (Y/n)? ".toList) }
      = Res.ret k2 { w with
          keys := ks2,
          console := w.console ++ (cmd ++ " ".toList ++ file ++ " (Y/n)? ".toList)
            ++ "\r\n".toList ++ ("Continue with ".toList ++ cmd ++ " (Y/n)? ".toList) } := rfl
  have hpr2 := cprintf_run ("Continue with ".toList ++ cmd ++ " (Y/n)? ".toList)
    { w with
      keys := k2 :: ks2,
      console := w.console ++ (cmd ++ " ".toList ++ file ++ " (Y/n)? ".toList)
        ++ "\r\n".toList } hn2 hl2
  unfold prompt_and_reply
  rw [bind_run, get_run]
  dsimp only
  rw [if_pos hp, bind_ret (cprintf_run _ w hn hl), bind_ret hcon]
  unfold cputs
  rw [bind_run, modify_run]
  dsimp only
  rw [if_pos rfl, bind_ret hpr2, bind_ret hcon2, bind_run, modify_run]
  dsimp only
  split <;> rfl

theorem mdelete_loop_step (fuel : Nat) (mem : List Char) (n p : Nat) (name rest : List Char)
    (hname : mem.drop p = name ++ NUL :: rest) (hnul : NUL ∉ name) :
    mdelete_loop fuel mem (n + 1) p
      = (ftp_delete fuel name true >>= fun rc => message rc >>= fun _ =>
          if rc < 0 then Prog.pure () else mdelete_loop fuel mem n (p + name.length + 1)) := by
  have h1 : NUL ∈ mem.drop p := by rw [hname]; simp
  have h2 : cstr (mem.drop p) = name := by rw [hname]; exact cstr_append_nul name rest hnul
  rw [mdelete_loop, if_pos h1, h2]

theorem mget_loop_step (fuel : Nat) (mem : List Char) (n p : Nat) (name rest : List Char)
    (hname : mem.drop p = name ++ NUL :: rest) (hnul : NUL ∉ name) :
    mget_loop fuel mem (n + 1) p
      = (ftp_get fuel name name true >>= fun rc => message rc >>= fun _ =>
          if rc < 0 then Prog.pure () else mget_loop fuel mem n (p + name.length + 1)) := by
  have h1 : NUL ∈ mem.drop p := by rw [hname]; simp
  have h2 : cstr (mem.drop p) = name := by rw [hname]; exact cstr_append_nul name rest hnul
  rw [mget_loop, if_pos h1, h2]

/-- Source `ftp_delete` for an mdelete on a connected session: the question
comes first and its answer decides. -/
theorem ftp_delete_asks (fuel : Nat) (name : List Char) (w : World) (hconn : 0 ≤ w.handle) :
    ftp_delete fuel name true w
      = (prompt_and_reply "mdelete".toList name >>= fun ans =>
          if ans = -1 then Prog.pure USER_INTERRUPT
          else if ans = 0 then Prog.pure 0
          else sprintf_command ("DELE ".toList ++ name) >>= fun command =>
            send_command fuel w.handle command) w := by
  unfold ftp_delete
  rw [bind_run, get_run]
  have h : ¬ (w.handle < 0) := by omega
  simp only [h, if_false, if_true]

/-- Source `ftp_get` for an mget on a connected session: the question comes
first and its answer decides. -/
theorem ftp_get_asks (fuel : Nat) (name : List Char) (w : World) (hconn : 0 ≤ w.handle) :
    ftp_get fuel name name true w
      = (prompt_and_reply "mget".toList name >>= fun ans =>
          if ans = -1 then Prog.pure USER_INTERRUPT
          else if ans = 0 then Prog.pure 0
          else ftp_get_typed fuel name name) w := by
  unfold ftp_get
  rw [bind_run, get_run]
  have h : ¬ (w.handle < 0) := by omega
  simp only [h, if_false, if_true]

theorem message_zero (w : World) : message 0 w = Res.ret () w := rfl

theorem message_user_interrupt (w : World) :
    message USER_INTERRUPT w
      = Res.ret () { w with console := w.console ++ "Interrupted by user\r\n".toList } :=
  cprintf_run "Interrupted by user\r\n".toList w (by decide) (by decide)

theorem prompt_text_fits (cmd name : List Char) (hcmd : NUL ∉ cmd) (hshort : cmd.length ≤ 7)
    (hnul : NUL ∉ name) (hlen : name.length ≤ 250) :
    NUL ∉ cmd ++ " ".toList ++ name ++ " (Y/n)? ".toList ∧
    (cmd ++ " ".toList ++ name ++ " (Y/n)? ".toList).length + 1 ≤ PRBUF_SIZE ∧
    NUL ∉ "Continue with ".toList ++ cmd ++ " (Y/n)? ".toList ∧
    ("Continue with ".toList ++ cmd ++ " (Y/n)? ".toList).length + 1 ≤ PRBUF_SIZE := by
  have e1 : NUL ∉ " ".toList := by decide
  have e2 : NUL ∉ " (Y/n)? ".toList := by decide
  have e3 : NUL ∉ "Continue with ".toList := by decide
  have l1 : " ".toList.length = 1 := rfl
  have l2 : " (Y/n)? ".toList.length = 8 := rfl
  have l3 : "Continue with ".toList.length = 14 := rfl
  refine ⟨?_, ?_, ?_, ?_⟩
  · simp only [List.mem_append, not_or]
    exact ⟨⟨⟨hcmd, e1⟩, hnul⟩, e2⟩
  · simp only [List.length_append, l1, l2, PRBUF_SIZE]
    omega
  · simp only [List.mem_append, not_or]
    exact ⟨⟨e3, hcmd⟩, e2⟩
  · simp only [List.length_append, l2, l3, PRBUF_SIZE]
    omega

/-- What one turn of a multi-file loop does, given what the operation on one
file does after its question: skip on `n` or `N`, stop on control-C
confirmed, the operation itself on any other key or with prompting off. -/
theorem multi_turn (cmd name : List Char) (op : Prog Int) (next : Prog Unit) (w : World)
    (hcmd : NUL ∉ cmd) (hshort : cmd.length ≤ 7) (hnul : NUL ∉ name) (hlen : name.length ≤ 250) :
    (w.prompting = true → ∀ k ks, w.keys = k :: ks →
      ((k = 'n' ∨ k = 'N') →
        ((prompt_and_reply cmd name >>= fun ans =>
            if ans = -1 then Prog.pure USER_INTERRUPT
            else if ans = 0 then Prog.pure 0 else op) >>= fun rc => message rc >>= fun _ =>
          if rc < 0 then Prog.pure () else next) w = next (asked cmd name ks w)) ∧
      ((k ≠ CTL_C ∧ k ≠ 'n' ∧ k ≠ 'N') →
        ((prompt_and_reply cmd name >>= fun ans =>
            if ans = -1 then Prog.pure USER_INTERRUPT
            else if ans = 0 then Prog.pure 0 else op) >>= fun rc => message rc >>= fun _ =>
          if rc < 0 then Prog.pure () else next) w
          = (op >>= fun rc => message rc >>= fun _ =>
              if rc < 0 then Prog.pure () else next) (asked cmd name ks w)) ∧
      (k = CTL_C → ∀ k2 ks2, ks = k2 :: ks2 → (k2 = CTL_C ∨ k2 = 'n' ∨ k2 = 'N') →
        ((prompt_and_reply cmd name >>= fun ans =>
            if ans = -1 then Prog.pure USER_INTERRUPT
            else if ans = 0 then Prog.pure 0 else op) >>= fun rc => message rc >>= fun _ =>
          if rc < 0 then Prog.pure () else next) w = Res.ret () (stopped cmd name ks2 w))) ∧
    (w.prompting = false →
      ((prompt_and_reply cmd name >>= fun ans =>
          if ans = -1 then Prog.pure USER_INTERRUPT
          else if ans = 0 then Prog.pure 0 else op) >>= fun rc => message rc >>= fun _ =>
        if rc < 0 then Prog.pure () else next) w
        = (op >>= fun rc => message rc >>= fun _ =>
            if rc < 0 then Prog.pure () else next) w) := by
  obtain ⟨hn, hl, hn2, hl2⟩ := prompt_text_fits cmd name hcmd hshort hnul hlen
  constructor
  · intro hp k ks hk
    refine ⟨?_, ?_, ?_⟩
    · intro hskip
      have hc : k ≠ CTL_C := by
        rcases hskip with e | e <;> (rw [e]; decide)
      have hans : (if k = 'N' ∨ k = 'n' then (0 : Int) else 1) = 0 := by
        rcases hskip with e | e <;> simp [e]
      have h01 : ¬ ((0 : Int) = -1) := by decide
      rw [bind_run, bind_ret (prompt_and_reply_key cmd name w k ks hn hl hp hk hc), hans,
        if_neg h01, if_pos rfl, Prog_pure_run]
      dsimp only
      rw [bind_ret (message_zero _)]
      rfl
    · intro hgo
      have hans : (if k = 'N' ∨ k = 'n' then (0 : Int) else 1) = 1 := by
        simp [hgo.2.1, hgo.2.2]
      have h11 : ¬ ((1 : Int) = -1) := by decide
      have h10 : ¬ ((1 : Int) = 0) := by decide
      rw [bind_run, bind_ret (prompt_and_reply_key cmd name w k ks hn hl hp hk hgo.1), hans,
        if_neg h11, if_neg h10]
      rfl
    · intro hk1 k2 ks2 hks hstop
      have hk2 : w.keys = CTL_C :: k2 :: ks2 := by rw [hk, hk1, hks]
      have hans : (if k2 = CTL_C ∨ k2 = 'N' ∨ k2 = 'n' then (-1 : Int) else 0) = -1 := by
        rcases hstop with e | e | e <;> simp [e]
      rw [bind_run, bind_ret (prompt_and_reply_ctrl_c cmd name w k2 ks2 hn hl hn2 hl2 hp hk2), hans,
        if_pos rfl, Prog_pure_run]
      dsimp only
      rw [bind_ret (message_user_interrupt _)]
      rfl
  · intro hp
    have hpr : prompt_and_reply cmd name w = Res.ret 1 w := by
      unfold prompt_and_reply
      rw [bind_run, get_run]
      simp only [hp, Bool.false_eq_true, if_false]
      rfl
    have h11 : ¬ ((1 : Int) = -1) := by decide
    have h10 : ¬ ((1 : Int) = 0) := by decide
    rw [bind_run, bind_ret hpr, if_neg h11, if_neg h10]
    rfl

/-- One turn of the loops of `run_mdelete` and `run_mget` on a connected
session, at a name of the collector (`n` more names follow).  With prompting
on the key typed at the question decides: on `n` or `N` the loop goes on
with the next name from a world in which only the console and the keys have
changed; on any key other than control-C, `n`, `N` the turn is the operation
on this file (the exchange of `DELE name`, the transfer of `name`) and the
loop goes on unless its result is negative; on control-C confirmed by
control-C, `n` or `N` the loop is over, again with only the console and the
keys changed.  With prompting off the turn is the operation on this file,
without question. -/
theorem multi_loop_turn (fuel : Nat) (mem : List Char) (n p : Nat)
    (name rest : List Char) (w : World)
    (hconn : 0 ≤ w.handle) (hname : mem.drop p = name ++ NUL :: rest) (hnul : NUL ∉ name)
    (hlen : name.length ≤ 250) :
    (w.prompting = true → ∀ k ks, w.keys = k :: ks →
      ((k = 'n' ∨ k = 'N') →
        mdelete_loop fuel mem (n + 1) p w
          = mdelete_loop fuel mem n (p + name.length + 1) (asked "mdelete".toList name ks w) ∧
        mget_loop fuel mem (n + 1) p w
          = mget_loop fuel mem n (p + name.length + 1) (asked "mget".toList name ks w)) ∧
      ((k ≠ CTL_C ∧ k ≠ 'n' ∧ k ≠ 'N') →
        mdelete_loop fuel mem (n + 1) p w
          = (send_command fuel w.handle ("DELE ".toList ++ name) >>= fun rc =>
              message rc >>= fun _ =>
              if rc < 0 then Prog.pure ()
              else mdelete_loop fuel mem n (p + name.length + 1))
            (asked "mdelete".toList name ks w) ∧
        mget_loop fuel mem (n + 1) p w
          = (ftp_get_typed fuel name name >>= fun rc =>
              message rc >>= fun _ =>
              if rc < 0 then Prog.pure ()
              else mget_loop fuel mem n (p + name.length + 1))
            (asked "mget".toList name ks w)) ∧
      (k = CTL_C → ∀ k2 ks2, ks = k2 :: ks2 → (k2 = CTL_C ∨ k2 = 'n' ∨ k2 = 'N') →
        mdelete_loop fuel mem (n + 1) p w
          = Res.ret () (stopped "mdelete".toList name ks2 w) ∧
        mget_loop fuel mem (n + 1) p w = Res.ret () (stopped "mget".toList name ks2 w))) ∧
    (w.prompting = false →
      mdelete_loop fuel mem (n + 1) p w
        = (send_command fuel w.handle ("DELE ".toList ++ name) >>= fun rc =>
            message rc >>= fun _ =>
            if rc < 0 then Prog.pure ()
            else mdelete_loop fuel mem n (p + name.length + 1)) w ∧
      mget_loop fuel mem (n + 1) p w
        = (ftp_get_typed fuel name name >>= fun rc =>
            message rc >>= fun _ =>
            if rc < 0 then Prog.pure ()
            else mget_loop fuel mem n (p + name.length + 1)) w) := by
  have hd : mdelete_loop fuel mem (n + 1) p w
      = ((prompt_and_reply "mdelete".toList name >>= fun ans =>
            if ans = -1 then Prog.pure USER_INTERRUPT
            else if ans = 0 then Prog.pure 0
            else sprintf_command ("DELE ".toList ++ name) >>= fun command =>
              send_command fuel w.handle command) >>= fun rc => message rc >>= fun _ =>
          if rc < 0 then Prog.pure ()
          else mdelete_loop fuel mem n (p + name.length + 1)) w := by
    rw [mdelete_loop_step fuel mem n p name rest hname hnul, bind_run,
      ftp_delete_asks fuel name w hconn, ← bind_run]
  have hg : mget_loop fuel mem (n + 1) p w
      = ((prompt_and_reply "mget".toList name >>= fun ans =>
            if ans = -1 then Prog.pure USER_INTERRUPT
            else if ans = 0 then Prog.pure 0
            else ftp_get_typed fuel name name) >>= fun rc => message rc >>= fun _ =>
          if rc < 0 then Prog.pure ()
          else mget_loop fuel mem n (p + name.length + 1)) w := by
    rw [mget_loop_step fuel mem n p name rest hname hnul, bind_run,
      ftp_get_asks fuel name w hconn, ← bind_run]
  have hcmd : ∀ w1 : World, sprintf_command ("DELE ".toList ++ name) w1
      = Res.ret ("DELE ".toList ++ name) w1 := by
    intro w1
    apply sprintf_command_run
    · simp only [List.mem_append, not_or]
      exact ⟨by decide, hnul⟩
    · have : ("DELE ".toList ++ name).length = 5 + name.length := by
        rw [List.length_append]; rfl
      rw [this]
      show 5 + name.length + 1 ≤ 256
      omega
  have hop : ∀ (next : Prog Unit) (w1 : World),
      ((sprintf_command ("DELE ".toList ++ name) >>= fun command =>
          send_command fuel w.handle command) >>= fun rc => message rc >>= fun _ =>
        if rc < 0 then Prog.pure () else next) w1
      = (send_command fuel w.handle ("DELE ".toList ++ name) >>= fun rc =>
          message rc >>= fun _ => if rc < 0 then Prog.pure () else next) w1 := by
    intro next w1
    rw [bind_run, bind_ret (hcmd w1), ← bind_run]
  obtain ⟨d1, d2⟩ := multi_turn "mdelete".toList name
    (sprintf_command ("DELE ".toList ++ name) >>= fun command =>
      send_command fuel w.handle command)
    (mdelete_loop fuel mem n (p + name.length + 1)) w (by decide) (by decide) hnul hlen
  obtain ⟨g1, g2⟩ := multi_turn "mget".toList name (ftp_get_typed fuel name name)
    (mget_loop fuel mem n (p + name.length + 1)) w (by decide) (by decide) hnul hlen
  constructor
  · intro hp k ks hk
    obtain ⟨da, db, dc⟩ := d1 hp k ks hk
    obtain ⟨ga, gb, gc⟩ := g1 hp k ks hk
    refine ⟨fun h => ⟨?_, ?_⟩, fun h => ⟨?_, ?_⟩, fun h k2 ks2 hks hstop => ⟨?_, ?_⟩⟩
    · rw [hd]; exact da h
    · rw [hg]; exact ga h
    · rw [hd, db h]; exact hop _ _
    · rw [hg]; exact gb h
    · rw [hd]; exact dc h k2 ks2 hks hstop
    · rw [hg]; exact gc h k2 ks2 hks hstop
  · intro hp
    refine ⟨?_, ?_⟩
    · rw [hd, d2 hp]; exact hop _ _
    · rw [hg]; exact g2 hp

theorem debug_echo_fits (c : List Char) (hn : NUL ∉ c) (hl : c.length ≤ 80) :
    NUL ∉ debug_echo c ∧ (debug_echo c).length + 1 ≤ PRBUF_SIZE := by
  have h4 : NUL ∉ c.take 4 := fun h => hn (List.mem_of_mem_take h)
  have l4 : (c.take 4).length ≤ 4 := by simp
  have e1 : NUL ∉ "---> ".toList := by decide
  have e2 : NUL ∉ " XXXX\r\n".toList := by decide
  have e3 : NUL ∉ "\r\n".toList := by decide
  have l1 : "---> ".toList.length = 5 := rfl
  have l2 : " XXXX\r\n".toList.length = 7 := rfl
  have l3 : "\r\n".toList.length = 2 := rfl
  unfold debug_echo
  dsimp only
  split
  · refine ⟨?_, ?_⟩
    · simp only [List.mem_append, not_or]
      exact ⟨⟨e1, h4⟩, e2⟩
    · simp only [List.length_append, l1, l2, PRBUF_SIZE]
      omega
  · refine ⟨?_, ?_⟩
    · simp only [List.mem_append, not_or]
      exact ⟨⟨e1, hn⟩, e3⟩
    · simp only [List.length_append, l1, l3, PRBUF_SIZE]
      omega

/-- The echo of a command that fits `cmdsave` changes the console only. -/
theorem send_command_echo_returns (c : List Char) (w : World) (hn : NUL ∉ c)
    (hl : c.length ≤ 80) :
    ∃ w0, send_command_echo c w = Res.ret () w0 ∧ w0 = { w with console := w0.console } := by
  obtain ⟨h1, h2⟩ := debug_echo_fits c hn hl
  have hret : ∃ w0, send_command_echo c w = Res.ret () w0 := by
    unfold send_command_echo
    rw [bind_run, get_run]
    dsimp only
    split
    · exact ⟨_, cprintf_run _ w h1 h2⟩
    · exact ⟨_, rfl⟩
  obtain ⟨w0, h0⟩ := hret
  exact ⟨w0, h0, consoleOnly_send_command_echo _ w () w0 h0⟩

theorem headD_nonneg (l : List Int) (h : ∀ r ∈ l, 0 ≤ r) : 0 ≤ l.headD E_NORMAL := by
  cases l with
  | nil => decide
  | cons a t => exact h a (by simp)

theorem tail_nonneg (l : List Int) (h : ∀ r ∈ l, 0 ≤ r) : ∀ r ∈ l.tail, 0 ≤ r :=
  fun r hr => h r (List.mem_of_mem_tail hr)

/-- The exchange of `DELE name` on a session where its reply has been
received: the command goes out, the reply is read and shown, and the loop
goes on; the transport, the reply buffer and the replies still ahead are as
the next exchange needs them. -/
theorem dele_turn_ready (fuel : Nat) (name : List Char) (next : Prog Unit) (w : World)
    (r : Reply) (rs : List Reply) (rest : List Char)
    (hnul : NUL ∉ name) (hlen : name.length ≤ 72)
    (hready : RepliesReady fuel w (r :: rs) rest) :
    ∃ w1 seg, (send_command fuel w.handle ("DELE ".toList ++ name) >>= fun rc =>
        message rc >>= fun _ => if rc < 0 then Prog.pure () else next) w = next w1 ∧
      w1.sent = w.sent ++ [dele w.handle name] ∧ w1.keys = w.keys ∧
      w1.prompting = w.prompting ∧ w1.handle = w.handle ∧
      RepliesReady fuel w1 rs (rest ++ seg) := by
  obtain ⟨hconn, hsr, ⟨mem, hmem, hsize, hshort⟩, ⟨c, hc, hq⟩, hall⟩ := hready
  obtain ⟨hwire, hlo, hhi, hfit, hfuel⟩ := hall r (by simp)
  have hcn : NUL ∉ "DELE ".toList ++ name := by
    simp only [List.mem_append, not_or]
    exact ⟨by decide, hnul⟩
  have hcl : ("DELE ".toList ++ name).length = 5 + name.length := by
    rw [List.length_append]; rfl
  obtain ⟨w0, hecho, hw0⟩ := send_command_echo_returns ("DELE ".toList ++ name) w hcn
    (by rw [hcl]; omega)
  have e0net : w0.net = w.net := by rw [hw0]
  have e0rep : w0.reply = w.reply := by rw [hw0]
  have e0size : w0.reply_size = w.reply_size := by rw [hw0]
  have e0sr : w0.send_results = w.send_results := by rw [hw0]
  have e0sent : w0.sent = w.sent := by rw [hw0]
  have e0keys : w0.keys = w.keys := by rw [hw0]
  have e0pr : w0.prompting = w.prompting := by rw [hw0]
  have e0h : w0.handle = w.handle := by rw [hw0]
  have hacc : ¬ (w0.send_results.headD E_NORMAL < 0) := by
    have := headD_nonneg w.send_results hsr
    rw [e0sr]; omega
  have hsend := send_command_run fuel w.handle ("DELE ".toList ++ name) w w0
    (by rw [hcl]; show 5 + name.length + 3 ≤ 80; omega) hecho
  rw [if_neg hacc] at hsend
  obtain ⟨f1, hf1⟩ := Nat.exists_eq_add_of_le hfuel
  have hq2 : c.queue = wireReply r.cont (r.code ++ [' '], r.text)
      ++ ((rs.map Reply.wire).flatten ++ rest) := by
    rw [hq]
    simp only [List.map_cons, List.flatten_cons, List.append_assoc]
    rfl
  have hfit2 : (wireReply r.cont (r.code ++ [' '], r.text)).length + 1 ≤ mem.length := by
    rw [← hsize]; exact hfit
  obtain ⟨net1, c1, seg, hrun, hc1, hq1⟩ := get_reply_consumes f1 w.handle
    { w0 with send_results := w0.send_results.tail,
              sent := w0.sent ++ [(w.handle, "DELE ".toList ++ name ++ ['\r', '\n'])] }
    c mem _ r.code r.text r.cont hwire
    (by show findConn w.handle w0.net = _; rw [e0net]; exact hc) hq2
    (by show w0.reply = _; rw [e0rep]; exact hmem)
    (by show w0.reply_size = _; rw [e0size]; exact hsize) hfit2 (by omega)
  rw [← hf1] at hrun
  have hnul1 : NUL ∈ wireReply r.cont (r.code ++ [' '], r.text) ++ [NUL]
      ++ mem.drop ((wireReply r.cont (r.code ++ [' '], r.text)).length + 1) := by
    simp
  have hlen1 : (wireReply r.cont (r.code ++ [' '], r.text) ++ [NUL]
      ++ mem.drop ((wireReply r.cont (r.code ++ [' '], r.text)).length + 1)).length
      = mem.length := by
    simp only [List.length_append, List.length_singleton, List.length_drop]
    omega
  obtain ⟨w3, hm1, hw3⟩ := message_reply_returns (decVal r.code : Int)
    { w0 with send_results := w0.send_results.tail,
              sent := w0.sent ++ [(w.handle, "DELE ".toList ++ name ++ ['\r', '\n'])],
              net := net1, header := r.code ++ [' '] ++ [NUL],
              reply := some (wireReply r.cont (r.code ++ [' '], r.text) ++ [NUL]
                ++ mem.drop ((wireReply r.cont (r.code ++ [' '], r.text)).length + 1)) } _
    (by exact_mod_cast hlo) (by exact_mod_cast hhi) rfl hnul1
  have e3net : w3.net = net1 := by rw [hw3]
  have e3rep : w3.reply = some (wireReply r.cont (r.code ++ [' '], r.text) ++ [NUL]
      ++ mem.drop ((wireReply r.cont (r.code ++ [' '], r.text)).length + 1)) := by rw [hw3]
  have e3size : w3.reply_size = w0.reply_size := by rw [hw3]
  have e3sr : w3.send_results = w0.send_results.tail := by rw [hw3]
  have e3sent : w3.sent = w0.sent ++ [(w.handle, "DELE ".toList ++ name ++ ['\r', '\n'])] := by
    rw [hw3]
  have e3keys : w3.keys = w0.keys := by rw [hw3]
  have e3pr : w3.prompting = w0.prompting := by rw [hw3]
  have e3h : w3.handle = w0.handle := by rw [hw3]
  refine ⟨w3, seg, ?_, ?_, by rw [e3keys, e0keys], by rw [e3pr, e0pr], by rw [e3h, e0h], ?_⟩
  · rw [bind_run, hsend, hrun]
    dsimp only
    rw [bind_ret hm1]
    have : ¬ ((decVal r.code : Int) < 0) := by omega
    rw [if_neg this]
  · rw [e3sent, e0sent]; rfl
  · refine ⟨by rw [e3h, e0h]; exact hconn, ?_, ⟨_, e3rep, ?_, ?_⟩, ⟨c1, ?_, ?_⟩, ?_⟩
    · rw [e3sr, e0sr]; exact tail_nonneg _ hsr
    · rw [e3size, e0size, hsize, hlen1]
    · rw [hlen1]; exact hshort
    · rw [e3h, e0h, e3net]; exact hc1
    · rw [hq1, List.append_assoc]
    · intro x hx
      obtain ⟨a, b, c2, d, e⟩ := hall x (by simp [hx])
      exact ⟨a, b, c2, by rw [e3size, e0size]; exact d, e⟩

theorem drop_next_name (mem : List Char) (p : Nat) (name more : List Char)
    (h : mem.drop p = name ++ NUL :: more) : mem.drop (p + name.length + 1) = more := by
  have : mem.drop (p + name.length + 1) = (mem.drop p).drop (name.length + 1) := by
    rw [List.drop_drop, Nat.add_assoc]
  rw [this, h]
  have e : name ++ NUL :: more = (name ++ [NUL]) ++ more := by simp
  rw [e]
  exact List.drop_left' (by simp)

/-- The loop of `run_mdelete` over a whole list of files, on a session where
the replies to the commands it will send have been received.  With prompting
on, the keys typed are the answers, file by file; with prompting off every
file counts as answered proceed.  The loop returns, and what it has sent is
`DELE` for exactly the files let through, in order. -/
theorem mdelete_loop_answers (fuel : Nat) (mem : List Char) :
    ∀ (items : List (List Char × Answer)) (p : Nat) (w : World) (replies : List Reply)
      (rest extra tail : List Char),
    (w.prompting = true → w.keys = typed items ++ extra ∧ ∀ it ∈ items, it.2.valid) →
    (w.prompting = false → ∀ it ∈ items, ∃ k, it.2 = Answer.proceed k) →
    (∀ it ∈ items, NUL ∉ it.1 ∧ it.1.length ≤ 72) →
    mem.drop p = nulJoin (items.map Prod.fst) ++ tail →
    replies.length = (chosen items).length →
    RepliesReady fuel w replies rest →
    ∃ wf, mdelete_loop fuel mem items.length p w = Res.ret () wf ∧
      wf.sent = w.sent ++ (chosen items).map (dele w.handle) := by
  intro items
  induction items with
  | nil =>
    intro p w replies rest extra tail _ _ _ _ _ _
    exact ⟨w, rfl, by simp [chosen]⟩
  | cons it later ih =>
    intro p w replies rest extra tail hon hoff hnames hmem hrl hready
    obtain ⟨name, ans⟩ := it
    have hnl := hnames (name, ans) (by simp)
    have hnul : NUL ∉ name := hnl.1
    have hlen : name.length ≤ 72 := hnl.2
    have hconn : 0 ≤ w.handle := hready.1
    have hname : mem.drop p = name ++ NUL :: (nulJoin (later.map Prod.fst) ++ tail) := by
      rw [hmem]; simp [nulJoin]
    have hnext := drop_next_name mem p name _ hname
    obtain ⟨ton, toff⟩ := multi_loop_turn fuel mem later.length p name _ w hconn hname hnul
      (by omega)
    have hnames2 : ∀ it ∈ later, NUL ∉ it.1 ∧ it.1.length ≤ 72 :=
      fun x hx => hnames x (by simp [hx])
    show ∃ wf, mdelete_loop fuel mem (later.length + 1) p w = Res.ret () wf ∧ _
    by_cases hp : w.prompting = true
    · obtain ⟨hkeys, hvalid⟩ := hon hp
      have hvalid2 : ∀ it ∈ later, it.2.valid := fun x hx => hvalid x (by simp [hx])
      have hv := hvalid (name, ans) (by simp)
      cases ans with
      | proceed k =>
        have hk : w.keys = k :: (typed later ++ extra) := by rw [hkeys]; rfl
        obtain ⟨_, hgo, _⟩ := ton hp k _ hk
        rw [(hgo hv).1]
        cases replies with
        | nil => simp [chosen] at hrl
        | cons r rs =>
          obtain ⟨w1, seg, hrun, hsent, hkeys1, hpr1, hh1, hready1⟩ :=
            dele_turn_ready fuel name (mdelete_loop fuel mem later.length (p + name.length + 1))
              (asked "mdelete".toList name (typed later ++ extra) w) r rs rest hnul hlen hready
          have hsent : w1.sent = w.sent ++ [dele w.handle name] := hsent
          have hh1 : w1.handle = w.handle := hh1
          obtain ⟨wf, hwf, hsf⟩ := ih (p + name.length + 1) w1 rs (rest ++ seg) extra tail
            (fun _ => ⟨by rw [hkeys1]; rfl, hvalid2⟩)
            (fun h => by rw [hpr1] at h; exact absurd hp (by rw [show w.prompting = false from h]; decide))
            hnames2 hnext (by simpa [chosen] using hrl) hready1
          refine ⟨wf, ?_, ?_⟩
          · exact hrun.trans hwf
          · rw [hsf, hsent, hh1]
            simp [chosen]
      | skip k =>
        have hk : w.keys = k :: (typed later ++ extra) := by rw [hkeys]; rfl
        obtain ⟨hskip, _, _⟩ := ton hp k _ hk
        have hv2 : k = 'n' ∨ k = 'N' := hv
        rw [(hskip hv2).1]
        obtain ⟨wf, hwf, hsf⟩ := ih (p + name.length + 1)
          (asked "mdelete".toList name (typed later ++ extra) w) replies rest extra tail
          (fun _ => ⟨rfl, hvalid2⟩)
          (fun h => absurd hp (by rw [show w.prompting = false from h]; decide))
          hnames2 hnext (by simpa [chosen] using hrl) hready
        exact ⟨wf, hwf, by rw [hsf]; rfl⟩
      | stop k2 =>
        have hk : w.keys = CTL_C :: (k2 :: extra) := by rw [hkeys]; rfl
        obtain ⟨_, _, hstop⟩ := ton hp CTL_C _ hk
        rw [(hstop rfl k2 extra rfl hv).1]
        exact ⟨_, rfl, by simp [chosen, stopped]⟩
    · have hp2 : w.prompting = false := by
        cases h : w.prompting with
        | true => exact absurd h hp
        | false => rfl
      obtain ⟨k, hk⟩ := hoff hp2 (name, ans) (by simp)
      have hans : ans = Answer.proceed k := hk
      subst hans
      rw [(toff hp2).1]
      cases replies with
      | nil => simp [chosen] at hrl
      | cons r rs =>
        obtain ⟨w1, seg, hrun, hsent, hkeys1, hpr1, hh1, hready1⟩ :=
          dele_turn_ready fuel name (mdelete_loop fuel mem later.length (p + name.length + 1))
            w r rs rest hnul hlen hready
        obtain ⟨wf, hwf, hsf⟩ := ih (p + name.length + 1) w1 rs (rest ++ seg) extra tail
          (fun h => by rw [hpr1, hp2] at h; cases h)
          (fun _ x hx => hoff hp2 x (by simp [hx]))
          hnames2 hnext (by simpa [chosen] using hrl) hready1
        refine ⟨wf, hrun.trans hwf, ?_⟩
        rw [hsf, hsent, hh1]
        simp [chosen]

/-- The loop of `run_mget` over a list of files that are all skipped, up to
a stop if there is one: the loop returns and nothing was sent, opened or
read from the network. -/
theorem mget_loop_answers (fuel : Nat) (mem : List Char) :
    ∀ (items : List (List Char × Answer)) (p : Nat) (w : World) (extra tail : List Char),
    w.prompting = true → 0 ≤ w.handle → w.keys = typed items ++ extra →
    (∀ it ∈ items, it.2.valid ∧ ∀ k, it.2 ≠ Answer.proceed k) →
    (∀ it ∈ items, NUL ∉ it.1 ∧ it.1.length ≤ 72) →
    mem.drop p = nulJoin (items.map Prod.fst) ++ tail →
    ∃ wf, mget_loop fuel mem items.length p w = Res.ret () wf ∧
      wf.sent = w.sent ∧ wf.opened = w.opened ∧ wf.net = w.net := by
  intro items
  induction items with
  | nil =>
    intro p w extra tail _ _ _ _ _ _
    exact ⟨w, rfl, rfl, rfl, rfl⟩
  | cons it later ih =>
    intro p w extra tail hp hconn hkeys hvalid hnames hmem
    obtain ⟨name, ans⟩ := it
    have hnl := hnames (name, ans) (by simp)
    have hnul : NUL ∉ name := hnl.1
    have hlen : name.length ≤ 72 := hnl.2
    have hname : mem.drop p = name ++ NUL :: (nulJoin (later.map Prod.fst) ++ tail) := by
      rw [hmem]; simp [nulJoin]
    have hnext := drop_next_name mem p name _ hname
    obtain ⟨ton, _⟩ := multi_loop_turn fuel mem later.length p name _ w hconn hname hnul
      (by omega)
    have hv := hvalid (name, ans) (by simp)
    show ∃ wf, mget_loop fuel mem (later.length + 1) p w = Res.ret () wf ∧ _
    cases ans with
    | proceed k => exact absurd rfl (hv.2 k)
    | skip k =>
      have hk : w.keys = k :: (typed later ++ extra) := by rw [hkeys]; rfl
      obtain ⟨hskip, _, _⟩ := ton hp k _ hk
      have hv2 : k = 'n' ∨ k = 'N' := hv.1
      rw [(hskip hv2).2]
      obtain ⟨wf, hwf, h1, h2, h3⟩ := ih (p + name.length + 1)
        (asked "mget".toList name (typed later ++ extra) w) extra tail hp hconn rfl
        (fun x hx => hvalid x (by simp [hx])) (fun x hx => hnames x (by simp [hx])) hnext
      exact ⟨wf, hwf, h1, h2, h3⟩
    | stop k2 =>
      have hk : w.keys = CTL_C :: (k2 :: extra) := by rw [hkeys]; rfl
      obtain ⟨_, _, hstop⟩ := ton hp CTL_C _ hk
      rw [(hstop rfl k2 extra rfl hv.1).2]
      exact ⟨_, rfl, rfl, rfl, rfl⟩

/-- Source `run_mdelete` once `ftp_matching` has returned its names: the
loop over them, then 0. -/
theorem run_mdelete_matched (fuel : Nat) (junk : BUFCTL) (arg : List Char) (w w1 : World)
    (rc : Int) (b : BUFCTL) (mem : List Char) (hglob : w.globbing = true)
    (hmatch : ftp_matching fuel junk arg w = Res.ret (rc, b) w1) (hrc : 0 ≤ rc)
    (hstart : b.start = some mem) :
    run_mdelete fuel junk arg w
      = (mdelete_loop fuel mem b.count.toNat 0 >>= fun _ => Prog.pure 0) w1 := by
  unfold run_mdelete
  rw [bind_run, get_run]
  dsimp only
  simp only [hglob, Bool.not_true, Bool.false_eq_true, if_false]
  rw [bind_ret hmatch]
  dsimp only
  have : rc ≥ 0 := hrc
  simp only [this, if_true, hstart]

/-- Source `run_mget` once `ftp_matching` has returned its names: the loop
over them, then 0. -/
theorem run_mget_matched (fuel : Nat) (junk : BUFCTL) (arg : List Char) (w w1 : World)
    (rc : Int) (b : BUFCTL) (mem : List Char) (hglob : w.globbing = true)
    (hmatch : ftp_matching fuel junk arg w = Res.ret (rc, b) w1) (hrc : 0 ≤ rc)
    (hstart : b.start = some mem) :
    run_mget fuel junk arg w
      = (mget_loop fuel mem b.count.toNat 0 >>= fun _ => Prog.pure 0) w1 := by
  unfold run_mget
  rw [bind_run, get_run]
  dsimp only
  simp only [hglob, Bool.not_true, Bool.false_eq_true, if_false]
  rw [bind_ret hmatch]
  dsimp only
  have : rc ≥ 0 := hrc
  simp only [this, if_true, hstart]

/-- A negative result of the operation on one file ends the loop of
`run_mdelete`, whatever names follow. -/
theorem mdelete_loop_break (fuel : Nat) (mem : List Char) (n p : Nat) (name rest : List Char)
    (w w0 : World) (rc : Int) (hname : mem.drop p = name ++ NUL :: rest) (hnul : NUL ∉ name)
    (hop : ftp_delete fuel name true w = Res.ret rc w0) (hneg : rc < 0) :
    mdelete_loop fuel mem (n + 1) p w = (message rc >>= fun _ => Prog.pure ()) w0 := by
  rw [mdelete_loop_step fuel mem n p name rest hname hnul, bind_ret hop]
  rw [bind_run, bind_run]
  cases message rc w0 with
  | ret u w2 => dsimp only; rw [if_pos hneg]
  | fault => rfl
  | pending => rfl

/-- A negative result of the operation on one file ends the loop of
`run_mget`, whatever names follow. -/
theorem mget_loop_break (fuel : Nat) (mem : List Char) (n p : Nat) (name rest : List Char)
    (w w0 : World) (rc : Int) (hname : mem.drop p = name ++ NUL :: rest) (hnul : NUL ∉ name)
    (hop : ftp_get fuel name name true w = Res.ret rc w0) (hneg : rc < 0) :
    mget_loop fuel mem (n + 1) p w = (message rc >>= fun _ => Prog.pure ()) w0 := by
  rw [mget_loop_step fuel mem n p name rest hname hnul, bind_ret hop]
  rw [bind_run, bind_run]
  cases message rc w0 with
  | ret u w2 => dsimp only; rw [if_pos hneg]
  | fault => rfl
  | pending => rfl

theorem sting_text_fits (r : Int) (h1 : -32 ≤ r) (h2 : r < 0) :
    NUL ∉ get_err_text r ++ "\r\n".toList ∧
    (get_err_text r ++ "\r\n".toList).length + 1 ≤ PRBUF_SIZE := by
  interval_cases r <;> decide

/-- The text for one of STinG's own error codes fits the print buffer. -/
theorem message_sting (r : Int) (h1 : -32 ≤ r) (h2 : r < 0) (w : World) :
    message r w
      = Res.ret () { w with console := w.console ++ (get_err_text r ++ "\r\n".toList) } := by
  obtain ⟨k1, k2⟩ := sting_text_fits r h1 h2
  have c1 : ¬ (r = 0 ∨ r = FTP_EXIT ∨ r = NOMESSAGE_ERROR) := by
    simp only [FTP_EXIT, NOMESSAGE_ERROR]; omega
  have c2 : ¬ (r ≥ 100 ∧ r ≤ 599) := by omega
  have c3 : ¬ (r = UNKNOWN_COMMAND) := by unfold UNKNOWN_COMMAND; omega
  have c4 : ¬ (r = ARGCOUNT_ERROR) := by unfold ARGCOUNT_ERROR; omega
  have c5 : ¬ (r = INTERNAL_ERROR) := by unfold INTERNAL_ERROR; omega
  have c6 : ¬ (r = NOT_CONNECTED) := by unfold NOT_CONNECTED; omega
  have c7 : ¬ (r = UNKNOWN_TYPE) := by unfold UNKNOWN_TYPE; omega
  have c8 : ¬ (r = FILE_READ_ERROR) := by unfold FILE_READ_ERROR; omega
  have c9 : ¬ (r = FILE_WRITE_ERROR) := by unfold FILE_WRITE_ERROR; omega
  have c10 : ¬ (r = FILE_NOT_FOUND) := by unfold FILE_NOT_FOUND; omega
  have c11 : ¬ (r = INVALID_PATH) := by unfold INVALID_PATH; omega
  have c12 : ¬ (r = MEMORY_ERROR) := by unfold MEMORY_ERROR; omega
  have c13 : ¬ (r = USER_INTERRUPT) := by unfold USER_INTERRUPT; omega
  have c14 : r ≥ -E_LASTERROR := by unfold E_LASTERROR; omega
  unfold message
  simp only [c1, c2, c3, c4, c5, c6, c7, c8, c9, c10, c11, c12, c13, c14, if_false, if_true]
  exact cprintf_run _ w k1 k2

/-- With prompting off, a `DELE` that the transport refuses ends the loop of
`run_mdelete` there: nothing is sent for the names that follow. -/
theorem mdelete_loop_refused (fuel : Nat) (mem : List Char) (n p : Nat) (name rest : List Char)
    (w : World) (r : Int) (rs : List Int)
    (hconn : 0 ≤ w.handle) (hname : mem.drop p = name ++ NUL :: rest) (hnul : NUL ∉ name)
    (hlen : name.length ≤ 72) (hp : w.prompting = false)
    (hsr : w.send_results = r :: rs) (h1 : -32 ≤ r) (h2 : r < 0) :
    ∃ wf, mdelete_loop fuel mem (n + 1) p w = Res.ret () wf ∧
      wf.sent = w.sent ++ [dele w.handle name] := by
  obtain ⟨_, toff⟩ := multi_loop_turn fuel mem n p name rest w hconn hname hnul (by omega)
  rw [(toff hp).1]
  have hcn : NUL ∉ "DELE ".toList ++ name := by
    simp only [List.mem_append, not_or]
    exact ⟨by decide, hnul⟩
  have hcl : ("DELE ".toList ++ name).length = 5 + name.length := by
    rw [List.length_append]; rfl
  obtain ⟨w0, hecho, hw0⟩ := send_command_echo_returns ("DELE ".toList ++ name) w hcn
    (by rw [hcl]; omega)
  have e0sr : w0.send_results = w.send_results := by rw [hw0]
  have e0sent : w0.sent = w.sent := by rw [hw0]
  have hhead : w0.send_results.headD E_NORMAL = r := by rw [e0sr, hsr]; rfl
  have hsend := send_command_run fuel w.handle ("DELE ".toList ++ name) w w0
    (by rw [hcl]; show 5 + name.length + 3 ≤ 80; omega) hecho
  rw [hhead, if_pos h2] at hsend
  rw [bind_run, hsend]
  dsimp only
  rw [bind_ret (message_sting r h1 h2 _), if_pos h2]
  exact ⟨_, rfl, by show w0.sent ++ _ = _; rw [e0sent]; rfl⟩

theorem chosen_all (names : List (List Char)) :
    chosen (names.map fun n => (n, Answer.proceed 'y')) = names := by
  induction names with
  | nil => rfl
  | cons n t ih => simp [chosen, ih]

theorem some_getD_of_isSome {α : Type} (o : Option α) (d : α) (h : o.isSome = true) :
    o = some (o.getD d) := by
  cases o with
  | none => cases h
  | some a => rfl

end Pftp
